import Mathlib

/-!
# WeeklyBillingTrends: record aggregation and funnel classification

A shallow embedding of the computational part of `src/WeeklyBillingTrends.jsx`
(`parseCSVData`, `weeklyData`, `latestWeekClients`, `clientWoWChanges`,
`psychDashboardData`, `psychToABAConversion` and the date handling they share),
with the properties of the specification stated and proved over it.

Modelling conventions

* A JavaScript `Date` is its time value, an integer number of milliseconds since
  the epoch; the calendar functions (`Day`, `WeekDay`, `YearFromTime`,
  `MonthFromTime`, `DateFromTime`, `MakeDay`, `MakeDate`) are those of ECMA-262.
  A `Date` constructor gives an Invalid Date outside the `TimeClip` range of
  ECMA-262 (8.64e15 ms either side of the epoch).
* The host environment is a parameter (`Host`): its local time zone, taken as a
  fixed offset from UTC of less than a day (no daylight-saving change), and its
  `Date.parse`, which ECMA-262 leaves implementation-defined outside the ISO
  format.
* The numbers that the program reads, adds and compares are exact rationals;
  `none` stands for `NaN`, and the infinities are not modelled there. The
  arithmetic whose result is printed by `toFixed(1)` is IEEE 754 binary64
  arithmetic: a number that enters it is the double nearest to its exact value
  (`roundDouble`, which leaves a double as it is), every operation is rounded
  by `roundDouble` and can overflow to an infinity, and a zero is `+0`.
* A JavaScript string is a sequence of Unicode code points (no lone surrogate);
  its `length` counts UTF-16 code units.
* A JavaScript object used as a dictionary is an association list in insertion
  order (an engine lists integer-like property names first; the order of
  enumeration only shows in the order of equal keys after a sort, and no
  property below depends on it); property names are assumed not to collide with
  those of `Object.prototype`.
* A memoised value read by another `useMemo` callback, the state maps and the
  current time are parameters of the function that models the callback.
* An exception escaping a `useMemo` callback is `Except.error`.
-/

namespace WeeklyBillingTrends

/-! ## ECMA-262 calendar arithmetic -/

/-- Milliseconds per day: `1000 * 60 * 60 * 24`. -/
def msPerDay : Int := 86400000

/-- ECMA-262 `Day(t) = floor(t / msPerDay)`. -/
def Day (t : Int) : Int := t / msPerDay

/-- ECMA-262 `TimeWithinDay(t) = t modulo msPerDay`. -/
def TimeWithinDay (t : Int) : Int := t % msPerDay

/-- ECMA-262 `DaysInYear(y)`. -/
def DaysInYear (y : Int) : Int :=
  if y % 4 ≠ 0 then 365
  else if y % 100 ≠ 0 then 366
  else if y % 400 ≠ 0 then 365
  else 366

/-- ECMA-262 `DayFromYear(y)`: day number of the first day of year `y`. -/
def DayFromYear (y : Int) : Int :=
  365 * (y - 1970) + (y - 1969) / 4 - (y - 1901) / 100 + (y - 1601) / 400

/-- Year containing day number `d`: the largest `y` with `DayFromYear y ≤ d`,
found from the 400-year average and corrected by at most one year. -/
def yearFromDay (d : Int) : Int :=
  let y := 1970 + (d * 400) / 146097
  if d < DayFromYear y then y - 1
  else if DayFromYear (y + 1) ≤ d then y + 1
  else y

/-- ECMA-262 `YearFromTime(t)`. -/
def YearFromTime (t : Int) : Int := yearFromDay (Day t)

/-- ECMA-262 `InLeapYear(t)`: 1 in a leap year, 0 otherwise. -/
def InLeapYear (t : Int) : Int :=
  if DaysInYear (YearFromTime t) = 366 then 1 else 0

/-- ECMA-262 `DayWithinYear(t)`. -/
def DayWithinYear (t : Int) : Int := Day t - DayFromYear (YearFromTime t)

/-- The table of ECMA-262 `MonthFromTime`: month (0 = January) of the day `d`
within a year, `l` being 1 in a leap year and 0 otherwise. -/
def monthOfDay (d l : Int) : Int :=
  if d < 31 then 0
  else if d < 59 + l then 1
  else if d < 90 + l then 2
  else if d < 120 + l then 3
  else if d < 151 + l then 4
  else if d < 181 + l then 5
  else if d < 212 + l then 6
  else if d < 243 + l then 7
  else if d < 273 + l then 8
  else if d < 304 + l then 9
  else if d < 334 + l then 10
  else 11

/-- The table of ECMA-262 `DateFromTime`: day of the month (1-based) of the day
`d` within a year that falls in month `m`. -/
def dateOfDay (d l m : Int) : Int :=
  if m = 0 then d + 1
  else if m = 1 then d - 30
  else if m = 2 then d - 58 - l
  else if m = 3 then d - 89 - l
  else if m = 4 then d - 119 - l
  else if m = 5 then d - 150 - l
  else if m = 6 then d - 180 - l
  else if m = 7 then d - 211 - l
  else if m = 8 then d - 242 - l
  else if m = 9 then d - 272 - l
  else if m = 10 then d - 303 - l
  else d - 333 - l

/-- ECMA-262 `MonthFromTime(t)`, 0 = January. -/
def MonthFromTime (t : Int) : Int := monthOfDay (DayWithinYear t) (InLeapYear t)

/-- ECMA-262 `DateFromTime(t)`: day of the month, 1-based. -/
def DateFromTime (t : Int) : Int :=
  dateOfDay (DayWithinYear t) (InLeapYear t) (MonthFromTime t)

/-- ECMA-262 `WeekDay(t)`: 0 = Sunday, 1 = Monday, ..., 6 = Saturday. -/
def WeekDay (t : Int) : Int := (Day t + 4) % 7

/-- Day within the year on which month `mn` (0..11) starts; `l` is 1 in a leap
year. -/
def monthStart (l mn : Int) : Int :=
  if mn = 0 then 0
  else if mn = 1 then 31
  else if mn = 2 then 59 + l
  else if mn = 3 then 90 + l
  else if mn = 4 then 120 + l
  else if mn = 5 then 151 + l
  else if mn = 6 then 181 + l
  else if mn = 7 then 212 + l
  else if mn = 8 then 243 + l
  else if mn = 9 then 273 + l
  else if mn = 10 then 304 + l
  else 334 + l

/-- ECMA-262 `MakeDay(year, month, date)` on integers: months outside 0..11
carry into the year, and `date` is an offset from the first of the month, so
that day 0 or a negative day falls in an earlier month. -/
def MakeDay (year month date : Int) : Int :=
  let ym := year + month / 12
  let mn := month % 12
  let l : Int := if DaysInYear ym = 366 then 1 else 0
  DayFromYear ym + monthStart l mn + date - 1

/-- ECMA-262 `MakeDate(day, time)`. -/
def MakeDate (day time : Int) : Int := day * msPerDay + time

/-! ## The host environment and `Date` methods -/

/-- What the program takes from the JavaScript engine it runs on. -/
structure Host where
  /-- Offset of local time from UTC in milliseconds (`LocalTZA`), taken as
  constant: local time = UTC + `tza`. -/
  tza : Int
  /-- Time value that `Date.parse` gives for a string, `none` when it gives
  `NaN`. -/
  dateParse : String → Option Int
  /-- The offset of a time zone is less than a day. -/
  tza_range : -86400000 < tza ∧ tza < 86400000

/-- ECMA-262 `LocalTime(t)`. -/
def LocalTime (h : Host) (t : Int) : Int := t + h.tza

/-- ECMA-262 `UTC(t)`. -/
def UTC (h : Host) (t : Int) : Int := t - h.tza

/-- Method `Date.prototype.getDay` on a valid date. -/
def getDay (h : Host) (t : Int) : Int := WeekDay (LocalTime h t)

/-- Method `Date.prototype.getDate` on a valid date. -/
def getDate (h : Host) (t : Int) : Int := DateFromTime (LocalTime h t)

/-- Method `Date.prototype.setDate(dt)` on a valid date: the new time value. -/
def setDate (h : Host) (t dt : Int) : Int :=
  let lt := LocalTime h t
  UTC h (MakeDate (MakeDay (YearFromTime lt) (MonthFromTime lt) dt) (TimeWithinDay lt))

/-- Day number of the UTC calendar date printed by
`toISOString().split('T')[0]`. The string `YYYY-MM-DD` and this day number
determine each other, and `new Date('YYYY-MM-DD')` is `isoDay * msPerDay`. -/
def isoDay (t : Int) : Int := Day t

/-- The variable `date` of the date-parsing block: left `undefined`, an Invalid
Date, or a date with a time value. -/
inductive DateVar where
  | undefined
  | invalid
  | date (t : Int)
  deriving DecidableEq, Repr

/-- ECMA-262 `TimeClip(time)` on an integer: the time value of the new `Date`,
an Invalid Date when the magnitude exceeds 8.64e15 ms. -/
def TimeClip (time : Int) : DateVar :=
  if time < -8640000000000000 ∨ 8640000000000000 < time then .invalid else .date time

/-- Constructor `new Date(year, month, day)` with numeric arguments (`none` is
`NaN`): years 0..99 mean 1900..1999, the fields are read in local time. -/
def newDateYMD (h : Host) (year month day : Option Int) : DateVar :=
  match year, month, day with
  | some y, some m, some dt =>
    let yr := if 0 ≤ y ∧ y ≤ 99 then 1900 + y else y
    TimeClip (UTC h (MakeDate (MakeDay yr m dt) 0))
  | _, _, _ => .invalid

/-- Constructor `new Date(string)`. -/
def newDateString (h : Host) (s : String) : DateVar :=
  match h.dateParse s with
  | some t => TimeClip t
  | none => .invalid

/-! ## Strings -/

/-- Method `s.split(sep)` for a one-character separator. -/
def splitOnChar (sep : Char) : List Char → List (List Char)
  | [] => [[]]
  | c :: cs =>
    if c = sep then [] :: splitOnChar sep cs
    else
      match splitOnChar sep cs with
      | [] => [[c]]
      | p :: ps => (c :: p) :: ps

/-- The expression `s.split(sep)[0]`. -/
def firstPart (sep : Char) (s : List Char) : List Char :=
  (splitOnChar sep s).headD []

/-- Code points of ECMA-262 `WhiteSpace` and `LineTerminator`, skipped by
`parseInt` at the start of its argument. -/
def strWhiteSpace : List Nat :=
  [0x09, 0x0A, 0x0B, 0x0C, 0x0D, 0x20, 0xA0, 0x1680, 0x2000, 0x2001, 0x2002,
   0x2003, 0x2004, 0x2005, 0x2006, 0x2007, 0x2008, 0x2009, 0x200A, 0x2028,
   0x2029, 0x202F, 0x205F, 0x3000, 0xFEFF]

/-- Value of a character as a digit of the given radix (10 or 16). -/
def digitValue (radix : Nat) (c : Char) : Option Nat :=
  let n := c.toNat
  if 48 ≤ n ∧ n ≤ 57 then some (n - 48)
  else if radix = 16 ∧ 97 ≤ n ∧ n ≤ 102 then some (n - 87)
  else if radix = 16 ∧ 65 ≤ n ∧ n ≤ 70 then some (n - 55)
  else none

/-- Digits of the longest prefix of `s` made of digits of the radix. -/
def leadingDigits (radix : Nat) : List Char → List Nat
  | [] => []
  | c :: cs =>
    match digitValue radix c with
    | some d => d :: leadingDigits radix cs
    | none => []

/-- Global function `parseInt(s)` without a radix argument: leading white space
is skipped, a sign is read, a `0x` prefix selects radix 16, the longest digit
prefix is the value; `none` is `NaN`. -/
def parseInt (s : List Char) : Option Int :=
  let s1 := s.dropWhile fun c => strWhiteSpace.contains c.toNat
  let (sign, s2) : Int × List Char :=
    match s1 with
    | '-' :: r => (-1, r)
    | '+' :: r => (1, r)
    | _ => (1, s1)
  let (radix, s3) : Nat × List Char :=
    match s2 with
    | '0' :: 'x' :: r => (16, r)
    | '0' :: 'X' :: r => (16, r)
    | _ => (10, s2)
  let z := leadingDigits radix s3
  if z = [] then none
  else some (sign * ((z.foldl (fun acc d => acc * radix + d) 0 : Nat) : Int))

/-! ## Records and date parsing -/

/-- One row of `rawData`, as built by `parseCSVData`. A numeric field is `none`
when it holds `NaN`. -/
structure Entry where
  DateOfService : String
  ClientChargesAgreedTotal : Option ℚ
  UnitsOfService : Option ℚ
  TimeWorkedInHours : Option ℚ
  ClientName : String
  ProcedureCode : String
  deriving DecidableEq

/-- The expression `x || 0` on a number: `NaN` and 0 give 0. -/
def orZero (x : Option ℚ) : ℚ := x.getD 0

/-- The date-parsing block repeated in every aggregation
(lines 184-210, 291-309, 365-383, 491-509, 717-735). -/
def parseEntryDate (h : Host) (dateStr : String) : DateVar :=
  if '/' ∈ dateStr.data then
    let datePart := firstPart ' ' dateStr.data
    let parts := splitOnChar '/' datePart
    match parts with
    | [p0, p1, p2] =>
      let month := (parseInt p0).map (· - 1)
      let day := parseInt p1
      let year := (parseInt p2).map fun y => if y < 100 then y + 2000 else y
      newDateYMD h year month day
    | _ => .undefined
  else if '-' ∈ dateStr.data then
    let datePart := firstPart ' ' dateStr.data
    newDateString h (String.mk datePart)
  else
    newDateString h dateStr

/-- The week-start block repeated in every weekly aggregation
(lines 214-217, 313-316, 387-390): `monday` after `setDate(diff)`. -/
def weekStart (h : Host) (date : Int) : Int :=
  let dayOfWeek := getDay h date
  let diff := getDate h date - dayOfWeek + (if dayOfWeek = 0 then -6 else 1)
  setDate h date diff

/-- The key `monday.toISOString().split('T')[0]`, as a UTC day number. -/
def weekKeyOf (h : Host) (date : Int) : Int := isoDay (weekStart h date)

/-! ## Engine-level helpers -/

/-- An exception raised by the engine and not caught by the program. -/
inductive JSError where
  | typeError
  deriving DecidableEq, Repr

deriving instance DecidableEq for Except

/-- The idiom `if (!obj[k]) obj[k] = init; ...update obj[k]...` on an object
used as a dictionary: the entry for `k` is created from `init` when absent, and
`f` is applied to it. Entries keep their insertion order. -/
def upsert {κ α : Type} [DecidableEq κ] (k : κ) (init : α) (f : α → α) :
    List (κ × α) → List (κ × α)
  | [] => [(k, f init)]
  | (k', v) :: rest =>
    if k' = k then (k', f v) :: rest else (k', v) :: upsert k init f rest

/-- Method `Set.prototype.add` on a set kept as a list without repetition. -/
def setAdd (s : List String) (x : String) : List String :=
  if x ∈ s then s else s ++ [x]

/-- Division of two numbers; `none` when the divisor is 0, where JavaScript
gives `NaN` or an infinity. -/
def jsDiv (a b : ℚ) : Option ℚ := if b = 0 then none else some (a / b)

/-! ## IEEE 754 binary64 arithmetic -/

/-- A Number value: a finite number, an infinity, or `NaN`. -/
inductive Num where
  | finite (x : ℚ)
  | infinity (neg : Bool)
  | nan
  deriving DecidableEq, Repr

/-- The number of halvings that bring `n` below 2, at most `fuel` of them. -/
def log2Fuel : Nat → Nat → Nat
  | 0, _ => 0
  | fuel + 1, n => if n < 2 then 0 else log2Fuel fuel (n / 2) + 1

/-- The exponent `k` with `2 ^ k ≤ n < 2 ^ (k + 1)`, for `n > 0`. -/
def floorLog2 (n : Nat) : Nat := log2Fuel n n

/-- The power `2 ^ e` for an integer exponent. -/
def pow2 (e : Int) : ℚ :=
  if 0 ≤ e then ((2 ^ e.toNat : Nat) : ℚ) else 1 / ((2 ^ (-e).toNat : Nat) : ℚ)

/-- The integer nearest to `x`, the even one of the two on a tie. -/
def roundHalfEven (x : ℚ) : Int :=
  let f := ⌊x⌋
  if x - f < 1 / 2 then f
  else if x - f > 1 / 2 then f + 1
  else if f % 2 = 0 then f else f + 1

/-- The exponent `e` with `2 ^ e ≤ x < 2 ^ (e + 1)`, for `x > 0`. -/
def binaryExponent (x : ℚ) : Int :=
  let e : Int := (floorLog2 x.num.natAbs : Int) - (floorLog2 x.den : Int)
  if pow2 e ≤ x then e else e - 1

/-- The positive number `x` rounded to a multiple of the unit in the last place
of its binade, ties to the even multiple: 53 significant bits from `2 ^ (-1022)`
up, multiples of `2 ^ (-1074)` below. -/
def roundMagnitude (x : ℚ) : ℚ :=
  let e := max (binaryExponent x) (-1022)
  let ulp := pow2 (e - 52)
  (roundHalfEven (x / ulp) : ℚ) * ulp

/-- The binary64 value of a real number (IEEE 754 roundTiesToEven); a rounded
magnitude of `2 ^ 1024` is an infinity. A zero result is 0, the sign of a zero
not being observable in the program. -/
def roundDouble (x : ℚ) : Num :=
  if x = 0 then .finite 0
  else if pow2 1024 ≤ roundMagnitude |x| then .infinity (decide (x < 0))
  else .finite (if x < 0 then -roundMagnitude |x| else roundMagnitude |x|)

/-- An operation on a Number value whose other operand is a positive finite
number (`x - b`, `x + b`, `x / b`, `x * b`): an infinity stays that infinity and
`NaN` stays `NaN`. -/
def Num.bind (x : Num) (f : ℚ → Num) : Num :=
  match x with
  | .finite q => f q
  | .infinity neg => .infinity neg
  | .nan => .nan

/-- The quotient `a / b` of two finite numbers, `b` not negative. -/
def numDiv (a b : ℚ) : Num :=
  if b = 0 then (if a = 0 then .nan else .infinity (decide (a < 0)))
  else roundDouble (a / b)

/-- The difference `a - b` of binary64 arithmetic. -/
def Num.sub (a b : Num) : Num :=
  match a, b with
  | .finite x, .finite y => roundDouble (x - y)
  | .finite _, .infinity neg => .infinity (!neg)
  | .infinity neg, .finite _ => .infinity neg
  | .infinity neg, .infinity neg2 => if neg = neg2 then .nan else .infinity neg
  | _, _ => .nan

/-- The quotient `a / b` of binary64 arithmetic, a zero divisor being `+0`. -/
def Num.div (a b : Num) : Num :=
  match a, b with
  | .finite x, .finite y => numDiv x y
  | .finite _, .infinity _ => .finite 0
  | .infinity neg, .finite y => .infinity (xor neg (decide (y < 0)))
  | _, _ => .nan

/-- The product `a * b` of binary64 arithmetic. -/
def Num.mul (a b : Num) : Num :=
  match a, b with
  | .finite x, .finite y => roundDouble (x * y)
  | .finite x, .infinity neg => if x = 0 then .nan else .infinity (xor (decide (x < 0)) neg)
  | .infinity neg, .finite y => if y = 0 then .nan else .infinity (xor neg (decide (y < 0)))
  | .infinity neg, .infinity neg2 => .infinity (xor neg neg2)
  | _, _ => .nan

/-- The string produced by `x.toFixed(1)`: an optional minus sign and a number
of tenths, printed as `d.d`. -/
structure Fixed1 where
  neg : Bool
  tenths : Nat
  deriving DecidableEq, Repr

/-- Method `Number.prototype.toFixed(1)` (ECMA-262) on a magnitude below
`10^21`: the sign is split off, and the tenths are the integer `n` with `n / 10`
closest to the magnitude, the larger one on a tie. -/
def toFixed1 (x : ℚ) : Fixed1 :=
  { neg := decide (x < 0), tenths := ⌊|x| * 10 + 1 / 2⌋₊ }

/-- The number a `toFixed(1)` string reads as. -/
def Fixed1.value (s : Fixed1) : ℚ :=
  (if s.neg then -1 else 1) * (s.tenths : ℚ) / 10

/-- A field that holds either the number `0` or the string of `toFixed(1)`:
digits with one decimal, or, for a number that is not finite or has a magnitude
of `10^21` or more, the string of `Number::toString`. -/
inductive Percent where
  | zero
  | fixed (s : Fixed1)
  | plain (x : Num)
  deriving DecidableEq, Repr

/-- Method `Number.prototype.toFixed(1)` (ECMA-262). -/
def toFixed (x : Num) : Percent :=
  match x with
  | .finite q => if |q| < 10 ^ 21 then .fixed (toFixed1 q) else .plain (.finite q)
  | .infinity neg => .plain (.infinity neg)
  | .nan => .plain .nan

/-- Method `Array.prototype.sort(cmp)`: a stable sort; `a` stays before `b` when
`cmp(a, b) ≤ 0`. -/
def jsSort {α : Type} (cmp : α → α → Int) (xs : List α) : List α :=
  xs.insertionSort (fun a b => cmp a b ≤ 0)

/-! ## `weeklyData` (lines 178-274) -/

/-- A value of `grouped[weekKey]`. -/
structure WeekGroup where
  week : Int
  agreedRevenue : ℚ
  totalUnits : ℚ
  totalHours : ℚ
  sessionCount : Nat
  uniqueClients : List String
  deriving DecidableEq

/-- The object literal of lines 221-228. -/
def newWeekGroup (weekKey : Int) : WeekGroup :=
  { week := weekKey, agreedRevenue := 0, totalUnits := 0, totalHours := 0,
    sessionCount := 0, uniqueClients := [] }

/-- Lines 231-247: the updates of `grouped[weekKey]` for one entry. -/
def addToWeek (entry : Entry) (g : WeekGroup) : WeekGroup :=
  let agreedCharges := orZero entry.ClientChargesAgreedTotal
  let hours := orZero entry.TimeWorkedInHours
  { g with
    agreedRevenue := g.agreedRevenue + agreedCharges
    totalUnits := g.totalUnits + orZero entry.UnitsOfService
    totalHours := if agreedCharges > 0 then g.totalHours + hours else g.totalHours
    sessionCount := g.sessionCount + 1
    uniqueClients :=
      if entry.ClientName ≠ "" ∧ entry.ProcedureCode = "97153" then
        setAdd g.uniqueClients entry.ClientName
      else g.uniqueClients }

/-- Body of `rawData.forEach` in `weeklyData` (lines 183-248).
`isNaN(date.getTime())` raises a `TypeError` when `date` is `undefined`. -/
def weeklyEntry (h : Host) (grouped : List (Int × WeekGroup)) (entry : Entry) :
    Except JSError (List (Int × WeekGroup)) :=
  match parseEntryDate h entry.DateOfService with
  | .undefined => .error .typeError
  | .invalid => .ok grouped
  | .date date =>
    let weekKey := weekKeyOf h date
    .ok (upsert weekKey (newWeekGroup weekKey) (addToWeek entry) grouped)

/-- An element of the array after the first `map` (lines 251-257). -/
structure WeekRow where
  week : Int
  agreedRevenue : ℚ
  totalUnits : ℚ
  totalHours : ℚ
  sessionCount : Nat
  avgSessionLength : Option ℚ
  avgRevenuePerHour : Option ℚ
  clientCount : Nat
  deriving DecidableEq

/-- The first `map` (lines 251-257). -/
def toWeekRow (week : WeekGroup) : WeekRow :=
  { week := week.week
    agreedRevenue := week.agreedRevenue
    totalUnits := week.totalUnits
    totalHours := week.totalHours
    sessionCount := week.sessionCount
    avgSessionLength := jsDiv week.totalHours week.sessionCount
    avgRevenuePerHour := jsDiv week.agreedRevenue week.totalHours
    clientCount := week.uniqueClients.length }

/-- An element of `weeklyData`. -/
structure Week where
  week : Int
  agreedRevenue : ℚ
  totalUnits : ℚ
  totalHours : ℚ
  sessionCount : Nat
  avgSessionLength : Option ℚ
  avgRevenuePerHour : Option ℚ
  clientCount : Nat
  revenueChange : Percent
  hoursChange : Percent
  deriving DecidableEq

/-- The number `(cur - prev) / prev * 100` for a positive `prev`: a subtraction,
a division and a multiplication of binary64 arithmetic, on the doubles that the
two fields hold, `roundDouble cur` and `roundDouble prev`. -/
def percentOf (cur prev : ℚ) : Num :=
  (((roundDouble cur).sub (roundDouble prev)).div (roundDouble prev)).mul (.finite 100)

/-- The expression `prev > 0 ? ((cur - prev) / prev * 100).toFixed(1) : 0`
(lines 262-267). -/
def percentChange (cur prev : ℚ) : Percent :=
  if prev > 0 then toFixed (percentOf cur prev) else .zero

/-- The second `map` (lines 259-273), at index `idx` of the sorted array
`arr`. -/
def withChanges (arr : List WeekRow) (idx : Nat) (week : WeekRow) : Week :=
  let changes : Percent × Percent :=
    if idx > 0 then
      match arr[idx - 1]? with
      | some prevWeek =>
        (percentChange week.agreedRevenue prevWeek.agreedRevenue,
         percentChange week.totalHours prevWeek.totalHours)
      | none => (.zero, .zero)
    else (.zero, .zero)
  { week := week.week
    agreedRevenue := week.agreedRevenue
    totalUnits := week.totalUnits
    totalHours := week.totalHours
    sessionCount := week.sessionCount
    avgSessionLength := week.avgSessionLength
    avgRevenuePerHour := week.avgRevenuePerHour
    clientCount := week.clientCount
    revenueChange := changes.1
    hoursChange := changes.2 }

/-- The comparator `(a, b) => new Date(a.week) - new Date(b.week)`. -/
def compareWeeks (a b : WeekRow) : Int :=
  MakeDate a.week 0 - MakeDate b.week 0

/-- The object `grouped` after the `forEach` of `weeklyData`. -/
def weeklyGroups (h : Host) (rawData : List Entry) :
    Except JSError (List (Int × WeekGroup)) :=
  rawData.foldlM (weeklyEntry h) []

/-- The memoised value `weeklyData` (lines 178-274). -/
def weeklyData (h : Host) (rawData : List Entry) : Except JSError (List Week) :=
  if rawData.length = 0 then .ok []
  else
    match weeklyGroups h rawData with
    | .error e => .error e
    | .ok grouped =>
      let arr := jsSort compareWeeks ((grouped.map Prod.snd).map toWeekRow)
      .ok (arr.enum.map fun p => withChanges arr p.1 p.2)

/-! ## `psychDashboardData` (lines 474-655) -/

/-- The constant `psychCodes`: the assessment-category procedure codes. -/
def psychCodes : List String := ["90791", "96130", "96131", "96136", "96137"]

/-- The constant `abaCodes`: the recurring-category procedure codes. -/
def abaCodes : List String := ["97155", "97153"]

/-- The constant `allCodes`. -/
def allCodes : List String := psychCodes ++ abaCodes

/-- The values of `journey.status`. -/
inductive Status where
  | unknown
  | converted
  | notViable
  | atRisk
  | active
  | stale
  deriving DecidableEq, Repr

/-- A value of `clientJourneys[name]`. A date is `none` while it is `null`;
`notes` and `notViableReason` are `none` while unset or `null`. -/
structure Journey where
  name : String
  firstPsychDate : Option Int
  lastPsychDate : Option Int
  firstABADate : Option Int
  lastABADate : Option Int
  psychSessions : Nat
  abaSessions : Nat
  psychCodes : List String
  status : Status
  daysSinceFirstPsych : Int
  daysSinceLastPsych : Int
  daysToConversion : Option Int
  totalRevenue : ℚ
  totalHours : ℚ
  notes : Option String
  notViableReason : Option String
  deriving DecidableEq

/-- The object literal of lines 514-529. -/
def newJourney (name : String) : Journey :=
  { name := name, firstPsychDate := none, lastPsychDate := none,
    firstABADate := none, lastABADate := none, psychSessions := 0,
    abaSessions := 0, psychCodes := [], status := .unknown,
    daysSinceFirstPsych := 0, daysSinceLastPsych := 0, daysToConversion := none,
    totalRevenue := 0, totalHours := 0, notes := none, notViableReason := none }

/-- The test `!cur || date < cur` on a date field. -/
def isEarlier (date : Int) (cur : Option Int) : Bool :=
  match cur with
  | none => true
  | some c => decide (date < c)

/-- The test `!cur || date > cur` on a date field. -/
def isLater (date : Int) (cur : Option Int) : Bool :=
  match cur with
  | none => true
  | some c => decide (date > c)

/-- Lines 534-546: the assessment branch for one entry. -/
def trackPsych (code : String) (date : Int) (journey : Journey) : Journey :=
  if code ∈ psychCodes then
    { journey with
      psychSessions := journey.psychSessions + 1
      psychCodes :=
        if code ∈ journey.psychCodes then journey.psychCodes
        else journey.psychCodes ++ [code]
      firstPsychDate :=
        if isEarlier date journey.firstPsychDate then some date
        else journey.firstPsychDate
      lastPsychDate :=
        if isLater date journey.lastPsychDate then some date
        else journey.lastPsychDate }
  else journey

/-- Lines 548-557: the recurring-service branch for one entry. -/
def trackABA (code : String) (date : Int) (journey : Journey) : Journey :=
  if code ∈ abaCodes then
    { journey with
      abaSessions := journey.abaSessions + 1
      firstABADate :=
        if isEarlier date journey.firstABADate then some date
        else journey.firstABADate
      lastABADate :=
        if isLater date journey.lastABADate then some date
        else journey.lastABADate }
  else journey

/-- Lines 559-561: revenue and hours of one entry. -/
def trackTotals (entry : Entry) (journey : Journey) : Journey :=
  { journey with
    totalRevenue := journey.totalRevenue + orZero entry.ClientChargesAgreedTotal
    totalHours := journey.totalHours + orZero entry.TimeWorkedInHours }

/-- Lines 532-561: all updates of `clientJourneys[name]` for one entry. -/
def addToJourney (entry : Entry) (date : Int) (journey : Journey) : Journey :=
  trackTotals entry (trackABA entry.ProcedureCode date
    (trackPsych entry.ProcedureCode date journey))

/-- Body of `rawData.forEach` in `psychDashboardData` (lines 484-562). -/
def journeyEntry (h : Host) (clientJourneys : List (String × Journey))
    (entry : Entry) : Except JSError (List (String × Journey)) :=
  let name := entry.ClientName
  if name = "" ∨ name = " " then .ok clientJourneys
  else
    let code := entry.ProcedureCode
    if code ∉ allCodes then .ok clientJourneys
    else
      match parseEntryDate h entry.DateOfService with
      | .undefined => .error .typeError
      | .invalid => .ok clientJourneys
      | .date date =>
        .ok (upsert name (newJourney name) (addToJourney entry date) clientJourneys)

/-- The object `clientJourneys` after the `forEach` of lines 484-562. -/
def clientJourneys (h : Host) (rawData : List Entry) :
    Except JSError (List (String × Journey)) :=
  rawData.foldlM (journeyEntry h) []

/-- The expression `map[name] || null` on a map of strings: an absent entry and
the empty string both give `null`. -/
def lookupTruthy (map : String → Option String) (name : String) : Option String :=
  (map name).filter fun s => s ≠ ""

/-- Conversion of a date field to a number in a subtraction: `null` is 0. -/
def dateNumber (d : Option Int) : Int := d.getD 0

/-- The expression `Math.floor((a - b) / (1000 * 60 * 60 * 24))`. -/
def daysBetween (a b : Int) : Int := (a - b) / msPerDay

/-- The four arrays filled by the classification loop, with the journeys as the
loop leaves them (`Object.values(clientJourneys)` after the loop). -/
structure Funnel where
  allClients : List Journey
  activeLeads : List Journey
  converted : List Journey
  atRisk : List Journey
  notViable : List Journey
  deriving DecidableEq

/-- Lines 574-602: the fields the classification loop writes on a journey that
has an assessment date. -/
def classify (now : Int) (notViableReasons clientNotes : String → Option String)
    (journey : Journey) : Journey :=
  let j : Journey :=
    { journey with
      daysSinceFirstPsych := daysBetween now (dateNumber journey.firstPsychDate)
      daysSinceLastPsych := daysBetween now (dateNumber journey.lastPsychDate)
      notes := some ((clientNotes journey.name).getD "")
      notViableReason := lookupTruthy notViableReasons journey.name }
  match j.firstABADate with
  | some firstABA =>
    { j with
      daysToConversion := some (daysBetween firstABA (dateNumber j.lastPsychDate))
      status := .converted }
  | none =>
    if j.notViableReason.isSome then { j with status := .notViable }
    else if j.daysSinceLastPsych ≤ 75 then
      if j.daysSinceLastPsych > 45 then { j with status := .atRisk }
      else { j with status := .active }
    else { j with status := .stale }

/-- Body of the classification loop (lines 571-603): the journey is updated in
place and pushed on the array of its status. -/
def classifyEntry (now : Int) (notViableReasons clientNotes : String → Option String)
    (acc : Funnel) (journey : Journey) : Funnel :=
  if journey.firstPsychDate.isNone then
    { acc with allClients := acc.allClients ++ [journey] }
  else
    let j := classify now notViableReasons clientNotes journey
    let acc := { acc with allClients := acc.allClients ++ [j] }
    match j.status with
    | .converted => { acc with converted := acc.converted ++ [j] }
    | .notViable => { acc with notViable := acc.notViable ++ [j] }
    | .atRisk => { acc with atRisk := acc.atRisk ++ [j] }
    | .active => { acc with activeLeads := acc.activeLeads ++ [j] }
    | _ => acc

/-- Counters of one cohort. -/
structure CohortCount where
  active : Nat
  converted : Nat
  atRisk : Nat
  notViable : Nat
  deriving DecidableEq, Repr

/-- The object `cohorts`, one field per key, in the order of lines 623-627. -/
structure Cohorts where
  c0_14 : CohortCount
  c15_30 : CohortCount
  c31_45 : CohortCount
  c46_60 : CohortCount
  c61_75 : CohortCount
  deriving DecidableEq, Repr

/-- The keys of `cohorts`. -/
inductive CohortKey where
  | k0_14
  | k15_30
  | k31_45
  | k46_60
  | k61_75
  deriving DecidableEq, Repr

/-- Lines 633-637: the cohort of a number of days. -/
def cohortOf (days : Int) : CohortKey :=
  if days ≤ 14 then .k0_14
  else if days ≤ 30 then .k15_30
  else if days ≤ 45 then .k31_45
  else if days ≤ 60 then .k46_60
  else .k61_75

/-- Lines 639-641: the counter of the journey's status goes up by one. -/
def bumpCount (status : Status) (c : CohortCount) : CohortCount :=
  if status = .active then { c with active := c.active + 1 }
  else if status = .atRisk then { c with atRisk := c.atRisk + 1 }
  else if status = .notViable then { c with notViable := c.notViable + 1 }
  else c

/-- The update `cohorts[cohort]` of lines 639-641. -/
def Cohorts.modify (cs : Cohorts) (k : CohortKey) (f : CohortCount → CohortCount) :
    Cohorts :=
  match k with
  | .k0_14 => { cs with c0_14 := f cs.c0_14 }
  | .k15_30 => { cs with c15_30 := f cs.c15_30 }
  | .k31_45 => { cs with c31_45 := f cs.c31_45 }
  | .k46_60 => { cs with c46_60 := f cs.c46_60 }
  | .k61_75 => { cs with c61_75 := f cs.c61_75 }

/-- Body of the cohort loop (lines 630-642). -/
def cohortEntry (cs : Cohorts) (journey : Journey) : Cohorts :=
  cs.modify (cohortOf journey.daysSinceLastPsych) (bumpCount journey.status)

/-- The object literal of lines 622-628. -/
def emptyCohorts : Cohorts :=
  { c0_14 := ⟨0, 0, 0, 0⟩, c15_30 := ⟨0, 0, 0, 0⟩, c31_45 := ⟨0, 0, 0, 0⟩,
    c46_60 := ⟨0, 0, 0, 0⟩, c61_75 := ⟨0, 0, 0, 0⟩ }

/-- The object returned by `psychDashboardData` (lines 644-654). -/
structure Dashboard where
  activeLeads : List Journey
  atRisk : List Journey
  converted : List Journey
  notViable : List Journey
  totalWithPsych : Nat
  conversionRate : Percent
  avgDaysToConversion : Percent
  cohorts : Cohorts
  allClients : List Journey
  deriving DecidableEq

/-- The arrays after the classification loop (lines 566-603). -/
def funnel (now : Int) (notViableReasons clientNotes : String → Option String)
    (journeys : List Journey) : Funnel :=
  journeys.foldl (classifyEntry now notViableReasons clientNotes) ⟨[], [], [], [], []⟩

/-- The number `(part / total) * 100` for two array lengths, `total` positive: a
division and a multiplication of binary64 arithmetic (line 613). -/
def shareOf (part total : Nat) : Num :=
  (roundDouble ((part : ℚ) / (total : ℚ))).bind fun q => roundDouble (q * 100)

/-- The step `sum + c.daysToConversion` of the `reduce` of line 618; `null`
adds as 0. -/
def addDays (sum : Num) (days : Option Int) : Num :=
  sum.bind fun s => roundDouble (s + ((days.getD 0 : Int) : ℚ))

/-- The expression `validConversions.reduce((sum, c) => sum + c.daysToConversion, 0)`
(line 618). -/
def sumDays (validConversions : List Journey) : Num :=
  validConversions.foldl (fun sum c => addDays sum c.daysToConversion) (.finite 0)

/-- Lines 605-654: sorting, statistics, cohorts and the returned object. -/
def dashboardOf (f : Funnel) : Dashboard :=
  let activeLeads := jsSort (fun a b => a.daysSinceLastPsych - b.daysSinceLastPsych) f.activeLeads
  let atRisk := jsSort (fun a b => b.daysSinceLastPsych - a.daysSinceLastPsych) f.atRisk
  let converted :=
    jsSort (fun a b => dateNumber b.firstABADate - dateNumber a.firstABADate) f.converted
  let notViable := jsSort (fun a b => a.daysSinceLastPsych - b.daysSinceLastPsych) f.notViable
  let totalWithPsych := activeLeads.length + atRisk.length + converted.length + notViable.length
  let conversionRate : Percent :=
    if totalWithPsych > 0 then toFixed (shareOf converted.length totalWithPsych) else .zero
  let validConversions := converted.filter fun c =>
    match c.daysToConversion with
    | some d => decide (d ≥ 0)
    | none => true
  let avgDaysToConversion : Percent :=
    if validConversions.length > 0 then
      toFixed ((sumDays validConversions).bind fun s =>
        roundDouble (s / (validConversions.length : ℚ)))
    else .zero
  let cohorts := (activeLeads ++ atRisk ++ notViable).foldl cohortEntry emptyCohorts
  { activeLeads := activeLeads
    atRisk := atRisk
    converted := converted.take 20
    notViable := notViable
    totalWithPsych := totalWithPsych
    conversionRate := conversionRate
    avgDaysToConversion := avgDaysToConversion
    cohorts := cohorts
    allClients := f.allClients }

/-- The memoised value `psychDashboardData` (lines 474-655): `none` is `null`.
The state maps `notViableReasons` and `clientNotes` and the current time `now`
(`new Date()`) are parameters. -/
def psychDashboardData (h : Host) (now : Int)
    (notViableReasons clientNotes : String → Option String) (rawData : List Entry) :
    Except JSError (Option Dashboard) :=
  if rawData.length = 0 then .ok none
  else
    match clientJourneys h rawData with
    | .error e => .error e
    | .ok journeys =>
      .ok (some (dashboardOf
        (funnel now notViableReasons clientNotes (journeys.map Prod.snd))))

/-! ## Definitions used to state the properties -/

/-- First value stored under the key `k` of a dictionary. -/
def dictGet {κ α : Type} [DecidableEq κ] (k : κ) : List (κ × α) → Option α
  | [] => none
  | (k', v) :: rest => if k' = k then some v else dictGet k rest

/-- The dictionary built from a list of keyed items, each item updating the
entry of its key. -/
def groupFold {κ α β : Type} [DecidableEq κ] (init : κ → α) (step : β → α → α)
    (ps : List (κ × β)) : List (κ × α) :=
  ps.foldl (fun acc p => upsert p.1 (init p.1) (step p.2) acc) []

/-- What the body of a `forEach` does with one entry: raise, return early, or
update the dictionary entry under a key. -/
inductive Action (κ β : Type) where
  | raise
  | skip
  | put (k : κ) (x : β)

/-- The keyed item of an action that updates the dictionary. -/
def Action.item {κ β : Type} : Action κ β → Option (κ × β)
  | .put k x => some (k, x)
  | _ => none

/-- Whether the action raises. -/
def Action.raises {κ β : Type} : Action κ β → Bool
  | .raise => true
  | _ => false

/-- Effect of an action on the dictionary. -/
def Action.run {κ α β : Type} [DecidableEq κ] (init : κ → α) (step : β → α → α)
    (acc : List (κ × α)) : Action κ β → Except JSError (List (κ × α))
  | .raise => .error .typeError
  | .skip => .ok acc
  | .put k x => .ok (upsert k (init k) (step x) acc)

/-- Time value of the service date of an entry, when it parses to a valid
date. -/
def validDate (h : Host) (entry : Entry) : Option Int :=
  match parseEntryDate h entry.DateOfService with
  | .date t => some t
  | _ => none

/-- Week key of an entry with a valid service date. -/
def entryWeek (h : Host) (entry : Entry) : Option Int :=
  (validDate h entry).map (weekKeyOf h)

/-- The entries with a valid service date that fall in the week `k`. -/
def weekEntries (h : Host) (rawData : List Entry) (k : Int) : List Entry :=
  rawData.filter fun r => entryWeek h r = some k

/-- What `weeklyEntry` does with an entry. -/
def weeklyAction (h : Host) (entry : Entry) : Action Int Entry :=
  match parseEntryDate h entry.DateOfService with
  | .undefined => .raise
  | .invalid => .skip
  | .date date => .put (weekKeyOf h date) entry

/-- What `journeyEntry` does with an entry. -/
def journeyAction (h : Host) (entry : Entry) : Action String (Entry × Int) :=
  if entry.ClientName = "" ∨ entry.ClientName = " " then .skip
  else if entry.ProcedureCode ∉ allCodes then .skip
  else
    match parseEntryDate h entry.DateOfService with
    | .undefined => .raise
    | .invalid => .skip
    | .date date => .put entry.ClientName (entry, date)

/-- The accumulator of week `k` after all entries of that week, in the order of
`rawData`. -/
def weekGroupOf (h : Host) (rawData : List Entry) (k : Int) : WeekGroup :=
  (weekEntries h rawData k).foldl (fun g r => addToWeek r g) (newWeekGroup k)

/-- The sorted array that the second `map` of `weeklyData` runs over. -/
def weekRows (h : Host) (rawData : List Entry) : List WeekRow :=
  jsSort compareWeeks
    (((groupFold newWeekGroup addToWeek
      (rawData.filterMap fun r => (weeklyAction h r).item)).map Prod.snd).map toWeekRow)

/-- The entries that reach the journey of the client `name`, each with the time
value of its date, in the order of `rawData`. -/
def clientItems (h : Host) (rawData : List Entry) (name : String) : List (Entry × Int) :=
  ((rawData.filterMap fun r => (journeyAction h r).item).filter fun p => p.1 = name).map
    Prod.snd

/-- The journey of the client `name` after the `forEach` of
`psychDashboardData`. -/
def journeyOf (h : Host) (rawData : List Entry) (name : String) : Journey :=
  (clientItems h rawData name).foldl (fun j p => addToJourney p.1 p.2 j) (newJourney name)

/-- The date field kept by the updates `if (!cur || date < cur) cur = date`
over a list of dates. -/
def runMin (dates : List Int) : Option Int :=
  dates.foldl (fun cur date => if isEarlier date cur then some date else cur) none

/-- The date field kept by the updates `if (!cur || date > cur) cur = date`
over a list of dates. -/
def runMax (dates : List Int) : Option Int :=
  dates.foldl (fun cur date => if isLater date cur then some date else cur) none

/-- The dates of the items whose procedure code is in `codes`. -/
def codeDates (codes : List String) (items : List (Entry × Int)) : List Int :=
  (items.filter fun p => p.1.ProcedureCode ∈ codes).map Prod.snd

/-- The client `name` has a record with a code in `codes` and a valid date. -/
def hasValidRecord (h : Host) (rawData : List Entry) (codes : List String)
    (name : String) : Prop :=
  ∃ r ∈ rawData, r.ClientName = name ∧ r.ProcedureCode ∈ codes ∧ (validDate h r).isSome

/-- The journey as the classification loop leaves it. -/
def classified (now : Int) (notViableReasons clientNotes : String → Option String)
    (journey : Journey) : Journey :=
  if journey.firstPsychDate.isNone then journey
  else classify now notViableReasons clientNotes journey

/-! ## Sample data -/

/-- A host five hours behind UTC whose `Date.parse` accepts no string. -/
def sampleHost : Host :=
  { tza := -18000000, dateParse := fun _ => none, tza_range := by decide }

/-- Five rows over two weeks: a zero-charge row, a row with a time of day, a
two-digit year, and a row whose date is not a date. -/
def sampleData : List Entry :=
  [ { DateOfService := "01/06/2025", ClientChargesAgreedTotal := some 100,
      UnitsOfService := some 4, TimeWorkedInHours := some 1,
      ClientName := "Jane Doe", ProcedureCode := "90791" },
    { DateOfService := "01/08/2025 10:30:00", ClientChargesAgreedTotal := some 0,
      UnitsOfService := some 8, TimeWorkedInHours := some 2,
      ClientName := "Bob Ray", ProcedureCode := "97153" },
    { DateOfService := "1/14/25", ClientChargesAgreedTotal := some 200,
      UnitsOfService := some 8, TimeWorkedInHours := some 2,
      ClientName := "Bob Ray", ProcedureCode := "97153" },
    { DateOfService := "01/15/2025", ClientChargesAgreedTotal := some 50,
      UnitsOfService := some 12, TimeWorkedInHours := some 3,
      ClientName := "Ann Lee", ProcedureCode := "97153" },
    { DateOfService := "ab/cd/efgh", ClientChargesAgreedTotal := some 70,
      UnitsOfService := none, TimeWorkedInHours := some 5,
      ClientName := "Ann Lee", ProcedureCode := "97153" } ]

/-- First week of `weeklyData` on the sample: the week of Monday 2025-01-06. -/
def sampleWeek1 : Week :=
  { week := 20094, agreedRevenue := 100, totalUnits := 12, totalHours := 1,
    sessionCount := 2, avgSessionLength := some (1 / 2), avgRevenuePerHour := some 100,
    clientCount := 1, revenueChange := .zero, hoursChange := .zero }

/-- Second week of `weeklyData` on the sample: the week of Monday 2025-01-13. -/
def sampleWeek2 : Week :=
  { week := 20101, agreedRevenue := 250, totalUnits := 20, totalHours := 5,
    sessionCount := 2, avgSessionLength := some (5 / 2), avgRevenuePerHour := some 50,
    clientCount := 2, revenueChange := .fixed ⟨false, 1500⟩,
    hoursChange := .fixed ⟨false, 4000⟩ }

/-- A row whose slash-delimited date has four parts. -/
def malformedEntry : Entry :=
  { DateOfService := "1/2/3/2025", ClientChargesAgreedTotal := some 10,
    UnitsOfService := some 1, TimeWorkedInHours := some 1,
    ClientName := "Ann Lee", ProcedureCode := "97153" }

/-- The time 2025-03-10 12:00 on the sample host. -/
def sampleNow : Int := 1741626000000

/-- A row of the funnel sample: charge 100, 4 units, 1 hour. -/
def sampleRow (date name code : String) : Entry :=
  { DateOfService := date, ClientChargesAgreedTotal := some 100,
    UnitsOfService := some 4, TimeWorkedInHours := some 1,
    ClientName := name, ProcedureCode := code }

/-- Six clients: one converted, one with a last assessment 50 days before
`sampleNow`, one 10 days before, one 100 days before, one with an override, and
one with a recurring-service row only. -/
def samplePsychData : List Entry :=
  [ sampleRow "01/06/2025" "Jane Doe" "90791", sampleRow "03/01/2025" "Jane Doe" "97153",
    sampleRow "01/19/2025" "Al Kim" "96130", sampleRow "02/28/2025" "Bea Roy" "96131",
    sampleRow "11/30/2024" "Cy Dunn" "96136", sampleRow "02/18/2025" "Di Fox" "96137",
    sampleRow "02/20/2025" "Ed Gray" "97155", sampleRow "12/01/2024" "Al Kim" "90791" ]

/-- The override map of the sample: a reason for Di Fox, the empty string for
Al Kim. -/
def sampleReasons : String → Option String :=
  fun n => if n = "Di Fox" then some "insurance" else if n = "Al Kim" then some "" else none

/-- The notes map of the sample: empty. -/
def sampleNotes : String → Option String := fun _ => none

/-- Jane Doe in the sample dashboard. -/
def sampleJane : Journey :=
  { newJourney "Jane Doe" with
    firstPsychDate := some 1736139600000, lastPsychDate := some 1736139600000,
    firstABADate := some 1740805200000, lastABADate := some 1740805200000,
    psychSessions := 1, abaSessions := 1, psychCodes := ["90791"], status := .converted,
    daysSinceFirstPsych := 63, daysSinceLastPsych := 63, daysToConversion := some 54,
    totalRevenue := 200, totalHours := 2, notes := some "" }

/-- Al Kim in the sample dashboard. -/
def sampleAl : Journey :=
  { newJourney "Al Kim" with
    firstPsychDate := some 1733029200000, lastPsychDate := some 1737262800000,
    psychSessions := 2, psychCodes := ["96130", "90791"], status := .atRisk,
    daysSinceFirstPsych := 99, daysSinceLastPsych := 50,
    totalRevenue := 200, totalHours := 2, notes := some "" }

/-- Bea Roy in the sample dashboard. -/
def sampleBea : Journey :=
  { newJourney "Bea Roy" with
    firstPsychDate := some 1740718800000, lastPsychDate := some 1740718800000,
    psychSessions := 1, psychCodes := ["96131"], status := .active,
    daysSinceFirstPsych := 10, daysSinceLastPsych := 10,
    totalRevenue := 100, totalHours := 1, notes := some "" }

/-- Cy Dunn in the sample dashboard. -/
def sampleCy : Journey :=
  { newJourney "Cy Dunn" with
    firstPsychDate := some 1732942800000, lastPsychDate := some 1732942800000,
    psychSessions := 1, psychCodes := ["96136"], status := .stale,
    daysSinceFirstPsych := 100, daysSinceLastPsych := 100,
    totalRevenue := 100, totalHours := 1, notes := some "" }

/-- Di Fox in the sample dashboard. -/
def sampleDi : Journey :=
  { newJourney "Di Fox" with
    firstPsychDate := some 1739854800000, lastPsychDate := some 1739854800000,
    psychSessions := 1, psychCodes := ["96137"], status := .notViable,
    daysSinceFirstPsych := 20, daysSinceLastPsych := 20,
    totalRevenue := 100, totalHours := 1, notes := some "",
    notViableReason := some "insurance" }

/-- Ed Gray in the sample dashboard. -/
def sampleEd : Journey :=
  { newJourney "Ed Gray" with
    firstABADate := some 1740027600000, lastABADate := some 1740027600000,
    abaSessions := 1, totalRevenue := 100, totalHours := 1 }

/-- The value of `psychDashboardData` on the sample. -/
def sampleDashboard : Dashboard :=
  { activeLeads := [sampleBea]
    atRisk := [sampleAl]
    converted := [sampleJane]
    notViable := [sampleDi]
    totalWithPsych := 4
    conversionRate := .fixed ⟨false, 250⟩
    avgDaysToConversion := .fixed ⟨false, 540⟩
    cohorts :=
      { c0_14 := ⟨1, 0, 0, 0⟩, c15_30 := ⟨0, 0, 0, 1⟩, c31_45 := ⟨0, 0, 0, 0⟩,
        c46_60 := ⟨0, 0, 1, 0⟩, c61_75 := ⟨0, 0, 0, 0⟩ }
    allClients := [sampleJane, sampleAl, sampleBea, sampleCy, sampleDi, sampleEd] }

/-! ## Definitions used to state the properties of the statistics and cohorts -/

/-- The journeys of a list that carry the status `s`. -/
def withStatus (s : Status) (journeys : List Journey) : List Journey :=
  journeys.filter fun j => j.status = s

/-- The counter of the cohort `k`: the value `cohorts[k]`. -/
def Cohorts.get (cs : Cohorts) (k : CohortKey) : CohortCount :=
  match k with
  | .k0_14 => cs.c0_14
  | .k15_30 => cs.c15_30
  | .k31_45 => cs.c31_45
  | .k46_60 => cs.c46_60
  | .k61_75 => cs.c61_75

/-- The sum `active + atRisk + notViable` of one cohort. -/
def CohortCount.total (c : CohortCount) : Nat := c.active + c.atRisk + c.notViable

/-- The sum of `active + atRisk + notViable` over the five cohorts. -/
def Cohorts.total (cs : Cohorts) : Nat :=
  cs.c0_14.total + cs.c15_30.total + cs.c31_45.total + cs.c46_60.total + cs.c61_75.total

/-- The range of days that the name of a cohort key states: `'0-14'` is 0 to 14,
and so on to `'61-75'`. -/
def cohortRange (k : CohortKey) : Int × Int :=
  match k with
  | .k0_14 => (0, 14)
  | .k15_30 => (15, 30)
  | .k31_45 => (31, 45)
  | .k46_60 => (46, 60)
  | .k61_75 => (61, 75)

/-- The days-to-conversion values that enter the average: those of the
converted journeys that are not negative. -/
def conversionDays (journeys : List Journey) : List Int :=
  ((withStatus .converted journeys).filterMap fun j => j.daysToConversion).filter
    fun d => d ≥ 0

/-! ## Sample data for the boundary cases of the funnel -/

/-- Three clients with an assessment row only: one dated ten days after
`sampleNow`, one dated 100 days before it, and one dated nine days before it
whose row has hours but no agreed charge. -/
def sampleEdgeData : List Entry :=
  [ sampleRow "03/20/2025" "Fay Hill" "90791",
    sampleRow "11/30/2024" "Gus Ito" "96130",
    { DateOfService := "03/01/2025", ClientChargesAgreedTotal := some 0,
      UnitsOfService := some 8, TimeWorkedInHours := some 2,
      ClientName := "Hal Jay", ProcedureCode := "90791" } ]

/-- The override map of the boundary sample: a reason for Gus Ito only. -/
def sampleEdgeReasons : String → Option String :=
  fun n => if n = "Gus Ito" then some "other" else none

/-- What is read off a journey in the boundary sample: name, days since the last
assessment, status, total revenue and total hours. -/
def journeyView (j : Journey) : String × Int × Status × ℚ × ℚ :=
  (j.name, j.daysSinceLastPsych, j.status, j.totalRevenue, j.totalHours)

/-- The value of `psychDashboardData` on the boundary sample, `none` if it
raises or returns `null`. -/
def sampleEdgeDashboard : Option Dashboard :=
  match psychDashboardData sampleHost sampleNow sampleEdgeReasons sampleNotes sampleEdgeData with
  | .ok (some d) => some d
  | _ => none

/-- The test `c.daysToConversion >= 0` of line 616; `null` compares as 0. -/
def validConversion (c : Journey) : Bool :=
  match c.daysToConversion with
  | some d => decide (d ≥ 0)
  | none => true

/-- The dashboard of a run of `psychDashboardData`, the dashboard of no journey
when the run raises or returns `null`. -/
def dashboardOrEmpty (r : Except JSError (Option Dashboard)) : Dashboard :=
  match r with
  | .ok (some d) => d
  | _ => dashboardOf ⟨[], [], [], [], []⟩

/-- Two converted clients: Jane Doe starts the recurring service 54 days after
her assessment, Ivy Orr has a recurring-service row ten days before hers. -/
def sampleConvData : List Entry :=
  [ sampleRow "01/06/2025" "Jane Doe" "90791", sampleRow "03/01/2025" "Jane Doe" "97153",
    sampleRow "01/12/2025" "Ivy Orr" "96130", sampleRow "01/02/2025" "Ivy Orr" "97155" ]

/-- The dashboard of `sampleConvData`. -/
def sampleConvDashboard : Dashboard :=
  dashboardOrEmpty
    (psychDashboardData sampleHost sampleNow sampleNotes sampleNotes sampleConvData)

/-- Twenty-one converted clients `Client 0` to `Client 20`, all assessed on
2025-01-06; `Client i` starts the recurring service on day `i + 1` of February
2025. -/
def sampleManyData : List Entry :=
  ((List.range 21).map fun i =>
    [ sampleRow "01/06/2025" ("Client " ++ toString i) "90791",
      sampleRow ("02/" ++ toString (i + 1) ++ "/2025") ("Client " ++ toString i) "97153" ]).flatten

/-- The dashboard of `sampleManyData`. -/
def sampleManyDashboard : Dashboard :=
  dashboardOrEmpty
    (psychDashboardData sampleHost sampleNow sampleNotes sampleNotes sampleManyData)
/-! ## `parseCSVData` (lines 121-176) -/

/-- Whether a character is white space or a line terminator of ECMA-262: what
`trim` removes and `parseFloat` skips. -/
def isSpace (c : Char) : Bool := strWhiteSpace.contains c.toNat

/-- Method `String.prototype.trim`. -/
def jsTrim (s : List Char) : List Char :=
  ((s.dropWhile isSpace).reverse.dropWhile isSpace).reverse

/-- The expression `s.replace(/^"|"$/g, '')`: a quote at the start and a quote
at the end are removed. -/
def stripQuotes (s : List Char) : List Char :=
  let s1 := match s with
    | '"' :: r => r
    | _ => s
  match s1.reverse with
  | '"' :: r => r.reverse
  | _ => s1

/-- The property `length` of a string: the number of UTF-16 code units. -/
def jsLength (s : List Char) : Nat :=
  (s.map fun c => if c.toNat < 0x10000 then 1 else 2).sum

/-- Value of a list of decimal digits. -/
def digitsValue (ds : List Nat) : Nat := ds.foldl (fun acc d => acc * 10 + d) 0

/-- Value of the text after the `e` of a decimal literal: an optional sign and
digits; 0 when no digit follows, the `e` then not being part of the literal. -/
def exponentValue (s : List Char) : Int :=
  match s with
  | '-' :: r => - (digitsValue (leadingDigits 10 r) : Int)
  | '+' :: r => (digitsValue (leadingDigits 10 r) : Int)
  | _ => (digitsValue (leadingDigits 10 s) : Int)

/-- Global function `parseFloat(s)` on a string: leading white space is skipped
and the longest prefix that is a decimal literal is read; `none` is `NaN`. The
value is the exact rational, and the literal `Infinity`, which the model of
numbers does not cover, reads as `NaN`. -/
def parseFloat (s : List Char) : Option ℚ :=
  let s1 := s.dropWhile isSpace
  let (sign, s2) : ℚ × List Char :=
    match s1 with
    | '-' :: r => (-1, r)
    | '+' :: r => (1, r)
    | _ => (1, s1)
  let ip := leadingDigits 10 s2
  let s3 := s2.drop ip.length
  let (fp, s4) : List Nat × List Char :=
    match s3 with
    | '.' :: r => (leadingDigits 10 r, r.drop (leadingDigits 10 r).length)
    | _ => ([], s3)
  if ip = [] ∧ fp = [] then none
  else
    let e : Int :=
      match s4 with
      | 'e' :: r => exponentValue r
      | 'E' :: r => exponentValue r
      | _ => 0
    some (sign * ((digitsValue ip : ℚ) + (digitsValue fp : ℚ) / 10 ^ fp.length) * 10 ^ e)

/-- The variables `values`, `current` and `inQuotes` of the row scanner. -/
structure ScanState where
  values : List (List Char)
  current : List Char
  inQuotes : Bool
  deriving DecidableEq

/-- Body of the loop over the characters of a line (lines 144-153). -/
def scanChar (st : ScanState) (char : Char) : ScanState :=
  if char = '"' then { st with inQuotes := !st.inQuotes }
  else if char = ',' ∧ st.inQuotes = false then
    { st with values := st.values ++ [st.current], current := [] }
  else { st with current := st.current ++ [char] }

/-- The array `values` of a line after the scanner (lines 140-154). -/
def scanRow (line : List Char) : List (List Char) :=
  let st := line.foldl scanChar { values := [], current := [], inQuotes := false }
  st.values ++ [st.current]

/-- The column indices found in the header (lines 128-134); `none` is the `-1`
of `findIndex`. -/
structure Columns where
  dateIdx : Option Nat
  agreedIdx : Option Nat
  unitsIdx : Option Nat
  hoursIdx : Option Nat
  clientFirstIdx : Option Nat
  clientLastIdx : Option Nat
  procedureCodeIdx : Option Nat
  deriving DecidableEq

/-- The expression `headers.findIndex(h => h === name)`. -/
def findIndex (headers : List (List Char)) (name : String) : Option Nat :=
  headers.findIdx? fun h => h = name.data

/-- The array `headers` (line 125). -/
def headersOf (line : List Char) : List (List Char) :=
  (splitOnChar ',' line).map fun h => stripQuotes (jsTrim h)

/-- Lines 128-134. -/
def columnsOf (headers : List (List Char)) : Columns :=
  { dateIdx := findIndex headers "DateOfService"
    agreedIdx := findIndex headers "ClientChargesAgreedTotal"
    unitsIdx := findIndex headers "UnitsOfService"
    hoursIdx := findIndex headers "TimeWorkedInHours"
    clientFirstIdx := findIndex headers "ClientFirstName"
    clientLastIdx := findIndex headers "ClientLastName"
    procedureCodeIdx := findIndex headers "ProcedureCode" }

/-- The expression `values[idx]`: `none` is `undefined`, for the index `-1` and
for an index past the end. -/
def valueAt (values : List (List Char)) (idx : Option Nat) : Option (List Char) :=
  idx.bind fun i => values[i]?

/-- The expression `values[idx]?.trim().replace(/^"|"$/g, '')`. -/
def cleanField (values : List (List Char)) (idx : Option Nat) : Option (List Char) :=
  (valueAt values idx).map fun v => stripQuotes (jsTrim v)

/-- The expression `values[idx]?.trim().replace(/^"|"$/g, '') || ''`. -/
def textField (values : List (List Char)) (idx : Option Nat) : List Char :=
  (cleanField values idx).getD []

/-- The expression `parseFloat(values[idx]?.replace(/^"|"$/g, '') || 0)`:
`parseFloat(0)` is 0. -/
def numberField (values : List (List Char)) (idx : Option Nat) : Option ℚ :=
  match (valueAt values idx).map stripQuotes with
  | none => some 0
  | some [] => some 0
  | some s => parseFloat s

/-- The test of line 157: whether the row is skipped for its date field. -/
def rejectsDate (dateValue : Option (List Char)) : Bool :=
  match dateValue with
  | none => true
  | some d =>
    d = [] || decide (jsLength d < 8) || d = "DateOfService".data || d.contains '#'

/-- Body of the loop over the lines (lines 137-172). -/
def parseLine (cols : Columns) (data : List Entry) (line : List Char) : List Entry :=
  if jsTrim line = [] then data
  else
    let values := scanRow line
    let dateValue := cleanField values cols.dateIdx
    if rejectsDate dateValue then data
    else
      let firstName := textField values cols.clientFirstIdx
      let lastName := textField values cols.clientLastIdx
      let procedureCode := textField values cols.procedureCodeIdx
      data ++
        [{ DateOfService := String.mk (dateValue.getD [])
           ClientChargesAgreedTotal := numberField values cols.agreedIdx
           UnitsOfService := numberField values cols.unitsIdx
           TimeWorkedInHours := numberField values cols.hoursIdx
           ClientName := String.mk (jsTrim (firstName ++ [' '] ++ lastName))
           ProcedureCode := String.mk procedureCode }]

/-- The array `lines` (line 122). -/
def csvLines (csvText : String) : List (List Char) :=
  splitOnChar '\n' (jsTrim csvText.data)

/-- The function `parseCSVData` (lines 121-176). -/
def parseCSVData (csvText : String) : List Entry :=
  let lines := csvLines csvText
  if lines.length < 2 then []
  else lines.tail.foldl (parseLine (columnsOf (headersOf (lines.headD [])))) []

/-! ## `latestWeekClients` (lines 277-347) and `clientWoWChanges` (lines 350-454) -/

/-- Method `Array.prototype.sort(cmp)` for a comparator that returns a number
which is not an integer: as `jsSort`, `a` stays before `b` when `cmp(a, b) ≤ 0`. -/
def jsSortNum {α : Type} (cmp : α → α → ℚ) (xs : List α) : List α :=
  xs.insertionSort (fun a b => cmp a b ≤ 0)

/-- A value of `clients[name]` in `latestWeekClients`. -/
structure ClientTotals where
  name : String
  totalRevenue : ℚ
  totalHours : ℚ
  sessionCount : Nat
  deriving DecidableEq

/-- The object literal of lines 328-333. -/
def newClientTotals (name : String) : ClientTotals :=
  { name := name, totalRevenue := 0, totalHours := 0, sessionCount := 0 }

/-- Lines 336-340: the updates of `clients[name]` for one entry. -/
def addToClient (entry : Entry) (c : ClientTotals) : ClientTotals :=
  let agreedCharges := orZero entry.ClientChargesAgreedTotal
  let hours := orZero entry.TimeWorkedInHours
  { c with
    totalRevenue := c.totalRevenue + agreedCharges
    totalHours := if agreedCharges > 0 then c.totalHours + hours else c.totalHours
    sessionCount := c.sessionCount + 1 }

/-- Body of `rawData.forEach` in `latestWeekClients` (lines 287-341). -/
def latestEntry (h : Host) (latestWeekKey : Int) (clients : List (String × ClientTotals))
    (entry : Entry) : Except JSError (List (String × ClientTotals)) :=
  if entry.ProcedureCode ≠ "97153" then .ok clients
  else
    match parseEntryDate h entry.DateOfService with
    | .undefined => .error .typeError
    | .invalid => .ok clients
    | .date date =>
      if weekKeyOf h date ≠ latestWeekKey then .ok clients
      else
        let name := entry.ClientName
        if name = "" ∨ name = " " then .ok clients
        else .ok (upsert name (newClientTotals name) (addToClient entry) clients)

/-- The memoised value `latestWeekClients` (lines 277-347); the memoised value
`weeklyData` it reads is the parameter `weeks`. Reading `.week` of an absent
element raises a `TypeError`. -/
def latestWeekClients (h : Host) (rawData : List Entry) (weeks : List Week) :
    Except JSError (List ClientTotals) :=
  if rawData.length = 0 ∨ weeks.length = 0 then .ok []
  else
    match weeks[weeks.length - 1]? with
    | none => .error .typeError
    | some latestWeek =>
      match rawData.foldlM (latestEntry h latestWeek.week) [] with
      | .error e => .error e
      | .ok clients =>
        .ok (jsSortNum (fun a b => b.totalRevenue - a.totalRevenue) (clients.map Prod.snd))

/-- Lines 398-407: the update of `clients[name].hours` for one entry. -/
def addHours (entry : Entry) (hours : ℚ) : ℚ :=
  if orZero entry.ClientChargesAgreedTotal > 0 then hours + orZero entry.TimeWorkedInHours
  else hours

/-- Body of `rawData.forEach` in `parseAndGroupByWeek` (lines 361-408); a value
of `clients[name]` is its field `hours`. -/
def wowEntry (h : Host) (targetWeekKey : Int) (clients : List (String × ℚ))
    (entry : Entry) : Except JSError (List (String × ℚ)) :=
  if entry.ProcedureCode ≠ "97153" then .ok clients
  else
    match parseEntryDate h entry.DateOfService with
    | .undefined => .error .typeError
    | .invalid => .ok clients
    | .date date =>
      let weekKey := weekKeyOf h date
      if weekKey ≠ targetWeekKey then .ok clients
      else
        let name := entry.ClientName
        if name = "" ∨ name = " " then .ok clients
        else .ok (upsert name 0 (addHours entry) clients)

/-- The local function `parseAndGroupByWeek` (lines 358-411). -/
def parseAndGroupByWeek (h : Host) (rawData : List Entry) (targetWeekKey : Int) :
    Except JSError (List (String × ℚ)) :=
  rawData.foldlM (wowEntry h targetWeekKey) []

/-- An element of `changes` (lines 436-444). -/
structure Change where
  name : String
  latestHours : ℚ
  previousHours : ℚ
  change : ℚ
  percentChange : ℚ
  isNew : Bool
  isGone : Bool
  deriving DecidableEq

/-- The expression `clients[name]?.hours || 0`. -/
def hoursOf (clients : List (String × ℚ)) (name : String) : ℚ :=
  (dictGet name clients).getD 0

/-- The set `allClientNames` (lines 419-422), in insertion order. -/
def allClientNames (latest previous : List (String × ℚ)) : List String :=
  (latest.map Prod.fst ++ previous.map Prod.fst).foldl setAdd []

/-- Body of `allClientNames.forEach` (lines 425-445). -/
def changeEntry (latest previous : List (String × ℚ)) (changes : List Change)
    (name : String) : List Change :=
  let latestHours := hoursOf latest name
  let previousHours := hoursOf previous name
  if latestHours = 0 ∧ previousHours = 0 then changes
  else
    let change := latestHours - previousHours
    let percentChange : ℚ :=
      if previousHours > 0 then change / previousHours * 100
      else if latestHours > 0 then 100 else 0
    changes ++
      [{ name := name, latestHours := latestHours, previousHours := previousHours,
         change := change, percentChange := percentChange,
         isNew := decide (previousHours = 0 ∧ latestHours > 0),
         isGone := decide (previousHours > 0 ∧ latestHours = 0) }]

/-- The array `changes` after the loop of lines 424-445. -/
def wowChanges (latest previous : List (String × ℚ)) : List Change :=
  (allClientNames latest previous).foldl (changeEntry latest previous) []

/-- The test of the `filter` of line 448. -/
def significant (c : Change) : Bool :=
  decide (|c.percentChange| ≥ 25) || c.isNew || c.isGone

/-- The array `filtered` (lines 447-449). -/
def wowFiltered (changes : List Change) : List Change :=
  jsSortNum (fun a b => |b.percentChange| - |a.percentChange|) (changes.filter significant)

/-- The memoised value `clientWoWChanges` (lines 350-454); the memoised value
`weeklyData` it reads is the parameter `weeks`. Reading `.week` of an absent
element raises a `TypeError`. -/
def clientWoWChanges (h : Host) (rawData : List Entry) (weeks : List Week) :
    Except JSError (List Change) :=
  if rawData.length = 0 ∨ weeks.length < 2 then .ok []
  else
    match weeks[weeks.length - 1]?, weeks[weeks.length - 2]? with
    | some latestWeek, some previousWeek =>
      match parseAndGroupByWeek h rawData latestWeek.week with
      | .error e => .error e
      | .ok latestClients =>
        match parseAndGroupByWeek h rawData previousWeek.week with
        | .error e => .error e
        | .ok previousClients => .ok (wowFiltered (wowChanges latestClients previousClients))
    | _, _ => .error .typeError

/-! ## `psychToABAConversion` (lines 690-788) -/

/-- A value of `clientHistory[name]`. -/
structure History where
  name : String
  hadPsych : Bool
  lastPsychDate : Option Int
  hasABA : Bool
  firstABADate : Option Int
  psychSessions : Nat
  abaSessions : Nat
  deriving DecidableEq

/-- The object literal of lines 705-713. -/
def newHistory (name : String) : History :=
  { name := name, hadPsych := false, lastPsychDate := none, hasABA := false,
    firstABADate := none, psychSessions := 0, abaSessions := 0 }

/-- Lines 740-757: the updates of `clientHistory[name]` for one entry with a
valid date. -/
def trackHistory (code : String) (date : Int) (c : History) : History :=
  let c1 : History :=
    if code ∈ psychCodes then
      { c with
        hadPsych := true
        psychSessions := c.psychSessions + 1
        lastPsychDate := if isLater date c.lastPsychDate then some date else c.lastPsychDate }
    else c
  if code ∈ abaCodes then
    { c1 with
      hasABA := true
      abaSessions := c1.abaSessions + 1
      firstABADate := if isEarlier date c1.firstABADate then some date else c1.firstABADate }
  else c1

/-- Body of `rawData.forEach` in `psychToABAConversion` (lines 699-758): the
entry of the client is created before the date is parsed. -/
def historyEntry (h : Host) (clientHistory : List (String × History)) (entry : Entry) :
    Except JSError (List (String × History)) :=
  let name := entry.ClientName
  if name = "" ∨ name = " " then .ok clientHistory
  else
    let created := upsert name (newHistory name) id clientHistory
    match parseEntryDate h entry.DateOfService with
    | .undefined => .error .typeError
    | .invalid => .ok created
    | .date date =>
      .ok (upsert name (newHistory name) (trackHistory entry.ProcedureCode date) created)

/-- An element of `needsConversion` (lines 769-773). -/
structure NeedsConversion where
  client : History
  daysSincePsych : Int
  notViableReason : Option String
  deriving DecidableEq

/-- An element of `converted` (lines 777-780). -/
structure ConvertedClient where
  client : History
  conversionDays : Int
  deriving DecidableEq

/-- Body of the loop over `Object.values(clientHistory)` (lines 764-782); the
time `new Date()` is the parameter `now`. -/
def conversionEntry (now : Int) (notViableReasons : String → Option String)
    (acc : List NeedsConversion × List ConvertedClient) (client : History) :
    List NeedsConversion × List ConvertedClient :=
  if client.hadPsych = true ∧ client.hasABA = false then
    let daysSincePsych := daysBetween now (dateNumber client.lastPsychDate)
    if daysSincePsych ≤ 75 then
      (acc.1 ++ [{ client := client, daysSincePsych := daysSincePsych,
                   notViableReason := lookupTruthy notViableReasons client.name }], acc.2)
    else acc
  else if client.hadPsych = true ∧ client.hasABA = true then
    (acc.1, acc.2 ++
      [{ client := client,
         conversionDays :=
          daysBetween (dateNumber client.firstABADate) (dateNumber client.lastPsychDate) }])
  else acc

/-- The field `conversionRate` of `psychToABAConversion`: the number 0, or the
string of `toFixed(1)`, which is `NaN` for the quotient 0 / 0, digits with one
decimal for a finite number below `10^21`, and the string of `Number::toString`
otherwise. -/
inductive Rate where
  | zero
  | nan
  | fixed (s : Fixed1)
  | plain (x : Num)
  deriving DecidableEq, Repr

/-- Method `Number.prototype.toFixed(1)` for the field `conversionRate` of
`psychToABAConversion`. -/
def toFixedRate (x : Num) : Rate :=
  match x with
  | .nan => .nan
  | .finite q => if |q| < 10 ^ 21 then .fixed (toFixed1 q) else .plain (.finite q)
  | .infinity neg => .plain (.infinity neg)

/-- The object returned by `psychToABAConversion`. -/
structure Conversion where
  needsConversion : List NeedsConversion
  converted : List ConvertedClient
  conversionRate : Rate
  deriving DecidableEq

/-- The memoised value `psychToABAConversion` (lines 690-788). The object
`clientHistory` is truthy, so the rate is always the `toFixed(1)` string. -/
def psychToABAConversion (h : Host) (now : Int) (notViableReasons : String → Option String)
    (rawData : List Entry) : Except JSError Conversion :=
  if rawData.length = 0 then
    .ok { needsConversion := [], converted := [], conversionRate := .zero }
  else
    match rawData.foldlM (historyEntry h) [] with
    | .error e => .error e
    | .ok clientHistory =>
      let lists := (clientHistory.map Prod.snd).foldl (conversionEntry now notViableReasons) ([], [])
      let needsConversion := lists.1
      let converted := lists.2
      .ok
        { needsConversion := jsSort (fun a b => a.daysSincePsych - b.daysSincePsych) needsConversion
          converted :=
            (jsSort (fun a b => dateNumber b.client.firstABADate - dateNumber a.client.firstABADate)
              converted).take 10
          conversionRate :=
            toFixedRate
              ((numDiv (converted.length : ℚ)
                ((converted.length + needsConversion.length : ℕ) : ℚ)).bind fun q =>
                  roundDouble (q * 100)) }

/-! ## Definitions used to state the properties of `parseCSVData` -/

/-- The record pushed for a line, if any. -/
def rowRecord (cols : Columns) (line : List Char) : Option Entry :=
  (parseLine cols [] line).head?

/-- The date field of a line: `dateValue` of line 156. -/
def dateField (cols : Columns) (line : List Char) : Option (List Char) :=
  cleanField (scanRow line) cols.dateIdx

/-- Number of commas of a line that stand after an even number of quote
characters. -/
def commasOutsideQuotes (row : List Char) : Nat :=
  ((List.range row.length).filter fun i =>
    row[i]? = some ',' ∧ (row.take i).count '"' % 2 = 0).length

/-! ## Definitions used to state the properties of the date formats -/

/-- Whether a text is a non-empty sequence of decimal digits. -/
def isNumeral (s : List Char) : Bool :=
  !s.isEmpty && s.all fun c => decide (48 ≤ c.toNat ∧ c.toNat ≤ 57)

/-- The number written by a sequence of decimal digits. -/
def numeralValue (s : List Char) : Nat :=
  digitsValue (s.map fun c => c.toNat - 48)

/-- Number of days of the month `month` (1 to 12) of the year `year`. -/
def daysInMonth (year month : Int) : Int :=
  if month = 2 then (if DaysInYear year = 366 then 29 else 28)
  else if month = 4 ∨ month = 6 ∨ month = 9 ∨ month = 11 then 30
  else 31

/-- The year that the date-parsing block makes of the number read in the year
field (lines 195-200). -/
def fixYear (year : Int) : Int := if year < 100 then year + 2000 else year

/-- The time value of local midnight on the day `day` of the month `month`
(1 to 12) of the year `year`: `new Date(year, month - 1, day)` for a year
outside 0 to 99. -/
def localMidnight (h : Host) (year month day : Int) : Int :=
  UTC h (MakeDate (MakeDay year (month - 1) day) 0)

/-! ## Definitions used to state the properties of `clientWoWChanges` -/

/-- What `wowEntry` does with an entry. -/
def wowAction (h : Host) (targetWeekKey : Int) (entry : Entry) : Action String Entry :=
  if entry.ProcedureCode ≠ "97153" then .skip
  else
    match parseEntryDate h entry.DateOfService with
    | .undefined => .raise
    | .invalid => .skip
    | .date date =>
      if weekKeyOf h date ≠ targetWeekKey then .skip
      else if entry.ClientName = "" ∨ entry.ClientName = " " then .skip
      else .put entry.ClientName entry

/-- The anchor-code records of the client `name` with a valid date in the week
`k`. -/
def anchorRecords (h : Host) (rawData : List Entry) (k : Int) (name : String) : List Entry :=
  rawData.filter fun r =>
    r.ProcedureCode = "97153" ∧ entryWeek h r = some k ∧ r.ClientName = name

/-- The sum of the hours of the anchor-code records of the client `name` in the
week `k` whose agreed charge is positive. -/
def anchorHours (h : Host) (rawData : List Entry) (k : Int) (name : String) : ℚ :=
  (((anchorRecords h rawData k name).filter fun r =>
    orZero r.ClientChargesAgreedTotal > 0).map fun r => orZero r.TimeWorkedInHours).sum

/-- The element that `changeEntry` pushes for a name, if any. -/
def changeOf (latest previous : List (String × ℚ)) (name : String) : Option Change :=
  (changeEntry latest previous [] name).head?

/-- The distinct week keys of the records with a valid date. -/
def distinctWeeks (h : Host) (rawData : List Entry) : List Int :=
  (rawData.filterMap fun r => entryWeek h r).dedup

/-- The object returned by `parseAndGroupByWeek` for the week `k` when no entry
raises. -/
def weekHours (h : Host) (rawData : List Entry) (k : Int) : List (String × ℚ) :=
  groupFold (fun _ => (0 : ℚ)) addHours (rawData.filterMap fun r => (wowAction h k r).item)

/-! ## Sample text -/

/-- A file with a quoted field that holds a comma, a row with a time of day, a
row whose date is too short, a blank line, and a row whose date has four
parts. -/
def sampleCsv : String :=
  "DateOfService,Provider,ClientFirstName,ClientLastName,ProcedureCode,ClientChargesAgreedTotal,UnitsOfService,TimeWorkedInHours\n" ++
  "01/06/2025,\"Roe, Sam\",Jane,Doe,90791,100,4,1\n" ++
  "1/14/25 09:00,\"Roe, Sam\", Bob ,Ray,97153,\"200.50\",8,2.5\n" ++
  "1/6/25,\"Roe, Sam\",Ann,Lee,97153,50,12,3\n" ++
  "   \n" ++
  "1/2/3/2025,\"Roe, Sam\",Ann,Lee,97153,abc,,1e1\n"

/-! ## Sample texts for the parser -/

/-- A file with one row of a valid date and one row whose slash-delimited date
has four parts. -/
def sampleBadCsv : String :=
  "DateOfService,ClientFirstName,ClientLastName,ProcedureCode,ClientChargesAgreedTotal,UnitsOfService,TimeWorkedInHours\n" ++
  "01/06/2025,Jane,Doe,90791,100,4,1\n" ++
  "1/2/3/2025,Ann,Lee,97153,10,1,1\n"

/-- A file whose only row has the date `1/6/25`. -/
def sampleShortCsv : String :=
  "DateOfService,ClientFirstName,ClientLastName,ProcedureCode\n1/6/25,Ann,Lee,97153\n"

/-- The file `sampleShortCsv` with the date written `01/06/25`. -/
def samplePaddedCsv : String :=
  "DateOfService,ClientFirstName,ClientLastName,ProcedureCode\n01/06/25,Ann,Lee,97153\n"

/-- The columns of the header of `samplePaddedCsv`. -/
def sampleColumns : Columns :=
  columnsOf (headersOf "DateOfService,ClientFirstName,ClientLastName,ProcedureCode".data)

/-! ## Sample data for the week-over-week changes -/

/-- A row with the anchor code. -/
def wowRow (date name : String) (charge hours : ℚ) : Entry :=
  { DateOfService := date, ClientChargesAgreedTotal := some charge,
    UnitsOfService := some (hours * 4), TimeWorkedInHours := some hours,
    ClientName := name, ProcedureCode := "97153" }

/-- Two weeks of anchor-code rows. In the week of 2025-01-06 Bo Lim has
6 + 4 hours, Cat Orr 5 and Dan Poe 4; in the week of 2025-01-13 Bo Lim has
2 hours and 7 more without charge, Cat Orr 4 and Eve Roe 3. -/
def sampleWowData : List Entry :=
  [ wowRow "01/06/2025" "Bo Lim" 100 6, wowRow "01/07/2025" "Cat Orr" 80 5,
    wowRow "01/08/2025" "Bo Lim" 50 4, wowRow "01/07/2025" "Dan Poe" 10 4,
    wowRow "01/13/2025" "Bo Lim" 40 2, wowRow "01/14/2025" "Cat Orr" 60 4,
    wowRow "01/15/2025" "Eve Roe" 90 3, wowRow "01/16/2025" "Bo Lim" 0 7 ]

/-- The value of `weeklyData` on a list, the empty array when it raises. -/
def weeksOrEmpty (r : Except JSError (List Week)) : List Week :=
  match r with
  | .ok weeks => weeks
  | .error _ => []

/-- The value of `weeklyData` on `sampleWowData`. -/
def sampleWowWeeks : List Week := weeksOrEmpty (weeklyData sampleHost sampleWowData)

/-- The element of `changes` for Bo Lim on `sampleWowData`. -/
def sampleBoChange : Change :=
  { name := "Bo Lim", latestHours := 2, previousHours := 10, change := -8,
    percentChange := -80, isNew := false, isGone := false }

/-- The element of `changes` for Cat Orr on `sampleWowData`. -/
def sampleCatChange : Change :=
  { name := "Cat Orr", latestHours := 4, previousHours := 5, change := -1,
    percentChange := -20, isNew := false, isGone := false }

/-- The element of `changes` for Dan Poe on `sampleWowData`. -/
def sampleDanChange : Change :=
  { name := "Dan Poe", latestHours := 0, previousHours := 4, change := -4,
    percentChange := -100, isNew := false, isGone := true }

/-- The element of `changes` for Eve Roe on `sampleWowData`. -/
def sampleEveChange : Change :=
  { name := "Eve Roe", latestHours := 3, previousHours := 0, change := 3,
    percentChange := 100, isNew := true, isGone := false }

/-! ## The example records of the specification -/

/-- The two records of Jane Doe: an assessment on 2025-01-06 and a
recurring-service session on 2025-03-01. -/
def sampleJaneData : List Entry :=
  [ { DateOfService := "01/06/2025", ClientChargesAgreedTotal := some 100,
      UnitsOfService := some 0, TimeWorkedInHours := some 1,
      ClientName := "Jane Doe", ProcedureCode := "90791" },
    { DateOfService := "03/01/2025", ClientChargesAgreedTotal := some 200,
      UnitsOfService := some 0, TimeWorkedInHours := some 2,
      ClientName := "Jane Doe", ProcedureCode := "97153" } ]

/-- The journey of Jane Doe after the `forEach` over `sampleJaneData`. -/
def janeJourney (h : Host) : Journey :=
  { newJourney "Jane Doe" with
    firstPsychDate := some (localMidnight h 2025 1 6)
    lastPsychDate := some (localMidnight h 2025 1 6)
    firstABADate := some (localMidnight h 2025 3 1)
    lastABADate := some (localMidnight h 2025 3 1)
    psychSessions := 1, abaSessions := 1, psychCodes := ["90791"]
    totalRevenue := 300, totalHours := 3 }

/-- Two clients with one assessment row each: Al Kim on 2025-01-19, which is 50
days before `sampleNow`, and Bea Roy on 2025-02-28. -/
def sampleFiftyData : List Entry :=
  [ sampleRow "01/19/2025" "Al Kim" "96130", sampleRow "02/28/2025" "Bea Roy" "96131" ]

/-- The dashboard of `sampleFiftyData`. -/
def sampleFiftyDashboard : Dashboard :=
  dashboardOrEmpty
    (psychDashboardData sampleHost sampleNow sampleNotes sampleNotes sampleFiftyData)

/-! ## Sample data for the averages of a week -/

/-- Two rows of one week, both without agreed charge. -/
def sampleZeroData : List Entry :=
  [ wowRow "01/06/2025" "Bo Lim" 0 3, wowRow "01/07/2025" "Cat Orr" 0 2 ]

/-- The value of `weeklyData` on `sampleZeroData`. -/
def sampleZeroWeeks : List Week := weeksOrEmpty (weeklyData sampleHost sampleZeroData)

/-! ## Definitions used to state the properties of `latestWeekClients` -/

/-- The sum of the agreed charges of the anchor-code records of the client
`name` with a valid date in the week `k`. -/
def anchorRevenue (h : Host) (rawData : List Entry) (k : Int) (name : String) : ℚ :=
  ((anchorRecords h rawData k name).map fun r => orZero r.ClientChargesAgreedTotal).sum

/-- The object `clients` of `latestWeekClients` for the week `k` when no entry
raises. -/
def weekClients (h : Host) (rawData : List Entry) (k : Int) : List (String × ClientTotals) :=
  groupFold newClientTotals addToClient (rawData.filterMap fun r => (wowAction h k r).item)

/-- A file of two weeks: in the week of 2025-01-13 Bo Lim has two anchor-code
rows, one without charge, Cat Orr has one, Dan Poe has a row of another code,
and one anchor-code row has no client name. -/
def sampleClientsCsv : String :=
  "DateOfService,ClientFirstName,ClientLastName,ProcedureCode,ClientChargesAgreedTotal,UnitsOfService,TimeWorkedInHours\n" ++
  "01/06/2025,Bo,Lim,97153,100,24,6\n" ++
  "01/13/2025,Bo,Lim,97153,40,8,2\n" ++
  "01/14/2025,Cat,Orr,97153,60,16,4\n" ++
  "01/15/2025,Bo,Lim,97153,0,28,7\n" ++
  "01/16/2025,Dan,Poe,90791,75,4,1\n" ++
  "01/17/2025,,,97153,30,4,1\n"

/-- The value of `weeklyData` on the records of `sampleClientsCsv`. -/
def sampleClientsWeeks : List Week :=
  weeksOrEmpty (weeklyData sampleHost (parseCSVData sampleClientsCsv))

/-! ## Sample data for `psychToABAConversion` -/

/-- The object returned by a run of `psychToABAConversion`, none when the run
raises. -/
def conversionOf (r : Except JSError Conversion) : Option Conversion :=
  match r with
  | .ok c => some c
  | .error _ => none

/-- The run of `psychToABAConversion` on the boundary sample. -/
def sampleEdgeConversion : Option Conversion :=
  conversionOf (psychToABAConversion sampleHost sampleNow sampleEdgeReasons sampleEdgeData)

/-- A list of one record: a recurring-service session of a client without
assessment. -/
def sampleRecurringOnly : List Entry := [sampleRow "02/20/2025" "Ed Gray" "97155"]

/-! ## Definitions used to state the properties of `psychToABAConversion` -/

/-- What `historyEntry` does with an entry: the item is the procedure code and
the time value of the date, or none for an invalid date, which creates the entry
of the client only. -/
def historyAction (h : Host) (entry : Entry) : Action String (Option (String × Int)) :=
  if entry.ClientName = "" ∨ entry.ClientName = " " then .skip
  else
    match parseEntryDate h entry.DateOfService with
    | .undefined => .raise
    | .invalid => .put entry.ClientName none
    | .date date => .put entry.ClientName (some (entry.ProcedureCode, date))

/-- The update of `clientHistory[name]` for one item. -/
def historyStep (x : Option (String × Int)) (c : History) : History :=
  match x with
  | none => c
  | some p => trackHistory p.1 p.2 c

/-- The object `clientHistory` after the `forEach` when no entry raises. -/
def clientHistories (h : Host) (rawData : List Entry) : List (String × History) :=
  groupFold newHistory historyStep (rawData.filterMap fun r => (historyAction h r).item)

/-- The arrays `needsConversion` and `converted` after the loop of lines
764-782, before the sorts and the `slice`. -/
def conversionLists (now : Int) (notViableReasons : String → Option String)
    (clientHistory : List (String × History)) : List NeedsConversion × List ConvertedClient :=
  (clientHistory.map Prod.snd).foldl (conversionEntry now notViableReasons) ([], [])

/-- The items that reach the history of the client `name`, in the order of
`rawData`. -/
def historyItems (h : Host) (rawData : List Entry) (name : String) :
    List (Option (String × Int)) :=
  ((rawData.filterMap fun r => (historyAction h r).item).filter fun p => p.1 = name).map
    Prod.snd

/-- The value of `clientHistory[name]` after the `forEach`. -/
def historyOf (h : Host) (rawData : List Entry) (name : String) : History :=
  (historyItems h rawData name).foldl (fun c x => historyStep x c) (newHistory name)

/-- The dates of the items whose code is in `codes`. -/
def itemDates (codes : List String) (items : List (Option (String × Int))) : List Int :=
  items.filterMap fun x => x.bind fun p => if p.1 ∈ codes then some p.2 else none

/-- The element that the loop of lines 764-782 pushes on `converted` for a
client, if any. -/
def convertedOf (client : History) : Option ConvertedClient :=
  if client.hadPsych = true ∧ client.hasABA = true then
    some { client := client,
           conversionDays :=
            daysBetween (dateNumber client.firstABADate) (dateNumber client.lastPsychDate) }
  else none

/-- The element that the loop of lines 764-782 pushes on `needsConversion` for
a client, if any. -/
def needsOf (now : Int) (notViableReasons : String → Option String) (client : History) :
    Option NeedsConversion :=
  if client.hadPsych = true ∧ client.hasABA = false ∧
      daysBetween now (dateNumber client.lastPsychDate) ≤ 75 then
    some { client := client,
           daysSincePsych := daysBetween now (dateNumber client.lastPsychDate),
           notViableReason := lookupTruthy notViableReasons client.name }
  else none

/-- The object returned by `psychToABAConversion` on the funnel sample, the
object of the empty list if the run raises. -/
def sampleConversion : Conversion :=
  (conversionOf (psychToABAConversion sampleHost sampleNow sampleReasons samplePsychData)).getD
    { needsConversion := [], converted := [], conversionRate := .zero }

/-! ## Sample text for the number fields -/

/-- A file whose first row has the text `abc` for the agreed charge, an empty
units field and the hours `1e1`, and whose second row ends after the agreed
charge. -/
def sampleNumbersCsv : String :=
  "DateOfService,ClientFirstName,ClientLastName,ProcedureCode,ClientChargesAgreedTotal,UnitsOfService,TimeWorkedInHours\n" ++
  "01/06/2025,Ann,Lee,97153,abc,,1e1\n" ++
  "01/07/2025,Bob,Ray,97153,12.5\n"

/-- The record of the first row of `sampleNumbersCsv`: the agreed charge is
`NaN`. -/
def sampleNanRecord : Entry :=
  { DateOfService := "01/06/2025", ClientChargesAgreedTotal := none,
    UnitsOfService := some 0, TimeWorkedInHours := some 10,
    ClientName := "Ann Lee", ProcedureCode := "97153" }

/-- The record of the second row of `sampleNumbersCsv`. -/
def sampleShortRecord : Entry :=
  { DateOfService := "01/07/2025", ClientChargesAgreedTotal := some (25 / 2),
    UnitsOfService := some 0, TimeWorkedInHours := some 0,
    ClientName := "Bob Ray", ProcedureCode := "97153" }

/-! ## Sample data for the rounding of the percent changes -/

/-- Two weeks of one client: an agreed charge of 400 in the week of 2025-01-06
and of 429 in the week of 2025-01-13. -/
def sampleRoundData : List Entry :=
  [ wowRow "01/06/2025" "Bo Lim" 400 4, wowRow "01/13/2025" "Bo Lim" 429 4 ]

/-- The value of `weeklyData` on `sampleRoundData`. -/
def sampleRoundWeeks : List Week := weeksOrEmpty (weeklyData sampleHost sampleRoundData)

/-- Two weeks of one client: an agreed charge of 1.6 in the week of 2025-01-06
and of 1.7 in the week of 2025-01-13. -/
def sampleCentsData : List Entry :=
  [ wowRow "01/06/2025" "Bo Lim" (8 / 5) 4, wowRow "01/13/2025" "Bo Lim" (17 / 10) 4 ]

/-- The value of `weeklyData` on `sampleCentsData`. -/
def sampleCentsWeeks : List Week := weeksOrEmpty (weeklyData sampleHost sampleCentsData)

/-! ## The memoised values in the order of a render -/

/-- The value of `clientWoWChanges` in a render of the component: the callback
of `weeklyData` runs first and `clientWoWChanges` reads its value; an exception
of the first leaves the render without a value. -/
def renderClientWoWChanges (h : Host) (rawData : List Entry) :
    Except JSError (List Change) :=
  match weeklyData h rawData with
  | .error e => .error e
  | .ok weeks => clientWoWChanges h rawData weeks

/-- A list of one record, whose slash-delimited date has four parts. -/
def sampleMalformedOnly : List Entry :=
  [ { DateOfService := "1/2/3/2025", ClientChargesAgreedTotal := some 10,
      UnitsOfService := some 1, TimeWorkedInHours := some 1,
      ClientName := "Ann Lee", ProcedureCode := "97153" } ]

/-! ## Rounding to binary64 -/

theorem log2Fuel_spec (fuel n : Nat) (hn : 0 < n) (hf : n ≤ fuel) :
    2 ^ log2Fuel fuel n ≤ n ∧ n < 2 ^ (log2Fuel fuel n + 1) := by
  induction fuel generalizing n with
  | zero => omega
  | succ fuel ih =>
    unfold log2Fuel
    by_cases h2 : n < 2
    · rw [if_pos h2]
      constructor
      · simpa using hn
      · simpa using h2
    · rw [if_neg h2]
      have h2' : 2 ≤ n := by omega
      obtain ⟨a, b⟩ := ih (n / 2) (by omega) (by omega)
      constructor
      · rw [pow_succ]
        have := Nat.div_mul_le_self n 2
        calc 2 ^ log2Fuel fuel (n / 2) * 2 ≤ n / 2 * 2 := Nat.mul_le_mul_right 2 a
          _ ≤ n := this
      · rw [pow_succ]
        have : n < (n / 2 + 1) * 2 := by omega
        calc n < (n / 2 + 1) * 2 := this
          _ ≤ 2 ^ (log2Fuel fuel (n / 2) + 1) * 2 := Nat.mul_le_mul_right 2 b

theorem floorLog2_spec (n : Nat) (hn : 0 < n) :
    2 ^ floorLog2 n ≤ n ∧ n < 2 ^ (floorLog2 n + 1) :=
  log2Fuel_spec n n hn le_rfl

theorem pow2_eq (e : Int) : pow2 e = (2 : ℚ) ^ e := by
  unfold pow2
  by_cases he : 0 ≤ e
  · rw [if_pos he]
    obtain ⟨n, rfl⟩ := Int.eq_ofNat_of_zero_le he
    simp
  · rw [if_neg he]
    obtain ⟨n, rfl⟩ := Int.exists_eq_neg_ofNat (le_of_lt (not_le.1 he))
    simp

theorem pow2_pos (e : Int) : 0 < pow2 e := by
  rw [pow2_eq]
  positivity

theorem pow2_add (a b : Int) : pow2 (a + b) = pow2 a * pow2 b := by
  rw [pow2_eq, pow2_eq, pow2_eq, zpow_add₀ (by norm_num)]

theorem pow2_le (a b : Int) (hab : a ≤ b) : pow2 a ≤ pow2 b := by
  rw [pow2_eq, pow2_eq]
  exact zpow_le_zpow_right₀ (by norm_num) hab

theorem pow2_lt_iff (a b : Int) : pow2 a < pow2 b ↔ a < b := by
  rw [pow2_eq, pow2_eq]
  exact zpow_lt_zpow_iff_right₀ (by norm_num)

theorem binaryExponent_le (x : ℚ) (hx : 0 < x) : pow2 (binaryExponent x) ≤ x := by
  unfold binaryExponent
  simp only
  split_ifs with h1
  · exact h1
  · have hnum : 0 < x.num := Rat.num_pos.2 hx
    have hn : 0 < x.num.natAbs := Int.natAbs_pos.2 (ne_of_gt hnum)
    obtain ⟨a, _⟩ := floorLog2_spec x.num.natAbs hn
    obtain ⟨_, b⟩ := floorLog2_spec x.den x.den_pos
    rw [pow2_eq, sub_sub, zpow_sub₀ (by norm_num), zpow_natCast]
    have e : ((x.num.natAbs : ℕ) : ℚ) = (x.num : ℚ) := by
      rw [← Int.cast_natCast, Int.natAbs_of_nonneg (le_of_lt hnum)]
    have hd : (0 : ℚ) < x.den := by exact_mod_cast x.den_pos
    rw [div_le_iff₀ (by positivity)]
    have b' : (x.den : ℚ) ≤ (2 : ℚ) ^ ((floorLog2 x.den : Int) + 1) := by
      have : (x.den : ℚ) < ((2 ^ (floorLog2 x.den + 1) : ℕ) : ℚ) := by exact_mod_cast b
      have e2 : ((2 ^ (floorLog2 x.den + 1) : ℕ) : ℚ) =
          (2 : ℚ) ^ ((floorLog2 x.den : Int) + 1) := by
        push_cast
        rw [← zpow_natCast]
        push_cast
        rfl
      rw [e2] at this
      exact le_of_lt this
    have a' : (2 : ℚ) ^ floorLog2 x.num.natAbs ≤ (x.num.natAbs : ℚ) := by exact_mod_cast a
    calc (2 : ℚ) ^ floorLog2 x.num.natAbs ≤ (x.num.natAbs : ℚ) := a'
      _ = x * x.den := by rw [e, Rat.mul_den_eq_num]
      _ ≤ x * (2 : ℚ) ^ ((floorLog2 x.den : Int) + 1) :=
        mul_le_mul_of_nonneg_left b' (le_of_lt hx)

theorem roundHalfEven_close (x : ℚ) : abs ((roundHalfEven x : ℚ) - x) ≤ 1 / 2 := by
  unfold roundHalfEven
  have h1 := Int.floor_le x
  have h2 := Int.lt_floor_add_one x
  simp only
  rw [abs_le]
  split_ifs with a b c
  · constructor <;> linarith
  · push_cast
    constructor <;> linarith
  · constructor <;> linarith
  · push_cast
    constructor <;> linarith

theorem roundHalfEven_int (k : Int) : roundHalfEven (k : ℚ) = k := by
  unfold roundHalfEven
  simp

/-- The error of the rounding of a positive number is at most half a unit in the
last place. -/
theorem roundMagnitude_close (x : ℚ) (hx : 0 < x) :
    abs (roundMagnitude x - x) ≤ x / 2 ^ 53 ∨ abs (roundMagnitude x - x) ≤ 1 / 2 ^ 1075 := by
  unfold roundMagnitude
  simp only
  set e := max (binaryExponent x) (-1022) with he
  have hu : 0 < pow2 (e - 52) := pow2_pos _
  have hc := roundHalfEven_close (x / pow2 (e - 52))
  have hc' : abs ((roundHalfEven (x / pow2 (e - 52)) : ℚ) * pow2 (e - 52) - x) ≤
      pow2 (e - 52) / 2 := by
    have : (roundHalfEven (x / pow2 (e - 52)) : ℚ) * pow2 (e - 52) - x =
        ((roundHalfEven (x / pow2 (e - 52)) : ℚ) - x / pow2 (e - 52)) * pow2 (e - 52) := by
      field_simp
    rw [this, abs_mul, abs_of_pos hu]
    calc _ ≤ 1 / 2 * pow2 (e - 52) := mul_le_mul_of_nonneg_right hc (le_of_lt hu)
      _ = pow2 (e - 52) / 2 := by ring
  by_cases hb : -1022 ≤ binaryExponent x
  · left
    have hee : e = binaryExponent x := by rw [he]; exact max_eq_left hb
    have hle := binaryExponent_le x hx
    have : pow2 (e - 52) / 2 ≤ x / 2 ^ 53 := by
      rw [hee, sub_eq_add_neg, pow2_add]
      have e52 : pow2 (-52) = 1 / 2 ^ 52 := by rw [pow2_eq]; norm_num
      rw [e52]
      have : pow2 (binaryExponent x) * (1 / 2 ^ 52) / 2 =
          pow2 (binaryExponent x) / 2 ^ 53 := by ring
      rw [this]
      exact div_le_div_of_nonneg_right hle (by positivity)
    exact le_trans hc' this
  · right
    have hee : e = -1022 := by rw [he]; exact max_eq_right (le_of_lt (not_le.1 hb))
    have : pow2 (e - 52) / 2 = 1 / 2 ^ 1075 := by
      rw [hee, pow2_eq]
      norm_num
    rw [← this]
    exact hc'

/-- The error of a rounding to binary64 is at most half a unit in the last
place: `2 ^ (-53)` of the magnitude, or `2 ^ (-1075)` below `2 ^ (-1022)`. -/
theorem roundDouble_close (x y : ℚ) (hy : roundDouble x = .finite y) :
    abs (y - x) ≤ abs x / 2 ^ 53 ∨ abs (y - x) ≤ 1 / 2 ^ 1075 := by
  unfold roundDouble at hy
  by_cases hx : x = 0
  · rw [if_pos hx] at hy
    injection hy with hy
    left
    rw [← hy, hx]
    simp
  · rw [if_neg hx] at hy
    have hpos : 0 < abs x := abs_pos.2 hx
    have hm := roundMagnitude_close (abs x) hpos
    split_ifs at hy with h1 h2
    · injection hy with hy
      have hax : abs x = -x := abs_of_neg h2
      have hyx : abs (y - x) = abs (roundMagnitude (abs x) - abs x) := by
        rw [← hy, ← abs_neg]
        congr 1
        rw [hax]
        ring
      rw [hyx]
      exact hm
    · injection hy with hy
      have hax : abs x = x := abs_of_nonneg (not_lt.1 h2)
      have hyx : abs (y - x) = abs (roundMagnitude (abs x) - abs x) := by
        rw [← hy, hax]
      rw [hyx]
      exact hm

/-- An integer of magnitude at most `2 ^ 53` is a binary64 value. -/
theorem roundMagnitude_nat (n : Nat) (hn : 0 < n) (h53 : n ≤ 2 ^ 53) :
    roundMagnitude (n : ℚ) = n := by
  unfold roundMagnitude
  simp only
  have hq : (0 : ℚ) < n := by exact_mod_cast hn
  have hle := binaryExponent_le (n : ℚ) hq
  have hlt : binaryExponent (n : ℚ) < 54 := by
    rw [← pow2_lt_iff]
    have : pow2 54 = ((2 ^ 54 : ℕ) : ℚ) := by rw [pow2_eq]; norm_num
    rw [this]
    have h54 : (n : ℚ) < ((2 ^ 54 : ℕ) : ℚ) := by
      have : n < 2 ^ 54 := by omega
      exact_mod_cast this
    exact lt_of_le_of_lt hle h54
  set e := max (binaryExponent (n : ℚ)) (-1022) with he
  have he53 : e ≤ 53 := by
    rw [he]
    apply max_le <;> omega
  have hu : 0 < pow2 (e - 52) := pow2_pos _
  by_cases h52 : e ≤ 52
  · have hk : ∃ k : ℕ, pow2 (e - 52) = 1 / (2 ^ k : ℚ) := by
      refine ⟨(52 - e).toNat, ?_⟩
      rw [pow2_eq, one_div, ← zpow_natCast, ← zpow_neg]
      congr 1
      omega
    obtain ⟨k, hk⟩ := hk
    rw [hk]
    have : (n : ℚ) / (1 / 2 ^ k) = ((n * 2 ^ k : ℕ) : ℤ) := by
      push_cast
      field_simp
    rw [this, roundHalfEven_int]
    push_cast
    field_simp
  · have h53' : e = 53 := by omega
    have hb : binaryExponent (n : ℚ) = 53 := by
      rw [he] at h53'
      rcases max_choice (binaryExponent (n : ℚ)) (-1022) with hc | hc
      · rw [hc] at h53'
        exact h53'
      · rw [hc] at h53'
        omega
    rw [hb] at hle
    have hp : pow2 53 = ((2 ^ 53 : ℕ) : ℚ) := by rw [pow2_eq]; norm_num
    rw [hp] at hle
    have hn53 : n = 2 ^ 53 := by
      have : 2 ^ 53 ≤ n := by exact_mod_cast hle
      omega
    rw [h53', hn53]
    have h1 : pow2 (53 - 52) = 2 := by rw [pow2_eq]; norm_num
    rw [h1]
    have : ((2 ^ 53 : ℕ) : ℚ) / 2 = ((2 ^ 52 : ℕ) : ℤ) := by norm_num
    rw [this, roundHalfEven_int]
    norm_num

/-- An integer of magnitude at most `2 ^ 53` is a binary64 value. -/
theorem roundDouble_int (n : Int) (h53 : n.natAbs ≤ 2 ^ 53) :
    roundDouble (n : ℚ) = .finite n := by
  unfold roundDouble
  by_cases h0 : n = 0
  · subst h0
    simp
  · have hne : (n : ℚ) ≠ 0 := by exact_mod_cast h0
    rw [if_neg hne]
    have habs : abs (n : ℚ) = ((n.natAbs : ℕ) : ℚ) := by
      rw [← Int.cast_abs, Int.abs_eq_natAbs]
      rfl
    have hm := roundMagnitude_nat n.natAbs (Int.natAbs_pos.2 h0) h53
    rw [habs, hm]
    have hbig : ¬ pow2 1024 ≤ ((n.natAbs : ℕ) : ℚ) := by
      rw [not_le, pow2_eq]
      have h1 : ((n.natAbs : ℕ) : ℚ) ≤ ((2 ^ 53 : ℕ) : ℚ) := by exact_mod_cast h53
      have h2 : ((2 ^ 53 : ℕ) : ℚ) < (2 : ℚ) ^ (1024 : ℤ) := by norm_num
      exact lt_of_le_of_lt h1 h2
    rw [if_neg hbig]
    congr 1
    by_cases hneg : (n : ℚ) < 0
    · rw [if_pos hneg, ← habs, abs_of_neg hneg, neg_neg]
    · rw [if_neg hneg, ← habs, abs_of_nonneg (not_lt.1 hneg)]

/-! ## Calendar lemmas -/

theorem leap_chain (b : Int) :
    (b + 68) / 100 = (b / 4 + 17) / 25 ∧ (b + 368) / 400 = ((b / 4 + 17) / 25 + 3) / 4 := by
  omega

theorem DayFromYear_bounds (y : Int) :
    146097 * (y - 1970) - 700 ≤ 400 * DayFromYear y ∧
    400 * DayFromYear y ≤ 146097 * (y - 1970) + 700 := by
  unfold DayFromYear
  have h := leap_chain (y - 1969)
  have e1 : y - 1969 + 68 = y - 1901 := by ring
  have e2 : y - 1969 + 368 = y - 1601 := by ring
  rw [e1, e2] at h
  omega

theorem DayFromYear_succ (y : Int) : DayFromYear (y + 1) = DayFromYear y + DaysInYear y := by
  unfold DayFromYear DaysInYear
  split_ifs <;> omega

theorem DaysInYear_range (y : Int) : DaysInYear y = 365 ∨ DaysInYear y = 366 := by
  unfold DaysInYear
  split_ifs <;> simp

theorem yearFromDay_spec (d : Int) :
    DayFromYear (yearFromDay d) ≤ d ∧ d < DayFromYear (yearFromDay d + 1) := by
  unfold yearFromDay
  simp only
  generalize hy : 1970 + d * 400 / 146097 = y
  have hb := DayFromYear_bounds y
  have hb1 := DayFromYear_bounds (y - 1)
  have hb2 := DayFromYear_bounds (y + 2)
  have hs1 := DayFromYear_succ (y - 1)
  have hs2 := DayFromYear_succ y
  have hs3 := DayFromYear_succ (y + 1)
  have e1 : y - 1 + 1 = y := by ring
  have e2 : y + 1 + 1 = y + 2 := by ring
  rw [e1] at hs1
  rw [e2] at hs3
  split_ifs with h1 h2
  · rw [e1]; omega
  · rw [e2]; omega
  · omega
theorem monthOfDay_spec (d l m : Int) (hm : monthOfDay d l = m) :
    0 ≤ m ∧ m ≤ 11 ∧ monthStart l m = d - dateOfDay d l m + 1 := by
  unfold monthOfDay at hm
  by_cases h1 : d < 31
  · rw [if_pos h1] at hm; subst hm
    exact ⟨by omega, by omega, show (0 : Int) = d - (d + 1) + 1 by omega⟩
  rw [if_neg h1] at hm
  by_cases h2 : d < 59 + l
  · rw [if_pos h2] at hm; subst hm
    exact ⟨by omega, by omega, show (31 : Int) = d - (d - 30) + 1 by omega⟩
  rw [if_neg h2] at hm
  by_cases h3 : d < 90 + l
  · rw [if_pos h3] at hm; subst hm
    exact ⟨by omega, by omega, show 59 + l = d - (d - 58 - l) + 1 by omega⟩
  rw [if_neg h3] at hm
  by_cases h4 : d < 120 + l
  · rw [if_pos h4] at hm; subst hm
    exact ⟨by omega, by omega, show 90 + l = d - (d - 89 - l) + 1 by omega⟩
  rw [if_neg h4] at hm
  by_cases h5 : d < 151 + l
  · rw [if_pos h5] at hm; subst hm
    exact ⟨by omega, by omega, show 120 + l = d - (d - 119 - l) + 1 by omega⟩
  rw [if_neg h5] at hm
  by_cases h6 : d < 181 + l
  · rw [if_pos h6] at hm; subst hm
    exact ⟨by omega, by omega, show 151 + l = d - (d - 150 - l) + 1 by omega⟩
  rw [if_neg h6] at hm
  by_cases h7 : d < 212 + l
  · rw [if_pos h7] at hm; subst hm
    exact ⟨by omega, by omega, show 181 + l = d - (d - 180 - l) + 1 by omega⟩
  rw [if_neg h7] at hm
  by_cases h8 : d < 243 + l
  · rw [if_pos h8] at hm; subst hm
    exact ⟨by omega, by omega, show 212 + l = d - (d - 211 - l) + 1 by omega⟩
  rw [if_neg h8] at hm
  by_cases h9 : d < 273 + l
  · rw [if_pos h9] at hm; subst hm
    exact ⟨by omega, by omega, show 243 + l = d - (d - 242 - l) + 1 by omega⟩
  rw [if_neg h9] at hm
  by_cases h10 : d < 304 + l
  · rw [if_pos h10] at hm; subst hm
    exact ⟨by omega, by omega, show 273 + l = d - (d - 272 - l) + 1 by omega⟩
  rw [if_neg h10] at hm
  by_cases h11 : d < 334 + l
  · rw [if_pos h11] at hm; subst hm
    exact ⟨by omega, by omega, show 304 + l = d - (d - 303 - l) + 1 by omega⟩
  rw [if_neg h11] at hm; subst hm
  exact ⟨by omega, by omega, show 334 + l = d - (d - 333 - l) + 1 by omega⟩

theorem MakeDay_of_time (t dt : Int) :
    MakeDay (YearFromTime t) (MonthFromTime t) dt = Day t - DateFromTime t + dt := by
  obtain ⟨h0, h11, hs⟩ := monthOfDay_spec (DayWithinYear t) (InLeapYear t) _ rfl
  unfold MakeDay DateFromTime MonthFromTime
  have h1 : monthOfDay (DayWithinYear t) (InLeapYear t) / 12 = 0 := by omega
  have h2 : monthOfDay (DayWithinYear t) (InLeapYear t) % 12
      = monthOfDay (DayWithinYear t) (InLeapYear t) := by omega
  simp only [h1, h2, add_zero]
  have hl : (if DaysInYear (YearFromTime t) = 366 then (1:Int) else 0) = InLeapYear t := rfl
  rw [hl, hs]
  unfold DayWithinYear
  omega

theorem setDate_eq (h : Host) (t dt : Int) :
    setDate h t dt = t + (dt - getDate h t) * msPerDay := by
  unfold setDate getDate UTC MakeDate
  simp only [MakeDay_of_time]
  unfold Day TimeWithinDay LocalTime msPerDay
  omega

theorem weekStart_eq (h : Host) (t : Int) :
    weekStart h t = t - ((getDay h t + 6) % 7) * msPerDay := by
  unfold weekStart
  simp only [setDate_eq]
  have hw : 0 ≤ getDay h t ∧ getDay h t < 7 := by
    unfold getDay WeekDay; omega
  unfold msPerDay
  split_ifs <;> omega

theorem getDay_weekStart (h : Host) (t : Int) : getDay h (weekStart h t) = 1 := by
  rw [weekStart_eq]
  unfold getDay WeekDay LocalTime Day msPerDay
  omega

theorem DayFromYear_mono (a b : Int) (hab : a ≤ b) : DayFromYear a ≤ DayFromYear b := by
  unfold DayFromYear
  omega

theorem yearFromDay_unique (d y : Int) (h1 : DayFromYear y ≤ d) (h2 : d < DayFromYear (y + 1)) :
    yearFromDay d = y := by
  obtain ⟨h3, h4⟩ := yearFromDay_spec d
  by_contra hne
  rcases lt_or_gt_of_ne hne with hlt | hgt
  · have := DayFromYear_mono (yearFromDay d + 1) y (by omega)
    omega
  · have := DayFromYear_mono (y + 1) (yearFromDay d) (by omega)
    omega

theorem monthStart_table (l mn : Int) (hl : l = 0 ∨ l = 1) (h0 : 0 ≤ mn) (h11 : mn ≤ 11) :
    0 ≤ monthStart l mn ∧ monthStart l mn ≤ 334 + l ∧
    monthOfDay (monthStart l mn) l = mn ∧ dateOfDay (monthStart l mn) l mn = 1 := by
  rcases hl with rfl | rfl <;> interval_cases mn <;> decide

/-- The day computed by `MakeDay` for day 1 of a month lies in the year
`year + floor(month / 12)`, in the month `month modulo 12`, and is day 1 of that
month, as ECMA-262 describes `MakeDay`. -/
theorem MakeDay_first (year month : Int) :
    YearFromTime (MakeDate (MakeDay year month 1) 0) = year + month / 12 ∧
    MonthFromTime (MakeDate (MakeDay year month 1) 0) = month % 12 ∧
    DateFromTime (MakeDate (MakeDay year month 1) 0) = 1 := by
  have hday : ∀ n : Int, Day (MakeDate n 0) = n := by
    intro n; unfold Day MakeDate msPerDay; omega
  set ym := year + month / 12 with hym
  set mn := month % 12 with hmn
  have hmn_range : 0 ≤ mn ∧ mn ≤ 11 := by omega
  set l : Int := if DaysInYear ym = 366 then 1 else 0 with hl
  have hl_cases : l = 0 ∨ l = 1 := by rw [hl]; split_ifs <;> simp
  have hmd : MakeDay year month 1 = DayFromYear ym + monthStart l mn := by
    unfold MakeDay; simp only [← hym, ← hmn, ← hl]; ring
  obtain ⟨hs0, hs1, hmo, hda⟩ := monthStart_table l mn hl_cases hmn_range.1 hmn_range.2
  have hdiy : DaysInYear ym = 365 + l := by
    rw [hl]; rcases DaysInYear_range ym with h | h <;> simp [h]
  have hsucc := DayFromYear_succ ym
  have hyear : YearFromTime (MakeDate (MakeDay year month 1) 0) = ym := by
    unfold YearFromTime
    rw [hday, hmd]
    exact yearFromDay_unique _ _ (by omega) (by omega)
  have hleap : InLeapYear (MakeDate (MakeDay year month 1) 0) = l := by
    unfold InLeapYear; rw [hyear]
  have hdwy : DayWithinYear (MakeDate (MakeDay year month 1) 0) = monthStart l mn := by
    unfold DayWithinYear; rw [hyear, hday, hmd]; ring
  have hmonth : MonthFromTime (MakeDate (MakeDay year month 1) 0) = mn := by
    unfold MonthFromTime; rw [hdwy, hleap, hmo]
  refine ⟨hyear, hmonth, ?_⟩
  unfold DateFromTime
  rw [hdwy, hleap, hmonth, hda]

/-- The calendar fields of a time value give back its day number: the ISO date
printed for a time value determines its day. -/
theorem MakeDay_fields (t : Int) :
    MakeDay (YearFromTime t) (MonthFromTime t) (DateFromTime t) = Day t := by
  rw [MakeDay_of_time]; ring

/-- The calendar on known dates: the epoch is Thursday 1970-01-01, and day
20094 is Monday 2025-01-06. -/
theorem calendar_examples :
    (YearFromTime 0, MonthFromTime 0, DateFromTime 0, WeekDay 0) = (1970, 0, 1, 4) ∧
    MakeDay 2025 0 6 = 20094 ∧
    (YearFromTime (MakeDate 20094 0), MonthFromTime (MakeDate 20094 0),
      DateFromTime (MakeDate 20094 0), WeekDay (MakeDate 20094 0)) = (2025, 0, 6, 1) ∧
    MakeDay 2025 12 45 = MakeDay 2026 1 14 := by
  decide

/-! ## Dictionaries -/

section dict
variable {κ α β : Type} [DecidableEq κ]

theorem dictGet_upsert (k k' : κ) (i : α) (f : α → α) (l : List (κ × α)) :
    dictGet k' (upsert k i f l) =
      if k' = k then some (f ((dictGet k l).getD i)) else dictGet k' l := by
  induction l with
  | nil =>
    by_cases h : k' = k
    · subst h; simp [upsert, dictGet]
    · have h' : ¬ k = k' := fun e => h e.symm
      simp [upsert, dictGet, h, h']
  | cons p rest ih =>
    obtain ⟨k0, v0⟩ := p
    by_cases h0 : k0 = k
    · subst h0
      by_cases h : k' = k0
      · subst h; simp [upsert, dictGet]
      · have h' : ¬ k0 = k' := fun e => h e.symm
        simp [upsert, dictGet, h, h']
    · by_cases h : k' = k
      · subst h
        simp [upsert, dictGet, h0, ih]
      · by_cases h1 : k0 = k'
        · simp [upsert, dictGet, h0, h, h1]
        · simp [upsert, dictGet, h0, h, h1, ih]

theorem keys_upsert (k : κ) (i : α) (f : α → α) (l : List (κ × α)) :
    (upsert k i f l).map Prod.fst =
      if k ∈ l.map Prod.fst then l.map Prod.fst else l.map Prod.fst ++ [k] := by
  induction l with
  | nil => simp [upsert]
  | cons p rest ih =>
    obtain ⟨k0, v0⟩ := p
    by_cases h0 : k0 = k
    · subst h0; simp [upsert]
    · have h0' : ¬ k = k0 := fun e => h0 e.symm
      by_cases hm : k ∈ rest.map Prod.fst
      · simp only [upsert, h0, if_false, List.map_cons, ih, hm, if_true, List.mem_cons, or_true]
      · simp only [upsert, h0, if_false, List.map_cons, ih, hm, List.mem_cons, h0', or_self,
          List.cons_append]

theorem nodup_keys_upsert (k : κ) (i : α) (f : α → α) (l : List (κ × α))
    (hl : (l.map Prod.fst).Nodup) : ((upsert k i f l).map Prod.fst).Nodup := by
  rw [keys_upsert]
  split_ifs with h
  · exact hl
  · exact List.Nodup.append hl (List.nodup_singleton k) (by simpa using h)

theorem mem_iff_dictGet (l : List (κ × α)) (hl : (l.map Prod.fst).Nodup) (k : κ) (v : α) :
    (k, v) ∈ l ↔ dictGet k l = some v := by
  induction l with
  | nil => simp [dictGet]
  | cons p rest ih =>
    obtain ⟨k0, v0⟩ := p
    simp only [List.map_cons, List.nodup_cons] at hl
    by_cases h0 : k0 = k
    · subst h0
      have : ∀ v, (k0, v) ∉ rest := fun v hv => hl.1 (List.mem_map_of_mem Prod.fst hv)
      simp [dictGet, this]
      exact eq_comm
    · have h0' : ¬ k = k0 := fun e => h0 e.symm
      simp [dictGet, h0, h0', ih hl.2]

theorem dictGet_isSome_iff (l : List (κ × α)) (k : κ) :
    (dictGet k l).isSome ↔ k ∈ l.map Prod.fst := by
  induction l with
  | nil => simp [dictGet]
  | cons p rest ih =>
    obtain ⟨k0, v0⟩ := p
    by_cases h0 : k0 = k
    · subst h0; simp [dictGet]
    · have h0' : ¬ k = k0 := fun e => h0 e.symm
      simp [dictGet, h0, h0', ih]

theorem groupFold_append (init : κ → α) (step : β → α → α) (ps : List (κ × β)) (p : κ × β) :
    groupFold init step (ps ++ [p]) = upsert p.1 (init p.1) (step p.2) (groupFold init step ps) := by
  simp [groupFold, List.foldl_append]

theorem nodup_keys_groupFold (init : κ → α) (step : β → α → α) (ps : List (κ × β)) :
    ((groupFold init step ps).map Prod.fst).Nodup := by
  induction ps using List.reverseRecOn with
  | nil => simp [groupFold]
  | append_singleton ps p ih =>
    rw [groupFold_append]
    exact nodup_keys_upsert _ _ _ _ ih

theorem dictGet_groupFold (init : κ → α) (step : β → α → α) (ps : List (κ × β)) (k : κ) :
    dictGet k (groupFold init step ps) =
      if k ∈ ps.map Prod.fst then
        some (((ps.filter fun p => p.1 = k).map Prod.snd).foldl (fun v x => step x v) (init k))
      else none := by
  induction ps using List.reverseRecOn with
  | nil => simp [groupFold, dictGet]
  | append_singleton ps p ih =>
    rw [groupFold_append, dictGet_upsert]
    by_cases h : k = p.1
    · subst h
      rw [ih]
      by_cases hm : p.1 ∈ ps.map Prod.fst
      · simp [hm, List.filter_append, List.foldl_append]
      · have hf : (ps.filter fun q => q.1 = p.1) = [] := by
          rw [List.filter_eq_nil_iff]
          intro q hq hqk
          exact hm (by simpa using ⟨q.2, by simpa [← (of_decide_eq_true hqk)] using hq⟩)
        simp [hm, List.filter_append, hf]
    · have h' : ¬ p.1 = k := fun e => h e.symm
      rw [if_neg h, ih]
      have hmem : k ∈ List.map Prod.fst (ps ++ [p]) ↔ k ∈ List.map Prod.fst ps := by
        simp [h]
      simp only [hmem, List.filter_append]
      simp [h']

theorem mem_groupFold (init : κ → α) (step : β → α → α) (ps : List (κ × β)) (k : κ) (v : α) :
    (k, v) ∈ groupFold init step ps ↔
      k ∈ ps.map Prod.fst ∧
      v = ((ps.filter fun p => p.1 = k).map Prod.snd).foldl (fun v x => step x v) (init k) := by
  rw [mem_iff_dictGet _ (nodup_keys_groupFold init step ps), dictGet_groupFold]
  split_ifs with h
  · simp [h, eq_comm]
  · simp [h]

end dict

/-! ## The `forEach` loops as dictionary folds -/

section forEach
variable {κ α β γ : Type} [DecidableEq κ]

theorem foldlM_run (init : κ → α) (step : β → α → α) (act : γ → Action κ β) (xs : List γ) :
    xs.foldlM (fun acc x => (act x).run init step acc) [] =
      if xs.any (fun x => (act x).raises) then Except.error JSError.typeError
      else Except.ok (groupFold init step (xs.filterMap fun x => (act x).item)) := by
  induction xs using List.reverseRecOn with
  | nil => simp [groupFold]; rfl
  | append_singleton xs x ih =>
    rw [List.foldlM_append, ih]
    by_cases hr : xs.any (fun x => (act x).raises) = true
    · simp only [hr, if_true, List.any_append, Bool.true_or]
      rfl
    · simp only [hr, List.any_append, Bool.false_or, List.any_cons, List.any_nil, Bool.or_false]
      cases hx : act x with
      | raise => simp [Action.raises, Action.run, hx, List.foldlM, bind, Except.bind]
      | skip =>
        simp [Action.raises, Action.run, hx, List.foldlM, bind, Except.bind, List.filterMap_append,
          Action.item, pure, Except.pure]
      | put k b =>
        simp [Action.raises, Action.run, hx, List.foldlM, bind, Except.bind, List.filterMap_append,
          Action.item, pure, Except.pure, groupFold_append]

end forEach

theorem weeklyEntry_eq (h : Host) (acc : List (Int × WeekGroup)) (e : Entry) :
    weeklyEntry h acc e = (weeklyAction h e).run newWeekGroup addToWeek acc := by
  unfold weeklyEntry weeklyAction
  cases parseEntryDate h e.DateOfService <;> rfl

theorem journeyEntry_eq (h : Host) (acc : List (String × Journey)) (e : Entry) :
    journeyEntry h acc e =
      (journeyAction h e).run newJourney (fun p j => addToJourney p.1 p.2 j) acc := by
  unfold journeyEntry journeyAction
  simp only
  split_ifs <;> first | rfl | (cases parseEntryDate h e.DateOfService <;> rfl)

theorem weeklyGroups_eq (h : Host) (rs : List Entry) :
    weeklyGroups h rs =
      if rs.any (fun r => (weeklyAction h r).raises) then Except.error JSError.typeError
      else Except.ok (groupFold newWeekGroup addToWeek (rs.filterMap fun r => (weeklyAction h r).item)) := by
  unfold weeklyGroups
  have : weeklyEntry h = fun acc e => (weeklyAction h e).run newWeekGroup addToWeek acc := by
    funext acc e; exact weeklyEntry_eq h acc e
  rw [this]
  exact foldlM_run _ _ _ _

theorem clientJourneys_eq (h : Host) (rs : List Entry) :
    clientJourneys h rs =
      if rs.any (fun r => (journeyAction h r).raises) then Except.error JSError.typeError
      else Except.ok (groupFold newJourney (fun p j => addToJourney p.1 p.2 j)
        (rs.filterMap fun r => (journeyAction h r).item)) := by
  unfold clientJourneys
  have : journeyEntry h = fun acc e =>
      (journeyAction h e).run newJourney (fun p j => addToJourney p.1 p.2 j) acc := by
    funext acc e; exact journeyEntry_eq h acc e
  rw [this]
  exact foldlM_run _ _ _ _


/-! ## Weekly groups -/

theorem weeklyAction_item (h : Host) (r : Entry) :
    (weeklyAction h r).item = (entryWeek h r).map fun k => (k, r) := by
  unfold weeklyAction entryWeek validDate
  cases parseEntryDate h r.DateOfService <;> rfl

theorem weeklyAction_raises (h : Host) (r : Entry) :
    (weeklyAction h r).raises = true ↔ parseEntryDate h r.DateOfService = .undefined := by
  unfold weeklyAction
  cases parseEntryDate h r.DateOfService <;> simp [Action.raises]

theorem weekPairs_keys (h : Host) (rs : List Entry) (k : Int) :
    k ∈ (rs.filterMap fun r => (weeklyAction h r).item).map Prod.fst ↔
      ∃ r ∈ rs, entryWeek h r = some k := by
  simp only [List.mem_map, List.mem_filterMap, weeklyAction_item]
  constructor
  · rintro ⟨p, ⟨r, hr, hp⟩, rfl⟩
    refine ⟨r, hr, ?_⟩
    cases hw : entryWeek h r with
    | none => simp [hw] at hp
    | some k' => simp [hw] at hp; subst hp; rfl
  · rintro ⟨r, hr, hk⟩
    exact ⟨(k, r), ⟨r, hr, by simp [hk]⟩, rfl⟩

theorem weekPairs_filter (h : Host) (rs : List Entry) (k : Int) :
    ((rs.filterMap fun r => (weeklyAction h r).item).filter fun p => p.1 = k).map Prod.snd
      = weekEntries h rs k := by
  unfold weekEntries
  induction rs with
  | nil => rfl
  | cons r rs ih =>
    simp only [List.filterMap_cons, weeklyAction_item]
    cases hw : entryWeek h r with
    | none =>
      simp only [Option.map_none', List.filter_cons, hw]
      simpa [weeklyAction_item] using ih
    | some k' =>
      simp only [Option.map_some', List.filter_cons, hw]
      by_cases hk : k' = k
      · simp only [hk, decide_True, if_true, List.map_cons]
        rw [← ih]; simp [weeklyAction_item]
      · have : ¬ (some k' = some k) := by simpa using hk
        simp only [hk, this, decide_False, if_false, Bool.false_eq_true]
        rw [← ih]; simp [weeklyAction_item]

/-- The accumulator of a week after its entries `es`. -/
theorem weekFold_fields (k : Int) (es : List Entry) :
    let g := es.foldl (fun g r => addToWeek r g) (newWeekGroup k)
    g.week = k ∧
    g.agreedRevenue = (es.map fun r => orZero r.ClientChargesAgreedTotal).sum ∧
    g.totalUnits = (es.map fun r => orZero r.UnitsOfService).sum ∧
    g.totalHours = ((es.filter fun r => orZero r.ClientChargesAgreedTotal > 0).map
        fun r => orZero r.TimeWorkedInHours).sum ∧
    g.sessionCount = es.length ∧
    g.uniqueClients.Nodup ∧
    ∀ n, n ∈ g.uniqueClients ↔
      ∃ r ∈ es, r.ClientName = n ∧ r.ClientName ≠ "" ∧ r.ProcedureCode = "97153" := by
  induction es using List.reverseRecOn with
  | nil => simp [newWeekGroup]
  | append_singleton es r ih =>
    simp only [List.foldl_append, List.foldl_cons, List.foldl_nil] at ih ⊢
    obtain ⟨h1, h2, h3, h4, h5, h6, h7⟩ := ih
    generalize es.foldl (fun g r => addToWeek r g) (newWeekGroup k) = g at *
    refine ⟨?_, ?_, ?_, ?_, ?_, ?_, ?_⟩
    · simpa [addToWeek] using h1
    · simp [addToWeek, h2]
    · simp [addToWeek, h3]
    · by_cases hc : orZero r.ClientChargesAgreedTotal > 0
      · simp [addToWeek, h4, hc, List.filter_append]
      · simp [addToWeek, h4, hc, List.filter_append]
    · simp [addToWeek, h5]
    · by_cases hc : r.ClientName ≠ "" ∧ r.ProcedureCode = "97153"
      · simp only [addToWeek, hc, and_self, if_true, setAdd, ne_eq, not_false_eq_true]
        split_ifs with hm
        · exact h6
        · exact List.Nodup.append h6 (List.nodup_singleton _) (by simpa using hm)
      · simp only [addToWeek, hc, if_false]
        exact h6
    · intro n
      by_cases hc : r.ClientName ≠ "" ∧ r.ProcedureCode = "97153"
      · simp only [addToWeek, hc, and_self, if_true, setAdd, ne_eq, not_false_eq_true]
        split_ifs with hm
        · rw [h7]
          constructor
          · rintro ⟨r', hr', hn⟩
            exact ⟨r', by simp [hr'], hn⟩
          · rintro ⟨r', hr', hn⟩
            rcases List.mem_append.1 hr' with hr' | hr'
            · exact ⟨r', hr', hn⟩
            · have : r' = r := by simpa using hr'
              subst this
              rw [← hn.1]
              exact (h7 _).1 hm
        · simp only [List.mem_append, List.mem_singleton, h7]
          constructor
          · rintro (⟨r', hr', hn⟩ | hn)
            · exact ⟨r', Or.inl hr', hn⟩
            · exact ⟨r, Or.inr rfl, hn.symm, hc⟩
          · rintro ⟨r', hr' | hr', hn⟩
            · exact Or.inl ⟨r', hr', hn⟩
            · subst hr'; exact Or.inr hn.1.symm
      · simp only [addToWeek, hc, if_false, h7]
        constructor
        · rintro ⟨r', hr', hn⟩
          exact ⟨r', by simp [hr'], hn⟩
        · rintro ⟨r', hr', hn⟩
          rcases List.mem_append.1 hr' with hr' | hr'
          · exact ⟨r', hr', hn⟩
          · have : r' = r := by simpa using hr'
            subst this
            exact absurd hn.2 hc


/-! ## Structure of `weeklyData` -/

theorem weeklyData_eq (h : Host) (rs : List Entry) :
    weeklyData h rs =
      if rs.any (fun r => (weeklyAction h r).raises) then Except.error JSError.typeError
      else Except.ok ((weekRows h rs).enum.map fun p => withChanges (weekRows h rs) p.1 p.2) := by
  unfold weeklyData
  by_cases h0 : rs.length = 0
  · have : rs = [] := List.length_eq_zero.1 h0
    subst this
    simp [weekRows, groupFold, jsSort]
  · rw [if_neg h0, weeklyGroups_eq]
    split_ifs <;> rfl

theorem compareWeeks_le (a b : WeekRow) : compareWeeks a b ≤ 0 ↔ a.week ≤ b.week := by
  unfold compareWeeks MakeDate msPerDay
  omega

theorem jsSort_perm {α : Type} (cmp : α → α → Int) (xs : List α) :
    (jsSort cmp xs).Perm xs :=
  List.perm_insertionSort _ xs

theorem mem_jsSort {α : Type} (cmp : α → α → Int) (xs : List α) (x : α) :
    x ∈ jsSort cmp xs ↔ x ∈ xs :=
  (jsSort_perm cmp xs).mem_iff

/-- A sort by an integer key leaves the keys in non-decreasing order. -/
theorem jsSort_sorted {α : Type} (cmp : α → α → Int) (key : α → Int)
    (hk : ∀ a b, cmp a b ≤ 0 ↔ key a ≤ key b) (xs : List α) :
    (jsSort cmp xs).Pairwise (fun a b => key a ≤ key b) := by
  unfold jsSort
  haveI : IsTotal α (fun a b => cmp a b ≤ 0) :=
    ⟨fun a b => (le_total (key a) (key b)).imp (hk a b).2 (hk b a).2⟩
  haveI : IsTrans α (fun a b => cmp a b ≤ 0) :=
    ⟨fun a b c h1 h2 => (hk a c).2 (le_trans ((hk a b).1 h1) ((hk b c).1 h2))⟩
  exact (List.sorted_insertionSort (fun a b => cmp a b ≤ 0) xs).imp (fun hab => (hk _ _).1 hab)

theorem toWeekRow_week (g : WeekGroup) : (toWeekRow g).week = g.week := rfl

theorem mem_weekGroups (h : Host) (rs : List Entry) (k : Int) (g : WeekGroup) :
    (k, g) ∈ groupFold newWeekGroup addToWeek (rs.filterMap fun r => (weeklyAction h r).item) ↔
      (∃ r ∈ rs, entryWeek h r = some k) ∧ g = weekGroupOf h rs k := by
  rw [mem_groupFold, weekPairs_keys, weekPairs_filter]
  rfl

theorem weekGroupOf_week (h : Host) (rs : List Entry) (k : Int) :
    (weekGroupOf h rs k).week = k :=
  (weekFold_fields k (weekEntries h rs k)).1

theorem mem_weekRows (h : Host) (rs : List Entry) (row : WeekRow) :
    row ∈ weekRows h rs ↔
      ∃ k, (∃ r ∈ rs, entryWeek h r = some k) ∧ row = toWeekRow (weekGroupOf h rs k) := by
  unfold weekRows
  rw [mem_jsSort]
  simp only [List.mem_map]
  constructor
  · rintro ⟨g, ⟨⟨k, g'⟩, hm, rfl⟩, rfl⟩
    obtain ⟨hk, hg⟩ := (mem_weekGroups h rs k g').1 hm
    exact ⟨k, hk, by rw [hg]⟩
  · rintro ⟨k, hk, rfl⟩
    exact ⟨weekGroupOf h rs k, ⟨(k, weekGroupOf h rs k), (mem_weekGroups h rs k _).2 ⟨hk, rfl⟩, rfl⟩, rfl⟩

theorem weekRows_keys_nodup (h : Host) (rs : List Entry) :
    ((weekRows h rs).map fun row => row.week).Nodup := by
  have hp : ((weekRows h rs).map fun row => row.week).Perm
      ((groupFold newWeekGroup addToWeek
        (rs.filterMap fun r => (weeklyAction h r).item)).map Prod.fst) := by
    unfold weekRows
    refine ((jsSort_perm _ _).map _).trans ?_
    rw [List.map_map, List.map_map]
    apply List.Perm.of_eq
    apply List.map_congr_left
    rintro ⟨k, g⟩ hm
    obtain ⟨_, hg⟩ := (mem_weekGroups h rs k g).1 hm
    simp [toWeekRow_week, hg, weekGroupOf_week]
  exact (hp.nodup_iff).2 (nodup_keys_groupFold _ _ _)

theorem weekRows_sorted (h : Host) (rs : List Entry) :
    (weekRows h rs).Pairwise (fun a b => a.week < b.week) := by
  have h1 : (weekRows h rs).Pairwise (fun a b => a.week ≤ b.week) :=
    jsSort_sorted compareWeeks (fun row => row.week) compareWeeks_le _
  have h2 : (weekRows h rs).Pairwise (fun a b => a.week ≠ b.week) := by
    have := weekRows_keys_nodup h rs
    rw [List.Nodup, List.pairwise_map] at this
    exact this
  exact (h1.and h2).imp (fun hab => lt_of_le_of_ne hab.1 hab.2)


theorem weeks_getElem? (arr : List WeekRow) (i : Nat) :
    (arr.enum.map fun p => withChanges arr p.1 p.2)[i]? = arr[i]?.map (withChanges arr i) := by
  rw [List.getElem?_map, List.getElem?_enum]
  cases arr[i]? <;> rfl

theorem mem_weeks (arr : List WeekRow) (w : Week)
    (hw : w ∈ arr.enum.map fun p => withChanges arr p.1 p.2) :
    ∃ i row, arr[i]? = some row ∧ w = withChanges arr i row := by
  obtain ⟨i, hi⟩ := List.getElem?_of_mem hw
  rw [weeks_getElem?] at hi
  cases hr : arr[i]? with
  | none => simp [hr] at hi
  | some row => exact ⟨i, row, hr, by simpa [hr] using hi.symm⟩

theorem weeklyData_ok (h : Host) (rs : List Entry) (weeks : List Week)
    (hok : weeklyData h rs = .ok weeks) :
    (∀ r ∈ rs, parseEntryDate h r.DateOfService ≠ .undefined) ∧
    weeks = (weekRows h rs).enum.map fun p => withChanges (weekRows h rs) p.1 p.2 := by
  rw [weeklyData_eq] at hok
  split_ifs at hok with hr
  refine ⟨?_, ?_⟩
  · intro r hr' hu
    exact hr (List.any_eq_true.2 ⟨r, hr', (weeklyAction_raises h r).2 hu⟩)
  · injection hok with hok; exact hok.symm

theorem weeklyData_returns (h : Host) (rs : List Entry)
    (hdef : ∀ r ∈ rs, parseEntryDate h r.DateOfService ≠ .undefined) :
    ∃ weeks, weeklyData h rs = .ok weeks := by
  rw [weeklyData_eq]
  have : ¬ rs.any (fun r => (weeklyAction h r).raises) = true := by
    intro hr
    obtain ⟨r, hr', hu⟩ := List.any_eq_true.1 hr
    exact hdef r hr' ((weeklyAction_raises h r).1 hu)
  rw [if_neg this]
  exact ⟨_, rfl⟩

/-- Every entry of `weeklyData` is the row of the group of its week. -/
theorem mem_weeklyData (h : Host) (rs : List Entry) (weeks : List Week)
    (hok : weeklyData h rs = .ok weeks) (w : Week) (hw : w ∈ weeks) :
    (∃ r ∈ rs, entryWeek h r = some w.week) ∧
    w.week = (weekGroupOf h rs w.week).week ∧
    w.agreedRevenue = (weekGroupOf h rs w.week).agreedRevenue ∧
    w.totalUnits = (weekGroupOf h rs w.week).totalUnits ∧
    w.totalHours = (weekGroupOf h rs w.week).totalHours ∧
    w.sessionCount = (weekGroupOf h rs w.week).sessionCount ∧
    w.clientCount = (weekGroupOf h rs w.week).uniqueClients.length ∧
    w.avgSessionLength = jsDiv w.totalHours w.sessionCount ∧
    w.avgRevenuePerHour = jsDiv w.agreedRevenue w.totalHours := by
  obtain ⟨_, rfl⟩ := weeklyData_ok h rs weeks hok
  obtain ⟨i, row, hrow, rfl⟩ := mem_weeks _ w hw
  obtain ⟨k, hk, rfl⟩ := (mem_weekRows h rs row).1 (List.mem_iff_getElem?.2 ⟨i, hrow⟩)
  have hkk : (withChanges (weekRows h rs) i (toWeekRow (weekGroupOf h rs k))).week = k :=
    weekGroupOf_week h rs k
  rw [hkk]
  exact ⟨hk, (weekGroupOf_week h rs k).symm, rfl, rfl, rfl, rfl, rfl, rfl, rfl⟩


theorem toFixed1_close (x : ℚ) : |(toFixed1 x).value - x| ≤ 1 / 20 := by
  have h0 : (0 : ℚ) ≤ |x| * 10 + 1 / 2 := by positivity
  have h1 := Nat.floor_le h0
  have h2 := Nat.lt_floor_add_one (|x| * 10 + 1 / 2)
  unfold Fixed1.value toFixed1
  simp only
  generalize (⌊|x| * 10 + 1 / 2⌋₊ : ℚ) = n at h1 h2
  by_cases hx : x < 0
  · rw [abs_of_neg hx] at h1 h2
    simp only [hx, decide_True, if_true]
    rw [abs_le]
    constructor <;> linarith
  · rw [abs_of_nonneg (not_lt.1 hx)] at h1 h2
    simp only [hx, decide_False, Bool.false_eq_true, if_false]
    rw [abs_le]
    constructor <;> linarith

theorem weekGroupOf_fields (h : Host) (rs : List Entry) (k : Int) :
    (weekGroupOf h rs k).week = k ∧
    (weekGroupOf h rs k).agreedRevenue =
      ((weekEntries h rs k).map fun r => orZero r.ClientChargesAgreedTotal).sum ∧
    (weekGroupOf h rs k).totalUnits =
      ((weekEntries h rs k).map fun r => orZero r.UnitsOfService).sum ∧
    (weekGroupOf h rs k).totalHours =
      (((weekEntries h rs k).filter fun r => orZero r.ClientChargesAgreedTotal > 0).map
        fun r => orZero r.TimeWorkedInHours).sum ∧
    (weekGroupOf h rs k).sessionCount = (weekEntries h rs k).length ∧
    (weekGroupOf h rs k).uniqueClients.Nodup ∧
    ∀ n, n ∈ (weekGroupOf h rs k).uniqueClients ↔
      ∃ r ∈ weekEntries h rs k, r.ClientName = n ∧ r.ClientName ≠ "" ∧ r.ProcedureCode = "97153" :=
  weekFold_fields k (weekEntries h rs k)

theorem withChanges_zero (arr : List WeekRow) (row : WeekRow) :
    (withChanges arr 0 row).revenueChange = .zero ∧ (withChanges arr 0 row).hoursChange = .zero :=
  ⟨rfl, rfl⟩

theorem withChanges_succ (arr : List WeekRow) (i : Nat) (prev row : WeekRow)
    (hp : arr[i]? = some prev) :
    (withChanges arr (i + 1) row).revenueChange =
      percentChange row.agreedRevenue prev.agreedRevenue ∧
    (withChanges arr (i + 1) row).hoursChange =
      percentChange row.totalHours prev.totalHours := by
  unfold withChanges
  simp [hp]


section
variable {κ α β : Type} [DecidableEq κ]

theorem sum_upsert (m : α → Nat) (k : κ) (i : α) (f : α → α) (l : List (κ × α))
    (hf : ∀ v, m (f v) = m v + 1) (hi : m i = 0) :
    ((upsert k i f l).map fun p => m p.2).sum = (l.map fun p => m p.2).sum + 1 := by
  induction l with
  | nil => simp [upsert, hf, hi]
  | cons p rest ih =>
    obtain ⟨k0, v0⟩ := p
    by_cases h0 : k0 = k
    · simp [upsert, h0, hf]; omega
    · simp [upsert, h0, ih]; omega

theorem sum_groupFold (m : α → Nat) (init : κ → α) (step : β → α → α)
    (h0 : ∀ k, m (init k) = 0) (h1 : ∀ x v, m (step x v) = m v + 1) (ps : List (κ × β)) :
    ((groupFold init step ps).map fun p => m p.2).sum = ps.length := by
  induction ps using List.reverseRecOn with
  | nil => simp [groupFold]
  | append_singleton ps p ih =>
    rw [groupFold_append, sum_upsert m _ _ _ _ (h1 p.2) (h0 p.1), ih]
    simp
end

theorem weekPairs_length (h : Host) (rs : List Entry) :
    (rs.filterMap fun r => (weeklyAction h r).item).length =
      (rs.filter fun r => (validDate h r).isSome).length := by
  induction rs with
  | nil => rfl
  | cons r rs ih =>
    simp only [List.filterMap_cons, List.filter_cons, weeklyAction_item, entryWeek]
    cases hv : validDate h r with
    | none => simpa [weeklyAction_item, entryWeek] using ih
    | some t => simpa [weeklyAction_item, entryWeek] using ih


/-- A slash-delimited date that does not split into three parts leaves `date`
undefined: `weeklyData` raises a `TypeError`, also for the rows beside it. -/
theorem weeklyData_malformed_date_raises :
    validDate sampleHost malformedEntry = none ∧
    weeklyData sampleHost (sampleData ++ [malformedEntry]) = .error .typeError := by
  decide!

/-! ## Client journeys -/

theorem journeyAction_item (h : Host) (r : Entry) (n : String) (x : Entry × Int) :
    (journeyAction h r).item = some (n, x) ↔
      x.1 = r ∧ r.ClientName = n ∧ n ≠ "" ∧ n ≠ " " ∧ r.ProcedureCode ∈ allCodes ∧
      parseEntryDate h r.DateOfService = .date x.2 := by
  unfold journeyAction
  by_cases h1 : r.ClientName = "" ∨ r.ClientName = " "
  · rw [if_pos h1]
    simp only [Action.item]
    constructor
    · intro hc; simp at hc
    · rintro ⟨_, rfl, h3, h4, _⟩
      rcases h1 with h1 | h1
      · exact absurd h1 h3
      · exact absurd h1 h4
  · rw [if_neg h1]
    by_cases h2 : r.ProcedureCode ∉ allCodes
    · rw [if_pos h2]
      simp only [Action.item]
      constructor
      · intro hc; simp at hc
      · rintro ⟨_, _, _, _, h5, _⟩
        exact absurd h5 h2
    · rw [if_neg h2]
      push_neg at h1 h2
      obtain ⟨x1, x2⟩ := x
      cases hp : parseEntryDate h r.DateOfService with
      | undefined => simp [Action.item]
      | invalid => simp [Action.item]
      | date t =>
        simp only [Action.item, Option.some.injEq, Prod.mk.injEq, DateVar.date.injEq]
        constructor
        · rintro ⟨rfl, rfl, rfl⟩
          exact ⟨rfl, rfl, h1.1, h1.2, h2, rfl⟩
        · rintro ⟨rfl, rfl, _, _, _, rfl⟩
          exact ⟨rfl, rfl, rfl⟩

theorem journeyAction_raises (h : Host) (r : Entry) :
    (journeyAction h r).raises = true →
      parseEntryDate h r.DateOfService = .undefined := by
  unfold journeyAction
  split_ifs <;> cases parseEntryDate h r.DateOfService <;> simp [Action.raises]

theorem mem_clientItems (h : Host) (rs : List Entry) (n : String) (x : Entry × Int) :
    x ∈ clientItems h rs n ↔
      x.1 ∈ rs ∧ x.1.ClientName = n ∧ n ≠ "" ∧ n ≠ " " ∧ x.1.ProcedureCode ∈ allCodes ∧
      parseEntryDate h x.1.DateOfService = .date x.2 := by
  unfold clientItems
  simp only [List.mem_map, List.mem_filter, List.mem_filterMap, decide_eq_true_eq]
  constructor
  · rintro ⟨⟨k, y⟩, ⟨⟨r, hr, hi⟩, hk⟩, rfl⟩
    simp only at hk
    subst hk
    obtain ⟨h1, h2, h3, h4, h5, h6⟩ := (journeyAction_item h r k y).1 hi
    simp only
    rw [h1]
    exact ⟨hr, h2, h3, h4, h5, h6⟩
  · rintro ⟨h1, h2, h3, h4, h5, h6⟩
    exact ⟨(n, x), ⟨⟨x.1, h1, (journeyAction_item h x.1 n x).2 ⟨rfl, h2, h3, h4, h5, h6⟩⟩, rfl⟩, rfl⟩

theorem journeyKeys (h : Host) (rs : List Entry) (n : String) :
    n ∈ (rs.filterMap fun r => (journeyAction h r).item).map Prod.fst ↔
      ∃ x, x ∈ clientItems h rs n := by
  unfold clientItems
  simp only [List.mem_map, List.mem_filter, decide_eq_true_eq]
  constructor
  · rintro ⟨⟨k, y⟩, hm, rfl⟩
    exact ⟨y, ⟨(k, y), ⟨hm, rfl⟩, rfl⟩⟩
  · rintro ⟨y, ⟨⟨k, y'⟩, ⟨hm, hk⟩, rfl⟩⟩
    exact ⟨(k, y'), hm, hk⟩

theorem mem_journeys (h : Host) (rs : List Entry) (n : String) (j : Journey) :
    (n, j) ∈ groupFold newJourney (fun p j => addToJourney p.1 p.2 j)
        (rs.filterMap fun r => (journeyAction h r).item) ↔
      (∃ x, x ∈ clientItems h rs n) ∧ j = journeyOf h rs n := by
  rw [mem_groupFold, journeyKeys]
  rfl

theorem runMin_append (ds : List Int) (d : Int) :
    runMin (ds ++ [d]) = if isEarlier d (runMin ds) then some d else runMin ds := by
  simp [runMin, List.foldl_append]

theorem runMax_append (ds : List Int) (d : Int) :
    runMax (ds ++ [d]) = if isLater d (runMax ds) then some d else runMax ds := by
  simp [runMax, List.foldl_append]

theorem runMin_spec (ds : List Int) :
    (runMin ds = none ↔ ds = []) ∧
    ∀ t, runMin ds = some t → t ∈ ds ∧ ∀ d ∈ ds, t ≤ d := by
  induction ds using List.reverseRecOn with
  | nil => simp [runMin]
  | append_singleton ds d ih =>
    rw [runMin_append]
    cases hm : runMin ds with
    | none =>
      have hnil : ds = [] := ih.1.1 hm
      subst hnil
      simp [isEarlier]
    | some c =>
      obtain ⟨hc1, hc2⟩ := ih.2 c hm
      by_cases hlt : d < c
      · simp only [isEarlier, hlt, decide_True, if_true]
        refine ⟨by simp, ?_⟩
        intro t ht
        injection ht with ht
        subst ht
        refine ⟨by simp, ?_⟩
        intro d' hd'
        rcases List.mem_append.1 hd' with hd' | hd'
        · exact le_of_lt (lt_of_lt_of_le hlt (hc2 d' hd'))
        · simp at hd'; omega
      · simp only [isEarlier, hlt, decide_False, Bool.false_eq_true, if_false]
        refine ⟨by simp, ?_⟩
        intro t ht
        injection ht with ht
        subst ht
        refine ⟨by simp [hc1], ?_⟩
        intro d' hd'
        rcases List.mem_append.1 hd' with hd' | hd'
        · exact hc2 d' hd'
        · simp at hd'; omega

theorem runMax_spec (ds : List Int) :
    (runMax ds = none ↔ ds = []) ∧
    ∀ t, runMax ds = some t → t ∈ ds ∧ ∀ d ∈ ds, d ≤ t := by
  induction ds using List.reverseRecOn with
  | nil => simp [runMax]
  | append_singleton ds d ih =>
    rw [runMax_append]
    cases hm : runMax ds with
    | none =>
      have hnil : ds = [] := ih.1.1 hm
      subst hnil
      simp [isLater]
    | some c =>
      obtain ⟨hc1, hc2⟩ := ih.2 c hm
      by_cases hlt : d > c
      · simp only [isLater, hlt, decide_True, if_true]
        refine ⟨by simp, ?_⟩
        intro t ht
        injection ht with ht
        subst ht
        refine ⟨by simp, ?_⟩
        intro d' hd'
        rcases List.mem_append.1 hd' with hd' | hd'
        · exact le_of_lt (lt_of_le_of_lt (hc2 d' hd') hlt)
        · simp at hd'; omega
      · simp only [isLater, hlt, decide_False, Bool.false_eq_true, if_false]
        refine ⟨by simp, ?_⟩
        intro t ht
        injection ht with ht
        subst ht
        refine ⟨by simp [hc1], ?_⟩
        intro d' hd'
        rcases List.mem_append.1 hd' with hd' | hd'
        · exact hc2 d' hd'
        · simp at hd'; omega

theorem codeDates_append (codes : List String) (items : List (Entry × Int)) (p : Entry × Int) :
    codeDates codes (items ++ [p]) =
      if p.1.ProcedureCode ∈ codes then codeDates codes items ++ [p.2]
      else codeDates codes items := by
  unfold codeDates
  by_cases hc : p.1.ProcedureCode ∈ codes
  · simp [List.filter_append, hc]
  · simp [List.filter_append, hc]

/-- The fields of a journey after the items of its client. -/
theorem journeyFold_fields (n : String) (items : List (Entry × Int)) :
    let j := items.foldl (fun j p => addToJourney p.1 p.2 j) (newJourney n)
    j.name = n ∧
    j.firstPsychDate = runMin (codeDates psychCodes items) ∧
    j.lastPsychDate = runMax (codeDates psychCodes items) ∧
    j.firstABADate = runMin (codeDates abaCodes items) ∧
    j.lastABADate = runMax (codeDates abaCodes items) ∧
    j.psychSessions = (codeDates psychCodes items).length ∧
    j.abaSessions = (codeDates abaCodes items).length ∧
    j.totalRevenue = (items.map fun p => orZero p.1.ClientChargesAgreedTotal).sum ∧
    j.totalHours = (items.map fun p => orZero p.1.TimeWorkedInHours).sum ∧
    j.status = .unknown ∧ j.daysToConversion = none := by
  induction items using List.reverseRecOn with
  | nil => simp [newJourney, codeDates, runMin, runMax]
  | append_singleton items p ih =>
    simp only [List.foldl_append, List.foldl_cons, List.foldl_nil] at ih ⊢
    obtain ⟨h1, h2, h3, h4, h5, h6, h7, h8, h9, h10, h11⟩ := ih
    generalize items.foldl (fun j p => addToJourney p.1 p.2 j) (newJourney n) = j at *
    simp only [codeDates_append]
    by_cases hp : p.1.ProcedureCode ∈ psychCodes <;> by_cases ha : p.1.ProcedureCode ∈ abaCodes <;>
      simp [addToJourney, trackTotals, trackABA, trackPsych, hp, ha, h1, h2, h3, h4, h5, h6, h7,
        h8, h9, h10, h11, runMin_append, runMax_append]


theorem mem_codeDates (codes : List String) (items : List (Entry × Int)) (t : Int) :
    t ∈ codeDates codes items ↔ ∃ p ∈ items, p.1.ProcedureCode ∈ codes ∧ p.2 = t := by
  unfold codeDates
  simp only [List.mem_map, List.mem_filter, decide_eq_true_eq]
  constructor
  · rintro ⟨p, ⟨hp, hc⟩, rfl⟩; exact ⟨p, hp, hc, rfl⟩
  · rintro ⟨p, hp, hc, rfl⟩; exact ⟨p, ⟨hp, hc⟩, rfl⟩

theorem journeyOf_fields (h : Host) (rs : List Entry) (n : String) :
    (journeyOf h rs n).name = n ∧
    (journeyOf h rs n).firstPsychDate = runMin (codeDates psychCodes (clientItems h rs n)) ∧
    (journeyOf h rs n).lastPsychDate = runMax (codeDates psychCodes (clientItems h rs n)) ∧
    (journeyOf h rs n).firstABADate = runMin (codeDates abaCodes (clientItems h rs n)) ∧
    (journeyOf h rs n).lastABADate = runMax (codeDates abaCodes (clientItems h rs n)) ∧
    (journeyOf h rs n).psychSessions = (codeDates psychCodes (clientItems h rs n)).length ∧
    (journeyOf h rs n).abaSessions = (codeDates abaCodes (clientItems h rs n)).length ∧
    (journeyOf h rs n).totalRevenue =
      ((clientItems h rs n).map fun p => orZero p.1.ClientChargesAgreedTotal).sum ∧
    (journeyOf h rs n).totalHours =
      ((clientItems h rs n).map fun p => orZero p.1.TimeWorkedInHours).sum ∧
    (journeyOf h rs n).status = .unknown ∧ (journeyOf h rs n).daysToConversion = none :=
  journeyFold_fields n (clientItems h rs n)

/-- For a client that has a journey, the dates of its items with a code in
`codes` (a part of `allCodes`) are the valid dates of its records with such a
code. -/
theorem mem_codeDates_clientItems (h : Host) (rs : List Entry) (n : String)
    (codes : List String) (hsub : ∀ c ∈ codes, c ∈ allCodes)
    (hex : ∃ x, x ∈ clientItems h rs n) (t : Int) :
    t ∈ codeDates codes (clientItems h rs n) ↔
      ∃ r ∈ rs, r.ClientName = n ∧ r.ProcedureCode ∈ codes ∧
        parseEntryDate h r.DateOfService = .date t := by
  obtain ⟨x, hx⟩ := hex
  obtain ⟨_, _, hn1, hn2, _, _⟩ := (mem_clientItems h rs n x).1 hx
  rw [mem_codeDates]
  constructor
  · rintro ⟨p, hp, hc, rfl⟩
    obtain ⟨h1, h2, _, _, _, h6⟩ := (mem_clientItems h rs n p).1 hp
    exact ⟨p.1, h1, h2, hc, h6⟩
  · rintro ⟨r, hr, hname, hc, hd⟩
    exact ⟨(r, t), (mem_clientItems h rs n (r, t)).2 ⟨hr, hname, hn1, hn2, hsub _ hc, hd⟩, hc, rfl⟩

theorem validDate_isSome (h : Host) (r : Entry) :
    (validDate h r).isSome ↔ ∃ t, parseEntryDate h r.DateOfService = .date t := by
  unfold validDate
  cases parseEntryDate h r.DateOfService <;> simp

theorem codeDates_ne_nil_iff (h : Host) (rs : List Entry) (n : String)
    (codes : List String) (hsub : ∀ c ∈ codes, c ∈ allCodes)
    (hex : ∃ x, x ∈ clientItems h rs n) :
    codeDates codes (clientItems h rs n) ≠ [] ↔ hasValidRecord h rs codes n := by
  unfold hasValidRecord
  constructor
  · intro hne
    obtain ⟨t, ht⟩ := List.exists_mem_of_ne_nil _ hne
    obtain ⟨r, hr, hname, hc, hd⟩ := (mem_codeDates_clientItems h rs n codes hsub hex t).1 ht
    exact ⟨r, hr, hname, hc, (validDate_isSome h r).2 ⟨t, hd⟩⟩
  · rintro ⟨r, hr, hname, hc, hv⟩
    obtain ⟨t, hd⟩ := (validDate_isSome h r).1 hv
    have := (mem_codeDates_clientItems h rs n codes hsub hex t).2 ⟨r, hr, hname, hc, hd⟩
    exact List.ne_nil_of_mem this

theorem psychCodes_sub : ∀ c ∈ psychCodes, c ∈ allCodes :=
  fun _ hc => List.mem_append_left _ hc

theorem abaCodes_sub : ∀ c ∈ abaCodes, c ∈ allCodes :=
  fun _ hc => List.mem_append_right _ hc

theorem option_isSome_iff_ne_none {α : Type} (o : Option α) : o.isSome = true ↔ o ≠ none := by
  cases o <;> simp

/-- A journey has an assessment date exactly when its client has an assessment
record with a valid date, and a recurring-service date exactly when it has a
recurring-service record with a valid date. -/
theorem journeyOf_dates (h : Host) (rs : List Entry) (n : String)
    (hex : ∃ x, x ∈ clientItems h rs n) :
    ((journeyOf h rs n).firstPsychDate.isSome ↔ hasValidRecord h rs psychCodes n) ∧
    ((journeyOf h rs n).lastPsychDate.isSome ↔ hasValidRecord h rs psychCodes n) ∧
    ((journeyOf h rs n).firstABADate.isSome ↔ hasValidRecord h rs abaCodes n) := by
  obtain ⟨_, h2, h3, h4, _⟩ := journeyOf_fields h rs n
  rw [h2, h3, h4]
  refine ⟨?_, ?_, ?_⟩
  · rw [option_isSome_iff_ne_none, Ne, (runMin_spec _).1,
      ← codeDates_ne_nil_iff h rs n psychCodes psychCodes_sub hex]
  · rw [option_isSome_iff_ne_none, Ne, (runMax_spec _).1,
      ← codeDates_ne_nil_iff h rs n psychCodes psychCodes_sub hex]
  · rw [option_isSome_iff_ne_none, Ne, (runMin_spec _).1,
      ← codeDates_ne_nil_iff h rs n abaCodes abaCodes_sub hex]

/-! ### Classification -/

theorem classify_name (now : Int) (nv notes : String → Option String) (j : Journey) :
    (classify now nv notes j).name = j.name := by
  unfold classify
  simp only
  split
  · rfl
  · split_ifs <;> rfl

theorem classify_status (now : Int) (nv notes : String → Option String) (j : Journey) :
    (classify now nv notes j).status =
      (if j.firstABADate.isSome then Status.converted
       else if (lookupTruthy nv j.name).isSome then Status.notViable
       else if daysBetween now (dateNumber j.lastPsychDate) ≤ 75 then
         (if daysBetween now (dateNumber j.lastPsychDate) > 45 then Status.atRisk
          else Status.active)
       else Status.stale) := by
  unfold classify
  simp only
  cases hf : j.firstABADate with
  | some a => simp
  | none =>
    simp only [Option.isSome_none, Bool.false_eq_true, if_false]
    split_ifs <;> rfl

theorem classify_days (now : Int) (nv notes : String → Option String) (j : Journey) :
    (classify now nv notes j).daysSinceLastPsych =
      daysBetween now (dateNumber j.lastPsychDate) ∧
    (classify now nv notes j).lastPsychDate = j.lastPsychDate ∧
    (classify now nv notes j).firstPsychDate = j.firstPsychDate ∧
    (classify now nv notes j).firstABADate = j.firstABADate := by
  unfold classify
  simp only
  cases hf : j.firstABADate with
  | some a => simp
  | none =>
    simp only
    split_ifs <;> simp [hf]

theorem classified_name (now : Int) (nv notes : String → Option String) (j : Journey) :
    (classified now nv notes j).name = j.name := by
  unfold classified
  split_ifs
  · rfl
  · exact classify_name now nv notes j


theorem funnel_append (now : Int) (nv notes : String → Option String) (js : List Journey)
    (j : Journey) :
    funnel now nv notes (js ++ [j]) = classifyEntry now nv notes (funnel now nv notes js) j := by
  simp [funnel, List.foldl_append]

/-- The arrays of the classification loop as filters of the classified
journeys. -/
theorem funnel_lists (now : Int) (nv notes : String → Option String) (js : List Journey) :
    (funnel now nv notes js).allClients = js.map (classified now nv notes) ∧
    (funnel now nv notes js).activeLeads =
      ((js.filter fun j => j.firstPsychDate.isSome).map (classify now nv notes)).filter
        (fun j => j.status = .active) ∧
    (funnel now nv notes js).converted =
      ((js.filter fun j => j.firstPsychDate.isSome).map (classify now nv notes)).filter
        (fun j => j.status = .converted) ∧
    (funnel now nv notes js).atRisk =
      ((js.filter fun j => j.firstPsychDate.isSome).map (classify now nv notes)).filter
        (fun j => j.status = .atRisk) ∧
    (funnel now nv notes js).notViable =
      ((js.filter fun j => j.firstPsychDate.isSome).map (classify now nv notes)).filter
        (fun j => j.status = .notViable) := by
  induction js using List.reverseRecOn with
  | nil => simp [funnel]
  | append_singleton js j ih =>
    rw [funnel_append]
    obtain ⟨h1, h2, h3, h4, h5⟩ := ih
    generalize funnel now nv notes js = F at *
    unfold classifyEntry
    cases hf : j.firstPsychDate with
    | none =>
      simp [hf, classified, h1, h2, h3, h4, h5, List.filter_append]
    | some t =>
      simp only [hf, Option.isNone_some, Bool.false_eq_true, if_false]
      cases hs : (classify now nv notes j).status <;>
        simp [hf, hs, classified, h1, h2, h3, h4, h5, List.filter_append]

theorem psychDashboardData_ok (h : Host) (now : Int) (nv notes : String → Option String)
    (rs : List Entry) (d : Dashboard)
    (hok : psychDashboardData h now nv notes rs = .ok (some d)) :
    d = dashboardOf (funnel now nv notes
      ((groupFold newJourney (fun p j => addToJourney p.1 p.2 j)
        (rs.filterMap fun r => (journeyAction h r).item)).map Prod.snd)) := by
  unfold psychDashboardData at hok
  by_cases h0 : rs.length = 0
  · rw [if_pos h0] at hok
    simp at hok
  · rw [if_neg h0, clientJourneys_eq] at hok
    by_cases hr : rs.any (fun r => (journeyAction h r).raises) = true
    · rw [if_pos hr] at hok
      simp at hok
    · rw [if_neg hr] at hok
      simp only [Except.ok.injEq, Option.some.injEq] at hok
      exact hok.symm

theorem psychDashboardData_returns (h : Host) (now : Int) (nv notes : String → Option String)
    (rs : List Entry) (hne : rs ≠ [])
    (hdef : ∀ r ∈ rs, parseEntryDate h r.DateOfService ≠ .undefined) :
    ∃ d, psychDashboardData h now nv notes rs = .ok (some d) := by
  unfold psychDashboardData
  have h0 : ¬ rs.length = 0 := fun hl => hne (List.length_eq_zero.1 hl)
  rw [if_neg h0, clientJourneys_eq]
  have : ¬ rs.any (fun r => (journeyAction h r).raises) = true := by
    intro hr
    obtain ⟨r, hr', hu⟩ := List.any_eq_true.1 hr
    exact hdef r hr' (journeyAction_raises h r hu)
  rw [if_neg this]
  exact ⟨_, rfl⟩

/-- The journeys of `allClients`: one per client name, each the classified
journey of its name. -/
theorem mem_allClients (h : Host) (now : Int) (nv notes : String → Option String)
    (rs : List Entry) (d : Dashboard)
    (hok : psychDashboardData h now nv notes rs = .ok (some d)) (j : Journey) :
    j ∈ d.allClients ↔
      ∃ n, (∃ x, x ∈ clientItems h rs n) ∧ j = classified now nv notes (journeyOf h rs n) := by
  rw [psychDashboardData_ok h now nv notes rs d hok]
  show j ∈ (funnel now nv notes _).allClients ↔ _
  rw [(funnel_lists now nv notes _).1]
  simp only [List.mem_map]
  constructor
  · rintro ⟨j0, ⟨⟨n, j0'⟩, hm, rfl⟩, rfl⟩
    obtain ⟨hex, hj⟩ := (mem_journeys h rs n j0').1 hm
    exact ⟨n, hex, by rw [hj]⟩
  · rintro ⟨n, hex, rfl⟩
    exact ⟨journeyOf h rs n, ⟨(n, journeyOf h rs n), (mem_journeys h rs n _).2 ⟨hex, rfl⟩, rfl⟩, rfl⟩

/-- Membership in one of the four arrays of the funnel. -/
theorem mem_funnel_list (h : Host) (now : Int) (nv notes : String → Option String)
    (rs : List Entry) (s : Status) (j : Journey) :
    j ∈ List.filter (fun j => j.status = s)
        ((((groupFold newJourney (fun p j => addToJourney p.1 p.2 j)
          (rs.filterMap fun r => (journeyAction h r).item)).map Prod.snd).filter
            fun j => j.firstPsychDate.isSome).map (classify now nv notes)) ↔
      ∃ n, (∃ x, x ∈ clientItems h rs n) ∧ (journeyOf h rs n).firstPsychDate.isSome ∧
        j = classify now nv notes (journeyOf h rs n) ∧ j.status = s := by
  simp only [List.mem_filter, List.mem_map, decide_eq_true_eq]
  constructor
  · rintro ⟨⟨j0, ⟨⟨⟨n, j0'⟩, hm, rfl⟩, hp⟩, rfl⟩, hs⟩
    obtain ⟨hex, hj⟩ := (mem_journeys h rs n j0').1 hm
    simp only at hp hs ⊢
    subst hj
    exact ⟨n, hex, hp, rfl, hs⟩
  · rintro ⟨n, hex, hp, rfl, hs⟩
    exact ⟨⟨journeyOf h rs n,
      ⟨⟨(n, journeyOf h rs n), (mem_journeys h rs n _).2 ⟨hex, rfl⟩, rfl⟩, hp⟩, rfl⟩, hs⟩


/-- Membership in the arrays returned by `psychDashboardData`. -/
theorem mem_dashboard_lists (h : Host) (now : Int) (nv notes : String → Option String)
    (rs : List Entry) (d : Dashboard)
    (hok : psychDashboardData h now nv notes rs = .ok (some d)) (j : Journey) :
    (j ∈ d.activeLeads ↔
      ∃ n, (∃ x, x ∈ clientItems h rs n) ∧ (journeyOf h rs n).firstPsychDate.isSome ∧
        j = classify now nv notes (journeyOf h rs n) ∧ j.status = .active) ∧
    (j ∈ d.atRisk ↔
      ∃ n, (∃ x, x ∈ clientItems h rs n) ∧ (journeyOf h rs n).firstPsychDate.isSome ∧
        j = classify now nv notes (journeyOf h rs n) ∧ j.status = .atRisk) ∧
    (j ∈ d.notViable ↔
      ∃ n, (∃ x, x ∈ clientItems h rs n) ∧ (journeyOf h rs n).firstPsychDate.isSome ∧
        j = classify now nv notes (journeyOf h rs n) ∧ j.status = .notViable) ∧
    (j ∈ d.converted →
      ∃ n, (∃ x, x ∈ clientItems h rs n) ∧ (journeyOf h rs n).firstPsychDate.isSome ∧
        j = classify now nv notes (journeyOf h rs n) ∧ j.status = .converted) := by
  rw [psychDashboardData_ok h now nv notes rs d hok]
  obtain ⟨_, h2, h3, h4, h5⟩ := funnel_lists now nv notes
    ((groupFold newJourney (fun p j => addToJourney p.1 p.2 j)
      (rs.filterMap fun r => (journeyAction h r).item)).map Prod.snd)
  refine ⟨?_, ?_, ?_, ?_⟩
  · show j ∈ jsSort _ (funnel now nv notes _).activeLeads ↔ _
    rw [mem_jsSort, h2]
    exact mem_funnel_list h now nv notes rs .active j
  · show j ∈ jsSort _ (funnel now nv notes _).atRisk ↔ _
    rw [mem_jsSort, h4]
    exact mem_funnel_list h now nv notes rs .atRisk j
  · show j ∈ jsSort _ (funnel now nv notes _).notViable ↔ _
    rw [mem_jsSort, h5]
    exact mem_funnel_list h now nv notes rs .notViable j
  · show j ∈ (jsSort _ (funnel now nv notes _).converted).take 20 → _
    intro hj
    have hj' := List.mem_of_mem_take hj
    rw [mem_jsSort, h3] at hj'
    exact (mem_funnel_list h now nv notes rs .converted j).1 hj'

theorem classify_status_cases (now : Int) (nv notes : String → Option String) (j : Journey) :
    (classify now nv notes j).status = .converted ∨
    (classify now nv notes j).status = .notViable ∨
    (classify now nv notes j).status = .atRisk ∨
    (classify now nv notes j).status = .active ∨
    (classify now nv notes j).status = .stale := by
  rw [classify_status]
  split_ifs <;> simp

/-- A client of `allClients` with an assessment record: its journey is the
classified journey of its name. -/
theorem allClients_with_psych (h : Host) (now : Int) (nv notes : String → Option String)
    (rs : List Entry) (d : Dashboard)
    (hok : psychDashboardData h now nv notes rs = .ok (some d)) (j : Journey)
    (hj : j ∈ d.allClients) (hpsych : hasValidRecord h rs psychCodes j.name) :
    (∃ x, x ∈ clientItems h rs j.name) ∧
    (journeyOf h rs j.name).firstPsychDate.isSome ∧
    j = classify now nv notes (journeyOf h rs j.name) := by
  obtain ⟨n, hex, hjn⟩ := (mem_allClients h now nv notes rs d hok j).1 hj
  have hname : j.name = n := by
    rw [hjn, classified_name]; exact (journeyOf_fields h rs n).1
  rw [hname] at hpsych ⊢
  have hp : (journeyOf h rs n).firstPsychDate.isSome := (journeyOf_dates h rs n hex).1.2 hpsych
  refine ⟨hex, hp, ?_⟩
  rw [hjn]
  unfold classified
  have : ¬ (journeyOf h rs n).firstPsychDate.isNone = true := by
    cases hfp : (journeyOf h rs n).firstPsychDate with
    | none => simp [hfp] at hp
    | some t => simp
  rw [if_neg this]

/-- A journey in one of the returned arrays is the journey of its name in
`allClients`. -/
theorem list_member_eq (h : Host) (now : Int) (nv notes : String → Option String)
    (rs : List Entry) (j j' : Journey) (n : String)
    (hj : j = classify now nv notes (journeyOf h rs j.name))
    (hj' : j' = classify now nv notes (journeyOf h rs n)) (hname : j'.name = j.name) :
    j' = j := by
  have hn : j'.name = n := by
    rw [hj', classify_name]; exact (journeyOf_fields h rs n).1
  have : n = j.name := by rw [← hn, hname]
  rw [hj', this, ← hj]


/-! ## Claims on week bucketing -/

/-- C1: for every date, the week start computed by the `getDay`/`setDate`
arithmetic is a Monday in the local time the arithmetic reads, and the
computation applied to its own result returns it unchanged. -/
theorem weekStart_monday_idempotent (h : Host) (date : Int) :
    getDay h (weekStart h date) = 1 ∧
    weekStart h (weekStart h date) = weekStart h date := by
  refine ⟨getDay_weekStart h date, ?_⟩
  rw [weekStart_eq h (weekStart h date), getDay_weekStart]
  norm_num

/-- C2: for every date, the week start is on or before the date and at most six
days before it: exactly 6 days before a Sunday and `w - 1` days before any other
weekday `w`, with the time of day kept. The local calendar day moves back by the
same number of days, whatever month or year boundary lies in between. -/
theorem weekStart_offset (h : Host) (date : Int) :
    weekStart h date =
      date - (if getDay h date = 0 then 6 else getDay h date - 1) * msPerDay ∧
    0 ≤ getDay h date ∧ getDay h date ≤ 6 ∧
    weekStart h date ≤ date ∧
    date - weekStart h date ≤ 6 * msPerDay ∧
    Day (LocalTime h (weekStart h date)) =
      Day (LocalTime h date) - (if getDay h date = 0 then 6 else getDay h date - 1) ∧
    TimeWithinDay (LocalTime h (weekStart h date)) = TimeWithinDay (LocalTime h date) := by
  have hw : 0 ≤ getDay h date ∧ getDay h date < 7 := by
    unfold getDay WeekDay; omega
  have he := weekStart_eq h date
  have hk : (getDay h date + 6) % 7 = (if getDay h date = 0 then 6 else getDay h date - 1) := by
    split_ifs <;> omega
  rw [hk] at he
  have hk2 : 0 ≤ (if getDay h date = 0 then (6 : Int) else getDay h date - 1) ∧
      (if getDay h date = 0 then (6 : Int) else getDay h date - 1) ≤ 6 := by
    split_ifs <;> omega
  generalize (if getDay h date = 0 then (6 : Int) else getDay h date - 1) = k at *
  rw [he]
  unfold Day TimeWithinDay LocalTime msPerDay
  refine ⟨rfl, hw.1, by omega, by omega, by omega, by omega, by omega⟩

/-! ## Claims on `weeklyData` -/

/-- C3: in every result of `weeklyData`, the session counts of the entries add
up to the number of records whose service date parses to a valid date, and the
session count of each week is the number of such records in that week: a record
without a valid date is counted in no week. -/
theorem weeklyData_sessionCount_sum (h : Host) (rawData : List Entry) (weeks : List Week)
    (hok : weeklyData h rawData = .ok weeks) :
    (weeks.map fun w => w.sessionCount).sum =
      (rawData.filter fun r => (validDate h r).isSome).length ∧
    (∀ w ∈ weeks, w.sessionCount =
      (rawData.filter fun r => (validDate h r).map (weekKeyOf h) = some w.week).length) := by
  constructor
  · obtain ⟨_, rfl⟩ := weeklyData_ok h rawData weeks hok
    rw [List.map_map]
    have e1 : ((fun w : Week => w.sessionCount) ∘ fun p : Nat × WeekRow =>
        withChanges (weekRows h rawData) p.1 p.2) =
        (fun row : WeekRow => row.sessionCount) ∘ Prod.snd := rfl
    rw [e1, ← List.map_map, List.enum_map_snd]
    unfold weekRows
    rw [((jsSort_perm compareWeeks _).map _).sum_eq, List.map_map, List.map_map,
      ← weekPairs_length]
    exact sum_groupFold (fun g => g.sessionCount) newWeekGroup addToWeek (fun _ => rfl)
      (fun _ _ => rfl) _
  · intro w hw
    obtain ⟨_, _, _, _, _, hsc, _⟩ := mem_weeklyData h rawData weeks hok w hw
    rw [hsc, (weekGroupOf_fields h rawData w.week).2.2.2.2.1]
    rfl

/-- C3 on the sample: five rows, four with a valid date, two sessions in each
of the two weeks. -/
theorem weeklyData_sessionCount_sum_witness :
    weeklyData sampleHost sampleData = .ok [sampleWeek1, sampleWeek2] ∧
    (sampleData.filter fun r => (validDate sampleHost r).isSome).length = 4 ∧
    ([sampleWeek1, sampleWeek2].map fun w => w.sessionCount).sum =
      (sampleData.filter fun r => (validDate sampleHost r).isSome).length :=
  ⟨by decide!, by decide!,
    (weeklyData_sessionCount_sum sampleHost sampleData [sampleWeek1, sampleWeek2]
      (by decide!)).1⟩

/-- C4: in every week of `weeklyData`, `agreedRevenue` is the sum of the agreed
charges of the valid records of that week, and `totalHours` is the sum of the
hours of those of them whose agreed charge is positive. -/
theorem weeklyData_revenue_hours (h : Host) (rawData : List Entry) (weeks : List Week)
    (w : Week) (hok : weeklyData h rawData = .ok weeks) (hw : w ∈ weeks) :
    w.agreedRevenue =
      ((weekEntries h rawData w.week).map fun r => orZero r.ClientChargesAgreedTotal).sum ∧
    w.totalHours =
      (((weekEntries h rawData w.week).filter
          fun r => orZero r.ClientChargesAgreedTotal > 0).map
        fun r => orZero r.TimeWorkedInHours).sum := by
  obtain ⟨_, _, hrev, _, hhrs, _⟩ := mem_weeklyData h rawData weeks hok w hw
  obtain ⟨_, f2, _, f4, _⟩ := weekFold_fields w.week (weekEntries h rawData w.week)
  exact ⟨hrev.trans f2, hhrs.trans f4⟩

/-- C4 on the sample: the second week holds 250 of revenue and 5 hours. -/
theorem weeklyData_revenue_hours_witness :
    weeklyData sampleHost sampleData = .ok [sampleWeek1, sampleWeek2] ∧
    sampleWeek2 ∈ [sampleWeek1, sampleWeek2] ∧
    sampleWeek2.agreedRevenue =
      ((weekEntries sampleHost sampleData sampleWeek2.week).map
        fun r => orZero r.ClientChargesAgreedTotal).sum ∧
    sampleWeek2.totalHours =
      (((weekEntries sampleHost sampleData sampleWeek2.week).filter
          fun r => orZero r.ClientChargesAgreedTotal > 0).map
        fun r => orZero r.TimeWorkedInHours).sum :=
  ⟨by decide!, by decide!,
    weeklyData_revenue_hours sampleHost sampleData [sampleWeek1, sampleWeek2] sampleWeek2
      (by decide!) (by decide!)⟩

/-- C5: in every result of `weeklyData`, the entries are in strictly ascending
order of week key, so no two share a key; each key is the week key of a record
with a valid date, and every record with a valid date has its week among the
entries. -/
theorem weeklyData_sorted (h : Host) (rawData : List Entry) (weeks : List Week)
    (hok : weeklyData h rawData = .ok weeks) :
    (weeks.map fun w => w.week).Pairwise (fun a b => a < b) ∧
    (weeks.map fun w => w.week).Nodup ∧
    (∀ w ∈ weeks, ∃ r ∈ rawData, ∃ t,
      parseEntryDate h r.DateOfService = .date t ∧ w.week = isoDay (weekStart h t)) ∧
    (∀ r ∈ rawData, ∀ t, parseEntryDate h r.DateOfService = .date t →
      ∃ w ∈ weeks, w.week = isoDay (weekStart h t)) := by
  have hmap : (weeks.map fun w => w.week) = (weekRows h rawData).map fun row => row.week := by
    obtain ⟨_, rfl⟩ := weeklyData_ok h rawData weeks hok
    rw [List.map_map]
    have : ((fun w : Week => w.week) ∘ fun p : Nat × WeekRow =>
        withChanges (weekRows h rawData) p.1 p.2) = (fun row : WeekRow => row.week) ∘ Prod.snd := rfl
    rw [this, ← List.map_map, List.enum_map_snd]
  have hsorted : (weeks.map fun w => w.week).Pairwise (fun a b => a < b) := by
    rw [hmap, List.pairwise_map]
    exact weekRows_sorted h rawData
  refine ⟨hsorted, hsorted.imp (fun hab => ne_of_lt hab), ?_, ?_⟩
  · intro w hw
    obtain ⟨⟨r, hr, hk⟩, _⟩ := mem_weeklyData h rawData weeks hok w hw
    unfold entryWeek validDate at hk
    cases hp : parseEntryDate h r.DateOfService with
    | undefined => simp [hp] at hk
    | invalid => simp [hp] at hk
    | date t =>
      simp only [hp, Option.map_some', Option.some.injEq] at hk
      exact ⟨r, hr, t, hp, hk.symm⟩
  · intro r hr t ht
    have hk : entryWeek h r = some (weekKeyOf h t) := by
      simp [entryWeek, validDate, ht]
    have hrow : toWeekRow (weekGroupOf h rawData (weekKeyOf h t)) ∈ weekRows h rawData :=
      (mem_weekRows h rawData _).2 ⟨_, ⟨r, hr, hk⟩, rfl⟩
    have hmem : weekKeyOf h t ∈ (weekRows h rawData).map fun row => row.week :=
      List.mem_map.2 ⟨_, hrow, weekGroupOf_week h rawData _⟩
    rw [← hmap] at hmem
    obtain ⟨w, hw, hwk⟩ := List.mem_map.1 hmem
    exact ⟨w, hw, hwk⟩

/-- C5 on the sample: the keys are 20094 < 20101, the Mondays 2025-01-06 and
2025-01-13. -/
theorem weeklyData_sorted_witness :
    weeklyData sampleHost sampleData = .ok [sampleWeek1, sampleWeek2] ∧
    ([sampleWeek1, sampleWeek2].map fun w => w.week) = [20094, 20101] ∧
    ([sampleWeek1, sampleWeek2].map fun w => w.week).Pairwise (fun a b => a < b) :=
  ⟨by decide!, by decide!,
    (weeklyData_sorted sampleHost sampleData [sampleWeek1, sampleWeek2] (by decide!)).1⟩

/-- C6: in every result of `weeklyData`, the first entry has both changes equal
to the number 0; every later entry compares with the entry just before it in
sorted order, whether or not that week is the calendar week before: when the
earlier value is positive the change is `toFixed(1)` of `(cur - prev) / prev * 100`
as binary64 arithmetic computes it on the doubles of the two fields, otherwise
it is 0, for revenue and for hours alike. An integer up to `2 ^ 53` is its own
double, each of the three operations is off by at most half a unit in the last
place, and a `toFixed(1)` string reads as a number within 0.05 of its
argument. -/
theorem weeklyData_changes (h : Host) (rawData : List Entry) (weeks : List Week)
    (hok : weeklyData h rawData = .ok weeks) :
    (∀ w, weeks[0]? = some w → w.revenueChange = .zero ∧ w.hoursChange = .zero) ∧
    (∀ i p w, weeks[i]? = some p → weeks[i + 1]? = some w →
      w.revenueChange =
        (if p.agreedRevenue > 0 then toFixed (percentOf w.agreedRevenue p.agreedRevenue)
         else .zero) ∧
      w.hoursChange =
        (if p.totalHours > 0 then toFixed (percentOf w.totalHours p.totalHours)
         else .zero)) ∧
    (∀ cur prev : ℚ, percentOf cur prev =
      (((roundDouble cur).sub (roundDouble prev)).div (roundDouble prev)).mul (.finite 100)) ∧
    (∀ x y : ℚ, (Num.finite x).sub (.finite y) = roundDouble (x - y)) ∧
    (∀ x y : ℚ, y ≠ 0 → (Num.finite x).div (.finite y) = roundDouble (x / y)) ∧
    (∀ x y : ℚ, (Num.finite x).mul (.finite y) = roundDouble (x * y)) ∧
    (∀ n : Int, n.natAbs ≤ 2 ^ 53 → roundDouble (n : ℚ) = .finite n) ∧
    (∀ x y : ℚ, roundDouble x = .finite y →
      abs (y - x) ≤ abs x / 2 ^ 53 ∨ abs (y - x) ≤ 1 / 2 ^ 1075) ∧
    (∀ x : ℚ, abs x < 10 ^ 21 → toFixed (.finite x) = .fixed (toFixed1 x)) ∧
    (∀ x : ℚ, |(toFixed1 x).value - x| ≤ 1 / 20) := by
  obtain ⟨_, rfl⟩ := weeklyData_ok h rawData weeks hok
  refine ⟨?_, ?_, fun _ _ => rfl, fun _ _ => rfl, ?_, fun _ _ => rfl, roundDouble_int,
    roundDouble_close, ?_, toFixed1_close⟩
  · intro w hw
    rw [weeks_getElem?] at hw
    cases hr : (weekRows h rawData)[0]? with
    | none => simp [hr] at hw
    | some row =>
      simp only [hr, Option.map_some', Option.some.injEq] at hw
      subst hw
      exact withChanges_zero _ _
  · intro i p w hp hw
    rw [weeks_getElem?] at hp hw
    cases hr : (weekRows h rawData)[i]? with
    | none => simp [hr] at hp
    | some prev =>
      cases hr' : (weekRows h rawData)[i + 1]? with
      | none => simp [hr'] at hw
      | some row =>
        simp only [hr, hr', Option.map_some', Option.some.injEq] at hp hw
        subst hp hw
        exact withChanges_succ _ i prev row hr
  · intro x y hy
    simp only [Num.div, numDiv]
    rw [if_neg hy]
  · intro x hx
    unfold toFixed
    simp only
    rw [if_pos hx]

/-- C6 on three runs: revenue from 100 to 250 is a change of `150.0`; revenue
from 400 to 429 is a change of `7.2`, the binary64 product being
7.249999999999999 where the exact quotient is 7.25; revenue from 1.6 to 1.7 is a
change of `6.2`, the binary64 product being 6.249999999999992 where the exact
quotient is 6.25. -/
theorem weeklyData_changes_witness :
    (weeklyData sampleHost sampleData = .ok [sampleWeek1, sampleWeek2] ∧
      sampleWeek1.revenueChange = .zero ∧
      sampleWeek2.revenueChange =
        (if sampleWeek1.agreedRevenue > 0 then
          toFixed (percentOf sampleWeek2.agreedRevenue sampleWeek1.agreedRevenue)
         else .zero) ∧
      sampleWeek2.revenueChange = .fixed ⟨false, 1500⟩) ∧
    (weeklyData sampleHost sampleRoundData = .ok sampleRoundWeeks ∧
      (sampleRoundWeeks.map fun w => (w.week, w.agreedRevenue, w.revenueChange)) =
        [(20094, 400, .zero), (20101, 429, .fixed ⟨false, 72⟩)] ∧
      percentOf 429 400 = .finite (8162774324609023 / 1125899906842624) ∧
      toFixed1 ((429 - 400) / 400 * 100 : ℚ) = ⟨false, 73⟩) ∧
    (weeklyData sampleHost sampleCentsData = .ok sampleCentsWeeks ∧
      (sampleCentsWeeks.map fun w => (w.week, w.agreedRevenue, w.revenueChange)) =
        [(20094, 8 / 5, .zero), (20101, 17 / 10, .fixed ⟨false, 62⟩)] ∧
      roundDouble (8 / 5) = .finite (3602879701896397 / 2251799813685248) ∧
      roundDouble (17 / 10) = .finite (7656119366529843 / 4503599627370496) ∧
      toFixed1 ((17 / 10 - 8 / 5) / (8 / 5) * 100 : ℚ) = ⟨false, 63⟩) :=
  ⟨⟨by decide!,
    ((weeklyData_changes sampleHost sampleData [sampleWeek1, sampleWeek2] (by decide!)).1
      sampleWeek1 (by decide!)).1,
    ((weeklyData_changes sampleHost sampleData [sampleWeek1, sampleWeek2] (by decide!)).2.1
      0 sampleWeek1 sampleWeek2 (by decide!) (by decide!)).1,
    by decide!⟩,
   ⟨by decide!, by decide!, by decide!, by decide!⟩,
   by decide!, by decide!, by decide!, by decide!, by decide!⟩

/-- C7: in every week of `weeklyData`, `clientCount` is the number of distinct
non-empty client names among the valid records of that week whose procedure code
is `97153`; a record with another code or an empty name is not in the count. -/
theorem weeklyData_clientCount (h : Host) (rawData : List Entry) (weeks : List Week)
    (w : Week) (hok : weeklyData h rawData = .ok weeks) (hw : w ∈ weeks) :
    w.clientCount =
      ((((weekEntries h rawData w.week).filter
          fun r => decide (r.ClientName ≠ "" ∧ r.ProcedureCode = "97153")).map
        fun r => r.ClientName).toFinset).card := by
  obtain ⟨_, _, _, _, _, _, hcc, _⟩ := mem_weeklyData h rawData weeks hok w hw
  obtain ⟨_, _, _, _, _, hnd, hmem⟩ := weekGroupOf_fields h rawData w.week
  rw [hcc, ← List.toFinset_card_of_nodup hnd]
  congr 1
  ext n
  simp only [List.mem_toFinset, List.mem_map, List.mem_filter, decide_eq_true_eq]
  rw [hmem]
  constructor
  · rintro ⟨r, hr, hn, hc⟩
    exact ⟨r, ⟨hr, hc⟩, hn⟩
  · rintro ⟨r, ⟨hr, hc⟩, hn⟩
    exact ⟨r, hr, hn, hc⟩

/-- C7 on the sample: the first week has two rows and one client under code
`97153`. -/
theorem weeklyData_clientCount_witness :
    weeklyData sampleHost sampleData = .ok [sampleWeek1, sampleWeek2] ∧
    sampleWeek1 ∈ [sampleWeek1, sampleWeek2] ∧
    sampleWeek1.clientCount = 1 ∧
    sampleWeek1.clientCount =
      ((((weekEntries sampleHost sampleData sampleWeek1.week).filter
          fun r => decide (r.ClientName ≠ "" ∧ r.ProcedureCode = "97153")).map
        fun r => r.ClientName).toFinset).card :=
  ⟨by decide!, by decide!, by decide!,
    weeklyData_clientCount sampleHost sampleData [sampleWeek1, sampleWeek2] sampleWeek1
      (by decide!) (by decide!)⟩

/-! ## Claims on `psychDashboardData` -/

/-- C8: whenever `psychDashboardData` returns, every client with a valid
assessment record and a name the loop keeps has a journey in `allClients`, and
every journey of `allClients` whose client has a valid assessment record carries
one of the five statuses converted, not-viable, at-risk, active, stale, never
`unknown`. A journey of that client found in `activeLeads`, `atRisk`,
`converted` or `notViable` is that same journey and the array is the one of its
status, so it is in at most one of them; an active, at-risk or not-viable
journey is in the array of its status. -/
theorem funnel_status_partition (h : Host) (now : Int)
    (notViableReasons clientNotes : String → Option String) (rawData : List Entry)
    (d : Dashboard)
    (hok : psychDashboardData h now notViableReasons clientNotes rawData = .ok (some d)) :
    (∀ r ∈ rawData, r.ClientName ≠ "" → r.ClientName ≠ " " → r.ProcedureCode ∈ psychCodes →
      (validDate h r).isSome → ∃ j ∈ d.allClients, j.name = r.ClientName) ∧
    (∀ j ∈ d.allClients, hasValidRecord h rawData psychCodes j.name →
      (j.status = .converted ∨ j.status = .notViable ∨ j.status = .atRisk ∨
        j.status = .active ∨ j.status = .stale) ∧
      j.status ≠ .unknown ∧
      (∀ j' ∈ d.activeLeads, j'.name = j.name → j' = j ∧ j.status = .active) ∧
      (∀ j' ∈ d.atRisk, j'.name = j.name → j' = j ∧ j.status = .atRisk) ∧
      (∀ j' ∈ d.converted, j'.name = j.name → j' = j ∧ j.status = .converted) ∧
      (∀ j' ∈ d.notViable, j'.name = j.name → j' = j ∧ j.status = .notViable) ∧
      (j.status = .active → j ∈ d.activeLeads) ∧
      (j.status = .atRisk → j ∈ d.atRisk) ∧
      (j.status = .notViable → j ∈ d.notViable)) := by
  constructor
  · intro r hr hn1 hn2 hc hv
    obtain ⟨t, ht⟩ := (validDate_isSome h r).1 hv
    have hex : ∃ x, x ∈ clientItems h rawData r.ClientName :=
      ⟨(r, t), (mem_clientItems h rawData _ (r, t)).2
        ⟨hr, rfl, hn1, hn2, psychCodes_sub _ hc, ht⟩⟩
    exact ⟨_, (mem_allClients h now _ _ rawData d hok _).2 ⟨r.ClientName, hex, rfl⟩,
      by rw [classified_name]; exact (journeyOf_fields h rawData _).1⟩
  · intro j hj hpsych
    obtain ⟨hex, hp, hjc⟩ := allClients_with_psych h now _ _ rawData d hok j hj hpsych
    have hcases := classify_status_cases now notViableReasons clientNotes
      (journeyOf h rawData j.name)
    rw [← hjc] at hcases
    have hlist : ∀ (s : Status) (j' : Journey),
        (∃ n, (∃ x, x ∈ clientItems h rawData n) ∧
          (journeyOf h rawData n).firstPsychDate.isSome ∧
          j' = classify now notViableReasons clientNotes (journeyOf h rawData n) ∧
          j'.status = s) → j'.name = j.name → j' = j ∧ j.status = s := by
      rintro s j' ⟨n, _, _, hj', hs⟩ hname
      have := list_member_eq h now _ _ rawData j j' n hjc hj' hname
      exact ⟨this, by rw [← this]; exact hs⟩
    refine ⟨hcases, ?_, ?_, ?_, ?_, ?_, ?_, ?_, ?_⟩
    · rcases hcases with hc | hc | hc | hc | hc <;> rw [hc] <;> decide
    · intro j' hj' hname
      exact hlist _ j' ((mem_dashboard_lists h now _ _ rawData d hok j').1.1 hj') hname
    · intro j' hj' hname
      exact hlist _ j' ((mem_dashboard_lists h now _ _ rawData d hok j').2.1.1 hj') hname
    · intro j' hj' hname
      exact hlist _ j' ((mem_dashboard_lists h now _ _ rawData d hok j').2.2.2 hj') hname
    · intro j' hj' hname
      exact hlist _ j' ((mem_dashboard_lists h now _ _ rawData d hok j').2.2.1.1 hj') hname
    · intro hs
      exact (mem_dashboard_lists h now _ _ rawData d hok j).1.2 ⟨j.name, hex, hp, hjc, hs⟩
    · intro hs
      exact (mem_dashboard_lists h now _ _ rawData d hok j).2.1.2 ⟨j.name, hex, hp, hjc, hs⟩
    · intro hs
      exact (mem_dashboard_lists h now _ _ rawData d hok j).2.2.1.2 ⟨j.name, hex, hp, hjc, hs⟩

/-- C8 on the sample: Al Kim has an assessment row with a valid date and is
at-risk, in `atRisk`. -/
theorem funnel_status_partition_witness :
    psychDashboardData sampleHost sampleNow sampleReasons sampleNotes samplePsychData
      = .ok (some sampleDashboard) ∧
    sampleAl ∈ sampleDashboard.allClients ∧
    hasValidRecord sampleHost samplePsychData psychCodes sampleAl.name ∧
    sampleAl.status ≠ .unknown ∧
    (sampleAl.status = .atRisk → sampleAl ∈ sampleDashboard.atRisk) :=
  ⟨by decide!, by decide!,
    ⟨sampleRow "01/19/2025" "Al Kim" "96130", by decide!, by decide!, by decide!, by decide!⟩,
    ((funnel_status_partition sampleHost sampleNow sampleReasons sampleNotes samplePsychData
      sampleDashboard (by decide!)).2 sampleAl (by decide!)
      ⟨sampleRow "01/19/2025" "Al Kim" "96130", by decide!, by decide!, by decide!,
        by decide!⟩).2.1,
    ((funnel_status_partition sampleHost sampleNow sampleReasons sampleNotes samplePsychData
      sampleDashboard (by decide!)).2 sampleAl (by decide!)
      ⟨sampleRow "01/19/2025" "Al Kim" "96130", by decide!, by decide!, by decide!,
        by decide!⟩).2.2.2.2.2.2.2.1⟩

/-- C9: for a client with a valid assessment record, the status is converted
exactly when the client has a recurring-service record with a valid date,
whatever the override map holds; it is not-viable exactly when the client has no
such record and the override map holds a non-empty reason for the name, whatever
the number of days since the last assessment. -/
theorem funnel_converted_notViable (h : Host) (now : Int)
    (notViableReasons clientNotes : String → Option String) (rawData : List Entry)
    (d : Dashboard) (j : Journey)
    (hok : psychDashboardData h now notViableReasons clientNotes rawData = .ok (some d))
    (hj : j ∈ d.allClients) (hpsych : hasValidRecord h rawData psychCodes j.name) :
    (j.status = .converted ↔ hasValidRecord h rawData abaCodes j.name) ∧
    (j.status = .notViable ↔
      ¬ hasValidRecord h rawData abaCodes j.name ∧
      ∃ reason, notViableReasons j.name = some reason ∧ reason ≠ "") := by
  obtain ⟨hex, hp, hjc⟩ := allClients_with_psych h now _ _ rawData d hok j hj hpsych
  have haba := (journeyOf_dates h rawData j.name hex).2.2
  have hname : (journeyOf h rawData j.name).name = j.name := (journeyOf_fields h rawData _).1
  have hst := classify_status now notViableReasons clientNotes (journeyOf h rawData j.name)
  rw [← hjc, hname] at hst
  have hreason : (lookupTruthy notViableReasons j.name).isSome = true ↔
      ∃ reason, notViableReasons j.name = some reason ∧ reason ≠ "" := by
    unfold lookupTruthy
    cases hnv : notViableReasons j.name with
    | none => simp
    | some s => by_cases hs : s = "" <;> simp [Option.filter, hs]
  rw [← haba, ← hreason, hst]
  clear hst hjc haba hreason hp
  generalize (journeyOf h rawData j.name).firstABADate.isSome = a
  generalize (lookupTruthy notViableReasons j.name).isSome = b
  generalize daysBetween now (dateNumber (journeyOf h rawData j.name).lastPsychDate) = dd
  cases a <;> cases b <;> simp
  split_ifs <;> simp

/-- C9 on the sample: Jane Doe has an assessment row and a recurring-service
row, and is converted. -/
theorem funnel_converted_notViable_witness :
    psychDashboardData sampleHost sampleNow sampleReasons sampleNotes samplePsychData
      = .ok (some sampleDashboard) ∧
    sampleJane ∈ sampleDashboard.allClients ∧
    hasValidRecord sampleHost samplePsychData psychCodes sampleJane.name ∧
    hasValidRecord sampleHost samplePsychData abaCodes sampleJane.name ∧
    (sampleJane.status = .converted ↔
      hasValidRecord sampleHost samplePsychData abaCodes sampleJane.name) :=
  ⟨by decide!, by decide!,
    ⟨sampleRow "01/06/2025" "Jane Doe" "90791", by decide!, by decide!, by decide!,
      by decide!⟩,
    ⟨sampleRow "03/01/2025" "Jane Doe" "97153", by decide!, by decide!, by decide!,
      by decide!⟩,
    (funnel_converted_notViable sampleHost sampleNow sampleReasons sampleNotes
      samplePsychData sampleDashboard sampleJane (by decide!) (by decide!)
      ⟨sampleRow "01/06/2025" "Jane Doe" "90791", by decide!, by decide!, by decide!,
        by decide!⟩).1⟩

/-- C10: for a client with a valid assessment record, no recurring-service
record with a valid date and no override, the journey holds the latest valid
assessment date of the client, `daysSinceLastPsych` is
`floor((now - last) / msPerDay)`, and the status is at-risk exactly when that
number of days `d` satisfies `45 < d ≤ 75`. -/
theorem funnel_atRisk (h : Host) (now : Int)
    (notViableReasons clientNotes : String → Option String) (rawData : List Entry)
    (d : Dashboard) (j : Journey)
    (hok : psychDashboardData h now notViableReasons clientNotes rawData = .ok (some d))
    (hj : j ∈ d.allClients) (hpsych : hasValidRecord h rawData psychCodes j.name)
    (haba : ¬ hasValidRecord h rawData abaCodes j.name)
    (hnv : lookupTruthy notViableReasons j.name = none) :
    ∃ last, j.lastPsychDate = some last ∧
      (∃ r ∈ rawData, r.ClientName = j.name ∧ r.ProcedureCode ∈ psychCodes ∧
        parseEntryDate h r.DateOfService = .date last) ∧
      (∀ r ∈ rawData, ∀ t, r.ClientName = j.name → r.ProcedureCode ∈ psychCodes →
        parseEntryDate h r.DateOfService = .date t → t ≤ last) ∧
      j.daysSinceLastPsych = (now - last) / msPerDay ∧
      (j.status = .atRisk ↔ 45 < (now - last) / msPerDay ∧ (now - last) / msPerDay ≤ 75) := by
  obtain ⟨hex, hp, hjc⟩ := allClients_with_psych h now _ _ rawData d hok j hj hpsych
  have hdates := journeyOf_dates h rawData j.name hex
  have hname : (journeyOf h rawData j.name).name = j.name := (journeyOf_fields h rawData _).1
  have hlastSome := hdates.2.1.2 hpsych
  have hnoaba : (journeyOf h rawData j.name).firstABADate.isSome = false := by
    cases hf : (journeyOf h rawData j.name).firstABADate.isSome with
    | false => rfl
    | true => exact absurd (hdates.2.2.1 hf) haba
  obtain ⟨last, hlast⟩ := Option.isSome_iff_exists.1 hlastSome
  have hmax := (journeyOf_fields h rawData j.name).2.2.1
  rw [hlast] at hmax
  obtain ⟨hmem, hle⟩ := (runMax_spec _).2 last hmax.symm
  have hst := classify_status now notViableReasons clientNotes (journeyOf h rawData j.name)
  have hdays := classify_days now notViableReasons clientNotes (journeyOf h rawData j.name)
  rw [← hjc] at hst hdays
  rw [hname, hnv, hnoaba, hlast] at hst
  rw [hlast] at hdays
  refine ⟨last, hdays.2.1, ?_, ?_, hdays.1, ?_⟩
  · exact (mem_codeDates_clientItems h rawData j.name psychCodes psychCodes_sub hex last).1 hmem
  · intro r hr t hn hc ht
    exact hle t ((mem_codeDates_clientItems h rawData j.name psychCodes psychCodes_sub hex t).2
      ⟨r, hr, hn, hc, ht⟩)
  · rw [hst]
    simp only [daysBetween, dateNumber, Option.getD_some, Option.isSome_none,
      Bool.false_eq_true, if_false]
    split_ifs with h1 h2
    · exact ⟨fun _ => ⟨h2, h1⟩, fun _ => rfl⟩
    · exact ⟨fun hc => (by cases hc), fun hc => absurd hc.1 h2⟩
    · exact ⟨fun hc => (by cases hc), fun hc => absurd hc.2 h1⟩


/-- C10 on the sample: Al Kim, last assessed 50 days before `sampleNow`, with
the empty string as override, is at-risk. -/
theorem funnel_atRisk_witness :
    psychDashboardData sampleHost sampleNow sampleReasons sampleNotes samplePsychData
      = .ok (some sampleDashboard) ∧
    sampleAl ∈ sampleDashboard.allClients ∧
    hasValidRecord sampleHost samplePsychData psychCodes sampleAl.name ∧
    ¬ hasValidRecord sampleHost samplePsychData abaCodes sampleAl.name ∧
    lookupTruthy sampleReasons sampleAl.name = none ∧
    sampleAl.daysSinceLastPsych = 50 ∧
    ∃ last, sampleAl.lastPsychDate = some last ∧
      (∃ r ∈ samplePsychData, r.ClientName = sampleAl.name ∧ r.ProcedureCode ∈ psychCodes ∧
        parseEntryDate sampleHost r.DateOfService = .date last) ∧
      (∀ r ∈ samplePsychData, ∀ t, r.ClientName = sampleAl.name →
        r.ProcedureCode ∈ psychCodes →
        parseEntryDate sampleHost r.DateOfService = .date t → t ≤ last) ∧
      sampleAl.daysSinceLastPsych = (sampleNow - last) / msPerDay ∧
      (sampleAl.status = .atRisk ↔
        45 < (sampleNow - last) / msPerDay ∧ (sampleNow - last) / msPerDay ≤ 75) :=
  ⟨by decide!, by decide!,
    ⟨sampleRow "01/19/2025" "Al Kim" "96130", by decide!, by decide!, by decide!, by decide!⟩,
    by unfold hasValidRecord; decide!,
    by decide!, by decide!,
    funnel_atRisk sampleHost sampleNow sampleReasons sampleNotes samplePsychData
      sampleDashboard sampleAl (by decide!) (by decide!)
      ⟨sampleRow "01/19/2025" "Al Kim" "96130", by decide!, by decide!, by decide!,
        by decide!⟩
      (by unfold hasValidRecord; decide!) (by decide!)⟩

/-! ## Shape of the dashboard -/

theorem classified_filter (now : Int) (nv notes : String → Option String) (js : List Journey)
    (hunk : ∀ j ∈ js, j.status = .unknown) (s : Status) (hs : s ≠ .unknown) :
    ((js.filter fun j => j.firstPsychDate.isSome).map (classify now nv notes)).filter
        (fun j => j.status = s) =
      withStatus s (js.map (classified now nv notes)) := by
  unfold withStatus
  induction js with
  | nil => rfl
  | cons j js ih =>
    have ih' := ih (fun j' hj' => hunk j' (List.mem_cons_of_mem _ hj'))
    have hj := hunk j (List.mem_cons_self _ _)
    cases hf : j.firstPsychDate with
    | none =>
      have hne : ¬ (j.status = s) := by rw [hj]; exact fun e => hs e.symm
      simp [List.filter_cons, hf, classified, hne, ih']
    | some t =>
      simp [List.filter_cons, hf, classified, ih']

theorem journeys_unknown (h : Host) (rs : List Entry) :
    ∀ j ∈ (groupFold newJourney (fun p j => addToJourney p.1 p.2 j)
      (rs.filterMap fun r => (journeyAction h r).item)).map Prod.snd, j.status = .unknown := by
  intro j hj
  obtain ⟨⟨n, j'⟩, hm, rfl⟩ := List.mem_map.1 hj
  obtain ⟨_, hje⟩ := (mem_journeys h rs n j').1 hm
  simp only
  rw [hje]
  exact (journeyOf_fields h rs n).2.2.2.2.2.2.2.2.2.1

/-- The object returned by `psychDashboardData`, field by field, in terms of
`allClients`. -/
theorem dashboard_shape (h : Host) (now : Int) (nv notes : String → Option String)
    (rs : List Entry) (d : Dashboard)
    (hok : psychDashboardData h now nv notes rs = .ok (some d)) :
    d.activeLeads = jsSort (fun a b => a.daysSinceLastPsych - b.daysSinceLastPsych)
      (withStatus .active d.allClients) ∧
    d.atRisk = jsSort (fun a b => b.daysSinceLastPsych - a.daysSinceLastPsych)
      (withStatus .atRisk d.allClients) ∧
    d.converted = (jsSort (fun a b => dateNumber b.firstABADate - dateNumber a.firstABADate)
      (withStatus .converted d.allClients)).take 20 ∧
    d.notViable = jsSort (fun a b => a.daysSinceLastPsych - b.daysSinceLastPsych)
      (withStatus .notViable d.allClients) ∧
    d.totalWithPsych = (withStatus .active d.allClients).length +
      (withStatus .atRisk d.allClients).length + (withStatus .converted d.allClients).length +
      (withStatus .notViable d.allClients).length ∧
    d.cohorts = (d.activeLeads ++ d.atRisk ++ d.notViable).foldl cohortEntry emptyCohorts := by
  rw [psychDashboardData_ok h now nv notes rs d hok]
  set js := (groupFold newJourney (fun p j => addToJourney p.1 p.2 j)
      (rs.filterMap fun r => (journeyAction h r).item)).map Prod.snd with hjs
  obtain ⟨h1, h2, h3, h4, h5⟩ := funnel_lists now nv notes js
  have hunk := journeys_unknown h rs
  rw [← hjs] at hunk
  have e2 := classified_filter now nv notes js hunk .active (by decide)
  have e3 := classified_filter now nv notes js hunk .converted (by decide)
  have e4 := classified_filter now nv notes js hunk .atRisk (by decide)
  have e5 := classified_filter now nv notes js hunk .notViable (by decide)
  rw [e2] at h2; rw [e3] at h3; rw [e4] at h4; rw [e5] at h5
  rw [← h1] at h2 h3 h4 h5
  have hlen : ∀ {α : Type} (cmp : α → α → Int) (xs : List α), (jsSort cmp xs).length = xs.length :=
    fun cmp xs => (jsSort_perm cmp xs).length_eq
  refine ⟨?_, ?_, ?_, ?_, ?_, rfl⟩
  · show jsSort _ (funnel now nv notes js).activeLeads = _
    rw [h2]; rfl
  · show jsSort _ (funnel now nv notes js).atRisk = _
    rw [h4]; rfl
  · show (jsSort _ (funnel now nv notes js).converted).take 20 = _
    rw [h3]; rfl
  · show jsSort _ (funnel now nv notes js).notViable = _
    rw [h5]; rfl
  · show (jsSort _ (funnel now nv notes js).activeLeads).length +
      (jsSort _ (funnel now nv notes js).atRisk).length +
      (jsSort _ (funnel now nv notes js).converted).length +
      (jsSort _ (funnel now nv notes js).notViable).length = _
    rw [hlen, hlen, hlen, hlen, h2, h3, h4, h5]; rfl


/-! ## Status by days since the last assessment -/

/-- A client with a valid assessment record, no valid recurring-service record
and no override: the journey holds the latest valid assessment date, and the
status follows from the number of days since then alone. -/
theorem pipeline_client (h : Host) (now : Int)
    (nv notes : String → Option String) (rs : List Entry)
    (d : Dashboard) (j : Journey)
    (hok : psychDashboardData h now nv notes rs = .ok (some d))
    (hj : j ∈ d.allClients) (hpsych : hasValidRecord h rs psychCodes j.name)
    (haba : ¬ hasValidRecord h rs abaCodes j.name)
    (hnv : lookupTruthy nv j.name = none) :
    ∃ last, j.lastPsychDate = some last ∧
      (∃ r ∈ rs, r.ClientName = j.name ∧ r.ProcedureCode ∈ psychCodes ∧
        parseEntryDate h r.DateOfService = .date last) ∧
      (∀ r ∈ rs, ∀ t, r.ClientName = j.name → r.ProcedureCode ∈ psychCodes →
        parseEntryDate h r.DateOfService = .date t → t ≤ last) ∧
      j.daysSinceLastPsych = (now - last) / msPerDay ∧
      j.status =
        (if (now - last) / msPerDay ≤ 75 then
          (if (now - last) / msPerDay > 45 then Status.atRisk else Status.active)
         else Status.stale) := by
  obtain ⟨hex, hp, hjc⟩ := allClients_with_psych h now _ _ rs d hok j hj hpsych
  have hdates := journeyOf_dates h rs j.name hex
  have hname : (journeyOf h rs j.name).name = j.name := (journeyOf_fields h rs _).1
  have hlastSome := hdates.2.1.2 hpsych
  have hnoaba : (journeyOf h rs j.name).firstABADate.isSome = false := by
    cases hf : (journeyOf h rs j.name).firstABADate.isSome with
    | false => rfl
    | true => exact absurd (hdates.2.2.1 hf) haba
  obtain ⟨last, hlast⟩ := Option.isSome_iff_exists.1 hlastSome
  have hmax := (journeyOf_fields h rs j.name).2.2.1
  rw [hlast] at hmax
  obtain ⟨hmem, hle⟩ := (runMax_spec _).2 last hmax.symm
  have hst := classify_status now nv notes (journeyOf h rs j.name)
  have hdays := classify_days now nv notes (journeyOf h rs j.name)
  rw [← hjc] at hst hdays
  rw [hname, hnv, hnoaba, hlast] at hst
  rw [hlast] at hdays
  refine ⟨last, hdays.2.1, ?_, ?_, hdays.1, ?_⟩
  · exact (mem_codeDates_clientItems h rs j.name psychCodes psychCodes_sub hex last).1 hmem
  · intro r hr t hn hc ht
    exact hle t ((mem_codeDates_clientItems h rs j.name psychCodes psychCodes_sub hex t).2
      ⟨r, hr, hn, hc, ht⟩)
  · rw [hst]
    simp only [daysBetween, dateNumber, Option.getD_some, Option.isSome_none,
      Bool.false_eq_true, if_false]

/-- What the classification does for such a client: the status is active exactly
when the number of days is at most 45, a negative number included. -/
theorem pipeline_active_iff (h : Host) (now : Int)
    (nv notes : String → Option String) (rs : List Entry)
    (d : Dashboard) (j : Journey)
    (hok : psychDashboardData h now nv notes rs = .ok (some d))
    (hj : j ∈ d.allClients) (hpsych : hasValidRecord h rs psychCodes j.name)
    (haba : ¬ hasValidRecord h rs abaCodes j.name)
    (hnv : lookupTruthy nv j.name = none) :
    j.status = .active ↔ j.daysSinceLastPsych ≤ 45 := by
  obtain ⟨last, _, _, _, hd, hs⟩ := pipeline_client h now nv notes rs d j hok hj hpsych haba hnv
  rw [hs, hd]
  split_ifs with h1 h2
  · exact ⟨fun hc => (by cases hc), fun hc => absurd h2 (not_lt.2 hc)⟩
  · exact ⟨fun _ => not_lt.1 h2, fun _ => rfl⟩
  · refine ⟨fun hc => (by cases hc), fun hc => absurd (le_trans hc (by norm_num)) h1⟩

/-- The journey of a client with a valid assessment record is in none of the
returned arrays under another status than its own. -/
theorem not_in_list_of_status (h : Host) (now : Int)
    (nv notes : String → Option String) (rs : List Entry)
    (d : Dashboard) (j : Journey)
    (hok : psychDashboardData h now nv notes rs = .ok (some d))
    (hj : j ∈ d.allClients) (hpsych : hasValidRecord h rs psychCodes j.name) :
    (j.status ≠ .active → ∀ j' ∈ d.activeLeads, j'.name ≠ j.name) ∧
    (j.status ≠ .atRisk → ∀ j' ∈ d.atRisk, j'.name ≠ j.name) ∧
    (j.status ≠ .converted → ∀ j' ∈ d.converted, j'.name ≠ j.name) ∧
    (j.status ≠ .notViable → ∀ j' ∈ d.notViable, j'.name ≠ j.name) := by
  obtain ⟨hex, hp, hjc⟩ := allClients_with_psych h now _ _ rs d hok j hj hpsych
  have key : ∀ (s : Status) (j' : Journey),
      (∃ n, (∃ x, x ∈ clientItems h rs n) ∧ (journeyOf h rs n).firstPsychDate.isSome ∧
        j' = classify now nv notes (journeyOf h rs n) ∧ j'.status = s) →
      j.status ≠ s → j'.name ≠ j.name := by
    rintro s j' ⟨n, _, _, hj', hs⟩ hne hname
    have := list_member_eq h now _ _ rs j j' n hjc hj' hname
    exact hne (by rw [← this]; exact hs)
  refine ⟨?_, ?_, ?_, ?_⟩
  · intro hne j' hj'
    exact key _ j' ((mem_dashboard_lists h now _ _ rs d hok j').1.1 hj') hne
  · intro hne j' hj'
    exact key _ j' ((mem_dashboard_lists h now _ _ rs d hok j').2.1.1 hj') hne
  · intro hne j' hj'
    exact key _ j' ((mem_dashboard_lists h now _ _ rs d hok j').2.2.2 hj') hne
  · intro hne j' hj'
    exact key _ j' ((mem_dashboard_lists h now _ _ rs d hok j').2.2.1.1 hj') hne


/-! ## Cohorts -/

theorem cohortEntry_counts (cs : Cohorts) (j : Journey) :
    (cohortEntry cs j).total =
      cs.total + (if j.status = .active ∨ j.status = .atRisk ∨ j.status = .notViable then 1 else 0) ∧
    (cohortEntry cs j).c0_14.converted = cs.c0_14.converted ∧
    (cohortEntry cs j).c15_30.converted = cs.c15_30.converted ∧
    (cohortEntry cs j).c31_45.converted = cs.c31_45.converted ∧
    (cohortEntry cs j).c46_60.converted = cs.c46_60.converted ∧
    (cohortEntry cs j).c61_75.converted = cs.c61_75.converted := by
  unfold cohortEntry
  cases cohortOf j.daysSinceLastPsych <;> cases hs : j.status <;>
    simp [Cohorts.modify, bumpCount, Cohorts.total, CohortCount.total] <;> omega

theorem cohortFold_counts (L : List Journey) (cs : Cohorts)
    (hL : ∀ j ∈ L, j.status = .active ∨ j.status = .atRisk ∨ j.status = .notViable) :
    (L.foldl cohortEntry cs).total = cs.total + L.length ∧
    (L.foldl cohortEntry cs).c0_14.converted = cs.c0_14.converted ∧
    (L.foldl cohortEntry cs).c15_30.converted = cs.c15_30.converted ∧
    (L.foldl cohortEntry cs).c31_45.converted = cs.c31_45.converted ∧
    (L.foldl cohortEntry cs).c46_60.converted = cs.c46_60.converted ∧
    (L.foldl cohortEntry cs).c61_75.converted = cs.c61_75.converted := by
  induction L generalizing cs with
  | nil => simp
  | cons j L ih =>
    have hj := hL j (List.mem_cons_self _ _)
    obtain ⟨i1, i2, i3, i4, i5, i6⟩ := ih (cohortEntry cs j)
      (fun j' hj' => hL j' (List.mem_cons_of_mem _ hj'))
    obtain ⟨e1, e2, e3, e4, e5, e6⟩ := cohortEntry_counts cs j
    rw [if_pos hj] at e1
    simp only [List.foldl_cons, List.length_cons]
    refine ⟨by omega, by omega, by omega, by omega, by omega, by omega⟩

theorem mem_withStatus (s : Status) (js : List Journey) (j : Journey) :
    j ∈ withStatus s js ↔ j ∈ js ∧ j.status = s := by
  unfold withStatus
  simp

/-- The journeys counted in the cohorts are active, at-risk or not-viable. -/
theorem cohort_members_status (h : Host) (now : Int) (nv notes : String → Option String)
    (rs : List Entry) (d : Dashboard)
    (hok : psychDashboardData h now nv notes rs = .ok (some d)) :
    (∀ j ∈ d.activeLeads, j ∈ d.allClients ∧ j.status = .active) ∧
    (∀ j ∈ d.atRisk, j ∈ d.allClients ∧ j.status = .atRisk) ∧
    (∀ j ∈ d.notViable, j ∈ d.allClients ∧ j.status = .notViable) ∧
    (∀ j ∈ d.converted, j ∈ d.allClients ∧ j.status = .converted) := by
  obtain ⟨h1, h2, h3, h4, _, _⟩ := dashboard_shape h now nv notes rs d hok
  refine ⟨?_, ?_, ?_, ?_⟩
  · intro j hj
    rw [h1, mem_jsSort, mem_withStatus] at hj; exact hj
  · intro j hj
    rw [h2, mem_jsSort, mem_withStatus] at hj; exact hj
  · intro j hj
    rw [h4, mem_jsSort, mem_withStatus] at hj; exact hj
  · intro j hj
    rw [h3] at hj
    have := List.mem_of_mem_take hj
    rw [mem_jsSort, mem_withStatus] at this; exact this


/-! ## Fields of classified journeys -/

theorem classify_fields (now : Int) (nv notes : String → Option String) (j : Journey) :
    (classify now nv notes j).name = j.name ∧
    (classify now nv notes j).firstPsychDate = j.firstPsychDate ∧
    (classify now nv notes j).lastPsychDate = j.lastPsychDate ∧
    (classify now nv notes j).firstABADate = j.firstABADate ∧
    (classify now nv notes j).lastABADate = j.lastABADate ∧
    (classify now nv notes j).psychSessions = j.psychSessions ∧
    (classify now nv notes j).abaSessions = j.abaSessions ∧
    (classify now nv notes j).totalRevenue = j.totalRevenue ∧
    (classify now nv notes j).totalHours = j.totalHours := by
  unfold classify
  simp only
  cases hf : j.firstABADate with
  | some a => simp
  | none =>
    simp only
    split_ifs <;> simp [hf]

theorem classify_converted (now : Int) (nv notes : String → Option String) (j : Journey)
    (hs : (classify now nv notes j).status = .converted) :
    ∃ fa, j.firstABADate = some fa ∧
      (classify now nv notes j).daysToConversion =
        some (daysBetween fa (dateNumber j.lastPsychDate)) := by
  cases hf : j.firstABADate with
  | some a =>
    refine ⟨a, rfl, ?_⟩
    unfold classify
    simp [hf]
  | none =>
    rw [classify_status, hf] at hs
    simp only [Option.isSome_none, Bool.false_eq_true, if_false] at hs
    split_ifs at hs

theorem classified_fields (now : Int) (nv notes : String → Option String) (j : Journey) :
    (classified now nv notes j).name = j.name ∧
    (classified now nv notes j).firstPsychDate = j.firstPsychDate ∧
    (classified now nv notes j).lastPsychDate = j.lastPsychDate ∧
    (classified now nv notes j).firstABADate = j.firstABADate ∧
    (classified now nv notes j).lastABADate = j.lastABADate ∧
    (classified now nv notes j).psychSessions = j.psychSessions ∧
    (classified now nv notes j).abaSessions = j.abaSessions ∧
    (classified now nv notes j).totalRevenue = j.totalRevenue ∧
    (classified now nv notes j).totalHours = j.totalHours := by
  unfold classified
  split_ifs
  · exact ⟨rfl, rfl, rfl, rfl, rfl, rfl, rfl, rfl, rfl⟩
  · exact classify_fields now nv notes j

/-- A journey of `allClients` that went through the classification: it is the
classified journey of its name, and its client has a valid assessment
record. -/
theorem allClients_classified (h : Host) (now : Int) (nv notes : String → Option String)
    (rs : List Entry) (d : Dashboard)
    (hok : psychDashboardData h now nv notes rs = .ok (some d)) (j : Journey)
    (hj : j ∈ d.allClients) (hs : j.status ≠ .unknown) :
    (∃ x, x ∈ clientItems h rs j.name) ∧
    (journeyOf h rs j.name).firstPsychDate.isSome ∧
    j = classify now nv notes (journeyOf h rs j.name) ∧
    hasValidRecord h rs psychCodes j.name := by
  obtain ⟨n, hex, hjn⟩ := (mem_allClients h now nv notes rs d hok j).1 hj
  have hname : j.name = n := by
    rw [hjn, classified_name]; exact (journeyOf_fields h rs n).1
  rw [hname]
  have hp : (journeyOf h rs n).firstPsychDate.isSome = true := by
    cases hfp : (journeyOf h rs n).firstPsychDate with
    | some t => rfl
    | none =>
      exfalso
      apply hs
      rw [hjn]
      unfold classified
      rw [hfp]
      simp only [Option.isNone_none, if_true]
      exact (journeyOf_fields h rs n).2.2.2.2.2.2.2.2.2.1
  refine ⟨hex, hp, ?_, (journeyOf_dates h rs n hex).1.1 hp⟩
  rw [hjn]
  unfold classified
  have : ¬ (journeyOf h rs n).firstPsychDate.isNone = true := by
    cases hfp : (journeyOf h rs n).firstPsychDate with
    | none => simp [hfp] at hp
    | some t => simp
  rw [if_neg this]

/-- The fields of a converted journey of `allClients`. -/
theorem converted_fields (h : Host) (now : Int) (nv notes : String → Option String)
    (rs : List Entry) (d : Dashboard)
    (hok : psychDashboardData h now nv notes rs = .ok (some d)) (j : Journey)
    (hj : j ∈ d.allClients) (hs : j.status = .converted) :
    ∃ fa lp, j.firstABADate = some fa ∧ j.lastPsychDate = some lp ∧
      j.daysToConversion = some ((fa - lp) / msPerDay) := by
  obtain ⟨hex, hp, hjc, hpsych⟩ :=
    allClients_classified h now nv notes rs d hok j hj (by rw [hs]; decide)
  have hs' := hs
  rw [hjc] at hs'
  obtain ⟨fa, hfa, hd⟩ := classify_converted now nv notes _ hs'
  have hlp : (journeyOf h rs j.name).lastPsychDate.isSome :=
    (journeyOf_dates h rs j.name hex).2.1.2 hpsych
  obtain ⟨lp, hlp⟩ := Option.isSome_iff_exists.1 hlp
  obtain ⟨_, _, f3, f4, _⟩ := classify_fields now nv notes (journeyOf h rs j.name)
  rw [← hjc] at f3 f4 hd
  refine ⟨fa, lp, by rw [f4, hfa], by rw [f3, hlp], ?_⟩
  rw [hd, hlp]
  rfl


/-! ## Statistics -/

theorem length_jsSort {α : Type} (cmp : α → α → Int) (xs : List α) :
    (jsSort cmp xs).length = xs.length :=
  (jsSort_perm cmp xs).length_eq

theorem foldl_add_eq_sum {α : Type} (g : α → ℚ) (xs : List α) (a : ℚ) :
    xs.foldl (fun sum c => sum + g c) a = a + (xs.map g).sum := by
  induction xs generalizing a with
  | nil => simp
  | cons x xs ih => simp [ih, add_assoc]

/-- The statistics of the returned object in terms of the arrays of the
classification loop. -/
theorem dashboardOf_stats (f : Funnel) :
    (dashboardOf f).totalWithPsych =
      f.activeLeads.length + f.atRisk.length + f.converted.length + f.notViable.length ∧
    (dashboardOf f).conversionRate =
      (if f.activeLeads.length + f.atRisk.length + f.converted.length + f.notViable.length > 0
       then
        toFixed (shareOf f.converted.length
          (f.activeLeads.length + f.atRisk.length + f.converted.length + f.notViable.length))
       else Percent.zero) ∧
    (dashboardOf f).avgDaysToConversion =
      (if (f.converted.filter validConversion).length > 0 then
        toFixed ((sumDays ((jsSort
            (fun a b => dateNumber b.firstABADate - dateNumber a.firstABADate)
            f.converted).filter validConversion)).bind fun s =>
          roundDouble (s / ((f.converted.filter validConversion).length : ℚ)))
       else Percent.zero) := by
  have hp := (jsSort_perm
    (fun a b : Journey => dateNumber b.firstABADate - dateNumber a.firstABADate)
    f.converted).filter validConversion
  refine ⟨?_, ?_, ?_⟩
  · show (jsSort _ f.activeLeads).length + (jsSort _ f.atRisk).length +
      (jsSort _ f.converted).length + (jsSort _ f.notViable).length = _
    simp only [length_jsSort]
  · show (if (jsSort _ f.activeLeads).length + (jsSort _ f.atRisk).length +
      (jsSort _ f.converted).length + (jsSort _ f.notViable).length > 0 then
        toFixed (shareOf (jsSort _ f.converted).length
          ((jsSort _ f.activeLeads).length + (jsSort _ f.atRisk).length +
            (jsSort _ f.converted).length + (jsSort _ f.notViable).length))
        else Percent.zero) = _
    simp only [length_jsSort]
  · show (if ((jsSort _ f.converted).filter validConversion).length > 0 then
        toFixed ((sumDays ((jsSort _ f.converted).filter validConversion)).bind fun s =>
          roundDouble (s / (((jsSort _ f.converted).filter validConversion).length : ℚ)))
        else Percent.zero) = _
    rw [hp.length_eq]

/-- A sum of days that are not negative and add up to at most `2 ^ 53` is
computed without rounding. -/
theorem sumDays_exact (L : List Journey)
    (hnn : ∀ c ∈ L, 0 ≤ c.daysToConversion.getD 0)
    (hsum : (L.map fun c => c.daysToConversion.getD 0).sum ≤ 2 ^ 53) :
    sumDays L = .finite (((L.map fun c => c.daysToConversion.getD 0).sum : ℤ) : ℚ) := by
  unfold sumDays
  induction L using List.reverseRecOn with
  | nil => simp
  | append_singleton L c ih =>
    have hnn' : ∀ c' ∈ L, 0 ≤ c'.daysToConversion.getD 0 :=
      fun c' hc' => hnn c' (List.mem_append_left _ hc')
    have hc : 0 ≤ c.daysToConversion.getD 0 := hnn c (by simp)
    have hpos : 0 ≤ (L.map fun c => c.daysToConversion.getD 0).sum :=
      List.sum_nonneg (by
        intro x hx
        obtain ⟨c', hc', rfl⟩ := List.mem_map.1 hx
        exact hnn' c' hc')
    simp only [List.map_append, List.map_cons, List.map_nil, List.sum_append, List.sum_cons,
      List.sum_nil, add_zero] at hsum ⊢
    rw [List.foldl_append, List.foldl_cons, List.foldl_nil, ih hnn' (by omega)]
    unfold addDays Num.bind
    simp only
    have e : (((L.map fun c => c.daysToConversion.getD 0).sum : ℤ) : ℚ) +
        ((c.daysToConversion.getD 0 : ℤ) : ℚ) =
        (((L.map fun c => c.daysToConversion.getD 0).sum + c.daysToConversion.getD 0 : ℤ) : ℚ) := by
      push_cast
      rfl
    rw [e]
    exact roundDouble_int _ (by omega)

theorem conversionDays_eq (L : List Journey)
    (hL : ∀ j ∈ L, j.status = .converted ∧ ∃ x, j.daysToConversion = some x) :
    (L.filter validConversion).map (fun c => (c.daysToConversion.getD 0 : ℚ)) =
      (conversionDays L).map (fun x : Int => (x : ℚ)) := by
  unfold conversionDays withStatus
  induction L with
  | nil => rfl
  | cons j L ih =>
    obtain ⟨hs, x, hx⟩ := hL j (List.mem_cons_self _ _)
    have ih' := ih (fun j' hj' => hL j' (List.mem_cons_of_mem _ hj'))
    by_cases hx0 : x ≥ 0
    · simp [List.filter_cons, validConversion, hx, hs, hx0, List.filterMap_cons, ih']
    · simp [List.filter_cons, validConversion, hx, hs, hx0, List.filterMap_cons, ih']


/-- The statistics of the returned object in terms of `allClients`. -/
theorem dashboard_stats (h : Host) (now : Int) (nv notes : String → Option String)
    (rs : List Entry) (d : Dashboard)
    (hok : psychDashboardData h now nv notes rs = .ok (some d)) :
    d.conversionRate =
      (if (withStatus .active d.allClients).length + (withStatus .atRisk d.allClients).length +
          (withStatus .converted d.allClients).length +
          (withStatus .notViable d.allClients).length > 0
       then
        toFixed (shareOf (withStatus .converted d.allClients).length
          ((withStatus .active d.allClients).length +
            (withStatus .atRisk d.allClients).length +
            (withStatus .converted d.allClients).length +
            (withStatus .notViable d.allClients).length))
       else Percent.zero) ∧
    d.avgDaysToConversion =
      (if (conversionDays d.allClients).length > 0 then
        toFixed ((sumDays ((jsSort
            (fun a b => dateNumber b.firstABADate - dateNumber a.firstABADate)
            (withStatus .converted d.allClients)).filter validConversion)).bind fun s =>
          roundDouble (s / ((conversionDays d.allClients).length : ℚ)))
       else Percent.zero) ∧
    ((conversionDays d.allClients).sum ≤ 2 ^ 53 →
      sumDays ((jsSort (fun a b => dateNumber b.firstABADate - dateNumber a.firstABADate)
          (withStatus .converted d.allClients)).filter validConversion) =
        .finite (((conversionDays d.allClients).sum : ℤ) : ℚ)) := by
  have hconv : ∀ j ∈ withStatus .converted d.allClients,
      j.status = .converted ∧ ∃ x, j.daysToConversion = some x := by
    intro j hj
    obtain ⟨hj1, hj2⟩ := (mem_withStatus _ _ _).1 hj
    obtain ⟨fa, lp, _, _, hd⟩ := converted_fields h now nv notes rs d hok j hj1 hj2
    exact ⟨hj2, _, hd⟩
  have hcd : conversionDays (withStatus .converted d.allClients) = conversionDays d.allClients := by
    unfold conversionDays withStatus
    rw [List.filter_filter]
    simp
  have hmap := conversionDays_eq _ hconv
  rw [hcd] at hmap
  have hlen : ((withStatus .converted d.allClients).filter validConversion).length =
      (conversionDays d.allClients).length := by
    have := congrArg List.length hmap
    simpa using this
  have hd := psychDashboardData_ok h now nv notes rs d hok
  set js := (groupFold newJourney (fun p j => addToJourney p.1 p.2 j)
      (rs.filterMap fun r => (journeyAction h r).item)).map Prod.snd with hjs
  obtain ⟨h1, h2, h3, h4, h5⟩ := funnel_lists now nv notes js
  have hunk := journeys_unknown h rs
  rw [← hjs] at hunk
  rw [classified_filter now nv notes js hunk .active (by decide)] at h2
  rw [classified_filter now nv notes js hunk .converted (by decide)] at h3
  rw [classified_filter now nv notes js hunk .atRisk (by decide)] at h4
  rw [classified_filter now nv notes js hunk .notViable (by decide)] at h5
  have hall : d.allClients = js.map (classified now nv notes) := by rw [hd]; exact h1
  rw [← hall] at h2 h3 h4 h5
  obtain ⟨_, s2, s3⟩ := dashboardOf_stats (funnel now nv notes js)
  rw [← hd] at s2 s3
  simp only [h2, h3, h4, h5] at s2 s3
  refine ⟨s2, ?_, ?_⟩
  · rw [s3, hlen]
  · intro hsum
    have hperm := (jsSort_perm
      (fun a b : Journey => dateNumber b.firstABADate - dateNumber a.firstABADate)
      (withStatus .converted d.allClients)).filter validConversion
    have hmapZ : ((withStatus .converted d.allClients).filter validConversion).map
        (fun c => c.daysToConversion.getD 0) = conversionDays d.allClients := by
      have hinj : Function.Injective (fun x : Int => (x : ℚ)) := Int.cast_injective
      apply List.map_injective_iff.2 hinj
      rw [← hmap, List.map_map]
      rfl
    have hsumeq : (((jsSort
        (fun a b : Journey => dateNumber b.firstABADate - dateNumber a.firstABADate)
        (withStatus .converted d.allClients)).filter validConversion).map
        fun c => c.daysToConversion.getD 0).sum = (conversionDays d.allClients).sum := by
      rw [(hperm.map _).sum_eq, hmapZ]
    have hnn : ∀ c ∈ (jsSort
        (fun a b : Journey => dateNumber b.firstABADate - dateNumber a.firstABADate)
        (withStatus .converted d.allClients)).filter validConversion,
        0 ≤ c.daysToConversion.getD 0 := by
      intro c hc
      have hv : validConversion c = true := (List.mem_filter.1 hc).2
      unfold validConversion at hv
      cases hdc : c.daysToConversion with
      | none => simp
      | some x =>
        rw [hdc] at hv
        simpa using hv
    rw [sumDays_exact _ hnn (by rw [hsumeq]; exact hsum), hsumeq]

/-! ## Claims on the classification, the cohorts and the statistics -/

/-- C11 on a run: Fay Hill has one assessment row, dated ten days after
`sampleNow`, no recurring-service row and no override; her days since the last
assessment are -10 and the classification of lines 590-598 makes her active and
puts her in `activeLeads`. -/
theorem active_with_negative_days :
    hasValidRecord sampleHost sampleEdgeData psychCodes "Fay Hill" ∧
    ¬ hasValidRecord sampleHost sampleEdgeData abaCodes "Fay Hill" ∧
    lookupTruthy sampleEdgeReasons "Fay Hill" = none ∧
    (sampleEdgeDashboard.map fun d =>
      (d.activeLeads.filter fun j => j.name = "Fay Hill").map fun j =>
        (j.daysSinceLastPsych, j.status)) = some [(-10, Status.active)] :=
  ⟨⟨sampleRow "03/20/2025" "Fay Hill" "90791", by decide!, by decide!, by decide!,
      by decide!⟩,
    by unfold hasValidRecord; decide!, by decide!, by decide!⟩

/-- C12: a client of the result with a valid assessment record, no valid
recurring-service record and no override has its last assessment date, the
greatest date of its assessment records, and is stale if and only if the days
from that date to `now` exceed 75; a stale client has its name in none of
`activeLeads`, `atRisk`, `converted`, `notViable`, the cohorts are counted over
`activeLeads`, `atRisk` and `notViable` only, and `totalWithPsych` counts the
journeys of the four other statuses, of which it is none. -/
theorem funnel_stale (h : Host) (now : Int)
    (notViableReasons clientNotes : String → Option String) (rawData : List Entry)
    (d : Dashboard) (j : Journey)
    (hok : psychDashboardData h now notViableReasons clientNotes rawData = .ok (some d))
    (hj : j ∈ d.allClients) (hpsych : hasValidRecord h rawData psychCodes j.name)
    (haba : ¬ hasValidRecord h rawData abaCodes j.name)
    (hnv : lookupTruthy notViableReasons j.name = none) :
    (∃ last, j.lastPsychDate = some last ∧
      (∃ r ∈ rawData, r.ClientName = j.name ∧ r.ProcedureCode ∈ psychCodes ∧
        parseEntryDate h r.DateOfService = .date last) ∧
      (∀ r ∈ rawData, ∀ t, r.ClientName = j.name → r.ProcedureCode ∈ psychCodes →
        parseEntryDate h r.DateOfService = .date t → t ≤ last) ∧
      j.daysSinceLastPsych = (now - last) / msPerDay ∧
      (j.status = .stale ↔ 75 < (now - last) / msPerDay)) ∧
    (j.status = .stale →
      (∀ j' ∈ d.activeLeads ++ d.atRisk ++ d.converted ++ d.notViable, j'.name ≠ j.name) ∧
      d.cohorts = (d.activeLeads ++ d.atRisk ++ d.notViable).foldl cohortEntry emptyCohorts ∧
      d.totalWithPsych = (withStatus .active d.allClients).length +
        (withStatus .atRisk d.allClients).length +
        (withStatus .converted d.allClients).length +
        (withStatus .notViable d.allClients).length ∧
      j ∉ withStatus .active d.allClients ∧ j ∉ withStatus .atRisk d.allClients ∧
      j ∉ withStatus .converted d.allClients ∧ j ∉ withStatus .notViable d.allClients) := by
  constructor
  · obtain ⟨last, h1, h2, h3, h4, hs⟩ :=
      pipeline_client h now _ _ rawData d j hok hj hpsych haba hnv
    refine ⟨last, h1, h2, h3, h4, ?_⟩
    rw [hs]
    split_ifs with c1 c2
    · exact ⟨fun hc => (by cases hc), fun hc => absurd c1 (not_le.2 hc)⟩
    · exact ⟨fun hc => (by cases hc), fun hc => absurd c1 (not_le.2 hc)⟩
    · exact ⟨fun _ => not_le.1 c1, fun _ => rfl⟩
  · intro hs
    obtain ⟨n1, n2, n3, n4⟩ := not_in_list_of_status h now _ _ rawData d j hok hj hpsych
    obtain ⟨_, _, _, _, ht, hc⟩ := dashboard_shape h now _ _ rawData d hok
    refine ⟨?_, hc, ht, ?_, ?_, ?_, ?_⟩
    · intro j' hj'
      simp only [List.mem_append] at hj'
      rcases hj' with ((hj' | hj') | hj') | hj'
      · exact n1 (by rw [hs]; decide) j' hj'
      · exact n2 (by rw [hs]; decide) j' hj'
      · exact n3 (by rw [hs]; decide) j' hj'
      · exact n4 (by rw [hs]; decide) j' hj'
    all_goals
      unfold withStatus
      simp [hs]

/-- C12 on the sample: Cy Dunn, last assessed 100 days before `sampleNow`, is
stale and in none of the lists and counts. -/
theorem funnel_stale_witness :
    psychDashboardData sampleHost sampleNow sampleReasons sampleNotes samplePsychData
      = .ok (some sampleDashboard) ∧
    sampleCy ∈ sampleDashboard.allClients ∧
    hasValidRecord sampleHost samplePsychData psychCodes sampleCy.name ∧
    ¬ hasValidRecord sampleHost samplePsychData abaCodes sampleCy.name ∧
    lookupTruthy sampleReasons sampleCy.name = none ∧
    sampleCy.daysSinceLastPsych = 100 ∧ sampleCy.status = .stale ∧
    (∀ j' ∈ sampleDashboard.activeLeads ++ sampleDashboard.atRisk ++
        sampleDashboard.converted ++ sampleDashboard.notViable, j'.name ≠ sampleCy.name) ∧
    sampleDashboard.cohorts =
      (sampleDashboard.activeLeads ++ sampleDashboard.atRisk ++
        sampleDashboard.notViable).foldl cohortEntry emptyCohorts ∧
    sampleDashboard.totalWithPsych = (withStatus .active sampleDashboard.allClients).length +
      (withStatus .atRisk sampleDashboard.allClients).length +
      (withStatus .converted sampleDashboard.allClients).length +
      (withStatus .notViable sampleDashboard.allClients).length ∧
    sampleCy ∉ withStatus .active sampleDashboard.allClients ∧
    sampleCy ∉ withStatus .atRisk sampleDashboard.allClients ∧
    sampleCy ∉ withStatus .converted sampleDashboard.allClients ∧
    sampleCy ∉ withStatus .notViable sampleDashboard.allClients :=
  ⟨by decide!, by decide!,
    ⟨sampleRow "11/30/2024" "Cy Dunn" "96136", by decide!, by decide!, by decide!, by decide!⟩,
    by unfold hasValidRecord; decide!,
    by decide!, by decide!, by decide!,
    (funnel_stale sampleHost sampleNow sampleReasons sampleNotes samplePsychData
      sampleDashboard sampleCy (by decide!) (by decide!)
      ⟨sampleRow "11/30/2024" "Cy Dunn" "96136", by decide!, by decide!, by decide!,
        by decide!⟩
      (by unfold hasValidRecord; decide!) (by decide!)).2 (by decide!)⟩

/-- C13: the sum over the five cohorts of `active + atRisk + notViable` is
`activeLeads.length + atRisk.length + notViable.length`, and the `converted`
counter of every cohort is 0. -/
theorem cohort_totals (h : Host) (now : Int)
    (notViableReasons clientNotes : String → Option String) (rawData : List Entry)
    (d : Dashboard)
    (hok : psychDashboardData h now notViableReasons clientNotes rawData = .ok (some d)) :
    d.cohorts.total = d.activeLeads.length + d.atRisk.length + d.notViable.length ∧
    d.cohorts.c0_14.converted = 0 ∧ d.cohorts.c15_30.converted = 0 ∧
    d.cohorts.c31_45.converted = 0 ∧ d.cohorts.c46_60.converted = 0 ∧
    d.cohorts.c61_75.converted = 0 := by
  obtain ⟨_, _, _, _, _, hc⟩ := dashboard_shape h now _ _ rawData d hok
  obtain ⟨m1, m2, m3, _⟩ := cohort_members_status h now _ _ rawData d hok
  have hL : ∀ j ∈ d.activeLeads ++ d.atRisk ++ d.notViable,
      j.status = .active ∨ j.status = .atRisk ∨ j.status = .notViable := by
    intro j hj
    simp only [List.mem_append] at hj
    rcases hj with (hj | hj) | hj
    · exact Or.inl (m1 j hj).2
    · exact Or.inr (Or.inl (m2 j hj).2)
    · exact Or.inr (Or.inr (m3 j hj).2)
  obtain ⟨e1, e2, e3, e4, e5, e6⟩ := cohortFold_counts _ emptyCohorts hL
  rw [← hc] at e1 e2 e3 e4 e5 e6
  refine ⟨?_, e2, e3, e4, e5, e6⟩
  rw [e1]
  simp only [emptyCohorts, Cohorts.total, CohortCount.total, List.length_append]
  omega

/-- C13 on the sample: the three clients of `activeLeads`, `atRisk` and
`notViable` are the three counted in the cohorts. -/
theorem cohort_totals_witness :
    psychDashboardData sampleHost sampleNow sampleReasons sampleNotes samplePsychData
      = .ok (some sampleDashboard) ∧
    sampleDashboard.activeLeads.length + sampleDashboard.atRisk.length +
      sampleDashboard.notViable.length = 3 ∧
    sampleDashboard.cohorts.total =
      sampleDashboard.activeLeads.length + sampleDashboard.atRisk.length +
        sampleDashboard.notViable.length ∧
    sampleDashboard.cohorts.c0_14.converted = 0 ∧
    sampleDashboard.cohorts.c15_30.converted = 0 ∧
    sampleDashboard.cohorts.c31_45.converted = 0 ∧
    sampleDashboard.cohorts.c46_60.converted = 0 ∧
    sampleDashboard.cohorts.c61_75.converted = 0 :=
  ⟨by decide!, by decide!,
    cohort_totals sampleHost sampleNow sampleReasons sampleNotes samplePsychData
      sampleDashboard (by decide!)⟩

/-- C14 on a run: Gus Ito, not viable with 100 days since the last assessment,
is the client counted in cohort 61-75, and Fay Hill, active with -10 days, is
counted in cohort 0-14: lines 633-637 bound neither end. -/
theorem cohort_outside_range :
    (sampleEdgeDashboard.map fun d =>
      d.notViable.map fun j => (j.name, j.daysSinceLastPsych, j.status)) =
      some [("Gus Ito", 100, Status.notViable)] ∧
    (sampleEdgeDashboard.map fun d => d.cohorts.get (cohortOf 100)) =
      some ⟨0, 0, 0, 1⟩ ∧
    cohortRange (cohortOf 100) = (61, 75) ∧
    (sampleEdgeDashboard.map fun d =>
      d.activeLeads.map fun j => (j.name, j.daysSinceLastPsych, j.status)) =
      some [("Fay Hill", -10, Status.active), ("Hal Jay", 9, Status.active)] ∧
    (sampleEdgeDashboard.map fun d => d.cohorts.get (cohortOf (-10))) =
      some ⟨2, 0, 0, 0⟩ ∧
    cohortRange (cohortOf (-10)) = (0, 14) :=
  ⟨by decide!, by decide!, by decide!, by decide!, by decide!, by decide!⟩

/-- C15: `conversionRate` is `toFixed(1)` of `C / (A + R + C + N) * 100` as
binary64 arithmetic computes it, a division and a multiplication, where `A`, `R`,
`C`, `N` count the active, at-risk, converted and not-viable journeys of the run
(all converted ones, while the returned list holds at most 20), and the number 0
when that sum is 0; `totalWithPsych` is that sum, so stale journeys enter
neither. Each operation is off by at most half a unit in the last place, and one
decimal is within 0.05 of the value printed. -/
theorem conversionRate_formula (h : Host) (now : Int)
    (notViableReasons clientNotes : String → Option String) (rawData : List Entry)
    (d : Dashboard)
    (hok : psychDashboardData h now notViableReasons clientNotes rawData = .ok (some d)) :
    d.conversionRate =
      (if (withStatus .active d.allClients).length + (withStatus .atRisk d.allClients).length +
          (withStatus .converted d.allClients).length +
          (withStatus .notViable d.allClients).length > 0
       then
        toFixed (shareOf (withStatus .converted d.allClients).length
          ((withStatus .active d.allClients).length +
            (withStatus .atRisk d.allClients).length +
            (withStatus .converted d.allClients).length +
            (withStatus .notViable d.allClients).length))
       else Percent.zero) ∧
    d.totalWithPsych =
      (withStatus .active d.allClients).length + (withStatus .atRisk d.allClients).length +
        (withStatus .converted d.allClients).length +
        (withStatus .notViable d.allClients).length ∧
    d.converted.length = min 20 (withStatus .converted d.allClients).length ∧
    (∀ part total : Nat, shareOf part total =
      (roundDouble ((part : ℚ) / (total : ℚ))).bind fun q => roundDouble (q * 100)) ∧
    (∀ x y : ℚ, roundDouble x = .finite y →
      abs (y - x) ≤ abs x / 2 ^ 53 ∨ abs (y - x) ≤ 1 / 2 ^ 1075) ∧
    (∀ x : ℚ, abs x < 10 ^ 21 → toFixed (.finite x) = .fixed (toFixed1 x)) ∧
    (∀ x : ℚ, |(toFixed1 x).value - x| ≤ 1 / 20) := by
  obtain ⟨_, _, h3, _, ht, _⟩ := dashboard_shape h now _ _ rawData d hok
  refine ⟨(dashboard_stats h now _ _ rawData d hok).1, ht, ?_, fun _ _ => rfl,
    roundDouble_close, ?_, toFixed1_close⟩
  · rw [h3, List.length_take, length_jsSort]
  · intro x hx
    unfold toFixed
    simp only
    rw [if_pos hx]

/-- C15 on a run with 21 converted clients: 20 are returned, `totalWithPsych`
is 21 and the rate is 100.0. With 23 converted clients of 80 the rate is `28.7`,
the binary64 product being 28.749999999999996 where the exact value is 28.75. -/
theorem conversionRate_formula_witness :
    psychDashboardData sampleHost sampleNow sampleNotes sampleNotes sampleManyData
      = .ok (some sampleManyDashboard) ∧
    (withStatus .converted sampleManyDashboard.allClients).length = 21 ∧
    sampleManyDashboard.converted.length = 20 ∧
    sampleManyDashboard.totalWithPsych = 21 ∧
    sampleManyDashboard.conversionRate = Percent.fixed ⟨false, 1000⟩ ∧
    sampleManyDashboard.conversionRate =
      (if (withStatus .active sampleManyDashboard.allClients).length +
          (withStatus .atRisk sampleManyDashboard.allClients).length +
          (withStatus .converted sampleManyDashboard.allClients).length +
          (withStatus .notViable sampleManyDashboard.allClients).length > 0
       then
        toFixed (shareOf (withStatus .converted sampleManyDashboard.allClients).length
          ((withStatus .active sampleManyDashboard.allClients).length +
            (withStatus .atRisk sampleManyDashboard.allClients).length +
            (withStatus .converted sampleManyDashboard.allClients).length +
            (withStatus .notViable sampleManyDashboard.allClients).length))
       else Percent.zero) ∧
    toFixed (shareOf 23 80) = .fixed ⟨false, 287⟩ ∧
    toFixed1 ((23 : ℚ) / 80 * 100) = ⟨false, 288⟩ :=
  ⟨by decide!, by decide!, by decide!, by decide!, by decide!,
    (conversionRate_formula sampleHost sampleNow sampleNotes sampleNotes sampleManyData
      sampleManyDashboard (by decide!)).1, by decide!, by decide!⟩

/-- C16: `avgDaysToConversion` is `toFixed(1)` of the sum of the
`daysToConversion` values that are not negative, over all converted journeys of
the run, divided by their number in binary64 arithmetic, and the number 0 when
there is none; a sum of at most `2 ^ 53` is computed without rounding, so that
the value printed is the rounded quotient of the exact sum.
`daysToConversion` of a converted journey is the floor of (first
recurring-service date - last assessment date) in days, negative or not, and
the returned `converted` list is taken from all converted journeys, whatever
that value. -/
theorem avgDaysToConversion_formula (h : Host) (now : Int)
    (notViableReasons clientNotes : String → Option String) (rawData : List Entry)
    (d : Dashboard)
    (hok : psychDashboardData h now notViableReasons clientNotes rawData = .ok (some d)) :
    d.avgDaysToConversion =
      (if (conversionDays d.allClients).length > 0 then
        toFixed ((sumDays ((jsSort
            (fun a b => dateNumber b.firstABADate - dateNumber a.firstABADate)
            (withStatus .converted d.allClients)).filter validConversion)).bind fun s =>
          roundDouble (s / ((conversionDays d.allClients).length : ℚ)))
       else Percent.zero) ∧
    ((conversionDays d.allClients).sum ≤ 2 ^ 53 →
      d.avgDaysToConversion =
        (if (conversionDays d.allClients).length > 0 then
          toFixed (roundDouble ((((conversionDays d.allClients).sum : ℤ) : ℚ) /
            ((conversionDays d.allClients).length : ℚ)))
         else Percent.zero)) ∧
    (∀ j ∈ d.allClients, j.status = .converted →
      ∃ fa lp, j.firstABADate = some fa ∧ j.lastPsychDate = some lp ∧
        j.daysToConversion = some ((fa - lp) / msPerDay)) ∧
    d.converted =
      (jsSort (fun a b => dateNumber b.firstABADate - dateNumber a.firstABADate)
        (withStatus .converted d.allClients)).take 20 ∧
    (∀ x y : ℚ, roundDouble x = .finite y →
      abs (y - x) ≤ abs x / 2 ^ 53 ∨ abs (y - x) ≤ 1 / 2 ^ 1075) ∧
    (∀ x : ℚ, abs x < 10 ^ 21 → toFixed (.finite x) = .fixed (toFixed1 x)) ∧
    (∀ x : ℚ, |(toFixed1 x).value - x| ≤ 1 / 20) := by
  obtain ⟨_, _, h3, _, _, _⟩ := dashboard_shape h now _ _ rawData d hok
  obtain ⟨_, s2, s3⟩ := dashboard_stats h now _ _ rawData d hok
  refine ⟨s2, ?_, fun j hj hs => converted_fields h now _ _ rawData d hok j hj hs, h3,
    roundDouble_close, ?_, toFixed1_close⟩
  · intro hsum
    rw [s2, s3 hsum]
    rfl
  · intro x hx
    unfold toFixed
    simp only
    rw [if_pos hx]

/-- C16 on a run with two converted clients, one with 54 and one with -10 days
to conversion: both are returned, the mean is over the first only, 54.0. A sum
of 3 days over 20 clients prints `0.1`, the binary64 quotient being below the
exact value 0.15. -/
theorem avgDaysToConversion_formula_witness :
    psychDashboardData sampleHost sampleNow sampleNotes sampleNotes sampleConvData
      = .ok (some sampleConvDashboard) ∧
    (sampleConvDashboard.converted.map fun j => (j.name, j.daysToConversion)) =
      [("Jane Doe", some 54), ("Ivy Orr", some (-10))] ∧
    conversionDays sampleConvDashboard.allClients = [54] ∧
    sampleConvDashboard.avgDaysToConversion = Percent.fixed ⟨false, 540⟩ ∧
    sampleConvDashboard.avgDaysToConversion =
      (if (conversionDays sampleConvDashboard.allClients).length > 0 then
        toFixed (roundDouble ((((conversionDays sampleConvDashboard.allClients).sum : ℤ) : ℚ) /
          ((conversionDays sampleConvDashboard.allClients).length : ℚ)))
       else Percent.zero) ∧
    toFixed (roundDouble ((3 : ℚ) / 20)) = .fixed ⟨false, 1⟩ ∧
    toFixed1 ((3 : ℚ) / 20) = ⟨false, 2⟩ :=
  ⟨by decide!, by decide!, by decide!, by decide!,
    (avgDaysToConversion_formula sampleHost sampleNow sampleNotes sampleNotes sampleConvData
      sampleConvDashboard (by decide!)).2.1 (by decide!), by decide!, by decide!⟩

/-- C17: `activeLeads` and `notViable` are in non-decreasing order of days
since the last assessment, `atRisk` in non-increasing order, `converted` in
non-increasing order of first recurring-service date; `converted` has at most 20
entries, and a converted journey that is not returned exists only when there are
more than 20 and has a first recurring-service date no later than that of every
returned one. -/
theorem dashboard_sorted (h : Host) (now : Int)
    (notViableReasons clientNotes : String → Option String) (rawData : List Entry)
    (d : Dashboard)
    (hok : psychDashboardData h now notViableReasons clientNotes rawData = .ok (some d)) :
    d.activeLeads.Pairwise (fun a b => a.daysSinceLastPsych ≤ b.daysSinceLastPsych) ∧
    d.notViable.Pairwise (fun a b => a.daysSinceLastPsych ≤ b.daysSinceLastPsych) ∧
    d.atRisk.Pairwise (fun a b => b.daysSinceLastPsych ≤ a.daysSinceLastPsych) ∧
    d.converted.Pairwise
      (fun a b => dateNumber b.firstABADate ≤ dateNumber a.firstABADate) ∧
    d.converted.length ≤ 20 ∧
    (∀ j ∈ d.allClients, j.status = .converted → j ∉ d.converted →
      20 < (withStatus .converted d.allClients).length ∧
      ∀ x ∈ d.converted, dateNumber j.firstABADate ≤ dateNumber x.firstABADate) := by
  obtain ⟨h1, h2, h3, h4, _, _⟩ := dashboard_shape h now _ _ rawData d hok
  have sA := jsSort_sorted (fun a b : Journey => a.daysSinceLastPsych - b.daysSinceLastPsych)
    (fun j => j.daysSinceLastPsych) (fun a b => by dsimp only; constructor <;> intro hab <;> omega)
  have sR := jsSort_sorted (fun a b : Journey => b.daysSinceLastPsych - a.daysSinceLastPsych)
    (fun j => - j.daysSinceLastPsych) (fun a b => by dsimp only; constructor <;> intro hab <;> omega)
  have sC := jsSort_sorted
    (fun a b : Journey => dateNumber b.firstABADate - dateNumber a.firstABADate)
    (fun j => - dateNumber j.firstABADate) (fun a b => by dsimp only; constructor <;> intro hab <;> omega)
    (withStatus .converted d.allClients)
  have sC' : (jsSort
      (fun a b : Journey => dateNumber b.firstABADate - dateNumber a.firstABADate)
      (withStatus .converted d.allClients)).Pairwise
      (fun a b => dateNumber b.firstABADate ≤ dateNumber a.firstABADate) :=
    sC.imp (fun hab => neg_le_neg_iff.1 hab)
  refine ⟨?_, ?_, ?_, ?_, ?_, ?_⟩
  · rw [h1]; exact sA _
  · rw [h4]; exact sA _
  · rw [h2]; exact (sR _).imp (fun hab => neg_le_neg_iff.1 hab)
  · rw [h3]; exact sC'.sublist (List.take_sublist _ _)
  · rw [h3, List.length_take]; exact min_le_left _ _
  · intro j hj hs hnot
    have hmem : j ∈ jsSort
        (fun a b : Journey => dateNumber b.firstABADate - dateNumber a.firstABADate)
        (withStatus .converted d.allClients) :=
      (mem_jsSort _ _ _).2 ((mem_withStatus _ _ _).2 ⟨hj, hs⟩)
    rw [← List.take_append_drop 20 (jsSort _ (withStatus .converted d.allClients))] at hmem sC'
    rw [← h3] at hmem sC'
    have hdrop := (List.mem_append.1 hmem).resolve_left hnot
    constructor
    · by_contra hle
      have hlen : (jsSort
          (fun a b : Journey => dateNumber b.firstABADate - dateNumber a.firstABADate)
          (withStatus .converted d.allClients)).length ≤ 20 := by
        rw [length_jsSort]; omega
      rw [List.drop_of_length_le hlen] at hdrop
      exact List.not_mem_nil _ hdrop
    · intro x hx
      exact (List.pairwise_append.1 sC').2.2 x hx j hdrop

/-- C17 on a run with 21 converted clients: 20 are returned, latest first
recurring-service date first. -/
theorem dashboard_sorted_witness :
    psychDashboardData sampleHost sampleNow sampleNotes sampleNotes sampleManyData
      = .ok (some sampleManyDashboard) ∧
    (withStatus .converted sampleManyDashboard.allClients).length = 21 ∧
    sampleManyDashboard.converted.length = 20 ∧
    (sampleManyDashboard.converted.map fun j => j.name).take 3 =
      ["Client 20", "Client 19", "Client 18"] ∧
    sampleManyDashboard.converted.Pairwise
      (fun a b => dateNumber b.firstABADate ≤ dateNumber a.firstABADate) :=
  ⟨by decide!, by decide!, by decide!, by decide!,
    (dashboard_sorted sampleHost sampleNow sampleNotes sampleNotes sampleManyData
      sampleManyDashboard (by decide!)).2.2.2.1⟩

/-! ## Claims on the client histories -/

/-- C18 on a run: the only row of Hal Jay is an assessment row with agreed
charge 0 and two hours; his journey has `totalRevenue` 0 and `totalHours` 2:
line 561 adds the hours of a row without looking at its charge. -/
theorem journey_hours_without_charge :
    (sampleEdgeData.filter fun r => r.ClientName = "Hal Jay").map
        (fun r => (r.ProcedureCode, r.ClientChargesAgreedTotal, r.TimeWorkedInHours)) =
      [("90791", some 0, some 2)] ∧
    (sampleEdgeDashboard.map fun d =>
      (d.allClients.filter fun j => j.name = "Hal Jay").map fun j =>
        (j.totalRevenue, j.totalHours)) = some [(0, 2)] :=
  ⟨by decide!, by decide!⟩

theorem journeyAction_skip (h : Host) (r : Entry)
    (hr : (r.ProcedureCode ∉ psychCodes ∧ r.ProcedureCode ∉ abaCodes) ∨ r.ClientName = "") :
    journeyAction h r = .skip := by
  unfold journeyAction
  rcases hr with ⟨h1, h2⟩ | hn
  · by_cases hb : r.ClientName = "" ∨ r.ClientName = " "
    · rw [if_pos hb]
    · rw [if_neg hb]
      have : r.ProcedureCode ∉ allCodes := by
        unfold allCodes
        simp only [List.mem_append, not_or]
        exact ⟨h1, h2⟩
      rw [if_pos this]
  · rw [if_pos (Or.inl hn)]

/-- C19: for a record `r` whose procedure code is in neither the assessment
set nor the recurring set, or whose client name is empty, `psychDashboardData`
on a non-empty list with `r` inserted at any position is `psychDashboardData` on
the list without it. -/
theorem psychDashboardData_insert_irrelevant (h : Host) (now : Int)
    (notViableReasons clientNotes : String → Option String) (before after : List Entry)
    (r : Entry) (hne : before ++ after ≠ [])
    (hr : (r.ProcedureCode ∉ psychCodes ∧ r.ProcedureCode ∉ abaCodes) ∨ r.ClientName = "") :
    psychDashboardData h now notViableReasons clientNotes (before ++ r :: after) =
      psychDashboardData h now notViableReasons clientNotes (before ++ after) := by
  have hskip := journeyAction_skip h r hr
  have hj : clientJourneys h (before ++ r :: after) = clientJourneys h (before ++ after) := by
    rw [clientJourneys_eq, clientJourneys_eq]
    simp [List.any_append, List.filterMap_append, hskip, Action.raises, Action.item]
  unfold psychDashboardData
  have h1 : ¬ (before ++ r :: after).length = 0 := by simp
  have h2 : ¬ (before ++ after).length = 0 := fun hl => hne (List.length_eq_zero.1 hl)
  rw [if_neg h1, if_neg h2, hj]

/-- C19 on a run: a row with code 97156 inserted between two assessment rows
changes nothing. -/
theorem psychDashboardData_insert_irrelevant_witness :
    [sampleRow "01/19/2025" "Al Kim" "96130"] ++ [sampleRow "02/28/2025" "Bea Roy" "96131"] ≠ [] ∧
    (("97156" ∉ psychCodes ∧ "97156" ∉ abaCodes) ∨ "Al Kim" = "") ∧
    psychDashboardData sampleHost sampleNow sampleReasons sampleNotes
        ([sampleRow "01/19/2025" "Al Kim" "96130"] ++
          sampleRow "1/2/3/2025" "Al Kim" "97156" ::
          [sampleRow "02/28/2025" "Bea Roy" "96131"]) =
      psychDashboardData sampleHost sampleNow sampleReasons sampleNotes
        ([sampleRow "01/19/2025" "Al Kim" "96130"] ++
          [sampleRow "02/28/2025" "Bea Roy" "96131"]) :=
  ⟨by decide, by decide,
    psychDashboardData_insert_irrelevant sampleHost sampleNow sampleReasons sampleNotes
      [sampleRow "01/19/2025" "Al Kim" "96130"] [sampleRow "02/28/2025" "Bea Roy" "96131"]
      (sampleRow "1/2/3/2025" "Al Kim" "97156") (by decide) (by decide)⟩

/-- The first and the last date kept for the codes `codes` of a client: the
least and the greatest valid date of its records with such a code. -/
theorem journey_minmax (h : Host) (rs : List Entry) (n : String)
    (codes : List String) (hsub : ∀ c ∈ codes, c ∈ allCodes)
    (hex : ∃ x, x ∈ clientItems h rs n) (f : Int)
    (hf : runMin (codeDates codes (clientItems h rs n)) = some f) :
    ∃ l, runMax (codeDates codes (clientItems h rs n)) = some l ∧ f ≤ l ∧
      (∃ r ∈ rs, r.ClientName = n ∧ r.ProcedureCode ∈ codes ∧
        parseEntryDate h r.DateOfService = .date f) ∧
      (∃ r ∈ rs, r.ClientName = n ∧ r.ProcedureCode ∈ codes ∧
        parseEntryDate h r.DateOfService = .date l) ∧
      (∀ r ∈ rs, ∀ t, r.ClientName = n → r.ProcedureCode ∈ codes →
        parseEntryDate h r.DateOfService = .date t → f ≤ t ∧ t ≤ l) := by
  obtain ⟨hfmem, hfle⟩ := (runMin_spec _).2 f hf
  have hne : codeDates codes (clientItems h rs n) ≠ [] := List.ne_nil_of_mem hfmem
  have hmax : runMax (codeDates codes (clientItems h rs n)) ≠ none :=
    fun hc => hne ((runMax_spec _).1.1 hc)
  obtain ⟨l, hl⟩ := Option.ne_none_iff_exists'.1 hmax
  obtain ⟨hlmem, hlle⟩ := (runMax_spec _).2 l hl
  refine ⟨l, hl, hfle l hlmem, ?_, ?_, ?_⟩
  · exact (mem_codeDates_clientItems h rs n codes hsub hex f).1 hfmem
  · exact (mem_codeDates_clientItems h rs n codes hsub hex l).1 hlmem
  · intro r hr t hn hc ht
    have := (mem_codeDates_clientItems h rs n codes hsub hex t).2 ⟨r, hr, hn, hc, ht⟩
    exact ⟨hfle t this, hlle t this⟩

/-- C20: for every journey of the result with a first assessment date, there
is a last assessment date, the first is not after the last, both are dates of
valid assessment records of that client, and every valid assessment record of
that client has its date between them; the same holds for the first and last
recurring-service dates over its recurring-service records. -/
theorem journey_date_bounds (h : Host) (now : Int)
    (notViableReasons clientNotes : String → Option String) (rawData : List Entry)
    (d : Dashboard) (j : Journey)
    (hok : psychDashboardData h now notViableReasons clientNotes rawData = .ok (some d))
    (hj : j ∈ d.allClients) :
    (∀ f, j.firstPsychDate = some f →
      ∃ l, j.lastPsychDate = some l ∧ f ≤ l ∧
        (∃ r ∈ rawData, r.ClientName = j.name ∧ r.ProcedureCode ∈ psychCodes ∧
          parseEntryDate h r.DateOfService = .date f) ∧
        (∃ r ∈ rawData, r.ClientName = j.name ∧ r.ProcedureCode ∈ psychCodes ∧
          parseEntryDate h r.DateOfService = .date l) ∧
        (∀ r ∈ rawData, ∀ t, r.ClientName = j.name → r.ProcedureCode ∈ psychCodes →
          parseEntryDate h r.DateOfService = .date t → f ≤ t ∧ t ≤ l)) ∧
    (∀ f, j.firstABADate = some f →
      ∃ l, j.lastABADate = some l ∧ f ≤ l ∧
        (∃ r ∈ rawData, r.ClientName = j.name ∧ r.ProcedureCode ∈ abaCodes ∧
          parseEntryDate h r.DateOfService = .date f) ∧
        (∃ r ∈ rawData, r.ClientName = j.name ∧ r.ProcedureCode ∈ abaCodes ∧
          parseEntryDate h r.DateOfService = .date l) ∧
        (∀ r ∈ rawData, ∀ t, r.ClientName = j.name → r.ProcedureCode ∈ abaCodes →
          parseEntryDate h r.DateOfService = .date t → f ≤ t ∧ t ≤ l)) := by
  obtain ⟨n, hex, hjn⟩ := (mem_allClients h now _ _ rawData d hok j).1 hj
  obtain ⟨c1, c2, c3, c4, c5, _⟩ :=
    classified_fields now notViableReasons clientNotes (journeyOf h rawData n)
  obtain ⟨f1, f2, f3, f4, f5, _⟩ := journeyOf_fields h rawData n
  rw [← hjn] at c1 c2 c3 c4 c5
  rw [c1, c2, c3, c4, c5, f1, f2, f3, f4, f5]
  exact ⟨fun f hf => journey_minmax h rawData n psychCodes psychCodes_sub hex f hf,
    fun f hf => journey_minmax h rawData n abaCodes abaCodes_sub hex f hf⟩

/-- C20 on the sample: Al Kim has assessment rows on 2024-12-01 and
2025-01-19, the first and the last assessment date of his journey. -/
theorem journey_date_bounds_witness :
    psychDashboardData sampleHost sampleNow sampleReasons sampleNotes samplePsychData
      = .ok (some sampleDashboard) ∧
    sampleAl ∈ sampleDashboard.allClients ∧
    sampleAl.firstPsychDate = some 1733029200000 ∧
    sampleAl.lastPsychDate = some 1737262800000 ∧
    ∃ l, sampleAl.lastPsychDate = some l ∧ (1733029200000 : Int) ≤ l ∧
      (∃ r ∈ samplePsychData, r.ClientName = sampleAl.name ∧ r.ProcedureCode ∈ psychCodes ∧
        parseEntryDate sampleHost r.DateOfService = .date 1733029200000) ∧
      (∃ r ∈ samplePsychData, r.ClientName = sampleAl.name ∧ r.ProcedureCode ∈ psychCodes ∧
        parseEntryDate sampleHost r.DateOfService = .date l) ∧
      (∀ r ∈ samplePsychData, ∀ t, r.ClientName = sampleAl.name →
        r.ProcedureCode ∈ psychCodes →
        parseEntryDate sampleHost r.DateOfService = .date t → 1733029200000 ≤ t ∧ t ≤ l) :=
  ⟨by decide!, by decide!, by decide!, by decide!,
    (journey_date_bounds sampleHost sampleNow sampleReasons sampleNotes samplePsychData
      sampleDashboard sampleAl (by decide!) (by decide!)).1 1733029200000 (by decide!)⟩
/-! ## Week-over-week changes -/

theorem wowEntry_eq (h : Host) (k : Int) (acc : List (String × ℚ)) (e : Entry) :
    wowEntry h k acc e = (wowAction h k e).run (fun _ => (0 : ℚ)) addHours acc := by
  unfold wowEntry wowAction
  by_cases h1 : e.ProcedureCode = "97153"
  · simp only [h1, ne_eq, not_true_eq_false, if_false]
    cases parseEntryDate h e.DateOfService with
    | undefined => rfl
    | invalid => rfl
    | date t =>
      simp only []
      split_ifs <;> rfl
  · simp only [h1, ne_eq, not_false_eq_true, if_true]
    rfl

theorem parseAndGroupByWeek_eq (h : Host) (rs : List Entry) (k : Int) :
    parseAndGroupByWeek h rs k =
      if rs.any (fun r => (wowAction h k r).raises) then Except.error JSError.typeError
      else Except.ok (groupFold (fun _ => (0 : ℚ)) addHours
        (rs.filterMap fun r => (wowAction h k r).item)) := by
  unfold parseAndGroupByWeek
  have : wowEntry h k = fun acc e => (wowAction h k e).run (fun _ => (0 : ℚ)) addHours acc := by
    funext acc e; exact wowEntry_eq h k acc e
  rw [this]
  exact foldlM_run _ _ _ _

theorem wowAction_raises (h : Host) (k : Int) (r : Entry)
    (hr : (wowAction h k r).raises = true) : parseEntryDate h r.DateOfService = .undefined := by
  unfold wowAction at hr
  by_cases h1 : r.ProcedureCode = "97153"
  · simp only [h1, ne_eq, not_true_eq_false, if_false] at hr
    cases hp : parseEntryDate h r.DateOfService with
    | undefined => rfl
    | invalid => rw [hp] at hr; simp [Action.raises] at hr
    | date t =>
      rw [hp] at hr
      simp only at hr
      split_ifs at hr <;> simp [Action.raises] at hr
  · simp [h1, Action.raises] at hr

theorem wowAction_item (h : Host) (k : Int) (r : Entry) (n : String) (x : Entry) :
    (wowAction h k r).item = some (n, x) ↔
      x = r ∧ r.ClientName = n ∧ n ≠ "" ∧ n ≠ " " ∧ r.ProcedureCode = "97153" ∧
        entryWeek h r = some k := by
  unfold wowAction entryWeek validDate
  by_cases h1 : r.ProcedureCode = "97153"
  · simp only [h1, ne_eq, not_true_eq_false, if_false]
    cases hp : parseEntryDate h r.DateOfService with
    | undefined => simp [Action.item]
    | invalid => simp [Action.item]
    | date t =>
      simp only [Option.map_some', Option.some.injEq]
      by_cases h2 : weekKeyOf h t = k
      · simp only [h2, not_true_eq_false, if_false]
        by_cases h3 : r.ClientName = "" ∨ r.ClientName = " "
        · simp only [h3, if_true, Action.item]
          constructor
          · intro hc; cases hc
          · rintro ⟨_, hn, hn1, hn2, _⟩
            subst hn
            rcases h3 with h3 | h3
            · exact absurd h3 hn1
            · exact absurd h3 hn2
        · simp only [h3, if_false, Action.item, Option.some.injEq, Prod.mk.injEq]
          push_neg at h3
          constructor
          · rintro ⟨rfl, rfl⟩
            exact ⟨rfl, rfl, h3.1, h3.2, trivial, trivial⟩
          · rintro ⟨rfl, rfl, _⟩
            exact ⟨rfl, rfl⟩
      · simp only [h2, not_false_eq_true, if_true, Action.item]
        constructor
        · intro hc; cases hc
        · rintro ⟨_, _, _, _, _, hk⟩
          exact hk.elim
  · simp only [h1, ne_eq, not_false_eq_true, if_true, Action.item]
    constructor
    · intro hc; cases hc
    · rintro ⟨_, _, _, _, hc, _⟩
      exact hc.elim

theorem wowPairs_keys (h : Host) (rs : List Entry) (k : Int) (n : String) :
    n ∈ (rs.filterMap fun r => (wowAction h k r).item).map Prod.fst ↔
      n ≠ "" ∧ n ≠ " " ∧ anchorRecords h rs k n ≠ [] := by
  simp only [List.mem_map, List.mem_filterMap]
  constructor
  · rintro ⟨⟨n', x⟩, ⟨r, hr, hp⟩, rfl⟩
    obtain ⟨_, hn, h1, h2, hc, hw⟩ := (wowAction_item h k r n' x).1 hp
    refine ⟨h1, h2, List.ne_nil_of_mem (a := r) ?_⟩
    unfold anchorRecords
    simp [hr, hn, hc, hw]
  · rintro ⟨h1, h2, hne⟩
    obtain ⟨r, hr⟩ := List.exists_mem_of_ne_nil _ hne
    unfold anchorRecords at hr
    simp only [List.mem_filter, decide_eq_true_eq] at hr
    obtain ⟨hr, hc, hw, hn⟩ := hr
    exact ⟨(n, r), ⟨r, hr, (wowAction_item h k r n r).2 ⟨rfl, hn, h1, h2, hc, hw⟩⟩, rfl⟩

theorem wowPairs_filter (h : Host) (rs : List Entry) (k : Int) (n : String)
    (h1 : n ≠ "") (h2 : n ≠ " ") :
    ((rs.filterMap fun r => (wowAction h k r).item).filter fun p => p.1 = n).map Prod.snd
      = anchorRecords h rs k n := by
  unfold anchorRecords
  induction rs with
  | nil => rfl
  | cons r rs ih =>
    simp only [List.filterMap_cons, List.filter_cons]
    by_cases hc : r.ProcedureCode = "97153" ∧ entryWeek h r = some k ∧ r.ClientName = n
    · have hi : (wowAction h k r).item = some (n, r) :=
        (wowAction_item h k r n r).2 ⟨rfl, hc.2.2, h1, h2, hc.1, hc.2.1⟩
      simp only [hi, hc, and_self, decide_True, if_true, List.filter_cons, List.map_cons]
      rw [ih]
    · cases hi : (wowAction h k r).item with
      | none =>
        simp only [hc, decide_False, Bool.false_eq_true, if_false]
        exact ih
      | some p =>
        obtain ⟨n', x⟩ := p
        obtain ⟨hx, hn, _, _, hcode, hw⟩ := (wowAction_item h k r n' x).1 hi
        have hne : ¬ n' = n := fun e => hc ⟨hcode, hw, hn.trans e⟩
        simp only [hc, decide_False, Bool.false_eq_true, if_false, List.filter_cons, hne]
        exact ih

theorem addHours_fold (es : List Entry) (v : ℚ) :
    es.foldl (fun v x => addHours x v) v =
      v + ((es.filter fun r => orZero r.ClientChargesAgreedTotal > 0).map
        fun r => orZero r.TimeWorkedInHours).sum := by
  induction es generalizing v with
  | nil => simp
  | cons e es ih =>
    rw [List.foldl_cons, ih, List.filter_cons]
    by_cases hc : orZero e.ClientChargesAgreedTotal > 0
    · simp [addHours, hc, add_assoc]
    · simp [addHours, hc]

/-- The object returned by `parseAndGroupByWeek` holds, for every name that is
neither empty nor a single space, the hours of its anchor-code records of the
week. -/
theorem hoursOf_groups (h : Host) (rs : List Entry) (k : Int) (n : String)
    (h1 : n ≠ "") (h2 : n ≠ " ") :
    hoursOf (groupFold (fun _ => (0 : ℚ)) addHours
      (rs.filterMap fun r => (wowAction h k r).item)) n = anchorHours h rs k n := by
  unfold hoursOf anchorHours
  rw [dictGet_groupFold]
  by_cases hne : anchorRecords h rs k n = []
  · have : ¬ n ∈ (rs.filterMap fun r => (wowAction h k r).item).map Prod.fst :=
      fun hm => ((wowPairs_keys h rs k n).1 hm).2.2 hne
    rw [if_neg this, hne]
    rfl
  · have : n ∈ (rs.filterMap fun r => (wowAction h k r).item).map Prod.fst :=
      (wowPairs_keys h rs k n).2 ⟨h1, h2, hne⟩
    rw [if_pos this, wowPairs_filter h rs k n h1 h2, addHours_fold]
    simp

theorem parseAndGroupByWeek_ok (h : Host) (rs : List Entry) (k : Int)
    (hdef : ∀ r ∈ rs, parseEntryDate h r.DateOfService ≠ .undefined) :
    parseAndGroupByWeek h rs k =
      .ok (groupFold (fun _ => (0 : ℚ)) addHours
        (rs.filterMap fun r => (wowAction h k r).item)) := by
  rw [parseAndGroupByWeek_eq]
  have : ¬ rs.any (fun r => (wowAction h k r).raises) = true := by
    intro hr
    obtain ⟨r, hr', hu⟩ := List.any_eq_true.1 hr
    exact hdef r hr' (wowAction_raises h k r hu)
  rw [if_neg this]

theorem setAdd_fold (xs acc : List String) (hacc : acc.Nodup) :
    (xs.foldl setAdd acc).Nodup ∧ ∀ n, n ∈ xs.foldl setAdd acc ↔ n ∈ acc ∨ n ∈ xs := by
  induction xs generalizing acc with
  | nil => simp [hacc]
  | cons x xs ih =>
    have hn : (setAdd acc x).Nodup := by
      unfold setAdd
      split_ifs with hm
      · exact hacc
      · exact List.Nodup.append hacc (List.nodup_singleton _) (by simpa using hm)
    obtain ⟨i1, i2⟩ := ih (setAdd acc x) hn
    refine ⟨i1, fun n => ?_⟩
    rw [List.foldl_cons, i2]
    unfold setAdd
    split_ifs with hm
    · constructor
      · rintro (hh | hh)
        · exact Or.inl hh
        · exact Or.inr (List.mem_cons_of_mem _ hh)
      · rintro (hh | hh)
        · exact Or.inl hh
        · rcases List.mem_cons.1 hh with rfl | hh
          · exact Or.inl hm
          · exact Or.inr hh
    · simp only [List.mem_append, List.mem_singleton, List.mem_cons]
      tauto

theorem allClientNames_spec (latest previous : List (String × ℚ)) :
    (allClientNames latest previous).Nodup ∧
    ∀ n, n ∈ allClientNames latest previous ↔
      n ∈ latest.map Prod.fst ∨ n ∈ previous.map Prod.fst := by
  obtain ⟨h1, h2⟩ := setAdd_fold (latest.map Prod.fst ++ previous.map Prod.fst) [] List.nodup_nil
  refine ⟨h1, fun n => ?_⟩
  unfold allClientNames
  rw [h2]
  simp

theorem changeEntry_eq (latest previous : List (String × ℚ)) (changes : List Change)
    (name : String) :
    changeEntry latest previous changes name =
      changes ++ (changeOf latest previous name).toList := by
  unfold changeOf changeEntry
  simp only
  split_ifs <;> simp

theorem wowChanges_eq (latest previous : List (String × ℚ)) :
    wowChanges latest previous =
      (allClientNames latest previous).filterMap (changeOf latest previous) := by
  unfold wowChanges
  generalize allClientNames latest previous = names
  induction names using List.reverseRecOn with
  | nil => rfl
  | append_singleton ns n ih =>
    rw [List.foldl_append, List.foldl_cons, List.foldl_nil, ih, changeEntry_eq,
      List.filterMap_append]
    cases hc : changeOf latest previous n <;> simp [hc]

/-- The element pushed for a name, in terms of the hours of the two weeks. -/
theorem changeOf_spec (latest previous : List (String × ℚ)) (name : String) :
    (hoursOf latest name = 0 ∧ hoursOf previous name = 0 →
      changeOf latest previous name = none) ∧
    (¬ (hoursOf latest name = 0 ∧ hoursOf previous name = 0) →
      ∃ c, changeOf latest previous name = some c ∧ c.name = name ∧
        c.latestHours = hoursOf latest name ∧ c.previousHours = hoursOf previous name ∧
        c.change = hoursOf latest name - hoursOf previous name ∧
        c.percentChange =
          (if hoursOf previous name > 0 then
            (hoursOf latest name - hoursOf previous name) / hoursOf previous name * 100
           else if hoursOf latest name > 0 then 100 else 0) ∧
        c.isNew = decide (hoursOf previous name = 0 ∧ hoursOf latest name > 0) ∧
        c.isGone = decide (hoursOf previous name > 0 ∧ hoursOf latest name = 0)) := by
  unfold changeOf changeEntry
  simp only
  constructor
  · intro hz
    rw [if_pos hz]
    rfl
  · intro hz
    rw [if_neg hz]
    exact ⟨_, rfl, rfl, rfl, rfl, rfl, rfl, rfl, rfl⟩

theorem changeOf_name (latest previous : List (String × ℚ)) (name : String) (c : Change)
    (hc : changeOf latest previous name = some c) : c.name = name := by
  by_cases hz : hoursOf latest name = 0 ∧ hoursOf previous name = 0
  · rw [(changeOf_spec latest previous name).1 hz] at hc
    cases hc
  · obtain ⟨c', h1, h2, _⟩ := (changeOf_spec latest previous name).2 hz
    rw [h1] at hc
    cases hc
    exact h2

theorem mem_wowChanges (latest previous : List (String × ℚ)) (c : Change) :
    c ∈ wowChanges latest previous ↔
      (c.name ∈ latest.map Prod.fst ∨ c.name ∈ previous.map Prod.fst) ∧
        changeOf latest previous c.name = some c := by
  rw [wowChanges_eq, List.mem_filterMap]
  constructor
  · rintro ⟨n, hn, hc⟩
    have := changeOf_name latest previous n c hc
    subst this
    exact ⟨((allClientNames_spec latest previous).2 _).1 hn, hc⟩
  · rintro ⟨hn, hc⟩
    exact ⟨c.name, ((allClientNames_spec latest previous).2 _).2 hn, hc⟩

theorem wowChanges_names_nodup (latest previous : List (String × ℚ)) :
    ((wowChanges latest previous).map fun c => c.name).Nodup := by
  rw [wowChanges_eq]
  have hn := (allClientNames_spec latest previous).1
  generalize allClientNames latest previous = names at hn
  induction names with
  | nil => simp
  | cons n ns ih =>
    rw [List.nodup_cons] at hn
    rw [List.filterMap_cons]
    cases hc : changeOf latest previous n with
    | none => exact ih hn.2
    | some c =>
      simp only [List.map_cons, List.nodup_cons]
      refine ⟨?_, ih hn.2⟩
      intro hm
      obtain ⟨c', hc', hcn⟩ := List.mem_map.1 hm
      obtain ⟨n', hn', hcc⟩ := List.mem_filterMap.1 hc'
      have e1 := changeOf_name latest previous n' c' hcc
      have e2 := changeOf_name latest previous n c hc
      rw [← e1, hcn, e2] at hn'
      exact hn.1 hn'

theorem withChanges_week (arr : List WeekRow) (i : Nat) (row : WeekRow) :
    (withChanges arr i row).week = row.week := rfl

theorem weeklyData_length (h : Host) (rs : List Entry) (weeks : List Week)
    (hok : weeklyData h rs = .ok weeks) : weeks.length = (weekRows h rs).length := by
  obtain ⟨_, rfl⟩ := weeklyData_ok h rs weeks hok
  simp

theorem weeklyData_strict (h : Host) (rs : List Entry) (weeks : List Week)
    (hok : weeklyData h rs = .ok weeks) (i j : Nat) (a b : Week) (hij : i < j)
    (ha : weeks[i]? = some a) (hb : weeks[j]? = some b) : a.week < b.week := by
  obtain ⟨_, rfl⟩ := weeklyData_ok h rs weeks hok
  rw [weeks_getElem?] at ha hb
  cases hra : (weekRows h rs)[i]? with
  | none => simp [hra] at ha
  | some ra =>
    cases hrb : (weekRows h rs)[j]? with
    | none => simp [hrb] at hb
    | some rb =>
      simp only [hra, hrb, Option.map_some', Option.some.injEq] at ha hb
      subst ha hb
      rw [withChanges_week, withChanges_week]
      have hs := weekRows_sorted h rs
      obtain ⟨hi, hia⟩ := List.getElem?_eq_some_iff.1 hra
      obtain ⟨hj, hjb⟩ := List.getElem?_eq_some_iff.1 hrb
      rw [← hia, ← hjb]
      exact List.pairwise_iff_getElem.1 hs i j hi hj hij

/-- With two weeks or more, `clientWoWChanges` returns the filtered and sorted
changes between the last and the second-to-last entry of `weeklyData`. -/
theorem wow_run (h : Host) (rs : List Entry) (weeks : List Week)
    (hok : weeklyData h rs = .ok weeks) (hlen : 2 ≤ weeks.length) :
    ∃ latest previous, weeks[weeks.length - 1]? = some latest ∧
      weeks[weeks.length - 2]? = some previous ∧ previous.week < latest.week ∧
      parseAndGroupByWeek h rs latest.week = .ok (weekHours h rs latest.week) ∧
      parseAndGroupByWeek h rs previous.week = .ok (weekHours h rs previous.week) ∧
      clientWoWChanges h rs weeks =
        .ok (wowFiltered (wowChanges (weekHours h rs latest.week)
          (weekHours h rs previous.week))) := by
  have hdef := (weeklyData_ok h rs weeks hok).1
  have h1 : weeks.length - 1 < weeks.length := by omega
  have h2 : weeks.length - 2 < weeks.length := by omega
  have e1 : weeks[weeks.length - 1]? = some weeks[weeks.length - 1] := List.getElem?_eq_getElem h1
  have e2 : weeks[weeks.length - 2]? = some weeks[weeks.length - 2] := List.getElem?_eq_getElem h2
  have hrs : ¬ rs.length = 0 := by
    intro h0
    have : rs = [] := List.length_eq_zero.1 h0
    subst this
    have : weeks = [] := by
      have hw : weeklyData h [] = .ok [] := rfl
      rw [hw] at hok
      injection hok with hok
      exact hok.symm
    subst this
    simp at hlen
  refine ⟨_, _, e1, e2, weeklyData_strict h rs weeks hok _ _ _ _ (by omega) e2 e1,
    parseAndGroupByWeek_ok h rs _ hdef, parseAndGroupByWeek_ok h rs _ hdef, ?_⟩
  unfold clientWoWChanges
  have hg : ¬ (rs.length = 0 ∨ weeks.length < 2) := by
    rintro (hh | hh)
    · exact hrs hh
    · omega
  rw [if_neg hg, e1, e2]
  simp only [parseAndGroupByWeek_ok h rs _ hdef]
  rfl

theorem hoursOf_absent (clients : List (String × ℚ)) (name : String)
    (hn : name ∉ clients.map Prod.fst) : hoursOf clients name = 0 := by
  unfold hoursOf
  cases hd : dictGet name clients with
  | none => rfl
  | some v =>
    exact absurd ((dictGet_isSome_iff clients name).1 (by simp [hd])) hn

/-- The element of `changes` for a name that is neither empty nor a single
space, in terms of the hours of the records of the two weeks. -/
theorem wow_change_of (h : Host) (rs : List Entry) (kl kp : Int) (name : String)
    (h1 : name ≠ "") (h2 : name ≠ " ") :
    (anchorHours h rs kl name = 0 ∧ anchorHours h rs kp name = 0 →
      ∀ c ∈ wowChanges (weekHours h rs kl) (weekHours h rs kp), c.name ≠ name) ∧
    (¬ (anchorHours h rs kl name = 0 ∧ anchorHours h rs kp name = 0) →
      ∃ c ∈ wowChanges (weekHours h rs kl) (weekHours h rs kp), c.name = name ∧
        (∀ c' ∈ wowChanges (weekHours h rs kl) (weekHours h rs kp), c'.name = name → c' = c) ∧
        c.latestHours = anchorHours h rs kl name ∧
        c.previousHours = anchorHours h rs kp name ∧
        c.change = anchorHours h rs kl name - anchorHours h rs kp name ∧
        c.percentChange =
          (if anchorHours h rs kp name > 0 then
            (anchorHours h rs kl name - anchorHours h rs kp name) /
              anchorHours h rs kp name * 100
           else if anchorHours h rs kl name > 0 then 100 else 0) ∧
        c.isNew = decide (anchorHours h rs kp name = 0 ∧ anchorHours h rs kl name > 0) ∧
        c.isGone = decide (anchorHours h rs kp name > 0 ∧ anchorHours h rs kl name = 0)) := by
  have el : hoursOf (weekHours h rs kl) name = anchorHours h rs kl name :=
    hoursOf_groups h rs kl name h1 h2
  have ep : hoursOf (weekHours h rs kp) name = anchorHours h rs kp name :=
    hoursOf_groups h rs kp name h1 h2
  obtain ⟨s1, s2⟩ := changeOf_spec (weekHours h rs kl) (weekHours h rs kp) name
  rw [el, ep] at s1 s2
  constructor
  · intro hz c hc hn
    have := ((mem_wowChanges _ _ c).1 hc).2
    rw [hn, s1 hz] at this
    cases this
  · intro hz
    obtain ⟨c, hc, hn, f1, f2, f3, f4, f5, f6⟩ := s2 hz
    have hkeys : name ∈ (weekHours h rs kl).map Prod.fst ∨
        name ∈ (weekHours h rs kp).map Prod.fst := by
      by_contra hno
      push_neg at hno
      apply hz
      exact ⟨by rw [← el]; exact hoursOf_absent _ _ hno.1,
        by rw [← ep]; exact hoursOf_absent _ _ hno.2⟩
    have hmem : c ∈ wowChanges (weekHours h rs kl) (weekHours h rs kp) :=
      (mem_wowChanges _ _ c).2 ⟨by rw [hn]; exact hkeys, by rw [hn]; exact hc⟩
    refine ⟨c, hmem, hn, ?_, f1, f2, f3, f4, f5, f6⟩
    intro c' hc' hn'
    have := ((mem_wowChanges _ _ c').1 hc').2
    rw [hn', hc] at this
    injection this with this
    exact this.symm

theorem jsSortNum_perm {α : Type} (cmp : α → α → ℚ) (xs : List α) :
    (jsSortNum cmp xs).Perm xs :=
  List.perm_insertionSort _ xs

/-- A sort by a rational key leaves the keys in non-decreasing order. -/
theorem jsSortNum_sorted {α : Type} (cmp : α → α → ℚ) (key : α → ℚ)
    (hk : ∀ a b, cmp a b ≤ 0 ↔ key a ≤ key b) (xs : List α) :
    (jsSortNum cmp xs).Pairwise (fun a b => key a ≤ key b) := by
  unfold jsSortNum
  haveI : IsTotal α (fun a b => cmp a b ≤ 0) :=
    ⟨fun a b => (le_total (key a) (key b)).imp (hk a b).2 (hk b a).2⟩
  haveI : IsTrans α (fun a b => cmp a b ≤ 0) :=
    ⟨fun a b c h1 h2 => (hk a c).2 (le_trans ((hk a b).1 h1) ((hk b c).1 h2))⟩
  exact (List.sorted_insertionSort (fun a b => cmp a b ≤ 0) xs).imp (fun hab => (hk _ _).1 hab)

theorem significant_iff (c : Change) :
    significant c = true ↔ 25 ≤ |c.percentChange| ∨ c.isNew = true ∨ c.isGone = true := by
  unfold significant
  simp [Bool.or_eq_true, or_assoc]

theorem wowFiltered_spec (changes : List Change) :
    (wowFiltered changes).Perm (changes.filter significant) ∧
    (∀ c, c ∈ wowFiltered changes ↔
      c ∈ changes ∧ (25 ≤ |c.percentChange| ∨ c.isNew = true ∨ c.isGone = true)) ∧
    (wowFiltered changes).Pairwise (fun a b => |b.percentChange| ≤ |a.percentChange|) := by
  have hp : (wowFiltered changes).Perm (changes.filter significant) := jsSortNum_perm _ _
  refine ⟨hp, fun c => ?_, ?_⟩
  · rw [hp.mem_iff, List.mem_filter, significant_iff]
  · have := jsSortNum_sorted (fun a b : Change => |b.percentChange| - |a.percentChange|)
      (fun c => - |c.percentChange|)
      (fun a b => by dsimp only; constructor <;> intro hab <;> linarith)
      (changes.filter significant)
    exact this.imp (fun hab => neg_le_neg_iff.1 hab)

theorem groupFold_keys {κ α β : Type} [DecidableEq κ] (init : κ → α) (step : β → α → α)
    (ps : List (κ × β)) (k : κ) :
    k ∈ (groupFold init step ps).map Prod.fst ↔ k ∈ ps.map Prod.fst := by
  rw [← dictGet_isSome_iff, dictGet_groupFold]
  split_ifs with hm
  · simp [hm]
  · simp [hm]

theorem weeklyData_weeks (h : Host) (rs : List Entry) (weeks : List Week)
    (hok : weeklyData h rs = .ok weeks) : weeks.length = (distinctWeeks h rs).length := by
  rw [weeklyData_length h rs weeks hok]
  unfold weekRows
  rw [length_jsSort, List.length_map, List.length_map]
  have hp : ((groupFold newWeekGroup addToWeek
        (rs.filterMap fun r => (weeklyAction h r).item)).map Prod.fst).Perm
      (distinctWeeks h rs) := by
    unfold distinctWeeks
    rw [List.perm_ext_iff_of_nodup (nodup_keys_groupFold _ _ _) (List.nodup_dedup _)]
    intro k
    rw [groupFold_keys, weekPairs_keys, List.mem_dedup, List.mem_filterMap]
  rw [← hp.length_eq, List.length_map]

/-- C21: for a client name that is neither empty nor a single space, with
`latestHours` and `previousHours` the sums of the hours of its anchor-code
records with a positive charge in the last and the second-to-last week of
`weeklyData`: when both are 0 no element of `changes`, and so none of the
returned list, has that name; otherwise `changes` has exactly one element with
that name, with `change = latestHours - previousHours`, and `percentChange` is
`change / previousHours * 100` when `previousHours > 0`, and 100 when
`previousHours = 0` and `latestHours > 0`. -/
theorem clientWoWChanges_change (h : Host) (rawData : List Entry) (weeks : List Week)
    (latest previous : Week) (name : String)
    (hok : weeklyData h rawData = .ok weeks) (hlen : 2 ≤ weeks.length)
    (hl : weeks[weeks.length - 1]? = some latest)
    (hp : weeks[weeks.length - 2]? = some previous)
    (h1 : name ≠ "") (h2 : name ≠ " ") :
    ∃ latestClients previousClients,
      parseAndGroupByWeek h rawData latest.week = .ok latestClients ∧
      parseAndGroupByWeek h rawData previous.week = .ok previousClients ∧
      clientWoWChanges h rawData weeks =
        .ok (wowFiltered (wowChanges latestClients previousClients)) ∧
      (anchorHours h rawData latest.week name = 0 ∧
        anchorHours h rawData previous.week name = 0 →
        (∀ c ∈ wowChanges latestClients previousClients, c.name ≠ name) ∧
        ∀ c ∈ wowFiltered (wowChanges latestClients previousClients), c.name ≠ name) ∧
      (¬ (anchorHours h rawData latest.week name = 0 ∧
          anchorHours h rawData previous.week name = 0) →
        ∃ c ∈ wowChanges latestClients previousClients, c.name = name ∧
          (∀ c' ∈ wowChanges latestClients previousClients, c'.name = name → c' = c) ∧
          c.latestHours = anchorHours h rawData latest.week name ∧
          c.previousHours = anchorHours h rawData previous.week name ∧
          c.change = anchorHours h rawData latest.week name -
            anchorHours h rawData previous.week name ∧
          (anchorHours h rawData previous.week name > 0 →
            c.percentChange = c.change / anchorHours h rawData previous.week name * 100) ∧
          (anchorHours h rawData previous.week name = 0 →
            anchorHours h rawData latest.week name > 0 → c.percentChange = 100)) := by
  obtain ⟨l, p, hl', hp', _, r1, r2, r3⟩ := wow_run h rawData weeks hok hlen
  rw [hl] at hl'
  rw [hp] at hp'
  injection hl' with hl'
  injection hp' with hp'
  subst hl' hp'
  obtain ⟨s1, s2⟩ := wow_change_of h rawData latest.week previous.week name h1 h2
  refine ⟨_, _, r1, r2, r3, ?_, ?_⟩
  · intro hz
    refine ⟨s1 hz, fun c hc => s1 hz c (((wowFiltered_spec _).2.1 c).1 hc).1⟩
  · intro hz
    obtain ⟨c, hc, hn, hu, f1, f2, f3, f4, _, _⟩ := s2 hz
    refine ⟨c, hc, hn, hu, f1, f2, f3, ?_, ?_⟩
    · intro hpos
      rw [f4, if_pos hpos, f3]
    · intro hzero hpos
      rw [f4, if_neg (by rw [hzero]; exact lt_irrefl 0), if_pos hpos]

/-- C21 on the sample: Bo Lim has 10 hours in the week of 2025-01-06 and 2 in
the week of 2025-01-13 (7 more hours carry no charge), so his change is -8 and
his percent change -80. -/
theorem clientWoWChanges_change_witness :
    weeklyData sampleHost sampleWowData = .ok sampleWowWeeks ∧
    2 ≤ sampleWowWeeks.length ∧
    (sampleWowWeeks.map fun w => w.week) = [20094, 20101] ∧
    anchorHours sampleHost sampleWowData 20101 "Bo Lim" = 2 ∧
    anchorHours sampleHost sampleWowData 20094 "Bo Lim" = 10 ∧
    ∃ latestClients previousClients,
      parseAndGroupByWeek sampleHost sampleWowData 20101 = .ok latestClients ∧
      parseAndGroupByWeek sampleHost sampleWowData 20094 = .ok previousClients ∧
      clientWoWChanges sampleHost sampleWowData sampleWowWeeks =
        .ok (wowFiltered (wowChanges latestClients previousClients)) ∧
      ∃ c ∈ wowChanges latestClients previousClients, c.name = "Bo Lim" ∧
        c.latestHours = 2 ∧ c.previousHours = 10 ∧ c.change = 2 - 10 ∧
        c.percentChange = c.change / 10 * 100 := by
  refine ⟨by decide!, by decide!, by decide!, by decide!, by decide!, ?_⟩
  obtain ⟨lc, pc, r1, r2, r3, _, hnz⟩ :=
    clientWoWChanges_change sampleHost sampleWowData sampleWowWeeks
      sampleWowWeeks[1] sampleWowWeeks[0] "Bo Lim" (by decide!) (by decide!) (by decide!)
      (by decide!) (by decide) (by decide)
  obtain ⟨c, hc, hn, _, f1, f2, f3, f4, _⟩ := hnz (by decide!)
  have e1 : sampleWowWeeks[1].week = 20101 := by decide!
  have e0 : sampleWowWeeks[0].week = 20094 := by decide!
  have a1 : anchorHours sampleHost sampleWowData 20101 "Bo Lim" = 2 := by decide!
  have a0 : anchorHours sampleHost sampleWowData 20094 "Bo Lim" = 10 := by decide!
  rw [e1] at r1 f1 f3
  rw [e0] at r2 f2 f3 f4
  rw [a1] at f1 f3
  rw [a0] at f2 f3 f4
  exact ⟨lc, pc, r1, r2, r3, c, hc, hn, f1, f2, f3, f4 (by norm_num)⟩

/-- C22: with two weeks or more, the returned list is a rearrangement of the
elements of `changes` with `|percentChange| >= 25`, `isNew` or `isGone`: an
element is returned if and only if it is in `changes` and passes that test, and
the returned list is in non-increasing order of `|percentChange|`. -/
theorem clientWoWChanges_filtered (h : Host) (rawData : List Entry) (weeks : List Week)
    (hok : weeklyData h rawData = .ok weeks) (hlen : 2 ≤ weeks.length) :
    ∃ latest previous latestClients previousClients result,
      weeks[weeks.length - 1]? = some latest ∧
      weeks[weeks.length - 2]? = some previous ∧
      parseAndGroupByWeek h rawData latest.week = .ok latestClients ∧
      parseAndGroupByWeek h rawData previous.week = .ok previousClients ∧
      clientWoWChanges h rawData weeks = .ok result ∧
      result.Perm ((wowChanges latestClients previousClients).filter fun c =>
        25 ≤ |c.percentChange| ∨ c.isNew = true ∨ c.isGone = true) ∧
      (∀ c, c ∈ result ↔ c ∈ wowChanges latestClients previousClients ∧
        (25 ≤ |c.percentChange| ∨ c.isNew = true ∨ c.isGone = true)) ∧
      (∀ c ∈ wowChanges latestClients previousClients,
        |c.percentChange| < 25 → c.isNew = false → c.isGone = false → c ∉ result) ∧
      result.Pairwise (fun a b => |b.percentChange| ≤ |a.percentChange|) := by
  obtain ⟨l, p, hl, hp, _, r1, r2, r3⟩ := wow_run h rawData weeks hok hlen
  obtain ⟨s1, s2, s3⟩ := wowFiltered_spec
    (wowChanges (weekHours h rawData l.week) (weekHours h rawData p.week))
  refine ⟨l, p, _, _, _, hl, hp, r1, r2, r3, ?_, s2, ?_, s3⟩
  · have : (fun c : Change => decide (25 ≤ |c.percentChange| ∨ c.isNew = true ∨ c.isGone = true))
        = significant := by
      funext c
      rw [Bool.eq_iff_iff, significant_iff]
      simp
    rw [this]
    exact s1
  · intro c _ hlt hn hg hc
    rcases ((s2 c).1 hc).2 with hh | hh | hh
    · exact absurd hh (not_le.2 hlt)
    · rw [hn] at hh; cases hh
    · rw [hg] at hh; cases hh

/-- C22 on the sample: of the four computed changes, Cat Orr (-20 percent) is
left out, and Eve Roe (new, 100), Dan Poe (gone, -100) and Bo Lim (-80) are
returned in that order. -/
theorem clientWoWChanges_filtered_witness :
    weeklyData sampleHost sampleWowData = .ok sampleWowWeeks ∧
    2 ≤ sampleWowWeeks.length ∧
    wowChanges (weekHours sampleHost sampleWowData 20101)
      (weekHours sampleHost sampleWowData 20094) =
      [sampleBoChange, sampleCatChange, sampleEveChange, sampleDanChange] ∧
    clientWoWChanges sampleHost sampleWowData sampleWowWeeks =
      .ok [sampleEveChange, sampleDanChange, sampleBoChange] ∧
    ∃ result, clientWoWChanges sampleHost sampleWowData sampleWowWeeks = .ok result ∧
      result.Pairwise (fun a b => |b.percentChange| ≤ |a.percentChange|) := by
  refine ⟨by decide!, by decide!, by decide!, by decide!, ?_⟩
  obtain ⟨_, _, _, _, result, _, _, _, _, r, _, _, _, s⟩ :=
    clientWoWChanges_filtered sampleHost sampleWowData sampleWowWeeks (by decide!) (by decide!)
  exact ⟨result, r, s⟩

/-- The guard of `clientWoWChanges`: whatever the record list, it returns the
empty list when `weeklyData` has fewer than two entries. When `weeklyData` returns, it has
one entry per distinct week of the records with a valid date (none for the
empty list), and with two or more `clientWoWChanges` returns the filtered and
sorted changes between its last and its second-to-last entry, the later and the
earlier of the two weeks. -/
theorem clientWoWChanges_two_weeks (h : Host) (rawData : List Entry) (weeks : List Week) :
    (weeks.length < 2 → clientWoWChanges h rawData weeks = .ok []) ∧
    (weeklyData h rawData = .ok weeks →
      weeks.length = (distinctWeeks h rawData).length ∧
      (2 ≤ weeks.length →
        ∃ latest previous latestClients previousClients,
          weeks[weeks.length - 1]? = some latest ∧
          weeks[weeks.length - 2]? = some previous ∧
          previous.week < latest.week ∧
          parseAndGroupByWeek h rawData latest.week = .ok latestClients ∧
          parseAndGroupByWeek h rawData previous.week = .ok previousClients ∧
          clientWoWChanges h rawData weeks =
            .ok (wowFiltered (wowChanges latestClients previousClients)))) := by
  constructor
  · intro hlt
    unfold clientWoWChanges
    rw [if_pos (Or.inr hlt)]
  · intro hok
    refine ⟨weeklyData_weeks h rawData weeks hok, fun hlen => ?_⟩
    obtain ⟨l, p, hl, hp, hlt, r1, r2, r3⟩ := wow_run h rawData weeks hok hlen
    exact ⟨l, p, _, _, hl, hp, hlt, r1, r2, r3⟩

/-- The guard of `clientWoWChanges` on three lists: the empty list, a list whose
records fall in one week, and the sample of two weeks. -/
theorem clientWoWChanges_two_weeks_witness :
    (weeklyData sampleHost [] = .ok [] ∧
      clientWoWChanges sampleHost [] [] = .ok []) ∧
    (weeklyData sampleHost (sampleWowData.take 4) =
        .ok (weeksOrEmpty (weeklyData sampleHost (sampleWowData.take 4))) ∧
      distinctWeeks sampleHost (sampleWowData.take 4) = [20094] ∧
      clientWoWChanges sampleHost (sampleWowData.take 4)
        (weeksOrEmpty (weeklyData sampleHost (sampleWowData.take 4))) = .ok []) ∧
    (weeklyData sampleHost sampleWowData = .ok sampleWowWeeks ∧
      distinctWeeks sampleHost sampleWowData = [20094, 20101] ∧
      sampleWowWeeks.length = (distinctWeeks sampleHost sampleWowData).length ∧
      ∃ latest previous latestClients previousClients,
        sampleWowWeeks[sampleWowWeeks.length - 1]? = some latest ∧
        sampleWowWeeks[sampleWowWeeks.length - 2]? = some previous ∧
        previous.week < latest.week ∧
        parseAndGroupByWeek sampleHost sampleWowData latest.week = .ok latestClients ∧
        parseAndGroupByWeek sampleHost sampleWowData previous.week = .ok previousClients ∧
        clientWoWChanges sampleHost sampleWowData sampleWowWeeks =
          .ok (wowFiltered (wowChanges latestClients previousClients))) :=
  ⟨⟨by decide!, (clientWoWChanges_two_weeks sampleHost [] []).1 (by decide)⟩,
    ⟨by decide!, by decide!,
      (clientWoWChanges_two_weeks sampleHost (sampleWowData.take 4)
        (weeksOrEmpty (weeklyData sampleHost (sampleWowData.take 4)))).1 (by decide!)⟩,
    ⟨by decide!, by decide!,
      ((clientWoWChanges_two_weeks sampleHost sampleWowData sampleWowWeeks).2 (by decide!)).1,
      ((clientWoWChanges_two_weeks sampleHost sampleWowData sampleWowWeeks).2 (by decide!)).2
        (by decide!)⟩⟩

/-- C24: when `weeklyData` has two weeks or more and a client, named by
neither the empty string nor a single space, has 10 hours with a positive
charge on anchor-code records in the second-to-last week and 2 in the last,
`clientWoWChanges` returns a list that holds exactly one element of that name,
with `change = -8`, `percentChange = -80`, `isNew = false` and
`isGone = false`. -/
theorem clientWoWChanges_example (h : Host) (rawData : List Entry) (weeks : List Week)
    (latest previous : Week) (name : String)
    (hok : weeklyData h rawData = .ok weeks) (hlen : 2 ≤ weeks.length)
    (hl : weeks[weeks.length - 1]? = some latest)
    (hp : weeks[weeks.length - 2]? = some previous)
    (h1 : name ≠ "") (h2 : name ≠ " ")
    (hprev : anchorHours h rawData previous.week name = 10)
    (hlat : anchorHours h rawData latest.week name = 2) :
    ∃ result, clientWoWChanges h rawData weeks = .ok result ∧
      ∃ c ∈ result, c.name = name ∧ c.latestHours = 2 ∧ c.previousHours = 10 ∧
        c.change = -8 ∧ c.percentChange = -80 ∧ c.isNew = false ∧ c.isGone = false ∧
        ∀ c' ∈ result, c'.name = name → c' = c := by
  obtain ⟨l, p, hl', hp', _, r1, r2, r3⟩ := wow_run h rawData weeks hok hlen
  rw [hl] at hl'
  rw [hp] at hp'
  injection hl' with hl'
  injection hp' with hp'
  subst hl' hp'
  obtain ⟨_, s2⟩ := wow_change_of h rawData latest.week previous.week name h1 h2
  rw [hprev, hlat] at s2
  obtain ⟨c, hc, hn, hu, f1, f2, f3, f4, f5, f6⟩ := s2 (by norm_num)
  have e4 : c.percentChange = -80 := by rw [f4]; norm_num
  have e5 : c.isNew = false := by rw [f5]; simp
  have e6 : c.isGone = false := by rw [f6]; simp
  refine ⟨_, r3, c, ?_, hn, f1, f2, by rw [f3]; norm_num, e4, e5, e6, ?_⟩
  · refine ((wowFiltered_spec _).2.1 c).2 ⟨hc, Or.inl ?_⟩
    rw [e4]
    norm_num [abs_of_neg]
  · intro c' hc' hn'
    exact hu c' (((wowFiltered_spec _).2.1 c').1 hc').1 hn'

/-- C24 on the sample: Bo Lim, with 10 hours in the week of 2025-01-06 and 2
hours in the week of 2025-01-13, is returned with a change of -8 hours and -80
percent. -/
theorem clientWoWChanges_example_witness :
    weeklyData sampleHost sampleWowData = .ok sampleWowWeeks ∧
    2 ≤ sampleWowWeeks.length ∧
    anchorHours sampleHost sampleWowData sampleWowWeeks[0].week "Bo Lim" = 10 ∧
    anchorHours sampleHost sampleWowData sampleWowWeeks[1].week "Bo Lim" = 2 ∧
    ∃ result, clientWoWChanges sampleHost sampleWowData sampleWowWeeks = .ok result ∧
      ∃ c ∈ result, c.name = "Bo Lim" ∧ c.latestHours = 2 ∧ c.previousHours = 10 ∧
        c.change = -8 ∧ c.percentChange = -80 ∧ c.isNew = false ∧ c.isGone = false ∧
        ∀ c' ∈ result, c'.name = "Bo Lim" → c' = c :=
  ⟨by decide!, by decide!, by decide!, by decide!,
    clientWoWChanges_example sampleHost sampleWowData sampleWowWeeks
      sampleWowWeeks[1] sampleWowWeeks[0] "Bo Lim" (by decide!) (by decide!) (by decide!)
      (by decide!) (by decide) (by decide) (by decide!) (by decide!)⟩

/-! ## The parser -/

theorem parseLine_eq (cols : Columns) (data : List Entry) (row : List Char) :
    parseLine cols data row = data ++ (rowRecord cols row).toList := by
  unfold rowRecord parseLine
  simp only
  split_ifs <;> simp

theorem parseLines_eq (cols : Columns) (rows : List (List Char)) :
    rows.foldl (parseLine cols) [] = rows.filterMap (rowRecord cols) := by
  induction rows using List.reverseRecOn with
  | nil => rfl
  | append_singleton rs r ih =>
    rw [List.foldl_append, List.foldl_cons, List.foldl_nil, ih, parseLine_eq,
      List.filterMap_append]
    cases hr : rowRecord cols r <;> simp [hr]

theorem rejectsDate_iff (dateValue : Option (List Char)) :
    rejectsDate dateValue = false ↔
      ∃ d, dateValue = some d ∧ 8 ≤ jsLength d ∧ d ≠ "DateOfService".data ∧ '#' ∉ d := by
  unfold rejectsDate
  cases dateValue with
  | none => simp
  | some d =>
    simp only [Bool.or_eq_false_iff, decide_eq_false_iff_not, not_lt, Option.some.injEq,
      exists_eq_left', List.contains_eq_any_beq, List.any_eq_false, beq_iff_eq]
    constructor
    · rintro ⟨⟨⟨_, h2⟩, h3⟩, h4⟩
      exact ⟨h2, h3, fun hm => h4 _ hm rfl⟩
    · rintro ⟨h2, h3, h4⟩
      refine ⟨⟨⟨?_, h2⟩, h3⟩, fun x hx hxe => h4 (hxe ▸ hx)⟩
      intro he
      rw [he] at h2
      simp [jsLength] at h2

theorem rowRecord_isSome (cols : Columns) (row : List Char) :
    (rowRecord cols row).isSome = true ↔
      jsTrim row ≠ [] ∧
      ∃ d, dateField cols row = some d ∧ 8 ≤ jsLength d ∧ d ≠ "DateOfService".data ∧
        '#' ∉ d := by
  rw [← rejectsDate_iff]
  unfold rowRecord parseLine dateField
  simp only
  by_cases hb : jsTrim row = []
  · simp [hb]
  · by_cases hd : rejectsDate (cleanField (scanRow row) cols.dateIdx) = true
    · simp [hb, hd]
    · simp [hb, hd]

theorem rowRecord_date (cols : Columns) (row : List Char) (e : Entry)
    (he : rowRecord cols row = some e) :
    dateField cols row = some e.DateOfService.data := by
  have hs : (rowRecord cols row).isSome = true := by simp [he]
  obtain ⟨_, d, hd, _⟩ := (rowRecord_isSome cols row).1 hs
  unfold rowRecord parseLine at he
  simp only at he
  split_ifs at he with h1 h2
  · simp at he
  · simp at he
  · simp only [List.nil_append, List.head?_cons, Option.some.injEq] at he
    subst he
    unfold dateField at hd ⊢
    rw [hd]
    rfl

theorem commasOutsideQuotes_append (p : List Char) (c : Char) :
    commasOutsideQuotes (p ++ [c]) =
      commasOutsideQuotes p + (if c = ',' ∧ p.count '"' % 2 = 0 then 1 else 0) := by
  unfold commasOutsideQuotes
  rw [List.length_append, List.length_singleton, List.range_succ, List.filter_append,
    List.length_append]
  congr 1
  · congr 1
    apply List.filter_congr
    intro i hi
    have hi' : i < p.length := List.mem_range.1 hi
    rw [List.getElem?_append_left hi', List.take_append_of_le_length (le_of_lt hi')]
  · have e1 : (p ++ [c])[p.length]? = some c := by simp
    have e2 : (p ++ [c]).take p.length = p := by simp
    rw [List.filter_cons, List.filter_nil, e1, e2]
    by_cases hc : c = ',' ∧ p.count '"' % 2 = 0
    · have hd : decide (some c = some ',' ∧ p.count '"' % 2 = 0) = true :=
        decide_eq_true ⟨by rw [hc.1], hc.2⟩
      rw [if_pos hc, if_pos hd]
      rfl
    · have hd : ¬ decide (some c = some ',' ∧ p.count '"' % 2 = 0) = true := by
        intro hh
        have := of_decide_eq_true hh
        exact hc ⟨Option.some.inj this.1, this.2⟩
      rw [if_neg hc, if_neg hd]
      rfl

/-- The state of the row scanner after a prefix of the line. -/
theorem scan_state (p : List Char) :
    (p.foldl scanChar { values := [], current := [], inQuotes := false }).inQuotes =
      decide (p.count '"' % 2 = 1) ∧
    (p.foldl scanChar { values := [], current := [], inQuotes := false }).values.length =
      commasOutsideQuotes p := by
  induction p using List.reverseRecOn with
  | nil => exact ⟨rfl, rfl⟩
  | append_singleton p c ih =>
    obtain ⟨i1, i2⟩ := ih
    rw [List.foldl_append, List.foldl_cons, List.foldl_nil, commasOutsideQuotes_append,
      List.count_append]
    generalize p.foldl scanChar { values := [], current := [], inQuotes := false } = st at i1 i2
    unfold scanChar
    by_cases hq : c = '"'
    · subst hq
      simp only [if_true, i1, i2]
      refine ⟨?_, by simp⟩
      simp only [List.count_singleton_self]
      rcases Nat.mod_two_eq_zero_or_one (p.count '"') with hh | hh
      · have : (p.count '"' + 1) % 2 = 1 := by omega
        simp [hh, this]
      · have : ¬ (p.count '"' + 1) % 2 = 1 := by omega
        simp [hh, this]
    · have hcnt : List.count '"' [c] = 0 := by
        simp [List.count_singleton, hq]
      rw [if_neg hq, hcnt, Nat.add_zero]
      by_cases hc : c = ','
      · subst hc
        rcases Nat.mod_two_eq_zero_or_one (p.count '"') with hh | hh
        · have hf : st.inQuotes = false := by rw [i1]; simp [hh]
          simp [hf, hh, i2, i1]
        · have hf : st.inQuotes = true := by rw [i1]; simp [hh]
          simp [hf, hh, i2, i1]
      · simp [hc, i1, i2]

theorem splitOnChar_ne_nil (sep : Char) (s : List Char) : splitOnChar sep s ≠ [] := by
  cases s with
  | nil => simp [splitOnChar]
  | cons c cs =>
    unfold splitOnChar
    split_ifs
    · simp
    · split <;> simp

theorem scan_no_quote (row : List Char) (hq : '"' ∉ row) (vs : List (List Char))
    (cur : List Char) :
    (row.foldl scanChar { values := vs, current := cur, inQuotes := false }).values ++
        [(row.foldl scanChar { values := vs, current := cur, inQuotes := false }).current] =
      vs ++ ((cur ++ (splitOnChar ',' row).headD []) :: (splitOnChar ',' row).tail) := by
  induction row generalizing vs cur with
  | nil => simp [splitOnChar]
  | cons c cs ih =>
    have hc : c ≠ '"' := fun e => hq (by simp [e])
    have hcs : '"' ∉ cs := fun hm => hq (List.mem_cons_of_mem _ hm)
    rw [List.foldl_cons]
    by_cases hcomma : c = ','
    · subst hcomma
      have : scanChar { values := vs, current := cur, inQuotes := false } ',' =
          { values := vs ++ [cur], current := [], inQuotes := false } := by
        simp [scanChar]
      rw [this, ih hcs]
      have hs : splitOnChar ',' (',' :: cs) = [] :: splitOnChar ',' cs := by
        simp [splitOnChar]
      rw [hs]
      obtain ⟨hd, tl, he⟩ := List.exists_cons_of_ne_nil (splitOnChar_ne_nil ',' cs)
      simp [he]
    · have : scanChar { values := vs, current := cur, inQuotes := false } c =
          { values := vs, current := cur ++ [c], inQuotes := false } := by
        simp [scanChar, hc, hcomma]
      rw [this, ih hcs]
      obtain ⟨hd, tl, he⟩ := List.exists_cons_of_ne_nil (splitOnChar_ne_nil ',' cs)
      have hs : splitOnChar ',' (c :: cs) = (c :: hd) :: tl := by
        rw [splitOnChar, if_neg hcomma, he]
      rw [hs, he]
      simp

theorem scan_values_append (b : List Char) (v w : List (List Char)) (cur : List Char) (q : Bool) :
    b.foldl scanChar (ScanState.mk (v ++ w) cur q) =
      ScanState.mk (v ++ (b.foldl scanChar (ScanState.mk w cur q)).values)
        (b.foldl scanChar (ScanState.mk w cur q)).current
        (b.foldl scanChar (ScanState.mk w cur q)).inQuotes := by
  induction b generalizing w cur q with
  | nil => rfl
  | cons c cs ih =>
    rw [List.foldl_cons, List.foldl_cons]
    by_cases hq : c = '"'
    · have s1 : scanChar (ScanState.mk (v ++ w) cur q) c = ScanState.mk (v ++ w) cur (!q) := by
        simp [scanChar, hq]
      have s2 : scanChar (ScanState.mk w cur q) c = ScanState.mk w cur (!q) := by
        simp [scanChar, hq]
      rw [s1, s2]
      exact ih _ _ _
    · by_cases hc : c = ',' ∧ q = false
      · have s1 : scanChar (ScanState.mk (v ++ w) cur q) c =
            ScanState.mk (v ++ (w ++ [cur])) [] q := by
          simp [scanChar, hq, hc.1, hc.2]
        have s2 : scanChar (ScanState.mk w cur q) c = ScanState.mk (w ++ [cur]) [] q := by
          simp [scanChar, hq, hc.1, hc.2]
        rw [s1, s2]
        exact ih _ _ _
      · have s1 : scanChar (ScanState.mk (v ++ w) cur q) c =
            ScanState.mk (v ++ w) (cur ++ [c]) q := by
          simp only [scanChar, hq, if_false]
          rw [if_neg hc]
        have s2 : scanChar (ScanState.mk w cur q) c = ScanState.mk w (cur ++ [c]) q := by
          simp only [scanChar, hq, if_false]
          rw [if_neg hc]
        rw [s1, s2]
        exact ih _ _ _

theorem scan_in_quotes (q : List Char) (hq : '"' ∉ q) (vs : List (List Char))
    (cur : List Char) :
    q.foldl scanChar { values := vs, current := cur, inQuotes := true } =
      { values := vs, current := cur ++ q, inQuotes := true } := by
  induction q generalizing cur with
  | nil => simp
  | cons c cs ih =>
    have hc : c ≠ '"' := fun e => hq (by simp [e])
    have hcs : '"' ∉ cs := fun hm => hq (List.mem_cons_of_mem _ hm)
    rw [List.foldl_cons]
    have : scanChar { values := vs, current := cur, inQuotes := true } c =
        { values := vs, current := cur ++ [c], inQuotes := true } := by
      simp [scanChar, hc]
    rw [this, ih hcs]
    simp

theorem scanRow_comma (a b : List Char) (ha : a.count '"' % 2 = 0) :
    scanRow (a ++ ',' :: b) = scanRow a ++ scanRow b := by
  unfold scanRow
  simp only
  rw [List.foldl_append, List.foldl_cons]
  have hq := (scan_state a).1
  generalize a.foldl scanChar { values := [], current := [], inQuotes := false } = st at hq
  have hf : st.inQuotes = false := by rw [hq]; simp [ha]
  have hs : scanChar st ',' = ScanState.mk ((st.values ++ [st.current]) ++ []) [] false := by
    simp [scanChar, hf]
  rw [hs, scan_values_append]
  simp

theorem scanRow_quoted (q : List Char) (hq : '"' ∉ q) :
    scanRow ('"' :: q ++ ['"']) = [q] := by
  unfold scanRow
  simp only
  rw [List.cons_append, List.foldl_cons]
  have : scanChar { values := [], current := [], inQuotes := false } '"' =
      { values := [], current := [], inQuotes := true } := by
    simp [scanChar]
  rw [this, List.foldl_append, scan_in_quotes q hq]
  simp [scanChar]

/-- C29: the row scanner gives one field more than the line has commas after an
even number of quote characters; a comma after an even number of quote
characters splits the line into the fields before it and the fields after it; a
text between two quotes that holds no quote is one field, its commas kept; and
on a line without a quote character the fields are those of the split on the
comma. -/
theorem scanRow_fields (row : List Char) :
    (scanRow row).length = 1 + commasOutsideQuotes row ∧
    (∀ a b, row = a ++ ',' :: b → a.count '"' % 2 = 0 →
      scanRow row = scanRow a ++ scanRow b) ∧
    (∀ q, row = '"' :: q ++ ['"'] → '"' ∉ q → scanRow row = [q]) ∧
    ('"' ∉ row → scanRow row = splitOnChar ',' row) := by
  refine ⟨?_, ?_, ?_, ?_⟩
  · unfold scanRow
    simp only [List.length_append, List.length_singleton, (scan_state row).2]
    omega
  · rintro a b rfl ha
    exact scanRow_comma a b ha
  · rintro q rfl hq
    exact scanRow_quoted q hq
  · intro hq
    have := scan_no_quote row hq [] []
    unfold scanRow
    simp only
    rw [this]
    obtain ⟨hd, tl, he⟩ := List.exists_cons_of_ne_nil (splitOnChar_ne_nil ',' row)
    simp [he]

/-- C29 on three lines: a line with a quoted name that holds a comma has three
fields, the name being one of them; the quoted name alone is one field; a line
without quotes is split on its commas. -/
theorem scanRow_fields_witness :
    commasOutsideQuotes "01/06/2025,\"Doe, Jane\",90791".data = 2 ∧
    (scanRow "01/06/2025,\"Doe, Jane\",90791".data).length = 1 + 2 ∧
    scanRow "01/06/2025,\"Doe, Jane\",90791".data =
      ["01/06/2025".data, "Doe, Jane".data, "90791".data] ∧
    scanRow "01/06/2025,\"Doe, Jane\",90791".data =
      scanRow "01/06/2025".data ++ scanRow "\"Doe, Jane\",90791".data ∧
    scanRow "\"Doe, Jane\"".data = ["Doe, Jane".data] ∧
    scanRow "01/06/2025,Jane,Doe".data = splitOnChar ',' "01/06/2025,Jane,Doe".data :=
  ⟨by decide, (by decide : commasOutsideQuotes "01/06/2025,\"Doe, Jane\",90791".data = 2) ▸
      (scanRow_fields "01/06/2025,\"Doe, Jane\",90791".data).1,
    by decide,
    (scanRow_fields "01/06/2025,\"Doe, Jane\",90791".data).2.1 "01/06/2025".data
      "\"Doe, Jane\",90791".data (by decide) (by decide),
    (scanRow_fields "\"Doe, Jane\"".data).2.2.1 "Doe, Jane".data (by decide) (by decide),
    (scanRow_fields "01/06/2025,Jane,Doe".data).2.2.2 (by decide)⟩

/-! ## Slash-delimited dates -/

theorem splitOnChar_not_mem (sep : Char) (s : List Char) (hs : sep ∉ s) :
    splitOnChar sep s = [s] := by
  induction s with
  | nil => rfl
  | cons c cs ih =>
    have hc : c ≠ sep := fun e => hs (by simp [e])
    have hcs : sep ∉ cs := fun hm => hs (List.mem_cons_of_mem _ hm)
    rw [splitOnChar, if_neg hc, ih hcs]

theorem splitOnChar_append (sep : Char) (a b : List Char) (ha : sep ∉ a) :
    splitOnChar sep (a ++ sep :: b) = a :: splitOnChar sep b := by
  induction a with
  | nil => simp [splitOnChar]
  | cons c cs ih =>
    have hc : c ≠ sep := fun e => ha (by simp [e])
    have hcs : sep ∉ cs := fun hm => ha (List.mem_cons_of_mem _ hm)
    rw [List.cons_append, splitOnChar, if_neg hc, ih hcs]

theorem isNumeral_iff (s : List Char) :
    isNumeral s = true ↔ s ≠ [] ∧ ∀ c ∈ s, 48 ≤ c.toNat ∧ c.toNat ≤ 57 := by
  unfold isNumeral
  cases s with
  | nil => simp
  | cons c cs => simp

theorem leadingDigits_numeral (s : List Char) (hs : ∀ c ∈ s, 48 ≤ c.toNat ∧ c.toNat ≤ 57) :
    leadingDigits 10 s = s.map fun c => c.toNat - 48 := by
  induction s with
  | nil => rfl
  | cons c cs ih =>
    have hc := hs c (by simp)
    have hd : digitValue 10 c = some (c.toNat - 48) := by
      unfold digitValue
      simp only
      rw [if_pos hc]
    rw [leadingDigits, hd]
    simp only [List.map_cons]
    rw [ih (fun x hx => hs x (List.mem_cons_of_mem _ hx))]

theorem parseInt_numeral (s : List Char) (hs : isNumeral s = true) :
    parseInt s = some (numeralValue s : Int) := by
  obtain ⟨hne, hd⟩ := (isNumeral_iff s).1 hs
  obtain ⟨c, cs, rfl⟩ := List.exists_cons_of_ne_nil hne
  have hc := hd c (by simp)
  have hw : strWhiteSpace.contains c.toNat = false := by
    rw [List.contains_eq_any_beq, List.any_eq_false]
    intro x hx
    simp only [strWhiteSpace, List.mem_cons, List.mem_singleton, List.not_mem_nil,
      or_false] at hx
    simp only [beq_iff_eq]
    omega
  have hdrop : (c :: cs).dropWhile (fun c => strWhiteSpace.contains c.toNat) = c :: cs := by
    rw [List.dropWhile_cons, hw]
    rfl
  have hm : c ≠ '-' := by
    intro e; rw [e] at hc; revert hc; decide
  have hp : c ≠ '+' := by
    intro e; rw [e] at hc; revert hc; decide
  have hx : ∀ r, cs ≠ 'x' :: r := by
    intro r e
    have := hd 'x' (by simp [e])
    revert this; decide
  have hX : ∀ r, cs ≠ 'X' :: r := by
    intro r e
    have := hd 'X' (by simp [e])
    revert this; decide
  have hz : leadingDigits 10 (c :: cs) ≠ [] := by
    rw [leadingDigits_numeral _ hd]; simp
  unfold parseInt
  simp only [hdrop]
  simp only [hm, hp, hx, hX, List.cons.injEq, false_and, and_false, imp_false, not_false_eq_true,
    implies_true, reduceCtorEq]
  rw [if_neg hz, leadingDigits_numeral _ hd]
  simp [numeralValue, digitsValue]

theorem numeral_not_mem (s : List Char) (hs : isNumeral s = true) (c : Char)
    (hc : c.toNat < 48 ∨ 57 < c.toNat) : c ∉ s := by
  intro hm
  have := ((isNumeral_iff s).1 hs).2 c hm
  omega

theorem firstPart_base (base tail : List Char) (hb : ' ' ∉ base)
    (ht : tail = [] ∨ ∃ rest, tail = ' ' :: rest) :
    firstPart ' ' (base ++ tail) = base := by
  unfold firstPart
  rcases ht with rfl | ⟨rest, rfl⟩
  · rw [List.append_nil, splitOnChar_not_mem _ _ hb]
    rfl
  · rw [splitOnChar_append _ _ _ hb]
    rfl

/-- The date-parsing block on a slash-delimited date made of three numerals,
with or without a time of day after a space. -/
theorem parseEntryDate_slash (h : Host) (mo dd yy tail : List Char)
    (hmo : isNumeral mo = true) (hdd : isNumeral dd = true) (hyy : isNumeral yy = true)
    (ht : tail = [] ∨ ∃ rest, tail = ' ' :: rest) :
    parseEntryDate h (String.mk (mo ++ '/' :: (dd ++ '/' :: yy) ++ tail)) =
      TimeClip (localMidnight h (fixYear (numeralValue yy)) (numeralValue mo)
        (numeralValue dd)) := by
  have hsp : ∀ s, isNumeral s = true → ' ' ∉ s :=
    fun s hs => numeral_not_mem s hs ' ' (by decide)
  have hsl : ∀ s, isNumeral s = true → '/' ∉ s :=
    fun s hs => numeral_not_mem s hs '/' (by decide)
  have hbase : ' ' ∉ mo ++ '/' :: (dd ++ '/' :: yy) := by
    simp only [List.mem_append, List.mem_cons, not_or]
    exact ⟨hsp mo hmo, by decide, hsp dd hdd, by decide, hsp yy hyy⟩
  have hparts : splitOnChar '/' (mo ++ '/' :: (dd ++ '/' :: yy)) = [mo, dd, yy] := by
    rw [splitOnChar_append _ _ _ (hsl mo hmo), splitOnChar_append _ _ _ (hsl dd hdd),
      splitOnChar_not_mem _ _ (hsl yy hyy)]
  have hmem : '/' ∈ (String.mk (mo ++ '/' :: (dd ++ '/' :: yy) ++ tail)).data := by
    simp
  unfold parseEntryDate
  rw [if_pos hmem]
  simp only [firstPart_base _ _ hbase ht, hparts, parseInt_numeral _ hmo, parseInt_numeral _ hdd,
    parseInt_numeral _ hyy, Option.map_some']
  unfold newDateYMD localMidnight fixYear
  simp only
  have hy : ¬ (0 ≤ (if (numeralValue yy : Int) < 100 then (numeralValue yy : Int) + 2000
      else (numeralValue yy : Int)) ∧
      (if (numeralValue yy : Int) < 100 then (numeralValue yy : Int) + 2000
      else (numeralValue yy : Int)) ≤ 99) := by
    split_ifs <;> omega
  rw [if_neg hy]

theorem month_table (l mn day : Int) (hl : l = 0 ∨ l = 1) (h0 : 0 ≤ mn) (h11 : mn ≤ 11)
    (h1 : 1 ≤ day)
    (hlen : day ≤ (if mn = 1 then 28 + l
      else if mn = 3 ∨ mn = 5 ∨ mn = 8 ∨ mn = 10 then 30 else 31)) :
    monthStart l mn + day - 1 ≤ 364 + l ∧
    monthOfDay (monthStart l mn + day - 1) l = mn ∧
    dateOfDay (monthStart l mn + day - 1) l mn = day := by
  rcases hl with rfl | rfl <;> interval_cases mn <;> norm_num at hlen <;>
    interval_cases day <;> decide

/-- The day computed by `MakeDay` for a day of a month lies in that year, in
that month, and is that day of the month. -/
theorem MakeDay_valid (year month day : Int) (hm1 : 1 ≤ month) (hm12 : month ≤ 12)
    (hd1 : 1 ≤ day) (hd : day ≤ daysInMonth year month) :
    YearFromTime (MakeDate (MakeDay year (month - 1) day) 0) = year ∧
    MonthFromTime (MakeDate (MakeDay year (month - 1) day) 0) = month - 1 ∧
    DateFromTime (MakeDate (MakeDay year (month - 1) day) 0) = day := by
  have hday : ∀ n : Int, Day (MakeDate n 0) = n := by
    intro n; unfold Day MakeDate msPerDay; omega
  have hq : (month - 1) / 12 = 0 := by omega
  have hr : (month - 1) % 12 = month - 1 := by omega
  set l : Int := if DaysInYear year = 366 then 1 else 0 with hl
  have hl_cases : l = 0 ∨ l = 1 := by rw [hl]; split_ifs <;> simp
  have hmd : MakeDay year (month - 1) day = DayFromYear year + (monthStart l (month - 1) + day - 1) := by
    unfold MakeDay
    simp only [hq, hr, add_zero, ← hl]
    ring
  have hlen : day ≤ (if month - 1 = 1 then 28 + l
      else if month - 1 = 3 ∨ month - 1 = 5 ∨ month - 1 = 8 ∨ month - 1 = 10 then 30 else 31) := by
    unfold daysInMonth at hd
    by_cases h2 : month = 2
    · rw [if_pos h2] at hd
      rw [if_pos (by omega)]
      rw [hl]
      split_ifs at hd ⊢ <;> omega
    · rw [if_neg h2] at hd
      rw [if_neg (by omega)]
      by_cases h3 : month = 4 ∨ month = 6 ∨ month = 9 ∨ month = 11
      · rw [if_pos h3] at hd
        rw [if_pos (by omega)]
        exact hd
      · rw [if_neg h3] at hd
        rw [if_neg (by omega)]
        exact hd
  obtain ⟨t1, t2, t3⟩ := month_table l (month - 1) day hl_cases (by omega) (by omega) hd1 hlen
  obtain ⟨s0, _, _, _⟩ := monthStart_table l (month - 1) hl_cases (by omega) (by omega)
  have hdiy : DaysInYear year = 365 + l := by
    rw [hl]; rcases DaysInYear_range year with hh | hh <;> simp [hh]
  have hsucc := DayFromYear_succ year
  have hyear : YearFromTime (MakeDate (MakeDay year (month - 1) day) 0) = year := by
    unfold YearFromTime
    rw [hday, hmd]
    exact yearFromDay_unique _ _ (by omega) (by omega)
  have hleap : InLeapYear (MakeDate (MakeDay year (month - 1) day) 0) = l := by
    unfold InLeapYear; rw [hyear]
  have hdwy : DayWithinYear (MakeDate (MakeDay year (month - 1) day) 0) =
      monthStart l (month - 1) + day - 1 := by
    unfold DayWithinYear; rw [hyear, hday, hmd]; ring
  have hmonth : MonthFromTime (MakeDate (MakeDay year (month - 1) day) 0) = month - 1 := by
    unfold MonthFromTime; rw [hdwy, hleap, t2]
  refine ⟨hyear, hmonth, ?_⟩
  unfold DateFromTime
  rw [hdwy, hleap, hmonth, t3]

/-- The local calendar fields of `localMidnight`. -/
theorem localMidnight_fields (h : Host) (year month day : Int) (hm1 : 1 ≤ month)
    (hm12 : month ≤ 12) (hd1 : 1 ≤ day) (hd : day ≤ daysInMonth year month) :
    YearFromTime (LocalTime h (localMidnight h year month day)) = year ∧
    MonthFromTime (LocalTime h (localMidnight h year month day)) = month - 1 ∧
    DateFromTime (LocalTime h (localMidnight h year month day)) = day ∧
    TimeWithinDay (LocalTime h (localMidnight h year month day)) = 0 := by
  have e : LocalTime h (localMidnight h year month day) =
      MakeDate (MakeDay year (month - 1) day) 0 := by
    unfold LocalTime localMidnight UTC
    ring
  rw [e]
  obtain ⟨a, b, c⟩ := MakeDay_valid year month day hm1 hm12 hd1 hd
  refine ⟨a, b, c, ?_⟩
  unfold TimeWithinDay MakeDate msPerDay
  omega

/-- Local midnight of a day of the years 0 to 9999 is within the range of
`TimeClip`. -/
theorem localMidnight_inRange (h : Host) (year month day : Int) (hy0 : 0 ≤ year)
    (hy : year ≤ 9999) (hm1 : 1 ≤ month) (hm12 : month ≤ 12) (hd1 : 1 ≤ day)
    (hd : day ≤ 31) :
    TimeClip (localMidnight h year month day) = .date (localMidnight h year month day) := by
  have hq : (month - 1) / 12 = 0 := by omega
  have hr : (month - 1) % 12 = month - 1 := by omega
  have hl : ∀ y : Int, (if DaysInYear y = 366 then (1 : Int) else 0) = 0 ∨
      (if DaysInYear y = 366 then (1 : Int) else 0) = 1 := by
    intro y
    split_ifs <;> simp
  obtain ⟨m0, m1, _, _⟩ := monthStart_table (if DaysInYear year = 366 then 1 else 0) (month - 1)
    (hl year) (by omega) (by omega)
  have hml : (if DaysInYear year = 366 then (1 : Int) else 0) ≤ 1 := by
    rcases hl year with e | e <;> rw [e] <;> decide
  have d0 := DayFromYear_mono 0 year hy0
  have d1 := DayFromYear_mono year 9999 hy
  have v0 : DayFromYear 0 = -719528 := by decide
  have v1 : DayFromYear 9999 = 2932532 := by decide
  rw [v0] at d0
  rw [v1] at d1
  obtain ⟨t0, t1⟩ := h.tza_range
  have hval : localMidnight h year month day =
      (DayFromYear year + monthStart (if DaysInYear year = 366 then 1 else 0) (month - 1) +
        day - 1) * 86400000 - h.tza := by
    unfold localMidnight UTC MakeDate MakeDay msPerDay
    simp only [hq, hr, add_zero]
  unfold TimeClip
  rw [if_neg]
  rw [hval]
  omega

theorem digitsValue_lt (ds : List Nat) (hds : ∀ d ∈ ds, d ≤ 9) :
    digitsValue ds < 10 ^ ds.length := by
  unfold digitsValue
  induction ds using List.reverseRecOn with
  | nil => simp
  | append_singleton ds d ih =>
    have hd : d ≤ 9 := hds d (by simp)
    have ih' := ih (fun x hx => hds x (List.mem_append_left _ hx))
    rw [List.foldl_append, List.foldl_cons, List.foldl_nil, List.length_append,
      List.length_singleton, pow_succ]
    omega

/-- A numeral of `n` digits is below `10 ^ n`. -/
theorem numeralValue_lt (s : List Char) (hs : isNumeral s = true) :
    numeralValue s < 10 ^ s.length := by
  obtain ⟨_, hd⟩ := (isNumeral_iff s).1 hs
  have := digitsValue_lt (s.map fun c => c.toNat - 48) (by
    intro d hd'
    obtain ⟨c, hc, rfl⟩ := List.mem_map.1 hd'
    have := hd c hc
    omega)
  rw [List.length_map] at this
  exact this

theorem daysInMonth_le (year month : Int) : daysInMonth year month ≤ 31 := by
  unfold daysInMonth
  split_ifs <;> decide

/-- Every week with a record of a valid date has its entry in `weeklyData`. -/
theorem weeklyData_has_week (h : Host) (rs : List Entry) (weeks : List Week)
    (hok : weeklyData h rs = .ok weeks) (r : Entry) (hr : r ∈ rs) (k : Int)
    (hk : entryWeek h r = some k) : ∃ w ∈ weeks, w.week = k := by
  obtain ⟨_, rfl⟩ := weeklyData_ok h rs weeks hok
  have hrow : toWeekRow (weekGroupOf h rs k) ∈ weekRows h rs :=
    (mem_weekRows h rs _).2 ⟨k, ⟨r, hr, hk⟩, rfl⟩
  obtain ⟨i, hi⟩ := List.getElem?_of_mem hrow
  refine ⟨withChanges (weekRows h rs) i (toWeekRow (weekGroupOf h rs k)), ?_, ?_⟩
  · apply List.mem_iff_getElem?.2
    exact ⟨i, by rw [weeks_getElem?, hi]; rfl⟩
  · rw [withChanges_week, toWeekRow_week, weekGroupOf_week]

theorem isSpace_of_jsTrim_nil (s : List Char) (hs : jsTrim s = []) : ∀ c ∈ s, isSpace c = true := by
  unfold jsTrim at hs
  have h1 : (s.dropWhile isSpace).reverse.dropWhile isSpace = [] := by
    simpa using congrArg List.reverse hs
  intro c hc
  by_contra hn
  have hmem : c ∈ s.dropWhile isSpace := by
    clear h1 hs
    induction s with
    | nil => cases hc
    | cons x xs ih =>
      rw [List.dropWhile_cons]
      by_cases hx : isSpace x = true
      · rw [if_pos hx]
        rcases List.mem_cons.1 hc with rfl | hc'
        · exact absurd hx hn
        · exact ih hc'
      · rw [if_neg hx]
        exact hc
  have hall : ∀ x ∈ (s.dropWhile isSpace).reverse, isSpace x = true := by
    rw [List.dropWhile_eq_nil_iff] at h1
    exact h1
  exact hn (hall c (List.mem_reverse.2 hmem))

theorem blank_row_date (cols : Columns) (row : List Char) (hs : jsTrim row = [])
    (d : List Char) (hd : dateField cols row = some d) : d = [] := by
  have hsp := isSpace_of_jsTrim_nil row hs
  have hq : '"' ∉ row := fun hm => by
    have := hsp _ hm
    revert this; decide
  have hc : ',' ∉ row := fun hm => by
    have := hsp _ hm
    revert this; decide
  have hscan : scanRow row = [row] := by
    have e := scan_no_quote row hq [] []
    unfold scanRow
    simp only
    rw [e, splitOnChar_not_mem _ _ hc]
    rfl
  unfold dateField cleanField valueAt at hd
  rw [hscan] at hd
  cases hi : cols.dateIdx with
  | none => rw [hi] at hd; simp at hd
  | some i =>
    rw [hi] at hd
    cases i with
    | zero =>
      have hd' : some (stripQuotes (jsTrim row)) = some d := hd
      rw [hs] at hd'
      injection hd' with hd'
      rw [← hd']
      rfl
    | succ n => simp at hd

theorem splitOnChar_length (sep : Char) (s : List Char) :
    (splitOnChar sep s).length = s.count sep + 1 := by
  induction s with
  | nil => rfl
  | cons c cs ih =>
    rw [splitOnChar]
    by_cases hc : c = sep
    · rw [if_pos hc, List.length_cons, ih, hc, List.count_cons_self]
    · rw [if_neg hc]
      obtain ⟨hd, tl, he⟩ := List.exists_cons_of_ne_nil (splitOnChar_ne_nil sep cs)
      rw [he] at ih ⊢
      have : List.count sep (c :: cs) = List.count sep cs := by
        rw [List.count_cons]
        simp [hc]
      rw [this, ← ih]
      rfl

/-- C28: the text, trimmed, has fewer than two lines exactly when it holds no
line feed, and `parseCSVData` then returns the empty list; otherwise it returns
the records of the lines after the first, each line giving its record or none
independently of the other lines, in the order of the lines. A line gives a
record if and only if it is not blank and its date field (trimmed, quotes
removed) is present, has a length of at least 8, is not `DateOfService` and
holds no `#`; the record carries that date field. -/
theorem parseCSVData_rows (csvText : String) :
    ((csvLines csvText).length < 2 ↔ '\n' ∉ jsTrim csvText.data) ∧
    ((csvLines csvText).length < 2 → parseCSVData csvText = []) ∧
    (2 ≤ (csvLines csvText).length →
      parseCSVData csvText =
        (csvLines csvText).tail.filterMap
          (rowRecord (columnsOf (headersOf ((csvLines csvText).headD []))))) ∧
    (∀ cols row, (rowRecord cols row).isSome = true ↔
      jsTrim row ≠ [] ∧
      ∃ d, dateField cols row = some d ∧ 8 ≤ jsLength d ∧ d ≠ "DateOfService".data ∧
        '#' ∉ d) ∧
    (∀ cols row e, rowRecord cols row = some e →
      dateField cols row = some e.DateOfService.data) := by
  refine ⟨?_, ?_, ?_, rowRecord_isSome, rowRecord_date⟩
  · unfold csvLines
    rw [splitOnChar_length, ← List.count_eq_zero]
    omega
  · intro hlt
    unfold parseCSVData
    simp only
    rw [if_pos hlt]
  · intro hge
    unfold parseCSVData
    simp only
    rw [if_neg (by omega), parseLines_eq]

/-- C28 on the sample text: of its five lines after the header, the blank line
and the line whose date is `1/6/25` give no record, the three others give
theirs in order; the empty text and a text with a header only give no record. -/
theorem parseCSVData_rows_witness :
    (parseCSVData sampleCsv).map (fun e => e.DateOfService) =
      ["01/06/2025", "1/14/25 09:00", "1/2/3/2025"] ∧
    parseCSVData sampleCsv =
      (csvLines sampleCsv).tail.filterMap
        (rowRecord (columnsOf (headersOf ((csvLines sampleCsv).headD [])))) ∧
    parseCSVData "" = [] ∧
    parseCSVData "DateOfService,ClientFirstName,ClientLastName\n  \n" = [] :=
  ⟨by decide!, (parseCSVData_rows sampleCsv).2.2.1 (by decide!),
    (parseCSVData_rows "").2.1 (by decide),
    (parseCSVData_rows "DateOfService,ClientFirstName,ClientLastName\n  \n").2.1 (by decide)⟩

/-- C27 on a text: a file with a row of a valid date and a row whose
slash-delimited date has four parts is parsed into two records, on which
`weeklyData`, `psychDashboardData` and `psychToABAConversion` raise a
`TypeError` instead of skipping the second; `latestWeekClients` and
`clientWoWChanges`, which read `weeklyData`, raise it as well on these records,
whatever the weeks they are given. -/
theorem malformed_date_raises :
    (parseCSVData sampleBadCsv).map (fun e => (e.DateOfService, e.ClientName, e.ProcedureCode)) =
      [("01/06/2025", "Jane Doe", "90791"), ("1/2/3/2025", "Ann Lee", "97153")] ∧
    parseEntryDate sampleHost "1/2/3/2025" = .undefined ∧
    weeklyData sampleHost (parseCSVData sampleBadCsv) = .error .typeError ∧
    psychDashboardData sampleHost sampleNow sampleNotes sampleNotes (parseCSVData sampleBadCsv) =
      .error .typeError ∧
    psychToABAConversion sampleHost sampleNow sampleNotes (parseCSVData sampleBadCsv) =
      .error .typeError ∧
    (∀ weeks : List Week, 1 ≤ weeks.length →
      latestWeekClients sampleHost (parseCSVData sampleBadCsv) weeks = .error .typeError) ∧
    (∀ weeks : List Week, 2 ≤ weeks.length →
      clientWoWChanges sampleHost (parseCSVData sampleBadCsv) weeks = .error .typeError) := by
  have hdata : parseCSVData sampleBadCsv =
      [sampleRow "01/06/2025" "Jane Doe" "90791",
        { DateOfService := "1/2/3/2025", ClientChargesAgreedTotal := some 10,
          UnitsOfService := some 1, TimeWorkedInHours := some 1,
          ClientName := "Ann Lee", ProcedureCode := "97153" }] := by decide!
  have hbad : parseEntryDate sampleHost "1/2/3/2025" = .undefined := by decide
  refine ⟨by decide!, hbad, by decide!, by decide!, by decide!, ?_, ?_⟩
  · intro weeks hlen
    have hfold : ∀ k, (parseCSVData sampleBadCsv).foldlM (latestEntry sampleHost k) [] =
        .error .typeError := by
      intro k
      rw [hdata]
      simp [List.foldlM, latestEntry, sampleRow, hbad, bind, Except.bind, pure, Except.pure]
    unfold latestWeekClients
    have h1 : weeks.length - 1 < weeks.length := by omega
    have e1 : weeks[weeks.length - 1]? = some weeks[weeks.length - 1] :=
      List.getElem?_eq_getElem h1
    have hg : ¬ ((parseCSVData sampleBadCsv).length = 0 ∨ weeks.length = 0) := by
      rintro (hh | hh)
      · rw [hdata] at hh
        simp at hh
      · omega
    rw [if_neg hg, e1]
    simp only [hfold]
  · intro weeks hlen
    have hfold : ∀ k, parseAndGroupByWeek sampleHost (parseCSVData sampleBadCsv) k =
        .error .typeError := by
      intro k
      rw [hdata]
      simp [parseAndGroupByWeek, List.foldlM, wowEntry, sampleRow, hbad, bind, Except.bind,
        pure, Except.pure]
    unfold clientWoWChanges
    have h1 : weeks.length - 1 < weeks.length := by omega
    have h2 : weeks.length - 2 < weeks.length := by omega
    have e1 : weeks[weeks.length - 1]? = some weeks[weeks.length - 1] :=
      List.getElem?_eq_getElem h1
    have e2 : weeks[weeks.length - 2]? = some weeks[weeks.length - 2] :=
      List.getElem?_eq_getElem h2
    have hg : ¬ ((parseCSVData sampleBadCsv).length = 0 ∨ weeks.length < 2) := by
      rintro (hh | hh)
      · rw [hdata] at hh
        simp at hh
      · omega
    rw [if_neg hg, e1, e2]
    simp only [hfold]

/-- C30, a row that is not accepted: the only row of `sampleShortCsv` has the
date field `1/6/25`, a month/day/year with a two-digit year and no leading
zero; the date-parsing block reads it as 2025-01-06, but its length is 6 and
`parseCSVData` drops the row, while it keeps the row written `01/06/25`. And a
year written with the four digits `0025` is not taken as is: it is read as
2025. -/
theorem short_slash_date_dropped :
    dateField sampleColumns "1/6/25,Ann,Lee,97153".data = some "1/6/25".data ∧
    jsLength "1/6/25".data = 6 ∧
    parseEntryDate sampleHost "1/6/25" = .date (localMidnight sampleHost 2025 1 6) ∧
    parseCSVData sampleShortCsv = [] ∧
    (parseCSVData samplePaddedCsv).map (fun e => e.DateOfService) = ["01/06/25"] ∧
    parseEntryDate sampleHost "01/06/0025" = .date (localMidnight sampleHost 2025 1 6) ∧
    localMidnight sampleHost 2025 1 6 ≠ localMidnight sampleHost 25 1 6 := by
  decide!

/-- C30 as the code has it: a line whose date field has at least 8 characters
and is a slash-delimited month/day/year, alone or followed by a space and a time
of day without `#`, the month a numeral from 1 to 12, the day a numeral for a
day of that month, and the year a numeral of two digits or a numeral of four
digits of value 100 or more, gives a record with that date field. The date of
the record is valid: it is local midnight of that day and month in the year
2000 + YY for a two-digit year and in the year written for a four-digit year,
the time of day changing nothing; the local calendar date of that time is the
year, month and day read; and the record is counted in the week of that date by
`weeklyData`. -/
theorem slash_date_row (h : Host) (cols : Columns) (row mo dd yy tail : List Char)
    (hmo : isNumeral mo = true) (hdd : isNumeral dd = true) (hyy : isNumeral yy = true)
    (hyear : yy.length = 2 ∨ (yy.length = 4 ∧ 100 ≤ numeralValue yy))
    (hm1 : 1 ≤ numeralValue mo) (hm12 : numeralValue mo ≤ 12) (hd1 : 1 ≤ numeralValue dd)
    (hdm : (numeralValue dd : Int) ≤ daysInMonth (fixYear (numeralValue yy)) (numeralValue mo))
    (ht : tail = [] ∨ ∃ rest, tail = ' ' :: rest) (hhash : '#' ∉ tail)
    (hfield : dateField cols row = some (mo ++ '/' :: (dd ++ '/' :: yy) ++ tail))
    (hlen : 8 ≤ jsLength (mo ++ '/' :: (dd ++ '/' :: yy) ++ tail)) :
    ∃ e, rowRecord cols row = some e ∧
      e.DateOfService.data = mo ++ '/' :: (dd ++ '/' :: yy) ++ tail ∧
      validDate h e =
        some (localMidnight h (fixYear (numeralValue yy)) (numeralValue mo) (numeralValue dd)) ∧
      entryWeek h e = some (weekKeyOf h
        (localMidnight h (fixYear (numeralValue yy)) (numeralValue mo) (numeralValue dd))) ∧
      (∀ rawData weeks, e ∈ rawData → weeklyData h rawData = .ok weeks →
        ∃ w ∈ weeks, w.week = weekKeyOf h
          (localMidnight h (fixYear (numeralValue yy)) (numeralValue mo) (numeralValue dd))) ∧
      (yy.length = 2 → fixYear (numeralValue yy) = 2000 + numeralValue yy) ∧
      (yy.length = 4 → fixYear (numeralValue yy) = numeralValue yy) ∧
      YearFromTime (LocalTime h (localMidnight h (fixYear (numeralValue yy))
        (numeralValue mo) (numeralValue dd))) = fixYear (numeralValue yy) ∧
      MonthFromTime (LocalTime h (localMidnight h (fixYear (numeralValue yy))
        (numeralValue mo) (numeralValue dd))) = (numeralValue mo : Int) - 1 ∧
      DateFromTime (LocalTime h (localMidnight h (fixYear (numeralValue yy))
        (numeralValue mo) (numeralValue dd))) = numeralValue dd ∧
      TimeWithinDay (LocalTime h (localMidnight h (fixYear (numeralValue yy))
        (numeralValue mo) (numeralValue dd))) = 0 := by
  have hne : mo ++ '/' :: (dd ++ '/' :: yy) ++ tail ≠ [] := by
    obtain ⟨c, cs, hc⟩ := List.exists_cons_of_ne_nil ((isNumeral_iff mo).1 hmo).1
    rw [hc]
    simp
  have hblank : jsTrim row ≠ [] := fun hb => hne (blank_row_date cols row hb _ hfield)
  have hhdr : mo ++ '/' :: (dd ++ '/' :: yy) ++ tail ≠ "DateOfService".data := by
    intro he
    have hm : '/' ∈ mo ++ '/' :: (dd ++ '/' :: yy) ++ tail := by simp
    rw [he] at hm
    revert hm
    decide
  have hno : '#' ∉ mo ++ '/' :: (dd ++ '/' :: yy) ++ tail := by
    have hn : ∀ s, isNumeral s = true → '#' ∉ s :=
      fun s hs => numeral_not_mem s hs '#' (by decide)
    simp only [List.mem_append, List.mem_cons, not_or]
    exact ⟨⟨hn mo hmo, by decide, hn dd hdd, by decide, hn yy hyy⟩, hhash⟩
  have hsome : (rowRecord cols row).isSome = true :=
    (rowRecord_isSome cols row).2 ⟨hblank, _, hfield, hlen, hhdr, hno⟩
  obtain ⟨e, he⟩ := Option.isSome_iff_exists.1 hsome
  have hdate : e.DateOfService.data = mo ++ '/' :: (dd ++ '/' :: yy) ++ tail := by
    have := rowRecord_date cols row e he
    rw [hfield] at this
    injection this with this
    exact this.symm
  have hstr : e.DateOfService = String.mk (mo ++ '/' :: (dd ++ '/' :: yy) ++ tail) := by
    rw [← hdate]
  have hvlt := numeralValue_lt yy hyy
  have hy2 : yy.length = 2 → fixYear (numeralValue yy) = 2000 + numeralValue yy := by
    intro h2
    rw [h2] at hvlt
    unfold fixYear
    rw [if_pos (by omega)]
    ring
  have hy4 : yy.length = 4 → fixYear (numeralValue yy) = numeralValue yy := by
    intro h4
    rcases hyear with h2 | ⟨_, h100⟩
    · omega
    · unfold fixYear
      rw [if_neg (by omega)]
  have hyr : 0 ≤ fixYear (numeralValue yy) ∧ fixYear (numeralValue yy) ≤ 9999 := by
    rcases hyear with h2 | ⟨h4, h100⟩
    · rw [hy2 h2]
      rw [h2] at hvlt
      omega
    · rw [hy4 h4]
      rw [h4] at hvlt
      omega
  have hd31 := daysInMonth_le (fixYear (numeralValue yy)) (numeralValue mo)
  have hclip := localMidnight_inRange h (fixYear (numeralValue yy)) (numeralValue mo)
    (numeralValue dd) hyr.1 hyr.2 (by exact_mod_cast hm1) (by exact_mod_cast hm12)
    (by exact_mod_cast hd1) (by omega)
  have hparse := parseEntryDate_slash h mo dd yy tail hmo hdd hyy ht
  rw [← hstr, hclip] at hparse
  have hvalid : validDate h e =
      some (localMidnight h (fixYear (numeralValue yy)) (numeralValue mo) (numeralValue dd)) := by
    unfold validDate
    rw [hparse]
  have hweek : entryWeek h e = some (weekKeyOf h
      (localMidnight h (fixYear (numeralValue yy)) (numeralValue mo) (numeralValue dd))) := by
    unfold entryWeek
    rw [hvalid]
    rfl
  obtain ⟨a, b, c, t⟩ := localMidnight_fields h (fixYear (numeralValue yy)) (numeralValue mo)
    (numeralValue dd) (by exact_mod_cast hm1) (by exact_mod_cast hm12) (by exact_mod_cast hd1) hdm
  exact ⟨e, he, hdate, hvalid, hweek,
    fun rawData weeks hmem hok => weeklyData_has_week h rawData weeks hok e hmem _ hweek,
    hy2, hy4, a, b, c, t⟩

/-- C30 on two lines: `01/06/25` and `1/6/25 09:00` are read as 2025-01-06, a
Monday, and counted in the week that starts on that day. -/
theorem slash_date_row_witness :
    (dateField sampleColumns "01/06/25,Ann,Lee,97153".data = some "01/06/25".data ∧
      8 ≤ jsLength "01/06/25".data ∧
      ∃ e, rowRecord sampleColumns "01/06/25,Ann,Lee,97153".data = some e ∧
        e.DateOfService.data = "01/06/25".data ∧
        validDate sampleHost e = some (localMidnight sampleHost 2025 1 6) ∧
        entryWeek sampleHost e = some 20094) ∧
    (dateField sampleColumns "1/6/25 09:00,Ann,Lee,97153".data = some "1/6/25 09:00".data ∧
      8 ≤ jsLength "1/6/25 09:00".data ∧
      ∃ e, rowRecord sampleColumns "1/6/25 09:00,Ann,Lee,97153".data = some e ∧
        e.DateOfService.data = "1/6/25 09:00".data ∧
        validDate sampleHost e = some (localMidnight sampleHost 2025 1 6) ∧
        entryWeek sampleHost e = some 20094) := by
  have k : weekKeyOf sampleHost (localMidnight sampleHost 2025 1 6) = 20094 := by decide
  have f1 : fixYear (numeralValue "25".data) = 2025 := by decide
  have n1 : ((numeralValue "01".data : ℕ) : Int) = 1 := by decide
  have n6 : ((numeralValue "06".data : ℕ) : Int) = 6 := by decide
  have n1' : ((numeralValue "1".data : ℕ) : Int) = 1 := by decide
  have n6' : ((numeralValue "6".data : ℕ) : Int) = 6 := by decide
  refine ⟨⟨by decide, by decide, ?_⟩, ⟨by decide, by decide, ?_⟩⟩
  · obtain ⟨e, h1, h2, h3, h4, _⟩ := slash_date_row sampleHost sampleColumns
      "01/06/25,Ann,Lee,97153".data "01".data "06".data "25".data [] (by decide) (by decide)
      (by decide) (Or.inl (by decide)) (by decide) (by decide) (by decide) (by decide)
      (Or.inl rfl) (by decide) (by decide) (by decide)
    rw [f1, n1, n6] at h3 h4
    rw [k] at h4
    exact ⟨e, h1, h2, h3, h4⟩
  · obtain ⟨e, h1, h2, h3, h4, _⟩ := slash_date_row sampleHost sampleColumns
      "1/6/25 09:00,Ann,Lee,97153".data "1".data "6".data "25".data " 09:00".data (by decide)
      (by decide) (by decide) (Or.inl (by decide)) (by decide) (by decide) (by decide)
      (by decide) (Or.inr ⟨"09:00".data, rfl⟩) (by decide) (by decide) (by decide)
    rw [f1, n1', n6'] at h3 h4
    rw [k] at h4
    exact ⟨e, h1, h2, h3, h4⟩

/-! ## The examples of the specification -/

theorem jane_dates (h : Host) :
    parseEntryDate h "01/06/2025" = .date (localMidnight h 2025 1 6) ∧
    parseEntryDate h "03/01/2025" = .date (localMidnight h 2025 3 1) := by
  constructor
  · have := parseEntryDate_slash h "01".data "06".data "2025".data [] (by decide) (by decide)
      (by decide) (Or.inl rfl)
    have e : String.mk ("01".data ++ '/' :: ("06".data ++ '/' :: "2025".data) ++ []) =
        "01/06/2025" := by decide
    rw [e] at this
    rw [this]
    have f : fixYear (numeralValue "2025".data) = 2025 := by decide
    have n1 : ((numeralValue "01".data : ℕ) : Int) = 1 := by decide
    have n6 : ((numeralValue "06".data : ℕ) : Int) = 6 := by decide
    rw [f, n1, n6]
    exact localMidnight_inRange h 2025 1 6 (by decide) (by decide) (by decide) (by decide)
      (by decide) (by decide)
  · have := parseEntryDate_slash h "03".data "01".data "2025".data [] (by decide) (by decide)
      (by decide) (Or.inl rfl)
    have e : String.mk ("03".data ++ '/' :: ("01".data ++ '/' :: "2025".data) ++ []) =
        "03/01/2025" := by decide
    rw [e] at this
    rw [this]
    have f : fixYear (numeralValue "2025".data) = 2025 := by decide
    have n1 : ((numeralValue "01".data : ℕ) : Int) = 1 := by decide
    have n3 : ((numeralValue "03".data : ℕ) : Int) = 3 := by decide
    rw [f, n1, n3]
    exact localMidnight_inRange h 2025 3 1 (by decide) (by decide) (by decide) (by decide)
      (by decide) (by decide)

theorem jane_journeys (h : Host) :
    clientJourneys h sampleJaneData = .ok [("Jane Doe", janeJourney h)] := by
  obtain ⟨p1, p2⟩ := jane_dates h
  have c1 : ("90791" ∈ allCodes) := by decide
  have c2 : ("97153" ∈ allCodes) := by decide
  have c3 : ("90791" ∈ psychCodes) := by decide
  have c4 : ¬ ("90791" ∈ abaCodes) := by decide
  have c5 : ¬ ("97153" ∈ psychCodes) := by decide
  have c6 : ("97153" ∈ abaCodes) := by decide
  have n1 : ¬ ("Jane Doe" = "" ∨ "Jane Doe" = " ") := by decide
  unfold clientJourneys sampleJaneData janeJourney
  simp only [List.foldlM, journeyEntry, n1, c1, c2, p1, p2, if_false, not_true_eq_false,
    bind, Except.bind, upsert, if_true, pure, Except.pure, addToJourney, trackPsych, trackABA,
    trackTotals, c3, c4, c5, c6, newJourney, isEarlier, isLater, orZero, Option.getD,
    List.not_mem_nil, List.nil_append, decide_True]
  norm_num

theorem jane_days (h : Host) :
    daysBetween (localMidnight h 2025 3 1) (localMidnight h 2025 1 6) = 54 := by
  have e1 : MakeDay 2025 (3 - 1) 1 = 20148 := by decide
  have e2 : MakeDay 2025 (1 - 1) 6 = 20094 := by decide
  unfold daysBetween localMidnight UTC MakeDate
  rw [e1, e2]
  unfold msPerDay
  omega

theorem jane_classified (h : Host) (now : Int) (nv notes : String → Option String) :
    (classify now nv notes (janeJourney h)).name = "Jane Doe" ∧
    (classify now nv notes (janeJourney h)).status = .converted ∧
    (classify now nv notes (janeJourney h)).daysToConversion = some 54 := by
  refine ⟨(classify_fields now nv notes _).1, ?_, ?_⟩
  · unfold classify janeJourney
    simp
  · unfold classify janeJourney
    simp only [dateNumber, Option.getD_some, jane_days h]

/-- C25: on the two records of Jane Doe, for every host, every time `now` and
all override and notes maps, `psychDashboardData` returns a dashboard whose
only client is Jane Doe, with status converted and `daysToConversion` 54 (the
days from 2025-01-06 to 2025-03-01); `conversionRate` is the string 100.0 and
`avgDaysToConversion` the string 54.0. -/
theorem jane_doe_converted (h : Host) (now : Int)
    (notViableReasons clientNotes : String → Option String) :
    ∃ d j, psychDashboardData h now notViableReasons clientNotes sampleJaneData = .ok (some d) ∧
      d.allClients = [j] ∧ d.converted = [j] ∧ d.activeLeads = [] ∧ d.atRisk = [] ∧
      d.notViable = [] ∧ j.name = "Jane Doe" ∧ j.status = .converted ∧
      j.daysToConversion = some 54 ∧ d.totalWithPsych = 1 ∧
      d.conversionRate = .fixed ⟨false, 1000⟩ ∧
      d.avgDaysToConversion = .fixed ⟨false, 540⟩ := by
  have hlen : ¬ sampleJaneData.length = 0 := by decide
  obtain ⟨cn, cs, cd⟩ := jane_classified h now notViableReasons clientNotes
  have hsort : jsSort (fun a b : Journey => dateNumber b.firstABADate - dateNumber a.firstABADate)
      [classify now notViableReasons clientNotes (janeJourney h)] =
      [classify now notViableReasons clientNotes (janeJourney h)] := rfl
  have hsum : sumDays [classify now notViableReasons clientNotes (janeJourney h)] =
      .finite 54 := by
    unfold sumDays
    simp only [List.foldl_cons, List.foldl_nil, cd]
    decide!
  have hf : funnel now notViableReasons clientNotes [janeJourney h] =
      { allClients := [classify now notViableReasons clientNotes (janeJourney h)]
        activeLeads := []
        converted := [classify now notViableReasons clientNotes (janeJourney h)]
        atRisk := []
        notViable := [] } := by
    have hp : (janeJourney h).firstPsychDate.isNone = false := rfl
    unfold funnel
    simp only [List.foldl_cons, List.foldl_nil, classifyEntry, hp, Bool.false_eq_true, if_false,
      cs, List.nil_append]
  obtain ⟨s1, s2, s3⟩ := dashboardOf_stats
    (funnel now notViableReasons clientNotes [janeJourney h])
  have hv : validConversion (classify now notViableReasons clientNotes (janeJourney h)) = true := by
    unfold validConversion
    rw [cd]
    rfl
  rw [hf] at s1 s2 s3
  simp only [hsort, List.length_cons, List.length_nil, List.filter_cons, hv, if_true,
    List.filter_nil, hsum] at s1 s2 s3
  refine ⟨dashboardOf (funnel now notViableReasons clientNotes [janeJourney h]),
    classify now notViableReasons clientNotes (janeJourney h), ?_, ?_, ?_, ?_, ?_, ?_, cn, cs, cd,
    ?_, ?_, ?_⟩
  · unfold psychDashboardData
    rw [if_neg hlen, jane_journeys h]
    rfl
  · rw [hf]; rfl
  · rw [hf]; rfl
  · rw [hf]; rfl
  · rw [hf]; rfl
  · rw [hf]; rfl
  · rw [hf, s1]
  · rw [hf, s2]
    decide!
  · rw [hf, s3]
    decide!

theorem dashboardOf_allClients (f : Funnel) : (dashboardOf f).allClients = f.allClients := rfl

/-- The journeys of `allClients` have distinct names. -/
theorem allClients_names_nodup (h : Host) (now : Int) (nv notes : String → Option String)
    (rs : List Entry) (d : Dashboard)
    (hok : psychDashboardData h now nv notes rs = .ok (some d)) :
    (d.allClients.map fun j => j.name).Nodup := by
  have hd := psychDashboardData_ok h now nv notes rs d hok
  rw [hd, dashboardOf_allClients, (funnel_lists now nv notes _).1, List.map_map, List.map_map]
  have hk := nodup_keys_groupFold newJourney (fun (p : Entry × Int) j => addToJourney p.1 p.2 j)
    (rs.filterMap fun r => (journeyAction h r).item)
  have : List.map (((fun j => j.name) ∘ classified now nv notes) ∘ Prod.snd)
      (groupFold newJourney (fun (p : Entry × Int) j => addToJourney p.1 p.2 j)
        (rs.filterMap fun r => (journeyAction h r).item)) =
      List.map Prod.fst
      (groupFold newJourney (fun (p : Entry × Int) j => addToJourney p.1 p.2 j)
        (rs.filterMap fun r => (journeyAction h r).item)) := by
    apply List.map_congr_left
    rintro ⟨k, v⟩ hm
    obtain ⟨_, hv⟩ := (mem_journeys h rs k v).1 hm
    simp only [Function.comp]
    rw [classified_name, hv]
    exact (journeyOf_fields h rs k).1
  rw [this]
  exact hk

theorem psych_not_aba : ∀ c ∈ psychCodes, c ∉ abaCodes := by decide

/-- C26: when `psychDashboardData` returns, a client, named by neither the
empty string nor a single space, whose records in the list are all one and the
same assessment record, of a date 50 days before `now` (the floor of the
difference in days is 50), without override, has a journey with status at-risk
and 50 days since the last assessment; that journey is once in `atRisk` and in
neither `activeLeads` nor `notViable`, the three arrays the cohorts are counted
over, and counting it raises the `atRisk` counter of cohort 46-60 by one and
changes nothing else. -/
theorem fifty_days_at_risk (h : Host) (now : Int)
    (notViableReasons clientNotes : String → Option String) (rawData : List Entry)
    (d : Dashboard) (r : Entry) (t : Int)
    (hok : psychDashboardData h now notViableReasons clientNotes rawData = .ok (some d))
    (hr : r ∈ rawData)
    (honly : ∀ r' ∈ rawData, r'.ClientName = r.ClientName → r' = r)
    (hn1 : r.ClientName ≠ "") (hn2 : r.ClientName ≠ " ")
    (hcode : r.ProcedureCode ∈ psychCodes)
    (hdate : parseEntryDate h r.DateOfService = .date t)
    (h50 : (now - t) / msPerDay = 50)
    (hnv : lookupTruthy notViableReasons r.ClientName = none) :
    ∃ j ∈ d.allClients, j.name = r.ClientName ∧ j.status = .atRisk ∧
      j.lastPsychDate = some t ∧ j.daysSinceLastPsych = 50 ∧
      (∀ j' ∈ d.allClients, j'.name = r.ClientName → j' = j) ∧
      d.atRisk.count j = 1 ∧ j ∉ d.activeLeads ∧ j ∉ d.notViable ∧
      d.cohorts = (d.activeLeads ++ d.atRisk ++ d.notViable).foldl cohortEntry emptyCohorts ∧
      cohortOf j.daysSinceLastPsych = .k46_60 ∧
      ∀ cs : Cohorts, cohortEntry cs j =
        { cs with c46_60 := { cs.c46_60 with atRisk := cs.c46_60.atRisk + 1 } } := by
  have hex : ∃ x, x ∈ clientItems h rawData r.ClientName :=
    ⟨(r, t), (mem_clientItems h rawData _ (r, t)).2
      ⟨hr, rfl, hn1, hn2, psychCodes_sub _ hcode, hdate⟩⟩
  have hjn : (classified now notViableReasons clientNotes (journeyOf h rawData r.ClientName)).name
      = r.ClientName := by
    rw [classified_name]; exact (journeyOf_fields h rawData _).1
  have hj : classified now notViableReasons clientNotes (journeyOf h rawData r.ClientName) ∈
      d.allClients := (mem_allClients h now _ _ rawData d hok _).2 ⟨r.ClientName, hex, rfl⟩
  generalize classified now notViableReasons clientNotes (journeyOf h rawData r.ClientName) = j
    at hjn hj
  have hpsych : hasValidRecord h rawData psychCodes j.name := by
    rw [hjn]
    exact ⟨r, hr, rfl, hcode, by unfold validDate; rw [hdate]; rfl⟩
  have haba : ¬ hasValidRecord h rawData abaCodes j.name := by
    rintro ⟨r', hr', hn', hc', _⟩
    rw [hjn] at hn'
    rw [honly r' hr' hn'] at hc'
    exact psych_not_aba _ hcode hc'
  obtain ⟨last, hl, ⟨r0, hr0, hn0, _, hp0⟩, _, hdays, hstatus⟩ :=
    pipeline_client h now _ _ rawData d j hok hj hpsych haba (by rw [hjn]; exact hnv)
  have hlast : last = t := by
    rw [hjn] at hn0
    rw [honly r0 hr0 hn0, hdate] at hp0
    injection hp0 with hp0
    exact hp0.symm
  subst hlast
  rw [h50] at hdays hstatus
  have hst : j.status = .atRisk := by
    rw [hstatus]
    norm_num
  obtain ⟨s1, s2, _, s4, _, s6⟩ := dashboard_shape h now _ _ rawData d hok
  obtain ⟨m1, _, m3, _⟩ := cohort_members_status h now _ _ rawData d hok
  have hnodup : d.allClients.Nodup :=
    List.Nodup.of_map _ (allClients_names_nodup h now _ _ rawData d hok)
  have huniq : ∀ j' ∈ d.allClients, j'.name = r.ClientName → j' = j := by
    intro j' hj' hn'
    exact List.inj_on_of_nodup_map (allClients_names_nodup h now _ _ rawData d hok) hj' hj
      (by rw [hn', hjn])
  refine ⟨j, hj, hjn, hst, hl, hdays, huniq, ?_, ?_, ?_, s6, ?_, ?_⟩
  · rw [s2, (jsSort_perm _ _).count_eq]
    unfold withStatus
    rw [List.count_filter (by simp [hst])]
    exact List.count_eq_one_of_mem hnodup hj
  · intro hm
    have := (m1 j hm).2
    rw [hst] at this
    cases this
  · intro hm
    have := (m3 j hm).2
    rw [hst] at this
    cases this
  · rw [hdays]
    rfl
  · intro cs
    unfold cohortEntry
    rw [hdays, hst]
    rfl

/-- C26 on the sample: Al Kim has one assessment row, dated 50 days before
`sampleNow`; he is at-risk and the only client counted in cohort 46-60. -/
theorem fifty_days_at_risk_witness :
    psychDashboardData sampleHost sampleNow sampleNotes sampleNotes sampleFiftyData =
      .ok (some sampleFiftyDashboard) ∧
    sampleRow "01/19/2025" "Al Kim" "96130" ∈ sampleFiftyData ∧
    (∀ r' ∈ sampleFiftyData, r'.ClientName = "Al Kim" →
      r' = sampleRow "01/19/2025" "Al Kim" "96130") ∧
    parseEntryDate sampleHost "01/19/2025" = .date (localMidnight sampleHost 2025 1 19) ∧
    (sampleNow - localMidnight sampleHost 2025 1 19) / msPerDay = 50 ∧
    sampleFiftyDashboard.cohorts.c46_60 = ⟨0, 0, 1, 0⟩ ∧
    ∃ j ∈ sampleFiftyDashboard.allClients, j.name = "Al Kim" ∧ j.status = .atRisk ∧
      j.daysSinceLastPsych = 50 ∧ sampleFiftyDashboard.atRisk.count j = 1 ∧
      cohortOf j.daysSinceLastPsych = .k46_60 := by
  refine ⟨by decide!, by decide!, by decide!, by decide!, by decide!, by decide!, ?_⟩
  obtain ⟨j, hj, a1, a2, _, a4, _, a6, _, _, _, a10, _⟩ :=
    fifty_days_at_risk sampleHost sampleNow sampleNotes sampleNotes sampleFiftyData
      sampleFiftyDashboard (sampleRow "01/19/2025" "Al Kim" "96130")
      (localMidnight sampleHost 2025 1 19) (by decide!) (by decide!) (by decide!) (by decide)
      (by decide) (by decide) (by decide!) (by decide!) (by decide)
  exact ⟨j, hj, a1, a2, a4, a6, a10⟩

/-! ## Averages and order independence of `weeklyData` -/

/-- C39: in every result of `weeklyData`, every entry has `sessionCount >= 1`
and `avgSessionLength` is the number `totalHours / sessionCount`;
`avgRevenuePerHour` is a number, `agreedRevenue / totalHours`, exactly when
`totalHours` is not 0; and when every record of the week has an agreed charge
that is 0 or missing, `totalHours` and `agreedRevenue` are 0 and
`avgRevenuePerHour` is not a number. -/
theorem weeklyData_averages (h : Host) (rawData : List Entry) (weeks : List Week)
    (hok : weeklyData h rawData = .ok weeks) (w : Week) (hw : w ∈ weeks) :
    1 ≤ w.sessionCount ∧
    w.avgSessionLength = some (w.totalHours / w.sessionCount) ∧
    (w.avgRevenuePerHour.isSome = true ↔ w.totalHours ≠ 0) ∧
    (w.totalHours ≠ 0 → w.avgRevenuePerHour = some (w.agreedRevenue / w.totalHours)) ∧
    ((∀ r ∈ weekEntries h rawData w.week, orZero r.ClientChargesAgreedTotal = 0) →
      w.totalHours = 0 ∧ w.agreedRevenue = 0 ∧ w.avgRevenuePerHour = none) := by
  obtain ⟨⟨r, hr, hk⟩, _, e2, _, e4, e5, _, e7, e8⟩ := mem_weeklyData h rawData weeks hok w hw
  obtain ⟨_, f2, _, f4, f5, _, _⟩ := weekGroupOf_fields h rawData w.week
  have hmem : r ∈ weekEntries h rawData w.week := by
    unfold weekEntries
    simp [hr, hk]
  have hpos : 1 ≤ w.sessionCount := by
    rw [e5, f5]
    exact List.length_pos_of_mem hmem
  have hne : (w.sessionCount : ℚ) ≠ 0 := by
    have : 0 < w.sessionCount := hpos
    exact_mod_cast this.ne'
  refine ⟨hpos, ?_, ?_, ?_, ?_⟩
  · rw [e7]
    unfold jsDiv
    rw [if_neg hne]
  · rw [e8]
    unfold jsDiv
    by_cases h0 : w.totalHours = 0
    · simp [h0]
    · simp [h0]
  · intro h0
    rw [e8]
    unfold jsDiv
    rw [if_neg h0]
  · intro hz
    have ht : w.totalHours = 0 := by
      rw [e4, f4]
      have : (weekEntries h rawData w.week).filter
          (fun r => orZero r.ClientChargesAgreedTotal > 0) = [] := by
        rw [List.filter_eq_nil_iff]
        intro x hx
        rw [hz x hx]
        simp
      rw [this]
      rfl
    have hrev : w.agreedRevenue = 0 := by
      rw [e2, f2]
      apply List.sum_eq_zero
      intro x hx
      obtain ⟨y, hy, rfl⟩ := List.mem_map.1 hx
      exact hz y hy
    refine ⟨ht, hrev, ?_⟩
    rw [e8]
    unfold jsDiv
    rw [if_pos ht]

/-- C39 on two runs: the second week of the sample has two sessions and five
hours, and a week of two rows without charge has no revenue per hour. -/
theorem weeklyData_averages_witness :
    (weeklyData sampleHost sampleData = .ok [sampleWeek1, sampleWeek2] ∧
      1 ≤ sampleWeek2.sessionCount ∧
      sampleWeek2.avgSessionLength = some (sampleWeek2.totalHours / sampleWeek2.sessionCount) ∧
      sampleWeek2.avgRevenuePerHour = some (sampleWeek2.agreedRevenue / sampleWeek2.totalHours)) ∧
    (weeklyData sampleHost sampleZeroData = .ok sampleZeroWeeks ∧
      (sampleZeroWeeks.map fun w => (w.week, w.sessionCount)) = [(20094, 2)] ∧
      ∀ w ∈ sampleZeroWeeks, w.totalHours = 0 ∧ w.agreedRevenue = 0 ∧
        w.avgRevenuePerHour = none) := by
  have h1 := weeklyData_averages sampleHost sampleData [sampleWeek1, sampleWeek2] (by decide!)
    sampleWeek2 (by decide!)
  refine ⟨⟨by decide!, h1.1, h1.2.1, h1.2.2.2.1 (by decide!)⟩, by decide!, by decide!, ?_⟩
  intro w hw
  have hk : w.week = 20094 := by
    have : ∀ x ∈ sampleZeroWeeks, x.week = 20094 := by decide!
    exact this w hw
  refine (weeklyData_averages sampleHost sampleZeroData sampleZeroWeeks (by decide!) w
    hw).2.2.2.2 ?_
  rw [hk]
  decide!


/-! ## Order independence -/

theorem toWeekRow_perm (h : Host) (L P : List Entry) (hp : P.Perm L) (k : Int) :
    toWeekRow (weekGroupOf h P k) = toWeekRow (weekGroupOf h L k) := by
  obtain ⟨a1, a2, a3, a4, a5, a6, a7⟩ := weekGroupOf_fields h P k
  obtain ⟨b1, b2, b3, b4, b5, b6, b7⟩ := weekGroupOf_fields h L k
  have hw : (weekEntries h P k).Perm (weekEntries h L k) := by
    unfold weekEntries
    exact hp.filter _
  have e2 : (weekGroupOf h P k).agreedRevenue = (weekGroupOf h L k).agreedRevenue := by
    rw [a2, b2]
    exact (hw.map _).sum_eq
  have e3 : (weekGroupOf h P k).totalUnits = (weekGroupOf h L k).totalUnits := by
    rw [a3, b3]
    exact (hw.map _).sum_eq
  have e4 : (weekGroupOf h P k).totalHours = (weekGroupOf h L k).totalHours := by
    rw [a4, b4]
    exact ((hw.filter _).map _).sum_eq
  have e5 : (weekGroupOf h P k).sessionCount = (weekGroupOf h L k).sessionCount := by
    rw [a5, b5]
    exact hw.length_eq
  have e6 : (weekGroupOf h P k).uniqueClients.length =
      (weekGroupOf h L k).uniqueClients.length := by
    apply List.Perm.length_eq
    rw [List.perm_ext_iff_of_nodup a6 b6]
    intro n
    rw [a7, b7]
    constructor
    · rintro ⟨r, hr, hh⟩
      exact ⟨r, hw.mem_iff.1 hr, hh⟩
    · rintro ⟨r, hr, hh⟩
      exact ⟨r, hw.mem_iff.2 hr, hh⟩
  unfold toWeekRow
  rw [a1, b1, e2, e3, e4, e5, e6]

theorem weekRows_perm (h : Host) (L P : List Entry) (hp : P.Perm L) :
    weekRows h P = weekRows h L := by
  have hmem : ∀ row, row ∈ weekRows h P ↔ row ∈ weekRows h L := by
    intro row
    rw [mem_weekRows, mem_weekRows]
    constructor
    · rintro ⟨k, ⟨r, hr, hk⟩, rfl⟩
      exact ⟨k, ⟨r, hp.mem_iff.1 hr, hk⟩, toWeekRow_perm h L P hp k⟩
    · rintro ⟨k, ⟨r, hr, hk⟩, rfl⟩
      exact ⟨k, ⟨r, hp.mem_iff.2 hr, hk⟩, (toWeekRow_perm h L P hp k).symm⟩
  have sP := weekRows_sorted h P
  have sL := weekRows_sorted h L
  have nP : (weekRows h P).Nodup := sP.imp (fun hab heq => by rw [heq] at hab; exact lt_irrefl _ hab)
  have nL : (weekRows h L).Nodup := sL.imp (fun hab heq => by rw [heq] at hab; exact lt_irrefl _ hab)
  have hperm : (weekRows h P).Perm (weekRows h L) := (List.perm_ext_iff_of_nodup nP nL).2 hmem
  haveI : IsAntisymm WeekRow (fun a b => a.week < b.week) :=
    ⟨fun a b hab hba => absurd hab (not_lt.2 (le_of_lt hba))⟩
  exact List.eq_of_perm_of_sorted hperm sP sL

/-- C38: over exact arithmetic, the result of `weeklyData` does not depend on
the order of the input: for every permutation `P` of a list `L`, `weeklyData`
gives the same outcome on `P` as on `L`, the same list of weeks with the same
fields, or the same exception. -/
theorem weeklyData_perm (h : Host) (L P : List Entry) (hp : P.Perm L) :
    weeklyData h P = weeklyData h L := by
  rw [weeklyData_eq, weeklyData_eq, weekRows_perm h L P hp]
  have hany : P.any (fun r => (weeklyAction h r).raises) =
      L.any (fun r => (weeklyAction h r).raises) := by
    rw [Bool.eq_iff_iff, List.any_eq_true, List.any_eq_true]
    constructor
    · rintro ⟨r, hr, hh⟩
      exact ⟨r, hp.mem_iff.1 hr, hh⟩
    · rintro ⟨r, hr, hh⟩
      exact ⟨r, hp.mem_iff.2 hr, hh⟩
  rw [hany]

/-- C38 on the sample: the reversed sample list gives the two weeks of the
sample list. -/
theorem weeklyData_perm_witness :
    sampleData.reverse.Perm sampleData ∧ sampleData.reverse ≠ sampleData ∧
    weeklyData sampleHost sampleData = .ok [sampleWeek1, sampleWeek2] ∧
    weeklyData sampleHost sampleData.reverse = weeklyData sampleHost sampleData :=
  ⟨List.reverse_perm _, by decide!, by decide!,
    weeklyData_perm sampleHost sampleData sampleData.reverse (List.reverse_perm _)⟩


/-! ## Clients with recurring-service records only -/

theorem clientItems_of_record (h : Host) (rs : List Entry) (codes : List String)
    (hsub : ∀ c ∈ codes, c ∈ allCodes) (name : String) (hn1 : name ≠ "") (hn2 : name ≠ " ")
    (hrec : hasValidRecord h rs codes name) : ∃ x, x ∈ clientItems h rs name := by
  obtain ⟨r, hr, hname, hcode, hv⟩ := hrec
  obtain ⟨t, ht⟩ := (validDate_isSome h r).1 hv
  exact ⟨(r, t), (mem_clientItems h rs name (r, t)).2 ⟨hr, hname, hn1, hn2, hsub _ hcode, ht⟩⟩

theorem allClients_unique (h : Host) (now : Int) (nv notes : String → Option String)
    (rs : List Entry) (d : Dashboard)
    (hok : psychDashboardData h now nv notes rs = .ok (some d)) (j j' : Journey)
    (hj : j ∈ d.allClients) (hj' : j' ∈ d.allClients) (hname : j'.name = j.name) : j' = j := by
  obtain ⟨n, _, e⟩ := (mem_allClients h now nv notes rs d hok j).1 hj
  obtain ⟨n', _, e'⟩ := (mem_allClients h now nv notes rs d hok j').1 hj'
  have h1 : j.name = n := by rw [e, classified_name, (journeyOf_fields h rs n).1]
  have h2 : j'.name = n' := by rw [e', classified_name, (journeyOf_fields h rs n').1]
  have : n' = n := by rw [← h1, ← h2, hname]
  rw [e, e', this]

/-- C37: when `psychDashboardData` returns a dashboard, a named client with a
recurring-service record with a valid date but no assessment record with a valid
date has exactly one entry in `allClients`; that entry has status `unknown` and
`daysToConversion` null; no entry of `activeLeads`, `atRisk`, `converted` or
`notViable` carries the client's name; and `totalWithPsych` and `conversionRate`
are computed from the entries of the four funnel statuses, none of which is the
client's. -/
theorem aba_only_client (h : Host) (now : Int) (nv notes : String → Option String)
    (rs : List Entry) (d : Dashboard)
    (hok : psychDashboardData h now nv notes rs = .ok (some d))
    (name : String) (hn1 : name ≠ "") (hn2 : name ≠ " ")
    (haba : hasValidRecord h rs abaCodes name)
    (hpsych : ¬ hasValidRecord h rs psychCodes name) :
    ∃ j ∈ d.allClients, j.name = name ∧
      (∀ j' ∈ d.allClients, j'.name = name → j' = j) ∧
      j.status = .unknown ∧ j.daysToConversion = none ∧
      j.firstPsychDate = none ∧ j.firstABADate.isSome = true ∧
      (∀ j' ∈ d.activeLeads ++ d.atRisk ++ d.converted ++ d.notViable, j'.name ≠ name) ∧
      (∀ s, s ≠ Status.unknown → ∀ j' ∈ withStatus s d.allClients, j'.name ≠ name) ∧
      d.totalWithPsych = (withStatus .active d.allClients).length +
        (withStatus .atRisk d.allClients).length + (withStatus .converted d.allClients).length +
        (withStatus .notViable d.allClients).length ∧
      d.conversionRate =
        (if (withStatus .active d.allClients).length + (withStatus .atRisk d.allClients).length +
            (withStatus .converted d.allClients).length +
            (withStatus .notViable d.allClients).length > 0
         then
          toFixed (shareOf (withStatus .converted d.allClients).length
            ((withStatus .active d.allClients).length +
              (withStatus .atRisk d.allClients).length +
              (withStatus .converted d.allClients).length +
              (withStatus .notViable d.allClients).length))
         else Percent.zero) := by
  have hex := clientItems_of_record h rs abaCodes abaCodes_sub name hn1 hn2 haba
  obtain ⟨d1, _, d3⟩ := journeyOf_dates h rs name hex
  obtain ⟨f1, _, _, _, _, _, _, _, _, f10, f11⟩ := journeyOf_fields h rs name
  have hnone : (journeyOf h rs name).firstPsychDate = none := by
    cases hfp : (journeyOf h rs name).firstPsychDate with
    | none => rfl
    | some t =>
      exact absurd (d1.1 (by rw [hfp]; rfl)) hpsych
  have hcl : classified now nv notes (journeyOf h rs name) = journeyOf h rs name := by
    unfold classified
    rw [hnone]
    rfl
  have hmem : journeyOf h rs name ∈ d.allClients :=
    (mem_allClients h now nv notes rs d hok _).2 ⟨name, hex, hcl.symm⟩
  have huniq : ∀ j' ∈ d.allClients, j'.name = name → j' = journeyOf h rs name := by
    intro j' hj' hn
    exact allClients_unique h now nv notes rs d hok _ j' hmem hj' (by rw [hn, f1])
  obtain ⟨c1, c2, c3, c4⟩ := cohort_members_status h now nv notes rs d hok
  have hstat : ∀ j' ∈ d.allClients, j'.status ≠ .unknown → j'.name ≠ name := by
    intro j' hj' hs hn
    rw [huniq j' hj' hn] at hs
    exact hs f10
  refine ⟨journeyOf h rs name, hmem, f1, huniq, f10, f11, hnone, d3.2 haba, ?_, ?_,
    (dashboard_shape h now nv notes rs d hok).2.2.2.2.1,
    (dashboard_stats h now nv notes rs d hok).1⟩
  · intro j' hj'
    simp only [List.mem_append] at hj'
    rcases hj' with ((hj' | hj') | hj') | hj'
    · exact hstat j' (c1 j' hj').1 (by rw [(c1 j' hj').2]; decide)
    · exact hstat j' (c2 j' hj').1 (by rw [(c2 j' hj').2]; decide)
    · exact hstat j' (c4 j' hj').1 (by rw [(c4 j' hj').2]; decide)
    · exact hstat j' (c3 j' hj').1 (by rw [(c3 j' hj').2]; decide)
  · intro s hs j' hj'
    obtain ⟨hin, hst⟩ := (mem_withStatus s d.allClients j').1 hj'
    exact hstat j' hin (by rw [hst]; exact hs)

/-- C37 on the sample: Ed Gray has one recurring-service record only; the entry
of `allClients` is `sampleEd`, with status `unknown`, and the total of four
clients with an assessment does not count it. -/
theorem aba_only_client_witness :
    psychDashboardData sampleHost sampleNow sampleReasons sampleNotes samplePsychData
      = .ok (some sampleDashboard) ∧
    hasValidRecord sampleHost samplePsychData abaCodes "Ed Gray" ∧
    ¬ hasValidRecord sampleHost samplePsychData psychCodes "Ed Gray" ∧
    sampleEd ∈ sampleDashboard.allClients ∧ sampleEd.name = "Ed Gray" ∧
    sampleDashboard.allClients.length = 6 ∧ sampleDashboard.totalWithPsych = 4 ∧
    ∃ j ∈ sampleDashboard.allClients, j.name = "Ed Gray" ∧
      (∀ j' ∈ sampleDashboard.allClients, j'.name = "Ed Gray" → j' = j) ∧
      j.status = .unknown ∧ j.daysToConversion = none ∧
      ∀ j' ∈ sampleDashboard.activeLeads ++ sampleDashboard.atRisk ++
        sampleDashboard.converted ++ sampleDashboard.notViable, j'.name ≠ "Ed Gray" := by
  have hrec : hasValidRecord sampleHost samplePsychData abaCodes "Ed Gray" :=
    ⟨sampleRow "02/20/2025" "Ed Gray" "97155", by decide!, by decide!, by decide!, by decide!⟩
  have hno : ¬ hasValidRecord sampleHost samplePsychData psychCodes "Ed Gray" := by
    unfold hasValidRecord
    decide!
  obtain ⟨j, hj, g1, g2, g3, g4, _, _, g7, _⟩ :=
    aba_only_client sampleHost sampleNow sampleReasons sampleNotes samplePsychData
      sampleDashboard (by decide!) "Ed Gray" (by decide) (by decide) hrec hno
  exact ⟨by decide!, hrec, hno, by decide!, by decide!, by decide!, by decide!,
    j, hj, g1, g2, g3, g4, g7⟩


/-! ## The flags of a week-over-week change -/

theorem change_flags (latest previous : List (String × ℚ)) (c : Change)
    (hc : c ∈ wowChanges latest previous) :
    (c.isNew = true → c.percentChange = 100) ∧
    (c.isGone = true → c.percentChange = -100) ∧
    ¬ (c.isNew = true ∧ c.isGone = true) := by
  obtain ⟨_, hch⟩ := (mem_wowChanges latest previous c).1 hc
  obtain ⟨s1, s2⟩ := changeOf_spec latest previous c.name
  by_cases hz : hoursOf latest c.name = 0 ∧ hoursOf previous c.name = 0
  · rw [s1 hz] at hch
    cases hch
  · obtain ⟨c', hc', _, _, _, _, hpc, hnew, hgone⟩ := s2 hz
    rw [hch] at hc'
    cases hc'
    refine ⟨?_, ?_, ?_⟩
    · intro hn
      rw [hnew] at hn
      obtain ⟨hp, hl⟩ := of_decide_eq_true hn
      rw [hpc, if_neg (by rw [hp]; exact lt_irrefl _), if_pos hl]
    · intro hg
      rw [hgone] at hg
      obtain ⟨hp, hl⟩ := of_decide_eq_true hg
      rw [hpc, if_pos hp, hl, zero_sub, neg_div, div_self (ne_of_gt hp)]
      norm_num
    · rintro ⟨hn, hg⟩
      rw [hnew] at hn
      rw [hgone] at hg
      have hp := (of_decide_eq_true hn).1
      have hp' := (of_decide_eq_true hg).1
      rw [hp] at hp'
      exact lt_irrefl _ hp'

theorem significant_of_mem (latest previous : List (String × ℚ)) (c : Change)
    (hc : c ∈ wowChanges latest previous) :
    significant c = decide (25 ≤ |c.percentChange|) := by
  obtain ⟨f1, f2, _⟩ := change_flags latest previous c hc
  rw [Bool.eq_iff_iff, significant_iff, decide_eq_true_iff]
  constructor
  · rintro (hh | hh | hh)
    · exact hh
    · rw [f1 hh]
      norm_num
    · rw [f2 hh]
      norm_num
  · exact fun hh => Or.inl hh

/-- C34: when `weeklyData` returns two or more weeks, every computed change with
`isNew` has `percentChange` 100, every one with `isGone` has `percentChange`
-100, none has both flags, and so the list `clientWoWChanges` returns is the
computed changes filtered by `|percentChange| >= 25` alone, in the order of the
sort. -/
theorem clientWoWChanges_flags (h : Host) (rawData : List Entry) (weeks : List Week)
    (hok : weeklyData h rawData = .ok weeks) (hlen : 2 ≤ weeks.length) :
    ∃ latest previous latestClients previousClients result,
      weeks[weeks.length - 1]? = some latest ∧
      weeks[weeks.length - 2]? = some previous ∧
      parseAndGroupByWeek h rawData latest.week = .ok latestClients ∧
      parseAndGroupByWeek h rawData previous.week = .ok previousClients ∧
      clientWoWChanges h rawData weeks = .ok result ∧
      (∀ c ∈ wowChanges latestClients previousClients,
        (c.isNew = true → c.percentChange = 100) ∧
        (c.isGone = true → c.percentChange = -100) ∧
        ¬ (c.isNew = true ∧ c.isGone = true)) ∧
      result = jsSortNum (fun a b => |b.percentChange| - |a.percentChange|)
        ((wowChanges latestClients previousClients).filter fun c =>
          decide (25 ≤ |c.percentChange|)) ∧
      (∀ c, c ∈ result ↔ c ∈ wowChanges latestClients previousClients ∧
        25 ≤ |c.percentChange|) := by
  obtain ⟨latest, previous, hl, hp, _, pl, pp, hrun⟩ := wow_run h rawData weeks hok hlen
  refine ⟨latest, previous, _, _, _, hl, hp, pl, pp, hrun,
    fun c hc => change_flags _ _ c hc, ?_, ?_⟩
  · unfold wowFiltered
    congr 1
    apply List.filter_congr
    intro c hc
    exact significant_of_mem _ _ c hc
  · intro c
    rw [(wowFiltered_spec _).2.1 c]
    constructor
    · rintro ⟨hc, hs⟩
      refine ⟨hc, ?_⟩
      have := significant_of_mem _ _ c hc
      rw [Bool.eq_iff_iff, significant_iff, decide_eq_true_iff] at this
      exact this.1 hs
    · rintro ⟨hc, hs⟩
      exact ⟨hc, Or.inl hs⟩

/-- C34 on the sample: Eve Roe is new with 100 percent, Dan Poe is gone with
-100 percent, and the three returned changes are the computed changes of at
least 25 percent. -/
theorem clientWoWChanges_flags_witness :
    weeklyData sampleHost sampleWowData = .ok sampleWowWeeks ∧
    2 ≤ sampleWowWeeks.length ∧
    wowChanges (weekHours sampleHost sampleWowData 20101)
      (weekHours sampleHost sampleWowData 20094) =
      [sampleBoChange, sampleCatChange, sampleEveChange, sampleDanChange] ∧
    (sampleEveChange.isNew = true ∧ sampleEveChange.percentChange = 100) ∧
    (sampleDanChange.isGone = true ∧ sampleDanChange.percentChange = -100) ∧
    clientWoWChanges sampleHost sampleWowData sampleWowWeeks =
      .ok [sampleEveChange, sampleDanChange, sampleBoChange] ∧
    ∃ latestClients previousClients result,
      clientWoWChanges sampleHost sampleWowData sampleWowWeeks = .ok result ∧
      ∀ c, c ∈ result ↔ c ∈ wowChanges latestClients previousClients ∧
        25 ≤ |c.percentChange| := by
  refine ⟨by decide!, by decide!, by decide!, by decide!, by decide!, by decide!, ?_⟩
  obtain ⟨_, _, lc, pc, result, _, _, _, _, r, _, _, s⟩ :=
    clientWoWChanges_flags sampleHost sampleWowData sampleWowWeeks (by decide!) (by decide!)
  exact ⟨lc, pc, result, r, s⟩


/-! ## The clients of the latest week -/

theorem latestEntry_eq (h : Host) (k : Int) (acc : List (String × ClientTotals)) (e : Entry) :
    latestEntry h k acc e = (wowAction h k e).run newClientTotals addToClient acc := by
  unfold latestEntry wowAction
  by_cases h1 : e.ProcedureCode = "97153"
  · simp only [h1, ne_eq, not_true_eq_false, if_false]
    cases parseEntryDate h e.DateOfService with
    | undefined => rfl
    | invalid => rfl
    | date t =>
      simp only []
      split_ifs <;> rfl
  · simp only [h1, ne_eq, not_false_eq_true, if_true]
    rfl

theorem latestFold_ok (h : Host) (rs : List Entry) (k : Int)
    (hdef : ∀ r ∈ rs, parseEntryDate h r.DateOfService ≠ .undefined) :
    rs.foldlM (latestEntry h k) [] = .ok (weekClients h rs k) := by
  have : latestEntry h k = fun acc e => (wowAction h k e).run newClientTotals addToClient acc := by
    funext acc e; exact latestEntry_eq h k acc e
  rw [this, foldlM_run, if_neg]
  · rfl
  · intro hany
    obtain ⟨r, hr, hraise⟩ := List.any_eq_true.1 hany
    exact hdef r hr (wowAction_raises h k r hraise)

theorem addToClient_fold (es : List Entry) (c : ClientTotals) :
    es.foldl (fun v x => addToClient x v) c =
      { name := c.name
        totalRevenue := c.totalRevenue + (es.map fun r => orZero r.ClientChargesAgreedTotal).sum
        totalHours := c.totalHours +
          ((es.filter fun r => orZero r.ClientChargesAgreedTotal > 0).map
            fun r => orZero r.TimeWorkedInHours).sum
        sessionCount := c.sessionCount + es.length } := by
  induction es generalizing c with
  | nil => simp
  | cons e es ih =>
    rw [List.foldl_cons, ih, List.filter_cons]
    by_cases hc : orZero e.ClientChargesAgreedTotal > 0
    · simp [addToClient, hc, add_assoc]
      omega
    · simp [addToClient, hc, add_assoc]
      omega

theorem mem_weekClients (h : Host) (rs : List Entry) (k : Int) (n : String) (c : ClientTotals) :
    (n, c) ∈ weekClients h rs k ↔
      n ≠ "" ∧ n ≠ " " ∧ anchorRecords h rs k n ≠ [] ∧
      c = { name := n, totalRevenue := anchorRevenue h rs k n,
            totalHours := anchorHours h rs k n,
            sessionCount := (anchorRecords h rs k n).length } := by
  unfold weekClients
  rw [mem_groupFold, wowPairs_keys]
  constructor
  · rintro ⟨⟨h1, h2, h3⟩, hc⟩
    refine ⟨h1, h2, h3, ?_⟩
    rw [hc, wowPairs_filter h rs k n h1 h2, addToClient_fold]
    simp [newClientTotals, anchorRevenue, anchorHours]
  · rintro ⟨h1, h2, h3, hc⟩
    refine ⟨⟨h1, h2, h3⟩, ?_⟩
    rw [hc, wowPairs_filter h rs k n h1 h2, addToClient_fold]
    simp [newClientTotals, anchorRevenue, anchorHours]

theorem weekClients_keys_nodup (h : Host) (rs : List Entry) (k : Int) :
    ((weekClients h rs k).map Prod.fst).Nodup :=
  nodup_keys_groupFold _ _ _

theorem weekClients_name (h : Host) (rs : List Entry) (k : Int) (p : String × ClientTotals)
    (hp : p ∈ weekClients h rs k) : p.2.name = p.1 := by
  obtain ⟨n, c⟩ := p
  obtain ⟨_, _, _, hc⟩ := (mem_weekClients h rs k n c).1 hp
  rw [hc]

theorem anchorRecords_ne_nil (h : Host) (rs : List Entry) (k : Int) (n : String) :
    anchorRecords h rs k n ≠ [] ↔
      ∃ r ∈ weekEntries h rs k, r.ClientName = n ∧ r.ProcedureCode = "97153" := by
  unfold anchorRecords weekEntries
  rw [ne_eq, List.filter_eq_nil_iff]
  simp only [decide_eq_true_eq, not_forall, List.mem_filter]
  constructor
  · rintro ⟨r, hr, hh⟩
    have hh' := not_not.1 hh
    exact ⟨r, ⟨hr, hh'.2.1⟩, hh'.2.2, hh'.1⟩
  · rintro ⟨r, ⟨hr, hw⟩, hn, hc⟩
    exact ⟨r, hr, not_not.2 ⟨hc, hw, hn⟩⟩

/-- The number of clients of the week `k` in `latestWeekClients` is the number
of unique clients that `weeklyData` counts for the week, when no record has a
single space for a name. -/
theorem weekClients_length (h : Host) (rs : List Entry) (k : Int)
    (hsp : ∀ r ∈ rs, r.ClientName ≠ " ") :
    (weekClients h rs k).length = (weekGroupOf h rs k).uniqueClients.length := by
  obtain ⟨_, _, _, _, _, hnd, hmem⟩ := weekGroupOf_fields h rs k
  rw [← List.length_map (weekClients h rs k) Prod.fst]
  apply List.Perm.length_eq
  rw [List.perm_ext_iff_of_nodup (weekClients_keys_nodup h rs k) hnd]
  intro n
  rw [hmem]
  unfold weekClients
  rw [groupFold_keys, wowPairs_keys, anchorRecords_ne_nil]
  constructor
  · rintro ⟨h1, _, r, hr, hn, hc⟩
    exact ⟨r, hr, hn, by rw [hn]; exact h1, hc⟩
  · rintro ⟨r, hr, hn, hne, hc⟩
    have hr' : r ∈ rs := (List.mem_filter.1 hr).1
    exact ⟨by rw [← hn]; exact hne, by rw [← hn]; exact hsp r hr', r, hr, hn, hc⟩

theorem latestWeekClients_run (h : Host) (rs : List Entry) (weeks : List Week)
    (hok : weeklyData h rs = .ok weeks) (hne : weeks ≠ []) :
    ∃ latest, weeks[weeks.length - 1]? = some latest ∧
      (∀ w ∈ weeks, w.week ≤ latest.week) ∧
      latest.clientCount = (weekGroupOf h rs latest.week).uniqueClients.length ∧
      latestWeekClients h rs weeks =
        .ok (jsSortNum (fun a b => b.totalRevenue - a.totalRevenue)
          ((weekClients h rs latest.week).map Prod.snd)) := by
  have hdef := (weeklyData_ok h rs weeks hok).1
  have hpos : 0 < weeks.length := List.length_pos.2 hne
  have h1 : weeks.length - 1 < weeks.length := by omega
  have e1 : weeks[weeks.length - 1]? = some weeks[weeks.length - 1] := List.getElem?_eq_getElem h1
  have hrs : ¬ rs.length = 0 := by
    intro h0
    have : rs = [] := List.length_eq_zero.1 h0
    subst this
    have hw : weeklyData h [] = .ok [] := rfl
    rw [hw] at hok
    injection hok with hok
    exact hne hok.symm
  refine ⟨_, e1, ?_, ?_, ?_⟩
  · intro w hw
    obtain ⟨i, hi, hwi⟩ := List.getElem_of_mem hw
    by_cases hlast : i = weeks.length - 1
    · subst hlast
      rw [← hwi]
    · have hlt : i < weeks.length - 1 := by omega
      have ei : weeks[i]? = some w := by rw [List.getElem?_eq_getElem hi, hwi]
      exact le_of_lt (weeklyData_strict h rs weeks hok _ _ _ _ hlt ei e1)
  · exact (mem_weeklyData h rs weeks hok _ (List.getElem_mem h1)).2.2.2.2.2.2.1
  · unfold latestWeekClients
    have hg : ¬ (rs.length = 0 ∨ weeks.length = 0) := by
      rintro (hh | hh)
      · exact hrs hh
      · omega
    rw [if_neg hg, e1]
    simp only [latestFold_ok h rs _ hdef]

theorem jsTrim_ne_space (s : List Char) : jsTrim s ≠ [' '] := by
  unfold jsTrim
  intro hs
  have h1 : (s.dropWhile isSpace).reverse.dropWhile isSpace = [' '] := by
    have := congrArg List.reverse hs
    simpa using this
  have h2 := List.head_dropWhile_not isSpace (s.dropWhile isSpace).reverse
    (by rw [h1]; exact List.cons_ne_nil _ _)
  simp only [h1, List.head_cons] at h2
  revert h2
  decide

theorem rowRecord_name (cols : Columns) (row : List Char) (e : Entry)
    (he : rowRecord cols row = some e) : e.ClientName ≠ " " := by
  unfold rowRecord parseLine at he
  simp only at he
  split_ifs at he with h1 h2
  · simp at he
  · simp at he
  · simp only [List.nil_append, List.head?_cons, Option.some.injEq] at he
    subst he
    intro hn
    have := congrArg String.data hn
    exact jsTrim_ne_space _ this

theorem parseCSVData_name (csvText : String) :
    ∀ e ∈ parseCSVData csvText, e.ClientName ≠ " " := by
  intro e he
  unfold parseCSVData at he
  simp only at he
  split_ifs at he with h1
  · simp at he
  · rw [parseLines_eq] at he
    obtain ⟨row, _, hrow⟩ := List.mem_filterMap.1 he
    exact rowRecord_name _ row e hrow


/-- C35: for the records that `parseCSVData` gives for a text, when `weeklyData`
returns on them and at least one has a valid date, `latestWeekClients` returns a
list for the last, and latest, week of `weeklyData`; its length is the
`clientCount` of that week; it has one entry for each named client with an
anchor-code record in that week, whose `totalRevenue` is the sum of the agreed
charges of these records, `totalHours` the sum of their hours where the charge is
positive and `sessionCount` their number; and it is sorted by non-increasing
`totalRevenue`. -/
theorem latestWeekClients_totals (h : Host) (csvText : String) (weeks : List Week)
    (hok : weeklyData h (parseCSVData csvText) = .ok weeks)
    (hvalid : ∃ r ∈ parseCSVData csvText, (validDate h r).isSome = true) :
    ∃ latest result, weeks[weeks.length - 1]? = some latest ∧
      (∀ w ∈ weeks, w.week ≤ latest.week) ∧
      latestWeekClients h (parseCSVData csvText) weeks = .ok result ∧
      result.length = latest.clientCount ∧
      (∀ c ∈ result, c.name ≠ "" ∧
        anchorRecords h (parseCSVData csvText) latest.week c.name ≠ [] ∧
        c.totalRevenue = anchorRevenue h (parseCSVData csvText) latest.week c.name ∧
        c.totalHours = anchorHours h (parseCSVData csvText) latest.week c.name ∧
        c.sessionCount = (anchorRecords h (parseCSVData csvText) latest.week c.name).length) ∧
      (result.map fun c => c.name).Nodup ∧
      (∀ name, name ≠ "" → anchorRecords h (parseCSVData csvText) latest.week name ≠ [] →
        ∃ c ∈ result, c.name = name) ∧
      result.Pairwise (fun a b => b.totalRevenue ≤ a.totalRevenue) := by
  have hsp := parseCSVData_name csvText
  have hne : weeks ≠ [] := by
    obtain ⟨r, hr, hv⟩ := hvalid
    obtain ⟨t, ht⟩ := Option.isSome_iff_exists.1 hv
    obtain ⟨w, hw, _⟩ := weeklyData_has_week h _ weeks hok r hr (weekKeyOf h t)
      (by unfold entryWeek; rw [ht]; rfl)
    exact List.ne_nil_of_mem hw
  obtain ⟨latest, hl, hmax, hcount, hrun⟩ := latestWeekClients_run h _ weeks hok hne
  have hperm := jsSortNum_perm (fun a b : ClientTotals => b.totalRevenue - a.totalRevenue)
    ((weekClients h (parseCSVData csvText) latest.week).map Prod.snd)
  have hmem : ∀ c, c ∈ jsSortNum (fun a b : ClientTotals => b.totalRevenue - a.totalRevenue)
      ((weekClients h (parseCSVData csvText) latest.week).map Prod.snd) ↔
      (c.name, c) ∈ weekClients h (parseCSVData csvText) latest.week := by
    intro c
    rw [hperm.mem_iff, List.mem_map]
    constructor
    · rintro ⟨p, hp, rfl⟩
      rw [weekClients_name h _ _ p hp]
      exact hp
    · intro hc
      exact ⟨_, hc, rfl⟩
  refine ⟨latest, _, hl, hmax, hrun, ?_, ?_, ?_, ?_, ?_⟩
  · rw [hperm.length_eq, List.length_map, weekClients_length h _ _ hsp, hcount]
  · intro c hc
    obtain ⟨h1, _, h3, h4⟩ := (mem_weekClients h _ _ _ _).1 ((hmem c).1 hc)
    refine ⟨h1, h3, ?_, ?_, ?_⟩
    · exact congrArg ClientTotals.totalRevenue h4
    · exact congrArg ClientTotals.totalHours h4
    · exact congrArg ClientTotals.sessionCount h4
  · have hp2 := hperm.map (fun c : ClientTotals => c.name)
    rw [hp2.nodup_iff, List.map_map]
    have : (weekClients h (parseCSVData csvText) latest.week).map
        ((fun c : ClientTotals => c.name) ∘ Prod.snd) =
        (weekClients h (parseCSVData csvText) latest.week).map Prod.fst := by
      apply List.map_congr_left
      intro p hp
      exact weekClients_name h _ _ p hp
    rw [this]
    exact weekClients_keys_nodup h _ _
  · intro name hn hrec
    have hn2 : name ≠ " " := by
      obtain ⟨r, hr, hrn, _⟩ := (anchorRecords_ne_nil h _ _ _).1 hrec
      rw [← hrn]
      exact hsp r (List.mem_filter.1 hr).1
    exact ⟨{ name := name, totalRevenue := anchorRevenue h (parseCSVData csvText) latest.week name,
             totalHours := anchorHours h (parseCSVData csvText) latest.week name,
             sessionCount := (anchorRecords h (parseCSVData csvText) latest.week name).length },
      (hmem _).2 ((mem_weekClients h _ _ name _).2 ⟨hn, hn2, hrec, rfl⟩), rfl⟩
  · have hs := jsSortNum_sorted (fun a b : ClientTotals => b.totalRevenue - a.totalRevenue)
      (fun c => - c.totalRevenue)
      (fun a b => by
        dsimp only
        rw [sub_nonpos, neg_le_neg_iff])
      ((weekClients h (parseCSVData csvText) latest.week).map Prod.snd)
    exact hs.imp (fun hab => neg_le_neg_iff.1 hab)

/-- C35 on `sampleClientsCsv`: the latest week, of 2025-01-13, counts two
clients, and `latestWeekClients` returns Cat Orr with 60 of revenue, 4 hours and
one session, then Bo Lim with 40 of revenue, 2 hours and two sessions. -/
theorem latestWeekClients_totals_witness :
    weeklyData sampleHost (parseCSVData sampleClientsCsv) = .ok sampleClientsWeeks ∧
    (sampleClientsWeeks.map fun w => (w.week, w.sessionCount, w.clientCount)) =
      [(20094, 1, 1), (20101, 5, 2)] ∧
    latestWeekClients sampleHost (parseCSVData sampleClientsCsv) sampleClientsWeeks =
      .ok [⟨"Cat Orr", 60, 4, 1⟩, ⟨"Bo Lim", 40, 2, 2⟩] ∧
    ∃ latest result, sampleClientsWeeks[sampleClientsWeeks.length - 1]? = some latest ∧
      latestWeekClients sampleHost (parseCSVData sampleClientsCsv) sampleClientsWeeks
        = .ok result ∧
      result.length = latest.clientCount ∧
      result.Pairwise (fun a b => b.totalRevenue ≤ a.totalRevenue) := by
  refine ⟨by decide!, by decide!, by decide!, ?_⟩
  obtain ⟨latest, result, h1, _, h3, h4, _, _, _, h8⟩ :=
    latestWeekClients_totals sampleHost sampleClientsCsv sampleClientsWeeks (by decide!)
      ⟨wowRow "01/06/2025" "Bo Lim" 100 6, by decide!, by decide!⟩
  exact ⟨latest, result, h1, h3, h4, h8⟩


/-! ## Claims on `psychToABAConversion` -/

/-- C32 on a run: Fay Hill has one assessment row, dated ten days after
`sampleNow`, and no recurring-service row; the test `daysSincePsych <= 75` of
line 767 puts her in `needsConversion` with -10 days, first of the list, although
her assessment does not lie within the last 75 days. -/
theorem needsConversion_negative_days :
    hasValidRecord sampleHost sampleEdgeData psychCodes "Fay Hill" ∧
    ¬ hasValidRecord sampleHost sampleEdgeData abaCodes "Fay Hill" ∧
    (sampleEdgeConversion.map fun c =>
      c.needsConversion.map fun x => (x.client.name, x.daysSincePsych, x.notViableReason)) =
      some [("Fay Hill", -10, none), ("Hal Jay", 9, none)] ∧
    ¬ ((0 : Int) ≤ -10) :=
  ⟨⟨sampleRow "03/20/2025" "Fay Hill" "90791", by decide!, by decide!, by decide!,
      by decide!⟩,
    by unfold hasValidRecord; decide!, by decide!, by decide⟩

/-- C33 on a run: for a list of one recurring-service record of a client without
assessment, no client is converted and none needs conversion, and the
`conversionRate` is the `toFixed(1)` string of 0 / 0, `NaN`, not the number 0 that
the empty list gives. -/
theorem conversionRate_nan :
    sampleRecurringOnly ≠ [] ∧
    psychToABAConversion sampleHost sampleNow sampleReasons sampleRecurringOnly =
      .ok { needsConversion := [], converted := [], conversionRate := .nan } ∧
    psychToABAConversion sampleHost sampleNow sampleReasons [] =
      .ok { needsConversion := [], converted := [], conversionRate := .zero } :=
  ⟨by decide, by decide!, by decide!⟩


/-! ## The history of a client in `psychToABAConversion` -/

theorem upsert_id_upsert {κ α : Type} [DecidableEq κ] (k : κ) (i : α) (f : α → α)
    (l : List (κ × α)) : upsert k i f (upsert k i id l) = upsert k i f l := by
  induction l with
  | nil => simp [upsert]
  | cons p l ih =>
    obtain ⟨k', v⟩ := p
    by_cases hk : k' = k
    · simp [upsert, hk]
    · simp [upsert, hk, ih]

theorem historyEntry_eq (h : Host) (acc : List (String × History)) (e : Entry) :
    historyEntry h acc e = (historyAction h e).run newHistory historyStep acc := by
  unfold historyEntry historyAction
  by_cases h1 : e.ClientName = "" ∨ e.ClientName = " "
  · simp only [h1, if_true]
    rfl
  · simp only [h1, if_false]
    cases parseEntryDate h e.DateOfService with
    | undefined => rfl
    | invalid => rfl
    | date t =>
      simp only [Action.run]
      rw [upsert_id_upsert]
      rfl

theorem historyFold_eq (h : Host) (rs : List Entry) :
    rs.foldlM (historyEntry h) [] =
      if rs.any (fun r => (historyAction h r).raises) then Except.error JSError.typeError
      else Except.ok (clientHistories h rs) := by
  have : historyEntry h = fun acc e => (historyAction h e).run newHistory historyStep acc := by
    funext acc e; exact historyEntry_eq h acc e
  rw [this]
  exact foldlM_run _ _ _ _

theorem conversionEntry_eq (now : Int) (nv : String → Option String)
    (acc : List NeedsConversion × List ConvertedClient) (c : History) :
    conversionEntry now nv acc c =
      (acc.1 ++ (needsOf now nv c).toList, acc.2 ++ (convertedOf c).toList) := by
  unfold conversionEntry needsOf convertedOf
  cases hp : c.hadPsych <;> cases ha : c.hasABA <;>
    by_cases hd : daysBetween now (dateNumber c.lastPsychDate) ≤ 75 <;> simp [hd]

theorem conversionFold_eq (now : Int) (nv : String → Option String) (cs : List History)
    (acc : List NeedsConversion × List ConvertedClient) :
    cs.foldl (conversionEntry now nv) acc =
      (acc.1 ++ cs.filterMap (needsOf now nv), acc.2 ++ cs.filterMap convertedOf) := by
  induction cs generalizing acc with
  | nil => simp
  | cons c cs ih =>
    rw [List.foldl_cons, ih, conversionEntry_eq]
    cases hn : needsOf now nv c <;> cases hc : convertedOf c <;>
      simp [List.filterMap_cons, hn, hc]

theorem conversionLists_eq (now : Int) (nv : String → Option String)
    (hs : List (String × History)) :
    conversionLists now nv hs =
      ((hs.map Prod.snd).filterMap (needsOf now nv), (hs.map Prod.snd).filterMap convertedOf) := by
  unfold conversionLists
  rw [conversionFold_eq]
  simp

theorem psychToABAConversion_eq (h : Host) (now : Int) (nv : String → Option String)
    (rs : List Entry) (c : Conversion) (hne : rs ≠ [])
    (hok : psychToABAConversion h now nv rs = .ok c) :
    (∀ r ∈ rs, (historyAction h r).raises = false) ∧
    c.needsConversion = jsSort (fun a b => a.daysSincePsych - b.daysSincePsych)
      (conversionLists now nv (clientHistories h rs)).1 ∧
    c.converted =
      (jsSort (fun a b => dateNumber b.client.firstABADate - dateNumber a.client.firstABADate)
        (conversionLists now nv (clientHistories h rs)).2).take 10 ∧
    c.conversionRate =
      toFixedRate
        ((numDiv ((conversionLists now nv (clientHistories h rs)).2.length : ℚ)
          (((conversionLists now nv (clientHistories h rs)).2.length +
            (conversionLists now nv (clientHistories h rs)).1.length : ℕ) : ℚ)).bind fun q =>
            roundDouble (q * 100)) := by
  unfold psychToABAConversion at hok
  have h0 : ¬ rs.length = 0 := fun h0 => hne (List.length_eq_zero.1 h0)
  rw [if_neg h0, historyFold_eq] at hok
  by_cases hany : rs.any (fun r => (historyAction h r).raises) = true
  · rw [if_pos hany] at hok
    cases hok
  · rw [if_neg hany] at hok
    simp only [Except.ok.injEq] at hok
    subst hok
    refine ⟨?_, rfl, rfl, rfl⟩
    intro r hr
    cases hx : (historyAction h r).raises with
    | false => rfl
    | true => exact absurd (List.any_eq_true.2 ⟨r, hr, hx⟩) hany

theorem itemDates_append (codes : List String) (items : List (Option (String × Int)))
    (x : Option (String × Int)) :
    itemDates codes (items ++ [x]) =
      match x with
      | none => itemDates codes items
      | some p => if p.1 ∈ codes then itemDates codes items ++ [p.2] else itemDates codes items := by
  unfold itemDates
  rw [List.filterMap_append]
  cases x with
  | none => simp
  | some p =>
    by_cases hp : p.1 ∈ codes
    · simp [hp]
    · simp [hp]

theorem historyFold_fields (n : String) (items : List (Option (String × Int))) :
    (items.foldl (fun c x => historyStep x c) (newHistory n)).name = n ∧
    (items.foldl (fun c x => historyStep x c) (newHistory n)).hadPsych =
      decide (itemDates psychCodes items ≠ []) ∧
    (items.foldl (fun c x => historyStep x c) (newHistory n)).lastPsychDate =
      runMax (itemDates psychCodes items) ∧
    (items.foldl (fun c x => historyStep x c) (newHistory n)).hasABA =
      decide (itemDates abaCodes items ≠ []) ∧
    (items.foldl (fun c x => historyStep x c) (newHistory n)).firstABADate =
      runMin (itemDates abaCodes items) := by
  induction items using List.reverseRecOn with
  | nil => simp [newHistory, itemDates, runMax, runMin]
  | append_singleton items x ih =>
    simp only [List.foldl_append, List.foldl_cons, List.foldl_nil]
    obtain ⟨i1, i2, i3, i4, i5⟩ := ih
    rw [itemDates_append, itemDates_append]
    generalize items.foldl (fun c x => historyStep x c) (newHistory n) = c at i1 i2 i3 i4 i5 ⊢
    cases x with
    | none => exact ⟨i1, i2, i3, i4, i5⟩
    | some p =>
      simp only [historyStep, trackHistory]
      by_cases hp : p.1 ∈ psychCodes <;> by_cases ha : p.1 ∈ abaCodes <;>
        simp [hp, ha, i1, i2, i3, i4, i5, runMax_append, runMin_append]

theorem historyAction_item (h : Host) (r : Entry) (n : String) (x : Option (String × Int)) :
    (historyAction h r).item = some (n, x) ↔
      r.ClientName = n ∧ n ≠ "" ∧ n ≠ " " ∧
      ((parseEntryDate h r.DateOfService = .invalid ∧ x = none) ∨
        ∃ t, parseEntryDate h r.DateOfService = .date t ∧ x = some (r.ProcedureCode, t)) := by
  unfold historyAction
  by_cases h1 : r.ClientName = "" ∨ r.ClientName = " "
  · rw [if_pos h1]
    simp only [Action.item]
    constructor
    · intro hh
      cases hh
    · rintro ⟨rfl, h2, h3, _⟩
      rcases h1 with h1 | h1
      · exact (h2 h1).elim
      · exact (h3 h1).elim
  · rw [if_neg h1]
    have h2 : r.ClientName ≠ "" := fun hh => h1 (Or.inl hh)
    have h3 : r.ClientName ≠ " " := fun hh => h1 (Or.inr hh)
    cases hd : parseEntryDate h r.DateOfService with
    | undefined =>
      simp only [Action.item]
      constructor
      · intro hh
        cases hh
      · rintro ⟨_, _, _, hh | ⟨t, hh, _⟩⟩
        · cases hh.1
        · cases hh
    | invalid =>
      constructor
      · intro hh
        simp only [Action.item, Option.some.injEq, Prod.mk.injEq] at hh
        obtain ⟨rfl, rfl⟩ := hh
        exact ⟨rfl, h2, h3, Or.inl ⟨rfl, rfl⟩⟩
      · rintro ⟨hn, _, _, hh | ⟨t, hh, _⟩⟩
        · simp only [Action.item, Option.some.injEq, Prod.mk.injEq]
          exact ⟨hn, hh.2.symm⟩
        · cases hh
    | date t =>
      constructor
      · intro hh
        simp only [Action.item, Option.some.injEq, Prod.mk.injEq] at hh
        obtain ⟨rfl, rfl⟩ := hh
        exact ⟨rfl, h2, h3, Or.inr ⟨t, rfl, rfl⟩⟩
      · rintro ⟨hn, _, _, hh | ⟨t', hh, hx⟩⟩
        · cases hh.1
        · cases hh
          simp only [Action.item, Option.some.injEq, Prod.mk.injEq]
          exact ⟨hn, hx.symm⟩

theorem mem_historyItems (h : Host) (rs : List Entry) (n : String)
    (x : Option (String × Int)) :
    x ∈ historyItems h rs n ↔
      ∃ r ∈ rs, r.ClientName = n ∧ n ≠ "" ∧ n ≠ " " ∧
      ((parseEntryDate h r.DateOfService = .invalid ∧ x = none) ∨
        ∃ t, parseEntryDate h r.DateOfService = .date t ∧ x = some (r.ProcedureCode, t)) := by
  unfold historyItems
  simp only [List.mem_map, List.mem_filter, List.mem_filterMap, decide_eq_true_eq]
  constructor
  · rintro ⟨⟨k, y⟩, ⟨⟨r, hr, hitem⟩, hk⟩, rfl⟩
    simp only at hk
    subst hk
    exact ⟨r, hr, (historyAction_item h r k y).1 hitem⟩
  · rintro ⟨r, hr, hh⟩
    exact ⟨(n, x), ⟨⟨r, hr, (historyAction_item h r n x).2 hh⟩, rfl⟩, rfl⟩

theorem historyKeys (h : Host) (rs : List Entry) (n : String) :
    n ∈ (rs.filterMap fun r => (historyAction h r).item).map Prod.fst ↔
      ∃ x, x ∈ historyItems h rs n := by
  unfold historyItems
  simp only [List.mem_map, List.mem_filter, decide_eq_true_eq]
  constructor
  · rintro ⟨⟨k, y⟩, hm, rfl⟩
    exact ⟨y, (k, y), ⟨hm, rfl⟩, rfl⟩
  · rintro ⟨x, ⟨k, y⟩, ⟨hm, hk⟩, _⟩
    exact ⟨(k, y), hm, hk⟩

theorem mem_clientHistories (h : Host) (rs : List Entry) (n : String) (c : History) :
    (n, c) ∈ clientHistories h rs ↔ (∃ x, x ∈ historyItems h rs n) ∧ c = historyOf h rs n := by
  unfold clientHistories historyOf historyItems
  rw [mem_groupFold, historyKeys]
  rfl

theorem mem_itemDates (h : Host) (rs : List Entry) (n : String) (codes : List String) (t : Int) :
    t ∈ itemDates codes (historyItems h rs n) ↔
      n ≠ "" ∧ n ≠ " " ∧ ∃ r ∈ rs, r.ClientName = n ∧ r.ProcedureCode ∈ codes ∧
        parseEntryDate h r.DateOfService = .date t := by
  unfold itemDates
  simp only [List.mem_filterMap, mem_historyItems]
  constructor
  · rintro ⟨x, ⟨r, hr, hn, h2, h3, hh⟩, hx⟩
    rcases hh with ⟨_, rfl⟩ | ⟨t', ht', rfl⟩
    · simp at hx
    · simp at hx
      obtain ⟨hc, rfl⟩ := hx
      exact ⟨h2, h3, r, hr, hn, hc, ht'⟩
  · rintro ⟨h2, h3, r, hr, hn, hc, ht⟩
    refine ⟨some (r.ProcedureCode, t), ⟨r, hr, hn, h2, h3, Or.inr ⟨t, ht, rfl⟩⟩, ?_⟩
    simp [hc]

theorem itemDates_eq_codeDates (h : Host) (rs : List Entry) (n : String)
    (codes : List String) (hsub : ∀ c ∈ codes, c ∈ allCodes)
    (hex : ∃ x, x ∈ clientItems h rs n) (t : Int) :
    t ∈ itemDates codes (historyItems h rs n) ↔ t ∈ codeDates codes (clientItems h rs n) := by
  obtain ⟨x, hx⟩ := hex
  obtain ⟨_, _, h2, h3, _, _⟩ := (mem_clientItems h rs n x).1 hx
  rw [mem_itemDates, mem_codeDates_clientItems h rs n codes hsub ⟨x, hx⟩]
  constructor
  · rintro ⟨_, _, hh⟩
    exact hh
  · intro hh
    exact ⟨h2, h3, hh⟩

theorem runMax_congr (l1 l2 : List Int) (hmem : ∀ t, t ∈ l1 ↔ t ∈ l2) :
    runMax l1 = runMax l2 := by
  obtain ⟨a1, a2⟩ := runMax_spec l1
  obtain ⟨b1, b2⟩ := runMax_spec l2
  cases h1 : runMax l1 with
  | none =>
    have : l1 = [] := a1.1 h1
    have : l2 = [] := by
      apply List.eq_nil_iff_forall_not_mem.2
      intro t ht
      have := (hmem t).2 ht
      simp_all
    exact (b1.2 this).symm
  | some x =>
    cases h2 : runMax l2 with
    | none =>
      have hl2 : l2 = [] := b1.1 h2
      have := (hmem x).1 (a2 x h1).1
      rw [hl2] at this
      cases this
    | some y =>
      obtain ⟨hx, hxm⟩ := a2 x h1
      obtain ⟨hy, hym⟩ := b2 y h2
      have e1 : x ≤ y := hym x ((hmem x).1 hx)
      have e2 : y ≤ x := hxm y ((hmem y).2 hy)
      rw [le_antisymm e1 e2]

theorem runMin_congr (l1 l2 : List Int) (hmem : ∀ t, t ∈ l1 ↔ t ∈ l2) :
    runMin l1 = runMin l2 := by
  obtain ⟨a1, a2⟩ := runMin_spec l1
  obtain ⟨b1, b2⟩ := runMin_spec l2
  cases h1 : runMin l1 with
  | none =>
    have : l1 = [] := a1.1 h1
    have : l2 = [] := by
      apply List.eq_nil_iff_forall_not_mem.2
      intro t ht
      have := (hmem t).2 ht
      simp_all
    exact (b1.2 this).symm
  | some x =>
    cases h2 : runMin l2 with
    | none =>
      have hl2 : l2 = [] := b1.1 h2
      have := (hmem x).1 (a2 x h1).1
      rw [hl2] at this
      cases this
    | some y =>
      obtain ⟨hx, hxm⟩ := a2 x h1
      obtain ⟨hy, hym⟩ := b2 y h2
      have e1 : y ≤ x := hym x ((hmem x).1 hx)
      have e2 : x ≤ y := hxm y ((hmem y).2 hy)
      rw [le_antisymm e2 e1]

/-! ## The two views of the conversions -/

theorem historyOf_fields (h : Host) (rs : List Entry) (n : String) :
    (historyOf h rs n).name = n ∧
    (historyOf h rs n).hadPsych = decide (itemDates psychCodes (historyItems h rs n) ≠ []) ∧
    (historyOf h rs n).lastPsychDate = runMax (itemDates psychCodes (historyItems h rs n)) ∧
    (historyOf h rs n).hasABA = decide (itemDates abaCodes (historyItems h rs n) ≠ []) ∧
    (historyOf h rs n).firstABADate = runMin (itemDates abaCodes (historyItems h rs n)) :=
  historyFold_fields n (historyItems h rs n)

theorem itemDates_ne_nil_iff (h : Host) (rs : List Entry) (n : String) (codes : List String) :
    itemDates codes (historyItems h rs n) ≠ [] ↔
      n ≠ "" ∧ n ≠ " " ∧ hasValidRecord h rs codes n := by
  unfold hasValidRecord
  constructor
  · intro hne
    obtain ⟨t, ht⟩ := List.exists_mem_of_ne_nil _ hne
    obtain ⟨h2, h3, r, hr, hn, hc, hd⟩ := (mem_itemDates h rs n codes t).1 ht
    exact ⟨h2, h3, r, hr, hn, hc, (validDate_isSome h r).2 ⟨t, hd⟩⟩
  · rintro ⟨h2, h3, r, hr, hn, hc, hv⟩
    obtain ⟨t, hd⟩ := (validDate_isSome h r).1 hv
    exact List.ne_nil_of_mem ((mem_itemDates h rs n codes t).2 ⟨h2, h3, r, hr, hn, hc, hd⟩)

theorem mem_converted_histories (h : Host) (now : Int) (nv : String → Option String)
    (rs : List Entry) (x : ConvertedClient) :
    x ∈ (conversionLists now nv (clientHistories h rs)).2 ↔
      ∃ n, n ≠ "" ∧ n ≠ " " ∧ hasValidRecord h rs psychCodes n ∧
        hasValidRecord h rs abaCodes n ∧
        x = { client := historyOf h rs n,
              conversionDays :=
                daysBetween (dateNumber (historyOf h rs n).firstABADate)
                  (dateNumber (historyOf h rs n).lastPsychDate) } := by
  rw [conversionLists_eq]
  simp only [List.mem_filterMap, List.mem_map]
  constructor
  · rintro ⟨c, ⟨⟨n, c'⟩, hm, rfl⟩, hx⟩
    obtain ⟨_, rfl⟩ := (mem_clientHistories h rs n c').1 hm
    obtain ⟨_, f2, _, f4, _⟩ := historyOf_fields h rs n
    unfold convertedOf at hx
    by_cases hc : (historyOf h rs n).hadPsych = true ∧ (historyOf h rs n).hasABA = true
    · rw [if_pos hc] at hx
      simp only [Option.some.injEq] at hx
      rw [f2, f4] at hc
      obtain ⟨p1, p2, p3⟩ := (itemDates_ne_nil_iff h rs n psychCodes).1 (of_decide_eq_true hc.1)
      obtain ⟨_, _, a3⟩ := (itemDates_ne_nil_iff h rs n abaCodes).1 (of_decide_eq_true hc.2)
      exact ⟨n, p1, p2, p3, a3, hx.symm⟩
    · rw [if_neg hc] at hx
      cases hx
  · rintro ⟨n, h2, h3, hp, ha, rfl⟩
    obtain ⟨_, f2, _, f4, _⟩ := historyOf_fields h rs n
    have hp' := (itemDates_ne_nil_iff h rs n psychCodes).2 ⟨h2, h3, hp⟩
    have ha' := (itemDates_ne_nil_iff h rs n abaCodes).2 ⟨h2, h3, ha⟩
    have hex : ∃ x, x ∈ historyItems h rs n := by
      obtain ⟨r, hr, hn, _, hv⟩ := hp
      obtain ⟨t, hd⟩ := (validDate_isSome h r).1 hv
      exact ⟨_, (mem_historyItems h rs n _).2 ⟨r, hr, hn, h2, h3, Or.inr ⟨t, hd, rfl⟩⟩⟩
    refine ⟨historyOf h rs n, ⟨(n, historyOf h rs n),
      (mem_clientHistories h rs n _).2 ⟨hex, rfl⟩, rfl⟩, ?_⟩
    unfold convertedOf
    rw [if_pos ⟨by rw [f2]; exact decide_eq_true hp', by rw [f4]; exact decide_eq_true ha'⟩]

theorem mem_converted_journeys (h : Host) (now : Int) (nv notes : String → Option String)
    (rs : List Entry) (d : Dashboard)
    (hok : psychDashboardData h now nv notes rs = .ok (some d)) (j : Journey) :
    j ∈ withStatus .converted d.allClients ↔
      ∃ n, n ≠ "" ∧ n ≠ " " ∧ hasValidRecord h rs psychCodes n ∧
        hasValidRecord h rs abaCodes n ∧ j = classify now nv notes (journeyOf h rs n) := by
  rw [mem_withStatus]
  constructor
  · rintro ⟨hj, hs⟩
    obtain ⟨hex, _, hcl, hp⟩ := allClients_classified h now nv notes rs d hok j hj
      (by rw [hs]; decide)
    obtain ⟨x, hx⟩ := hex
    obtain ⟨_, _, h2, h3, _, _⟩ := (mem_clientItems h rs j.name x).1 hx
    refine ⟨j.name, h2, h3, hp, ?_, hcl⟩
    have hst := classify_status now nv notes (journeyOf h rs j.name)
    rw [← hcl, hs] at hst
    have hfa : (journeyOf h rs j.name).firstABADate.isSome = true := by
      by_contra hno
      rw [if_neg hno] at hst
      split_ifs at hst
    exact (journeyOf_dates h rs j.name ⟨x, hx⟩).2.2.1 hfa
  · rintro ⟨n, h2, h3, hp, ha, rfl⟩
    have hex := clientItems_of_record h rs psychCodes psychCodes_sub n h2 h3 hp
    obtain ⟨d1, _, d3⟩ := journeyOf_dates h rs n hex
    have hfp : (journeyOf h rs n).firstPsychDate.isSome = true := d1.2 hp
    have hfa : (journeyOf h rs n).firstABADate.isSome = true := d3.2 ha
    have hcl : classified now nv notes (journeyOf h rs n) =
        classify now nv notes (journeyOf h rs n) := by
      unfold classified
      rw [if_neg]
      intro hnone
      rw [Option.isNone_iff_eq_none] at hnone
      rw [hnone] at hfp
      cases hfp
    refine ⟨(mem_allClients h now nv notes rs d hok _).2 ⟨n, hex, hcl.symm⟩, ?_⟩
    rw [classify_status, if_pos hfa]

/-- C36: when both `psychDashboardData` and `psychToABAConversion` return on a
record list, a name is the name of a converted journey of the first, before the
cap of 20, if and only if it is the name of an element of `converted` of the
second, before the cap of 10: in both, the named clients with an assessment
record and a recurring-service record with valid dates. For a journey and an
element of the same name, `daysToConversion` of the first is `conversionDays` of
the second. -/
theorem conversions_agree (h : Host) (now1 now2 : Int) (nv notes : String → Option String)
    (rs : List Entry) (d : Dashboard) (c : Conversion)
    (hdash : psychDashboardData h now1 nv notes rs = .ok (some d))
    (hconv : psychToABAConversion h now2 nv rs = .ok c) :
    d.converted = (jsSort (fun a b => dateNumber b.firstABADate - dateNumber a.firstABADate)
      (withStatus .converted d.allClients)).take 20 ∧
    c.converted =
      (jsSort (fun a b => dateNumber b.client.firstABADate - dateNumber a.client.firstABADate)
        (conversionLists now2 nv (clientHistories h rs)).2).take 10 ∧
    (∀ name, (∃ j ∈ withStatus .converted d.allClients, j.name = name) ↔
      (∃ x ∈ (conversionLists now2 nv (clientHistories h rs)).2, x.client.name = name)) ∧
    (∀ name, (∃ j ∈ withStatus .converted d.allClients, j.name = name) ↔
      (name ≠ "" ∧ name ≠ " " ∧ hasValidRecord h rs psychCodes name ∧
        hasValidRecord h rs abaCodes name)) ∧
    (∀ j ∈ withStatus .converted d.allClients,
      ∀ x ∈ (conversionLists now2 nv (clientHistories h rs)).2,
        x.client.name = j.name → j.daysToConversion = some x.conversionDays) := by
  have hne : rs ≠ [] := by
    rintro rfl
    cases hdash
  have hj : ∀ name, (∃ j ∈ withStatus .converted d.allClients, j.name = name) ↔
      (name ≠ "" ∧ name ≠ " " ∧ hasValidRecord h rs psychCodes name ∧
        hasValidRecord h rs abaCodes name) := by
    intro name
    constructor
    · rintro ⟨j, hj, rfl⟩
      obtain ⟨n, h2, h3, hp, ha, rfl⟩ := (mem_converted_journeys h now1 nv notes rs d hdash j).1 hj
      rw [(classify_fields now1 nv notes _).1, (journeyOf_fields h rs n).1]
      exact ⟨h2, h3, hp, ha⟩
    · rintro ⟨h2, h3, hp, ha⟩
      refine ⟨_, (mem_converted_journeys h now1 nv notes rs d hdash _).2
        ⟨name, h2, h3, hp, ha, rfl⟩, ?_⟩
      rw [(classify_fields now1 nv notes _).1, (journeyOf_fields h rs name).1]
  have hx : ∀ name, (∃ x ∈ (conversionLists now2 nv (clientHistories h rs)).2,
      x.client.name = name) ↔
      (name ≠ "" ∧ name ≠ " " ∧ hasValidRecord h rs psychCodes name ∧
        hasValidRecord h rs abaCodes name) := by
    intro name
    constructor
    · rintro ⟨x, hx, rfl⟩
      obtain ⟨n, h2, h3, hp, ha, rfl⟩ := (mem_converted_histories h now2 nv rs x).1 hx
      rw [(historyOf_fields h rs n).1]
      exact ⟨h2, h3, hp, ha⟩
    · rintro ⟨h2, h3, hp, ha⟩
      exact ⟨_, (mem_converted_histories h now2 nv rs _).2 ⟨name, h2, h3, hp, ha, rfl⟩,
        (historyOf_fields h rs name).1⟩
  refine ⟨(dashboard_shape h now1 nv notes rs d hdash).2.2.1,
    (psychToABAConversion_eq h now2 nv rs c hne hconv).2.2.1,
    fun name => (hj name).trans (hx name).symm, hj, ?_⟩
  intro j hjm x hxm hname
  obtain ⟨n, h2, h3, hp, ha, rfl⟩ := (mem_converted_journeys h now1 nv notes rs d hdash j).1 hjm
  obtain ⟨n', _, _, _, _, rfl⟩ := (mem_converted_histories h now2 nv rs x).1 hxm
  rw [(classify_fields now1 nv notes _).1, (journeyOf_fields h rs n).1,
    (historyOf_fields h rs n').1] at hname
  subst hname
  have hex := clientItems_of_record h rs psychCodes psychCodes_sub n' h2 h3 hp
  obtain ⟨_, _, g3, g4, _⟩ := journeyOf_fields h rs n'
  obtain ⟨_, _, f3, _, f5⟩ := historyOf_fields h rs n'
  have e1 : (historyOf h rs n').lastPsychDate = (journeyOf h rs n').lastPsychDate := by
    rw [f3, g3]
    exact runMax_congr _ _ (itemDates_eq_codeDates h rs n' psychCodes psychCodes_sub hex)
  have e2 : (historyOf h rs n').firstABADate = (journeyOf h rs n').firstABADate := by
    rw [f5, g4]
    exact runMin_congr _ _ (itemDates_eq_codeDates h rs n' abaCodes abaCodes_sub hex)
  have hs : (classify now1 nv notes (journeyOf h rs n')).status = .converted :=
    ((mem_withStatus _ _ _).1 hjm).2
  obtain ⟨fa, hfa, hdays⟩ := classify_converted now1 nv notes _ hs
  rw [hdays, e1, e2, hfa]
  rfl

/-- C36 on the funnel sample: both views have Jane Doe as the only converted
client, with 54 days. -/
theorem conversions_agree_witness :
    psychDashboardData sampleHost sampleNow sampleReasons sampleNotes samplePsychData
      = .ok (some sampleDashboard) ∧
    psychToABAConversion sampleHost sampleNow sampleReasons samplePsychData
      = .ok sampleConversion ∧
    (sampleDashboard.converted.map fun j => (j.name, j.daysToConversion)) =
      [("Jane Doe", some 54)] ∧
    (sampleConversion.converted.map fun x => (x.client.name, x.conversionDays)) =
      [("Jane Doe", 54)] ∧
    ∀ j ∈ withStatus .converted sampleDashboard.allClients,
      ∀ x ∈ (conversionLists sampleNow sampleReasons
          (clientHistories sampleHost samplePsychData)).2,
        x.client.name = j.name → j.daysToConversion = some x.conversionDays :=
  ⟨by decide!, by decide!, by decide!, by decide!,
    (conversions_agree sampleHost sampleNow sampleNow sampleReasons sampleNotes samplePsychData
      sampleDashboard sampleConversion (by decide!) (by decide!)).2.2.2.2⟩


/-! ## The number fields of a record -/

theorem rowRecord_numbers (cols : Columns) (row : List Char) (e : Entry)
    (he : rowRecord cols row = some e) :
    e.ClientChargesAgreedTotal = numberField (scanRow row) cols.agreedIdx ∧
    e.UnitsOfService = numberField (scanRow row) cols.unitsIdx ∧
    e.TimeWorkedInHours = numberField (scanRow row) cols.hoursIdx := by
  unfold rowRecord parseLine at he
  simp only at he
  split_ifs at he with h1 h2
  · simp at he
  · simp at he
  · simp only [List.nil_append, List.head?_cons, Option.some.injEq] at he
    subst he
    exact ⟨rfl, rfl, rfl⟩

theorem numberField_cases (values : List (List Char)) (idx : Option Nat) :
    (idx = none → valueAt values idx = none) ∧
    (valueAt values idx = none → numberField values idx = some 0) ∧
    (∀ s, valueAt values idx = some s → stripQuotes s = [] →
      numberField values idx = some 0) ∧
    (∀ s, valueAt values idx = some s → stripQuotes s ≠ [] →
      numberField values idx = parseFloat (stripQuotes s)) := by
  refine ⟨?_, ?_, ?_, ?_⟩
  · rintro rfl
    rfl
  · intro hv
    unfold numberField
    rw [hv]
    rfl
  · intro s hv hs
    unfold numberField
    rw [hv, Option.map_some', hs]
  · intro s hv hs
    unfold numberField
    rw [hv, Option.map_some']
    cases hq : stripQuotes s with
    | nil => exact absurd hq hs
    | cons a l => rfl

theorem rowRecord_columns (cols cols' : Columns) (row : List Char)
    (hd : cols'.dateIdx = cols.dateIdx) :
    (rowRecord cols' row).isSome = (rowRecord cols row).isSome := by
  rw [Bool.eq_iff_iff, rowRecord_isSome, rowRecord_isSome]
  unfold dateField
  rw [hd]

/-- C31, a row whose field is not a number: the first row of `sampleNumbersCsv`
has the text `abc` in the agreed-charge column; the row is accepted and its
record holds `NaN`, not 0, for `ClientChargesAgreedTotal`, while the empty units
field gives 0 and the absent fields of the second row give 0. -/
theorem unparseable_charge_nan :
    parseCSVData sampleNumbersCsv = [sampleNanRecord, sampleShortRecord] ∧
    parseFloat "abc".data = none ∧
    sampleNanRecord.ClientChargesAgreedTotal = none ∧
    sampleNanRecord.ClientChargesAgreedTotal ≠ some 0 ∧
    sampleNanRecord.UnitsOfService = some 0 ∧
    sampleShortRecord.UnitsOfService = some 0 ∧
    sampleShortRecord.TimeWorkedInHours = some 0 := by
  refine ⟨by decide!, by decide!, rfl, by decide, rfl, rfl, rfl⟩

/-- C31 amended: every record that `parseCSVData` returns is the record of a
line after the first, and its `ClientChargesAgreedTotal`, `UnitsOfService` and
`TimeWorkedInHours` are the number fields of that line for their columns. A
number field is 0 when the column is missing from the header, when the line has
no field at that position, and when the field without its quotes is empty;
otherwise it is `parseFloat` of the field without its quotes, which is `NaN` for
a text that does not start with a number, and `NaN` is read as 0 by `x || 0`.
Whether a line gives a record does not depend on the columns other than the
date column. -/
theorem number_fields (csvText : String) (e : Entry) (he : e ∈ parseCSVData csvText) :
    ∃ row ∈ (csvLines csvText).tail,
      rowRecord (columnsOf (headersOf ((csvLines csvText).headD []))) row = some e ∧
      e.ClientChargesAgreedTotal = numberField (scanRow row)
        (columnsOf (headersOf ((csvLines csvText).headD []))).agreedIdx ∧
      e.UnitsOfService = numberField (scanRow row)
        (columnsOf (headersOf ((csvLines csvText).headD []))).unitsIdx ∧
      e.TimeWorkedInHours = numberField (scanRow row)
        (columnsOf (headersOf ((csvLines csvText).headD []))).hoursIdx ∧
      (∀ idx, (idx = none ∨ valueAt (scanRow row) idx = none ∨
          ∃ s, valueAt (scanRow row) idx = some s ∧ stripQuotes s = []) →
        numberField (scanRow row) idx = some 0) ∧
      (∀ idx s, valueAt (scanRow row) idx = some s → stripQuotes s ≠ [] →
        numberField (scanRow row) idx = parseFloat (stripQuotes s)) ∧
      (∀ idx, numberField (scanRow row) idx = none →
        orZero (numberField (scanRow row) idx) = 0) ∧
      (∀ cols : Columns,
        cols.dateIdx = (columnsOf (headersOf ((csvLines csvText).headD []))).dateIdx →
        (rowRecord cols row).isSome = true) := by
  unfold parseCSVData at he
  simp only at he
  split_ifs at he with h1
  · simp at he
  · rw [parseLines_eq] at he
    obtain ⟨row, hrow, hrec⟩ := List.mem_filterMap.1 he
    obtain ⟨n1, n2, n3⟩ := rowRecord_numbers _ row e hrec
    refine ⟨row, hrow, hrec, n1, n2, n3, ?_, ?_, ?_, ?_⟩
    · intro idx hcases
      obtain ⟨c1, c2, c3, _⟩ := numberField_cases (scanRow row) idx
      rcases hcases with hh | hh | ⟨s, hs, hq⟩
      · exact c2 (c1 hh)
      · exact c2 hh
      · exact c3 s hs hq
    · intro idx s hs hq
      exact (numberField_cases (scanRow row) idx).2.2.2 s hs hq
    · intro idx hnan
      rw [hnan]
      rfl
    · intro cols hd
      rw [rowRecord_columns _ _ row hd, hrec]
      rfl

/-- C31 amended, on `sampleNumbersCsv`: the record of the first row has the
number fields of its line, 0 for the empty units field and 10 for `1e1`. -/
theorem number_fields_witness :
    sampleNanRecord ∈ parseCSVData sampleNumbersCsv ∧
    sampleNanRecord.UnitsOfService = some 0 ∧
    sampleNanRecord.TimeWorkedInHours = some 10 ∧
    orZero sampleNanRecord.ClientChargesAgreedTotal = 0 ∧
    ∃ row ∈ (csvLines sampleNumbersCsv).tail,
      rowRecord (columnsOf (headersOf ((csvLines sampleNumbersCsv).headD []))) row =
        some sampleNanRecord ∧
      sampleNanRecord.ClientChargesAgreedTotal = numberField (scanRow row)
        (columnsOf (headersOf ((csvLines sampleNumbersCsv).headD []))).agreedIdx := by
  obtain ⟨row, h1, h2, h3, _⟩ := number_fields sampleNumbersCsv sampleNanRecord (by decide!)
  exact ⟨by decide!, rfl, rfl, by decide!, row, h1, h2, h3⟩


/-- The array `needsConversion` before the sort holds one element for each named
client with an assessment record with a valid date, no recurring-service record
with a valid date, and at most 75 days since the last assessment; the days have
no lower bound. -/
theorem mem_needs_histories (h : Host) (now : Int) (nv : String → Option String)
    (rs : List Entry) (x : NeedsConversion) :
    x ∈ (conversionLists now nv (clientHistories h rs)).1 ↔
      ∃ n, n ≠ "" ∧ n ≠ " " ∧ hasValidRecord h rs psychCodes n ∧
        ¬ hasValidRecord h rs abaCodes n ∧
        daysBetween now (dateNumber (historyOf h rs n).lastPsychDate) ≤ 75 ∧
        x = { client := historyOf h rs n,
              daysSincePsych := daysBetween now (dateNumber (historyOf h rs n).lastPsychDate),
              notViableReason := lookupTruthy nv n } := by
  rw [conversionLists_eq]
  simp only [List.mem_filterMap, List.mem_map]
  constructor
  · rintro ⟨c, ⟨⟨n, c'⟩, hm, rfl⟩, hx⟩
    obtain ⟨_, rfl⟩ := (mem_clientHistories h rs n c').1 hm
    obtain ⟨f1, f2, _, f4, _⟩ := historyOf_fields h rs n
    unfold needsOf at hx
    by_cases hc : (historyOf h rs n).hadPsych = true ∧ (historyOf h rs n).hasABA = false ∧
        daysBetween now (dateNumber (historyOf h rs n).lastPsychDate) ≤ 75
    · rw [if_pos hc] at hx
      simp only [Option.some.injEq] at hx
      obtain ⟨c1, c2, c3⟩ := hc
      rw [f2] at c1
      rw [f4] at c2
      obtain ⟨p1, p2, p3⟩ := (itemDates_ne_nil_iff h rs n psychCodes).1 (of_decide_eq_true c1)
      have hna : ¬ hasValidRecord h rs abaCodes n := fun ha =>
        (of_decide_eq_false c2) ((itemDates_ne_nil_iff h rs n abaCodes).2 ⟨p1, p2, ha⟩)
      rw [f1] at hx
      exact ⟨n, p1, p2, p3, hna, c3, hx.symm⟩
    · rw [if_neg hc] at hx
      cases hx
  · rintro ⟨n, h2, h3, hp, ha, hd, rfl⟩
    obtain ⟨f1, f2, _, f4, _⟩ := historyOf_fields h rs n
    have hp' := (itemDates_ne_nil_iff h rs n psychCodes).2 ⟨h2, h3, hp⟩
    have ha' : ¬ itemDates abaCodes (historyItems h rs n) ≠ [] := fun hne =>
      ha ((itemDates_ne_nil_iff h rs n abaCodes).1 hne).2.2
    have hex : ∃ x, x ∈ historyItems h rs n := by
      obtain ⟨r, hr, hn, _, hv⟩ := hp
      obtain ⟨t, hd⟩ := (validDate_isSome h r).1 hv
      exact ⟨_, (mem_historyItems h rs n _).2 ⟨r, hr, hn, h2, h3, Or.inr ⟨t, hd, rfl⟩⟩⟩
    refine ⟨historyOf h rs n, ⟨(n, historyOf h rs n),
      (mem_clientHistories h rs n _).2 ⟨hex, rfl⟩, rfl⟩, ?_⟩
    unfold needsOf
    rw [if_pos ⟨by rw [f2]; exact decide_eq_true hp', by rw [f4]; exact decide_eq_false ha', hd⟩,
      f1]


/-! ## `clientWoWChanges` on fewer than two weeks -/

/-- C23 on a run: the only record of `sampleMalformedOnly` is dated `1/2/3/2025`,
which is not a valid date, so the valid records fall in no week; the callback of
`weeklyData` raises a `TypeError` at line 212 and the render has no
`clientWoWChanges` value, where the empty list was to be returned. The records
of `sampleBadCsv`, one of them valid, fall in one week and raise likewise, while
the empty list and a list of one week of valid records return the empty
list. -/
theorem wow_chain_raises :
    sampleMalformedOnly.filterMap (validDate sampleHost) = [] ∧
    distinctWeeks sampleHost sampleMalformedOnly = [] ∧
    weeklyData sampleHost sampleMalformedOnly = .error .typeError ∧
    renderClientWoWChanges sampleHost sampleMalformedOnly = .error .typeError ∧
    distinctWeeks sampleHost (parseCSVData sampleBadCsv) = [20094] ∧
    renderClientWoWChanges sampleHost (parseCSVData sampleBadCsv) = .error .typeError ∧
    renderClientWoWChanges sampleHost [] = .ok [] ∧
    distinctWeeks sampleHost (sampleWowData.take 4) = [20094] ∧
    renderClientWoWChanges sampleHost (sampleWowData.take 4) = .ok [] := by
  decide!


end WeeklyBillingTrends
